import Mathlib

/-!
# Cpufit: the single-fit Levenberg–Marquardt solver (`lm_fit_cpp.cpp`)

A shallow embedding of the solver of `src/Cpufit/lm_fit_cpp.cpp`.

* A `std::vector<T>` accessed through `operator[]` is a map `Nat → T` from index to
  value; an assignment `v[i] = x` is `Function.update v i x`.  Sizes are passed
  explicitly, as the source does (`N`, `info_.n_points_`, ...).
* The map is total and the source's vector is not: an access `v[i]` with
  `i >= v.size()` has no defined result in the source, and the map gives it one.  The
  members `gradient_`, `delta_`, `scaling_vector_` and `prev_parameters_` have
  `n_parameters_to_fit_` entries (lines 38-43), and several loops index them up to
  `n_parameters_`.  The indices of those loops are listed by the definitions of the
  section on the vectors of length `K` (`update_parameters_writes`,
  `initialize_step_bound_reads`, ...), and `RunInBounds` says that a round of `run` stays
  inside its vectors; the definitions below describe the program where it does.
* The scalar type is any linearly ordered field `α` (exact arithmetic: `ℚ`, `ℝ`);
  the narrowing conversions `float(sum)` are the identity there.  Division is the total
  division of the field (`x / 0 = 0`); the theorems that depend on a quotient say
  which divisors are non-zero.
* Library functions that are not field operations (`std::sqrt`, `std::log`) and the
  model registry are parameters.
-/

namespace Cpufit

/-! ## Loops -/

/-- The counted loop `for (i = lo; i < lo + n; i++) s = body(i, s)`. -/
def loop {σ : Type} (body : Nat → σ → σ) : Nat → Nat → σ → σ
  | 0, _, s => s
  | n + 1, lo, s => loop body n (lo + 1) (body lo s)

/-- The loop `for (i = lo; i < hi; i++) s = body(i, s)`. -/
def forRange {σ : Type} (lo hi : Nat) (body : Nat → σ → σ) (s : σ) : σ :=
  loop body (hi - lo) lo s

/-- The descending loop `for (i = n - 1; i >= 0; i--) s = body(i, s)`. -/
def forDown {σ : Type} (body : Nat → σ → σ) : Nat → σ → σ
  | 0, s => s
  | n + 1, s => forDown body n (body n s)

/-- The effect of `std::swap(v[a], v[b])`. -/
def swap_entries {β : Type} (v : Nat → β) (a b : Nat) : Nat → β :=
  Function.update (Function.update v a (v b)) b (v a)

/-- The loop `for (i = 0; i < n; i++) v[i] = f(i)`. -/
def fill {β : Type} (n : Nat) (f : Nat → β) (v : Nat → β) : Nat → β :=
  forRange 0 n (fun i v => Function.update v i (f i)) v

section LinearAlgebra

variable {α : Type} [LinearOrderedField α]

/-! ## Linear algebra kernel (lines 51-218) -/

/-- The pivot search of `decompose_LUP` (lines 61-72): the pair `(max_value, max_index)`
after the loop over `k = i, ..., N - 1`. -/
def find_pivot (matrix : Nat → α) (N i : Nat) : α × Nat :=
  forRange i N
    (fun k mv =>
      let absolute_value := |matrix (k * N + i)|
      if absolute_value > mv.1 then (absolute_value, k) else mv)
    (0, i)

/-- The row exchange of `decompose_LUP` (lines 83-86). -/
def swap_rows (matrix : Nat → α) (N i max_index : Nat) : Nat → α :=
  forRange 0 N (fun j m => swap_entries m (i * N + j) (max_index * N + j)) matrix

/-- The body of the loop over `j` in `decompose_LUP` (lines 91-96): row `j` gets its
multiplier and is reduced by the pivot row `i`. -/
def eliminate_row (N i j : Nat) (matrix : Nat → α) : Nat → α :=
  let m1 := Function.update matrix (j * N + i) (matrix (j * N + i) / matrix (i * N + i))
  forRange (i + 1) N
    (fun k m => Function.update m (j * N + k) (m (j * N + k) - m (j * N + i) * m (i * N + k)))
    m1

/-- The elimination loop of `decompose_LUP` (lines 89-97). -/
def eliminate (N i : Nat) (matrix : Nat → α) : Nat → α :=
  forRange (i + 1) N (fun j m => eliminate_row N i j m) matrix

/-- The result of `decompose_LUP`: the returned `int` and the two vectors it writes. -/
structure LUP (α : Type) where
  ret : Int
  matrix : Nat → α
  permutation_vector : Nat → Nat

/-- The main loop of `decompose_LUP` (lines 59-100), for `n` more values of `i`. -/
def decompose_steps (N : Nat) (Tol : α) : Nat → Nat → (Nat → α) → (Nat → Nat) → LUP α
  | 0, _, matrix, permutation_vector => ⟨1, matrix, permutation_vector⟩
  | n + 1, i, matrix, permutation_vector =>
    let mv := find_pivot matrix N i
    let max_value := mv.1
    let max_index := mv.2
    if max_value < Tol then
      ⟨0, matrix, permutation_vector⟩
    else
      let permutation_vector :=
        if max_index ≠ i then swap_entries permutation_vector i max_index
        else permutation_vector
      let matrix := if max_index ≠ i then swap_rows matrix N i max_index else matrix
      decompose_steps N Tol n (i + 1) (eliminate N i matrix) permutation_vector

/-- The function `decompose_LUP` (lines 51-101). -/
def decompose_LUP (matrix : Nat → α) (N : Nat) (Tol : α) (permutation_vector : Nat → Nat) :
    LUP α :=
  let permutation_vector := fill N (fun i => i) permutation_vector
  decompose_steps N Tol N 0 matrix permutation_vector

/-- The inner sums of `solve_LUP` and their like: `sum` after
`for (k = lo; k < hi; k++) sum += f k`, starting from `0`. -/
def accumulate (lo hi : Nat) (f : Nat → α) : α :=
  forRange lo hi (fun k sum => sum + f k) 0

/-- The first loop of `solve_LUP` (lines 112-123). -/
def forward_substitution (matrix : Nat → α) (permutation_vector : Nat → Nat)
    (vector : Nat → α) (N : Nat) (solution : Nat → α) : Nat → α :=
  forRange 0 N
    (fun i solution =>
      let solution := Function.update solution i (vector (permutation_vector i))
      let sum := accumulate 0 i (fun k => matrix (i * N + k) * solution k)
      Function.update solution i (solution i - sum))
    solution

/-- The second loop of `solve_LUP` (lines 125-134). -/
def back_substitution (matrix : Nat → α) (N : Nat) (solution : Nat → α) : Nat → α :=
  forDown
    (fun i solution =>
      let sum := accumulate (i + 1) N (fun k => matrix (i * N + k) * solution k)
      Function.update solution i ((solution i - sum) / matrix (i * N + i)))
    N solution

/-- The function `solve_LUP` (lines 103-135); the result is `solution`. -/
def solve_LUP (matrix : Nat → α) (permutation_vector : Nat → Nat) (vector : Nat → α)
    (N : Nat) (solution : Nat → α) : Nat → α :=
  back_substitution matrix N (forward_substitution matrix permutation_vector vector N solution)

/-- The loops over `k` of `invert_LUP` (lines 158-161 and 166-169), for `k` from `lo` to
`hi - 1`. -/
def invert_subtract (matrix : Nat → α) (N i j lo hi : Nat) (inverse : Nat → α) : Nat → α :=
  forRange lo hi
    (fun k inverse =>
      Function.update inverse (i * N + j)
        (inverse (i * N + j) - matrix (i * N + k) * inverse (k * N + j)))
    inverse

/-- The first loop over `i` of `invert_LUP` (lines 147-162), for column `j`. -/
def invert_forward (matrix : Nat → α) (permutation_vector : Nat → Nat) (N j : Nat)
    (inverse : Nat → α) : Nat → α :=
  forRange 0 N
    (fun i inverse =>
      let inverse :=
        if permutation_vector i = j then Function.update inverse (i * N + j) 1
        else Function.update inverse (i * N + j) 0
      invert_subtract matrix N i j 0 i inverse)
    inverse

/-- The second loop over `i` of `invert_LUP` (lines 164-172), for column `j`. -/
def invert_backward (matrix : Nat → α) (N j : Nat) (inverse : Nat → α) : Nat → α :=
  forDown
    (fun i inverse =>
      let inverse := invert_subtract matrix N i j (i + 1) N inverse
      Function.update inverse (i * N + j) (inverse (i * N + j) / matrix (i * N + i)))
    N inverse

/-- The function `invert_LUP` (lines 137-174); the result is `inverse`. -/
def invert_LUP (matrix : Nat → α) (permutation_vector : Nat → Nat) (N : Nat)
    (inverse : Nat → α) : Nat → α :=
  forRange 0 N
    (fun j inverse =>
      invert_backward matrix N j (invert_forward matrix permutation_vector N j inverse))
    inverse

/-- The function `calc_euclidian_norm` (lines 176-189) on a vector of `v_size` entries;
`size = 0` stands for the default argument. -/
def calc_euclidian_norm (sqrt : α → α) (v : Nat → α) (v_size : Nat) (size : Nat) : α :=
  let size := if size ≠ 0 then size else v_size
  let norm := forRange 0 size (fun i norm => norm + v i * v i) 0
  sqrt norm

/-- The function `multiply_matrix_vector` (lines 191-207); `matrix_size` and
`vector_size` are `matrix.size()` and `vector.size()`.  The result is `product`.  The
source's quotient `n_rows` (line 197) is undefined for `vector.size() = 0`, where it is
`0` here, and a row `>= product.size()` is a write past the end of `product`, where it is
a write to the map here; `multiply_matrix_vector_writes` lists the rows. -/
def multiply_matrix_vector (product : Nat → α) (matrix : Nat → α) (matrix_size : Nat)
    (vector : Nat → α) (vector_size : Nat) : Nat → α :=
  let n_rows := matrix_size / vector_size
  let n_cols := vector_size
  forRange 0 n_cols
    (fun col product =>
      forRange 0 n_rows
        (fun row product =>
          Function.update product row (product row + matrix (col * n_rows + row) * vector col))
        product)
    product

/-- The function `calc_scalar_product` (lines 209-218); `v1_size` is `v1.size()`. -/
def calc_scalar_product (v1 : Nat → α) (v1_size : Nat) (v2 : Nat → α) : α :=
  forRange 0 v1_size (fun i product => product + v1 i * v2 i) 0

end LinearAlgebra

/-! ## The fit object -/

/-- Modelled from the spec: the fit states of `constants.h` (that header is not part of
the sources at hand).  `CONVERGED` is the value `0` the loop of `run` tests for. -/
inductive FitState
  | CONVERGED
  | MAX_ITERATION
  | SINGULAR_HESSIAN
  | NEG_CURVATURE_MLE
  | GPU_NOT_READY
  deriving DecidableEq, Repr

/-- Modelled from the spec: the estimators of `constants.h`. -/
inductive Estimator
  | LSE
  | MLE
  deriving DecidableEq, Repr

/-- Modelled from the spec: the model identifiers of `constants.h`. -/
inductive ModelID
  | GAUSS_1D
  | GAUSS_2D
  | GAUSS_2D_ELLIPTIC
  | GAUSS_2D_ROTATED
  | CAUCHY_2D_ELLIPTIC
  | LINEAR_1D
  | FLETCHER_POWELL_HELIX
  | BROWN_DENNIS
  | RAMSEY_VAR_P
  deriving DecidableEq, Repr

/-- Modelled from the spec: the fields of `Info` (declared in a header that is not part
of the sources at hand) the solver reads. -/
structure Info where
  n_parameters_ : Nat
  n_parameters_to_fit_ : Nat
  n_points_ : Nat
  max_n_iterations_ : Nat
  model_id_ : ModelID
  estimator_id_ : Estimator
  user_info_size_ : Nat

/-- The members of `LMFitCPP` (declared in `lm_fit.h`, initialised at lines 9-49),
with the four output slots `parameters_`, `state_`, `chi_square_`, `n_iterations_`
held by value. -/
structure LMFitCPP (α : Type) where
  fit_index_ : Nat
  data_ : Nat → α
  weight_ : Option (Nat → α)
  initial_parameters_ : Nat → α
  tolerance_ : α
  converged_ : Bool
  info_ : Info
  parameters_to_fit_ : Nat → Bool
  curve_ : Nat → α
  derivatives_ : Nat → α
  temp_derivatives_ : Nat → α
  hessian_ : Nat → α
  modified_hessian_ : Nat → α
  decomposed_hessian_ : Nat → α
  inverted_hessian_ : Nat → α
  pivot_array_ : Nat → Nat
  gradient_ : Nat → α
  delta_ : Nat → α
  scaling_vector_ : Nat → α
  prev_chi_square_ : α
  lambda_ : α
  lambda_lower_bound_ : α
  lambda_upper_bound_ : α
  step_bound_ : α
  actual_reduction_ : α
  predicted_reduction_ : α
  directive_derivative_ : α
  approximation_ratio_ : α
  phi_ : α
  phi_derivative_ : α
  prev_parameters_ : Nat → α
  user_info_ : Option (Nat → α)
  parameters_ : Nat → α
  state_ : FitState
  chi_square_ : α
  n_iterations_ : Int

/-- What the solver takes from outside the field operations: `std::sqrt`, `std::log`,
and the models other than `LINEAR_1D` (they need `exp`, `sin`, `cos`, `atan`), each of
which reads the fit object and overwrites `curve` and `derivatives`. -/
structure Env (α : Type) where
  sqrt : α → α
  log : α → α
  calc_curve_values : LMFitCPP α → (Nat → α) → (Nat → α) → (Nat → α) × (Nat → α)

section Fit

variable {α : Type} [LinearOrderedField α]

/-- The method `decompose_hessian_LUP` (lines 220-230), writing the member
`decomposed_hessian_`. -/
def decompose_hessian_LUP (s : LMFitCPP α) (hessian : Nat → α) : LMFitCPP α :=
  let r := decompose_LUP hessian s.info_.n_parameters_to_fit_ 0 s.pivot_array_
  let singular := r.ret
  { s with
    decomposed_hessian_ := r.matrix
    pivot_array_ := r.permutation_vector
    state_ := if singular = 0 then FitState.SINGULAR_HESSIAN else s.state_ }

/-- The summand of `calculate_hessian` for one point (lines 798-820). -/
def hessian_term (s : LMFitCPP α) (derivatives curve : Nat → α)
    (derivatives_index_i derivatives_index_j pixel_index : Nat) : α :=
  match s.info_.estimator_id_ with
  | Estimator.LSE =>
    match s.weight_ with
    | none =>
      derivatives (derivatives_index_i + pixel_index)
        * derivatives (derivatives_index_j + pixel_index)
    | some weight =>
      derivatives (derivatives_index_i + pixel_index)
        * derivatives (derivatives_index_j + pixel_index)
        * weight pixel_index
  | Estimator.MLE =>
    s.data_ pixel_index / (curve pixel_index * curve pixel_index)
      * derivatives (derivatives_index_i + pixel_index)
      * derivatives (derivatives_index_j + pixel_index)

/-- The loop over `ip` of `calculate_hessian` (lines 784-830) for one free `jp`; the
loop state is `(ihessian, hessian_)`. -/
def calculate_hessian_row (s : LMFitCPP α) (derivatives curve : Nat → α)
    (jp jhessian : Nat) (hessian : Nat → α) : Nat → α :=
  (forRange 0 (jp + 1)
    (fun ip (st : Nat × (Nat → α)) =>
      let ihessian := st.1
      let hessian := st.2
      if s.parameters_to_fit_ ip then
        let ijhessian := ihessian * s.info_.n_parameters_to_fit_ + jhessian
        let jihessian := jhessian * s.info_.n_parameters_to_fit_ + ihessian
        let derivatives_index_i := ip * s.info_.n_points_
        let derivatives_index_j := jp * s.info_.n_points_
        let sum := accumulate 0 s.info_.n_points_
          (hessian_term s derivatives curve derivatives_index_i derivatives_index_j)
        let hessian := Function.update hessian ijhessian sum
        let hessian :=
          if ijhessian ≠ jihessian then Function.update hessian jihessian (hessian ijhessian)
          else hessian
        (ihessian + 1, hessian)
      else st)
    (0, hessian)).2

/-- The method `calculate_hessian` (lines 776-835); the loop state is
`(jhessian, hessian_)`. -/
def calculate_hessian (s : LMFitCPP α) (derivatives curve : Nat → α) : LMFitCPP α :=
  let st := forRange 0 s.info_.n_parameters_
    (fun jp (st : Nat × (Nat → α)) =>
      let jhessian := st.1
      let hessian := st.2
      if s.parameters_to_fit_ jp then
        (jhessian + 1, calculate_hessian_row s derivatives curve jp jhessian hessian)
      else st)
    (0, s.hessian_)
  { s with hessian_ := st.2 }

/-- The summand of `calc_gradient` for one point (lines 850-870). -/
def gradient_term (s : LMFitCPP α) (derivatives curve : Nat → α)
    (derivatives_index pixel_index : Nat) : α :=
  let deviant := s.data_ pixel_index - curve pixel_index
  match s.info_.estimator_id_ with
  | Estimator.LSE =>
    match s.weight_ with
    | none => deviant * derivatives (derivatives_index + pixel_index)
    | some weight => deviant * derivatives (derivatives_index + pixel_index) * weight pixel_index
  | Estimator.MLE =>
    -derivatives (derivatives_index + pixel_index) * (1 - s.data_ pixel_index / curve pixel_index)

/-- The method `calc_gradient` (lines 837-877); the loop state is
`(gradient_index, gradient_)`. -/
def calc_gradient (s : LMFitCPP α) (derivatives curve : Nat → α) : LMFitCPP α :=
  let st := forRange 0 s.info_.n_parameters_
    (fun ip (st : Nat × (Nat → α)) =>
      let gradient_index := st.1
      let gradient := st.2
      if s.parameters_to_fit_ ip then
        let derivatives_index := ip * s.info_.n_points_
        let sum := accumulate 0 s.info_.n_points_
          (gradient_term s derivatives curve derivatives_index)
        (gradient_index + 1, Function.update gradient gradient_index sum)
      else st)
    (0, s.gradient_)
  { s with gradient_ := st.2 }

/-- The loop of `calc_chi_square` (lines 883-914) over the remaining `n` points from
`pixel_index` on: `none` when the function returns from inside the loop (a value `<= 0`
under MLE), otherwise the final `sum`. -/
def chi_square_sum (log : α → α) (s : LMFitCPP α) (values : Nat → α) :
    Nat → Nat → α → Option α
  | 0, _, sum => some sum
  | n + 1, pixel_index, sum =>
    let deviant := values pixel_index - s.data_ pixel_index
    match s.info_.estimator_id_ with
    | Estimator.LSE =>
      match s.weight_ with
      | none => chi_square_sum log s values n (pixel_index + 1) (sum + deviant * deviant)
      | some weight =>
        chi_square_sum log s values n (pixel_index + 1)
          (sum + deviant * deviant * weight pixel_index)
    | Estimator.MLE =>
      if values pixel_index ≤ 0 then none
      else if s.data_ pixel_index ≠ 0 then
        chi_square_sum log s values n (pixel_index + 1)
          (sum + 2 * (deviant
            - s.data_ pixel_index * log (values pixel_index / s.data_ pixel_index)))
      else chi_square_sum log s values n (pixel_index + 1) (sum + 2 * deviant)

/-- The method `calc_chi_square` (lines 879-916); `values_size` is `values.size()`. -/
def calc_chi_square (log : α → α) (s : LMFitCPP α) (values : Nat → α) (values_size : Nat) :
    LMFitCPP α :=
  match chi_square_sum log s values values_size 0 0 with
  | none => { s with state_ := FitState.NEG_CURVATURE_MLE }
  | some sum => { s with chi_square_ := sum }

/-- The coordinate `x` of a point in the 1D models (lines 398-410, 632-644): the point
index without user info, the entry of the user info otherwise; `x` keeps its value when
the user info holds fewer floats than there are points. -/
def point_coordinate (s : LMFitCPP α) (x : α) (point_index : Nat) : α :=
  match s.user_info_ with
  | none => (point_index : α)
  | some user_info_float =>
    if s.info_.user_info_size_ / 4 = s.info_.n_points_ then user_info_float point_index
    else if s.info_.user_info_size_ / 4 > s.info_.n_points_ then
      let fit_begin := s.fit_index_ * s.info_.n_points_
      user_info_float (fit_begin + point_index)
    else x

/-- The method `calc_derivatives_linear1d` (lines 390-415); the loop state is
`(x, derivatives)`. -/
def calc_derivatives_linear1d (s : LMFitCPP α) (derivatives : Nat → α) : Nat → α :=
  (forRange 0 s.info_.n_points_
    (fun point_index (st : α × (Nat → α)) =>
      let x := point_coordinate s st.1 point_index
      let derivatives := Function.update st.2 (0 * s.info_.n_points_ + point_index) 1
      let derivatives := Function.update derivatives (1 * s.info_.n_points_ + point_index) x
      (x, derivatives))
    (0, derivatives)).2

/-- The method `calc_values_linear1d` (lines 626-647); the loop state is `(x, line)`. -/
def calc_values_linear1d (s : LMFitCPP α) (line : Nat → α) : Nat → α :=
  (forRange 0 s.info_.n_points_
    (fun point_index (st : α × (Nat → α)) =>
      let x := point_coordinate s st.1 point_index
      (x, Function.update st.2 point_index (s.parameters_ 0 + s.parameters_ 1 * x)))
    (0, line)).2

/-- The method `calc_curve_values` (lines 727-774). -/
def calc_curve_values (env : Env α) (s : LMFitCPP α) (curve derivatives : Nat → α) :
    (Nat → α) × (Nat → α) :=
  match s.info_.model_id_ with
  | ModelID.LINEAR_1D => (calc_values_linear1d s curve, calc_derivatives_linear1d s derivatives)
  | _ => env.calc_curve_values s curve derivatives

/-- The method `calc_model` (lines 918-924). -/
def calc_model (env : Env α) (s : LMFitCPP α) : LMFitCPP α :=
  let r := calc_curve_values env s s.curve_ s.derivatives_
  { s with curve_ := r.1, derivatives_ := r.2 }

/-- The method `calc_coefficients` (lines 926-938). -/
def calc_coefficients (env : Env α) (s : LMFitCPP α) : LMFitCPP α :=
  let s := calc_chi_square env.log s s.curve_ s.info_.n_points_
  if s.chi_square_ < s.prev_chi_square_ ∨ s.prev_chi_square_ = 0 then
    let s := calculate_hessian s s.derivatives_ s.curve_
    calc_gradient s s.derivatives_ s.curve_
  else s

/-- The method `update_parameters` (lines 940-950); the loop state is
`(delta_index, prev_parameters_, parameters_)`.  The source's `prev_parameters_` has
`n_parameters_to_fit_` entries (line 43): the store at `parameter_index` is inside the
vector only for `parameter_index < n_parameters_to_fit_`, and is a write to the map here
otherwise; `update_parameters_writes` lists the indices. -/
def update_parameters (s : LMFitCPP α) : LMFitCPP α :=
  let st := forRange 0 s.info_.n_parameters_
    (fun parameter_index (st : Nat × (Nat → α) × (Nat → α)) =>
      let delta_index := st.1
      let prev_parameters := st.2.1
      let parameters := st.2.2
      if s.parameters_to_fit_ parameter_index then
        let prev_parameters :=
          Function.update prev_parameters parameter_index (parameters parameter_index)
        let parameters :=
          Function.update parameters parameter_index
            (parameters parameter_index + s.delta_ delta_index)
        (delta_index + 1, prev_parameters, parameters)
      else st)
    (0, s.prev_parameters_, s.parameters_)
  { s with prev_parameters_ := st.2.1, parameters_ := st.2.2 }

/-- The method `check_for_convergence` (lines 952-958). -/
def check_for_convergence (s : LMFitCPP α) : Bool :=
  let fit_found : Bool :=
    decide (|s.chi_square_ - s.prev_chi_square_|
      < max s.tolerance_ (s.tolerance_ * |s.chi_square_|))
  fit_found

/-- The method `evaluate_iteration` (lines 960-971). -/
def evaluate_iteration (s : LMFitCPP α) (iteration : Nat) : LMFitCPP α :=
  let max_iterations_reached : Bool :=
    decide ((iteration : Int) = (s.info_.max_n_iterations_ : Int) - 1)
  if s.converged_ || max_iterations_reached then
    let s := { s with n_iterations_ := (iteration : Int) + 1 }
    if !s.converged_ then { s with state_ := FitState.MAX_ITERATION } else s
  else s

/-- The method `prepare_next_iteration` (lines 973-991).  The read of
`prev_parameters_[parameter_index]` (line 987) is inside the source's vector of
`n_parameters_to_fit_` entries only for `parameter_index < n_parameters_to_fit_`, and is a
lookup in the map here otherwise; `prepare_next_iteration_reads` lists the indices. -/
def prepare_next_iteration (s : LMFitCPP α) : LMFitCPP α :=
  if s.chi_square_ < s.prev_chi_square_ then
    { s with prev_chi_square_ := s.chi_square_, temp_derivatives_ := s.derivatives_ }
  else
    let s := { s with chi_square_ := s.prev_chi_square_ }
    let parameters := forRange 0 s.info_.n_parameters_
      (fun parameter_index parameters =>
        if s.parameters_to_fit_ parameter_index then
          Function.update parameters parameter_index (s.prev_parameters_ parameter_index)
        else parameters)
      s.parameters_
    { s with parameters_ := parameters }

/-- The method `modify_step_width` (lines 993-1014); the loop state is
`(scaling_vector_, modified_hessian_)`. -/
def modify_step_width (s : LMFitCPP α) : LMFitCPP α :=
  let modified_hessian := s.hessian_
  let n_parameters :=
    Nat.sqrt (s.info_.n_parameters_to_fit_ * s.info_.n_parameters_to_fit_)
  let st := forRange 0 n_parameters
    (fun parameter_index (st : (Nat → α) × (Nat → α)) =>
      let scaling_vector := st.1
      let modified_hessian := st.2
      let diagonal_index := parameter_index * n_parameters + parameter_index
      let scaling_vector :=
        Function.update scaling_vector parameter_index
          (max (scaling_vector parameter_index) (modified_hessian diagonal_index))
      let modified_hessian :=
        Function.update modified_hessian diagonal_index
          (modified_hessian diagonal_index + scaling_vector parameter_index * s.lambda_)
      (scaling_vector, modified_hessian))
    (s.scaling_vector_, modified_hessian)
  { s with scaling_vector_ := st.1, modified_hessian_ := st.2 }

/-- The vector `scaled_delta` several methods build: `n_parameters_` entries
`sqrt(scaling_vector_[i]) * delta_[i]`, and its Euclidean norm. -/
def scaled_delta_norm (env : Env α) (s : LMFitCPP α) : α :=
  let scaled_delta :=
    fill s.info_.n_parameters_ (fun i => env.sqrt (s.scaling_vector_ i) * s.delta_ i)
      (fun _ => 0)
  calc_euclidian_norm env.sqrt scaled_delta s.info_.n_parameters_ 0

/-- The method `initialize_step_bound` (lines 1016-1035).  The loop reads
`scaling_vector_[i]` for `i < n_parameters_` (line 1023); the source's vector has
`n_parameters_to_fit_` entries, so the read is inside it only for
`i < n_parameters_to_fit_`, and is a lookup in the map here otherwise;
`initialize_step_bound_reads` lists the indices.  The same holds for the loops over
`scaled_delta` in `update_step_bound`, `initialize_lambda_bounds`, `calc_phi`,
`calc_approximation_quality` and `run`. -/
def initialize_step_bound (env : Env α) (s : LMFitCPP α) : LMFitCPP α :=
  let scaled_parameters :=
    fill s.info_.n_parameters_ (fun i => s.parameters_ i * env.sqrt (s.scaling_vector_ i))
      (fun _ => 0)
  let scaled_parameters_norm :=
    calc_euclidian_norm env.sqrt scaled_parameters s.info_.n_parameters_ 0
  let factor : α := 100
  let step_bound := factor * scaled_parameters_norm
  { s with step_bound_ := if step_bound = 0 then factor else step_bound }

/-- The method `update_step_bound` (lines 1037-1076). -/
def update_step_bound (env : Env α) (s : LMFitCPP α) : LMFitCPP α :=
  let scaled_delta :=
    fill s.info_.n_parameters_ (fun i => s.delta_ i * env.sqrt (s.scaling_vector_ i))
      (fun _ => 0)
  let scaled_delta_norm := calc_euclidian_norm env.sqrt scaled_delta s.info_.n_parameters_ 0
  if s.approximation_ratio_ ≤ 1 / 4 then
    let temp : α :=
      if s.actual_reduction_ ≥ 0 then 1 / 2
      else 1 / 2 * s.directive_derivative_
        / (s.directive_derivative_ + 1 / 2 * s.actual_reduction_)
    let temp : α :=
      if 1 / 10 * env.sqrt s.chi_square_ ≥ env.sqrt s.prev_chi_square_ ∨ temp < 1 / 10
      then 1 / 10 else temp
    { s with
      step_bound_ := temp * min s.step_bound_ (scaled_delta_norm / (1 / 10))
      lambda_ := s.lambda_ / temp }
  else if s.lambda_ = 0 ∨ s.approximation_ratio_ ≥ 3 / 4 then
    { s with
      step_bound_ := scaled_delta_norm / (1 / 2)
      lambda_ := 1 / 2 * s.lambda_ }
  else s

/-- The method `initialize_lambda_bounds` (lines 1078-1107). -/
def initialize_lambda_bounds (env : Env α) (s : LMFitCPP α) : LMFitCPP α :=
  let scaled_delta :=
    fill s.info_.n_parameters_ (fun i => env.sqrt (s.scaling_vector_ i) * s.delta_ i)
      (fun _ => 0)
  let scaled_delta_norm := calc_euclidian_norm env.sqrt scaled_delta s.info_.n_parameters_ 0
  let lambda_lower_bound := s.phi_ / s.phi_derivative_
  let temp :=
    fill s.info_.n_parameters_ (fun i => s.gradient_ i / env.sqrt (s.scaling_vector_ i))
      (fun _ => 0)
  let gradient_norm := calc_euclidian_norm env.sqrt temp s.info_.n_parameters_ 0
  let lambda_upper_bound := gradient_norm / s.step_bound_
  let lambda := max s.lambda_ lambda_lower_bound
  let lambda := min lambda lambda_upper_bound
  { s with
    lambda_lower_bound_ := lambda_lower_bound
    lambda_upper_bound_ := lambda_upper_bound
    lambda_ := if lambda = 0 then gradient_norm / scaled_delta_norm else lambda }

/-- The method `update_lambda` (lines 1109-1123). -/
def update_lambda (s : LMFitCPP α) : LMFitCPP α :=
  let lambda_lower_bound :=
    if s.phi_ > 0 then max s.lambda_lower_bound_ s.lambda_ else s.lambda_lower_bound_
  let lambda_upper_bound :=
    if s.phi_ < 0 then min s.lambda_upper_bound_ s.lambda_ else s.lambda_upper_bound_
  let lambda := s.lambda_ + (s.phi_ + s.step_bound_) / s.step_bound_ * s.phi_ / s.phi_derivative_
  { s with
    lambda_lower_bound_ := lambda_lower_bound
    lambda_upper_bound_ := lambda_upper_bound
    lambda_ := max lambda_lower_bound lambda }

/-- The method `calc_phi` (lines 1125-1152). -/
def calc_phi (env : Env α) (s : LMFitCPP α) : LMFitCPP α :=
  let scaled_delta :=
    fill s.info_.n_parameters_ (fun i => env.sqrt (s.scaling_vector_ i) * s.delta_ i)
      (fun _ => 0)
  let scaled_delta_norm := calc_euclidian_norm env.sqrt scaled_delta s.info_.n_parameters_ 0
  let phi := scaled_delta_norm - s.step_bound_
  let scaled_delta :=
    fill s.info_.n_parameters_ (fun i => s.scaling_vector_ i * s.delta_ i) scaled_delta
  let temp := multiply_matrix_vector (fun _ => 0) s.inverted_hessian_
    (s.info_.n_parameters_to_fit_ * s.info_.n_parameters_to_fit_)
    scaled_delta s.info_.n_parameters_
  { s with
    phi_ := phi
    phi_derivative_ :=
      calc_scalar_product temp s.info_.n_parameters_ scaled_delta / scaled_delta_norm }

/-- The method `calc_approximation_quality` (lines 1154-1191). -/
def calc_approximation_quality (env : Env α) (s : LMFitCPP α) : LMFitCPP α :=
  let derivatives_delta := multiply_matrix_vector (fun _ => 0) s.temp_derivatives_
    (s.info_.n_points_ * s.info_.n_parameters_) s.delta_ s.info_.n_parameters_to_fit_
  let derivatives_delta_norm :=
    calc_euclidian_norm env.sqrt derivatives_delta s.info_.n_points_ 0
  let scaled_delta :=
    fill s.info_.n_parameters_ (fun i => s.delta_ i * env.sqrt (s.scaling_vector_ i))
      (fun _ => 0)
  let scaled_delta_norm := calc_euclidian_norm env.sqrt scaled_delta s.info_.n_parameters_ 0
  let summand1 := derivatives_delta_norm * derivatives_delta_norm / s.prev_chi_square_
  let summand2 := 2 * s.lambda_ * scaled_delta_norm * scaled_delta_norm / s.prev_chi_square_
  let actual_reduction : α :=
    if 1 / 10 * env.sqrt s.chi_square_ < env.sqrt s.prev_chi_square_ then
      1 - s.chi_square_ / s.prev_chi_square_
    else -1
  { s with
    predicted_reduction_ := summand1 + summand2
    directive_derivative_ := -summand1 - summand2 / 2
    actual_reduction_ := actual_reduction
    approximation_ratio_ := actual_reduction / (summand1 + summand2) }

/-- Lines 1214-1219 and their repetitions: factorise `hessian`, invert, solve for
`delta_`, and evaluate `calc_phi`. -/
def solve_step (env : Env α) (s : LMFitCPP α) (hessian : Nat → α) : LMFitCPP α :=
  let s := decompose_hessian_LUP s hessian
  let s := { s with
    inverted_hessian_ :=
      invert_LUP s.decomposed_hessian_ s.pivot_array_ s.info_.n_parameters_to_fit_
        s.inverted_hessian_ }
  let s := { s with
    delta_ :=
      solve_LUP s.decomposed_hessian_ s.pivot_array_ s.gradient_ s.info_.n_parameters_to_fit_
        s.delta_ }
  calc_phi env s

/-- The `while` loop of `run` (lines 1246-1259), with `n = 10 - iter_lambda` rounds
left. -/
def lambda_iterations (env : Env α) : Nat → LMFitCPP α → LMFitCPP α
  | 0, s => s
  | n + 1, s =>
    if |s.phi_| > 1 / 10 * s.step_bound_ then
      let s := update_lambda s
      let s := modify_step_width s
      let s := solve_step env s s.modified_hessian_
      lambda_iterations env n s
    else s

/-- Lines 1221-1229 of `run`: `phi_derivative_` is rescaled by the step bound over the
norm of the scaled step. -/
def rescale_phi_derivative (env : Env α) (s : LMFitCPP α) : LMFitCPP α :=
  { s with
    phi_derivative_ := s.phi_derivative_ * (s.step_bound_ / scaled_delta_norm env s) }

/-- Lines 1231-1264 of `run`: the search for the damping parameter when the step leaves
the trust region, and `lambda_ = 0` otherwise. -/
def lambda_search (env : Env α) (s : LMFitCPP α) : LMFitCPP α :=
  if s.phi_ > 1 / 10 * s.step_bound_ then
    let s := initialize_lambda_bounds env s
    let s := modify_step_width s
    let s := solve_step env s s.modified_hessian_
    lambda_iterations env 10 s
  else { s with lambda_ := 0 }

/-- Lines 1268-1272 of `run`: in the first round the step bound is cut down to the norm
of the scaled step. -/
def clamp_step_bound (env : Env α) (s : LMFitCPP α) : LMFitCPP α :=
  let scaled_delta :=
    fill s.info_.n_parameters_ (fun i => s.delta_ i * env.sqrt (s.scaling_vector_ i))
      (fun _ => 0)
  let delta_norm := calc_euclidian_norm env.sqrt scaled_delta s.info_.n_parameters_ 0
  { s with step_bound_ := min s.step_bound_ delta_norm }

/-- The body of the loop of `run` before `update_parameters` (lines 1207-1273): the
step `delta_` and the damping parameter are determined. -/
def iteration_head (env : Env α) (iteration : Nat) (s : LMFitCPP α) : LMFitCPP α :=
  let s := modify_step_width s
  let s := if iteration = 0 then initialize_step_bound env s else s
  let s := solve_step env s s.hessian_
  let s := rescale_phi_derivative env s
  let s := lambda_search env s
  if iteration = 0 then clamp_step_bound env s else s

/-- The body of the loop of `run` after `update_parameters`, up to the `break` test (lines
1277-1288). -/
def iteration_tail (env : Env α) (iteration : Nat) (s : LMFitCPP α) : LMFitCPP α :=
  let s := calc_model env s
  let s := calc_coefficients env s
  let s := calc_approximation_quality env s
  let s := update_step_bound env s
  let s := { s with converged_ := check_for_convergence s }
  let s := evaluate_iteration s iteration
  prepare_next_iteration s

/-- The body of the loop of `run` up to the `break` test (lines 1207-1288). -/
def iteration_body (env : Env α) (iteration : Nat) (s : LMFitCPP α) : LMFitCPP α :=
  iteration_tail env iteration (update_parameters (iteration_head env iteration s))

/-- The loop of `run` (lines 1205-1294) from iteration number `iteration` on, for at most
`fuel` rounds; `none` when the rounds do not suffice for the loop to end. -/
def run_loop (env : Env α) : Nat → Nat → LMFitCPP α → Option (LMFitCPP α)
  | 0, _, _ => none
  | fuel + 1, iteration, s =>
    if s.state_ = FitState.CONVERGED then
      let s := iteration_body env iteration s
      if s.converged_ ∨ s.state_ ≠ FitState.CONVERGED then some s
      else run_loop env fuel (iteration + 1) s
    else some s

/-- Lines 1195-1203 of `run`: what happens before the loop. -/
def run_init (env : Env α) (s : LMFitCPP α) : LMFitCPP α :=
  let s := { s with
    parameters_ := fill s.info_.n_parameters_ (fun i => s.initial_parameters_ i) s.parameters_ }
  let s := { s with state_ := FitState.CONVERGED }
  let s := calc_model env s
  let s := { s with temp_derivatives_ := s.derivatives_ }
  let s := calc_coefficients env s
  { s with prev_chi_square_ := s.chi_square_ }

/-- The method `run` (lines 1193-1295) with at most `fuel` rounds of its loop. -/
def run (env : Env α) (fuel : Nat) (s : LMFitCPP α) : Option (LMFitCPP α) :=
  run_loop env fuel 0 (run_init env s)

/-- The fit object when the loop of `run` has gone through `k` rounds without leaving:
after lines 1195-1203 for `k = 0`, and after the `prepare_next_iteration` of round
`k - 1` otherwise. -/
def state_before_iteration (env : Env α) (s : LMFitCPP α) : Nat → LMFitCPP α
  | 0 => run_init env s
  | k + 1 => iteration_body env k (state_before_iteration env s k)

end Fit

/-! ## Vocabulary of the specification -/

/-- The exchange of positions `i` and `mi`. -/
def swapIdx (i mi r : Nat) : Nat := if r = mi then i else if r = i then mi else r

/-- The number of free parameters below `p`. -/
def free_count (mask : Nat → Bool) (p : Nat) : Nat := ((List.range p).filter mask).length

/-- The increasing list of the free parameter indices below `n`. -/
def free_indices (mask : Nat → Bool) (n : Nat) : List Nat := (List.range n).filter mask

section Vocabulary

variable {α : Type} [LinearOrderedField α]

/-- The entry of row `r`, column `c` after eliminating with pivot row `i`, given in
terms of the matrix before. -/
def elimEntry (m : Nat → α) (N i r c : Nat) : α :=
  if c = i then m (r * N + i) / m (i * N + i)
  else if i < c then m (r * N + c) - m (r * N + i) / m (i * N + i) * m (i * N + c)
  else m (r * N + c)

/-- The entry `(k, c)` of the upper factor stored in `m`. -/
def upperEntry (m : Nat → α) (N k c : Nat) : α := if k ≤ c then m (k * N + c) else 0

/-- The entry `(r, k)` of the unit lower factor stored in `m`. -/
def lowerEntry (m : Nat → α) (N r k : Nat) : α :=
  if k < r then m (r * N + k) else if k = r then 1 else 0

/-- After `i` pivot steps: every row of the permuted input is a combination of the
finished rows plus what is left in the working matrix. -/
def LUInv (A : Nat → α) (N i : Nat) (m : Nat → α) (p : Nat → Nat) : Prop :=
  ∀ r c, r < N → c < N →
    A (p r * N + c) = ∑ k in Finset.range (min i r), m (r * N + k) * upperEntry m N k c
      + (if min i r ≤ c then m (r * N + c) else 0)

/-- The first `N` entries of `p` are those of a permutation of `ℕ` that moves nothing
from `N` on. -/
def PermInv (N : Nat) (p : Nat → Nat) : Prop :=
  ∃ σ : Equiv.Perm Nat, (∀ k, N ≤ k → σ k = k) ∧ ∀ k, k < N → p k = σ k

/-- Forward substitution, as an equation on the intermediate vector `y`. -/
def IsForward (M : Nat → α) (P : Nat → Nat) (b : Nat → α) (N : Nat) (y : Nat → α) : Prop :=
  ∀ i, i < N → y i = b (P i) - ∑ k in Finset.range i, M (i * N + k) * y k

/-- Back substitution, as an equation on the solution `x`. -/
def IsBackward (M : Nat → α) (N : Nat) (y x : Nat → α) : Prop :=
  ∀ i, i < N → x i = (y i - ∑ k in Finset.Ico (i + 1) N, M (i * N + k) * x k) / M (i * N + i)

/-- The row-major vector `A` read as an `N × N` matrix. -/
def toMatrix (N : Nat) (A : Nat → α) : Matrix (Fin N) (Fin N) α :=
  fun i j => A (i.val * N + j.val)

/-- The `j`-th unit vector. -/
def unit_vector (j : Nat) : Nat → α := fun k => if k = j then 1 else 0

/-- Column `j` of `w` agrees with `t` below `I`, and `w` is `w0` outside column `j`. -/
def ColRel (N j : Nat) (w0 : Nat → α) (I : Nat) (w t : Nat → α) : Prop :=
  (∀ i, i < I → w (i * N + j) = t i)
    ∧ ∀ idx, (∀ i, i < N → idx ≠ i * N + j) → w idx = w0 idx

/-- The weight of point `i`: `weight_[i]`, and `1` when no weights are supplied. -/
def weight_at (s : LMFitCPP α) (i : Nat) : α :=
  match s.weight_ with
  | none => 1
  | some weight => weight i

/-- The value `calculate_hessian` computes for the pair of parameters `(ip, jp)`. -/
def hessian_sum (s : LMFitCPP α) (derivatives curve : Nat → α) (ip jp : Nat) : α :=
  accumulate 0 s.info_.n_points_
    (hessian_term s derivatives curve (ip * s.info_.n_points_) (jp * s.info_.n_points_))

/-- The value `calc_gradient` computes for the parameter `ip`. -/
def gradient_sum (s : LMFitCPP α) (derivatives curve : Nat → α) (ip : Nat) : α :=
  accumulate 0 s.info_.n_points_
    (gradient_term s derivatives curve (ip * s.info_.n_points_))

/-- The summand of the Poisson deviance for one point (lines 904-912). -/
def deviance_term (log : α → α) (s : LMFitCPP α) (values : Nat → α) (i : Nat) : α :=
  if s.data_ i ≠ 0 then
    2 * ((values i - s.data_ i) - s.data_ i * log (values i / s.data_ i))
  else 2 * (values i - s.data_ i)

/-- The method leaves `parameters_` and the inputs that say which parameters are free
as they are. -/
def SameParameters (s t : LMFitCPP α) : Prop :=
  t.parameters_ = s.parameters_ ∧ t.parameters_to_fit_ = s.parameters_to_fit_
    ∧ t.initial_parameters_ = s.initial_parameters_ ∧ t.info_ = s.info_

/-- The method leaves the parameters that are not free, and the inputs that say which
parameters are free, as they are. -/
def FixedKept (s t : LMFitCPP α) : Prop :=
  (∀ p, s.parameters_to_fit_ p = false → t.parameters_ p = s.parameters_ p)
    ∧ t.parameters_to_fit_ = s.parameters_to_fit_
    ∧ t.initial_parameters_ = s.initial_parameters_ ∧ t.info_ = s.info_

/-- The inputs of the fit, which no method writes. -/
structure SameInputs (s t : LMFitCPP α) : Prop where
  fit_index_ : t.fit_index_ = s.fit_index_
  data_ : t.data_ = s.data_
  weight_ : t.weight_ = s.weight_
  initial_parameters_ : t.initial_parameters_ = s.initial_parameters_
  tolerance_ : t.tolerance_ = s.tolerance_
  info_ : t.info_ = s.info_
  parameters_to_fit_ : t.parameters_to_fit_ = s.parameters_to_fit_
  user_info_ : t.user_info_ = s.user_info_

/-- The outputs of the fit and what is kept of the last accepted iterate, which the
methods of the damping controller do not write. -/
structure SameOutputs (s t : LMFitCPP α) : Prop where
  parameters_ : t.parameters_ = s.parameters_
  prev_parameters_ : t.prev_parameters_ = s.prev_parameters_
  prev_chi_square_ : t.prev_chi_square_ = s.prev_chi_square_
  chi_square_ : t.chi_square_ = s.chi_square_
  state_ : t.state_ = s.state_
  n_iterations_ : t.n_iterations_ = s.n_iterations_
  curve_ : t.curve_ = s.curve_
  derivatives_ : t.derivatives_ = s.derivatives_
  temp_derivatives_ : t.temp_derivatives_ = s.temp_derivatives_

/-- The fit object after `update_parameters` in round `iteration` (line 1275). -/
def iteration_updated (env : Env α) (iteration : Nat) (s : LMFitCPP α) : LMFitCPP α :=
  update_parameters (iteration_head env iteration s)

/-- The fit object after `calc_coefficients` in round `iteration` (line 1278): the
candidate with its curve and chi-square. -/
def iteration_candidate (env : Env α) (iteration : Nat) (s : LMFitCPP α) : LMFitCPP α :=
  calc_coefficients env (calc_model env (iteration_updated env iteration s))

/-- Lines 1280-1286 of `run`, from the candidate `c` on: the quality of the
approximation, the new step bound, the convergence test and `evaluate_iteration`. -/
def evaluate_candidate (env : Env α) (iteration : Nat) (c : LMFitCPP α) : LMFitCPP α :=
  let c := calc_approximation_quality env c
  let c := update_step_bound env c
  let c := { c with converged_ := check_for_convergence c }
  evaluate_iteration c iteration

/-- The fit object after `evaluate_iteration` in round `iteration` (line 1286), before
`prepare_next_iteration`. -/
def iteration_evaluated (env : Env α) (iteration : Nat) (s : LMFitCPP α) : LMFitCPP α :=
  evaluate_candidate env iteration (iteration_candidate env iteration s)

/-- The chi-square output after `calc_coefficients` in round `k` of the loop of `run`:
the chi-square of the candidate of that round. -/
def candidate_chi_square (env : Env α) (s : LMFitCPP α) (k : Nat) : α :=
  (iteration_candidate env k (state_before_iteration env s k)).chi_square_

/-- The parameters after `update_parameters` in round `k` of the loop of `run`: the
candidate of that round. -/
def candidate_parameters (env : Env α) (s : LMFitCPP α) (k : Nat) : Nat → α :=
  (iteration_candidate env k (state_before_iteration env s k)).parameters_

/-- The curve of the candidate of round `k`, as `calc_model` computes it (line 1277). -/
def candidate_curve (env : Env α) (s : LMFitCPP α) (k : Nat) : Nat → α :=
  (iteration_candidate env k (state_before_iteration env s k)).curve_

/-- The model curve at the initial parameters, as `run` computes it before the loop
(line 1199). -/
def initial_curve (env : Env α) (s : LMFitCPP α) : Nat → α :=
  (run_init env s).curve_

/-- The break test of the loop of `run` (line 1290) after round `k`. -/
def leaves_after (env : Env α) (s : LMFitCPP α) (k : Nat) : Prop :=
  (state_before_iteration env s (k + 1)).converged_ = true
    ∨ (state_before_iteration env s (k + 1)).state_ ≠ FitState.CONVERGED

/-- Lines 1195-1200 of `run`: the initial copy, the state `CONVERGED`, the model at the
initial parameters and the copy of its derivatives. -/
def run_start (env : Env α) (s : LMFitCPP α) : LMFitCPP α :=
  let s := { s with
    parameters_ := fill s.info_.n_parameters_ (fun i => s.initial_parameters_ i) s.parameters_ }
  let s := { s with state_ := FitState.CONVERGED }
  let s := calc_model env s
  { s with temp_derivatives_ := s.derivatives_ }

/-- The `while` loop of lines 1244-1259 of `run` with its counter `iter_lambda`: the
result is the fit object and the final value of the counter, which counts the calls of
`update_lambda`. -/
def lambda_while (env : Env α) : Nat → Nat → LMFitCPP α → Option (LMFitCPP α × Nat)
  | 0, _, _ => none
  | fuel + 1, iter_lambda, s =>
    if |s.phi_| > 1 / 10 * s.step_bound_ ∧ iter_lambda < 10 then
      let s := update_lambda s
      let s := modify_step_width s
      let s := solve_step env s s.modified_hessian_
      lambda_while env fuel (iter_lambda + 1) s
    else some (s, iter_lambda)

/-- Every entry of `scaling_vector_` in `t` is at least the entry in `s`. -/
def ScalingGrows (s t : LMFitCPP α) : Prop :=
  ∀ i, s.scaling_vector_ i ≤ t.scaling_vector_ i

/-- The local variable `x` of `calc_values_linear1d` and `calc_derivatives_linear1d`
after `k` rounds of their loop (line 629: it starts at `0`); the coordinate used for
point `i` is `linear1d_x s (i + 1)`. -/
def linear1d_x (s : LMFitCPP α) : Nat → α
  | 0 => 0
  | k + 1 => point_coordinate s (linear1d_x s k) k

/-- Lines 1199-1201 without the chi-square, then lines 1214-1219: the model at the
current parameters, its Hessian and gradient, and the step `delta_` solved from the
unmodified Hessian. -/
def undamped_step (env : Env α) (s : LMFitCPP α) : LMFitCPP α :=
  let m := calc_model env s
  let h := calc_gradient (calculate_hessian m m.derivatives_ m.curve_) m.derivatives_ m.curve_
  solve_step env h h.hessian_

/-- The norm `||s||` of the scaled step `s[i] = sqrt(scaling_vector_[i]) * delta_[i]`,
over the `n_parameters_` entries the methods loop over. -/
def scaled_step_norm (env : Env α) (s : LMFitCPP α) : α :=
  env.sqrt (∑ i in Finset.range s.info_.n_parameters_,
    (env.sqrt (s.scaling_vector_ i) * s.delta_ i)
      * (env.sqrt (s.scaling_vector_ i) * s.delta_ i))

/-- The factor `temp` of the specification of `update_step_bound`. -/
def spec_temp (env : Env α) (s : LMFitCPP α) : α :=
  let temp : α :=
    if s.actual_reduction_ ≥ 0 then 1 / 2
    else 1 / 2 * s.directive_derivative_
      / (s.directive_derivative_ + 1 / 2 * s.actual_reduction_)
  if temp < 1 / 10 ∨ 1 / 10 * env.sqrt s.chi_square_ ≥ env.sqrt s.prev_chi_square_ then 1 / 10
  else temp

/-- The pair `(step_bound', lambda')` the specification gives for `update_step_bound`. -/
def spec_update_step_bound (env : Env α) (s : LMFitCPP α) : α × α :=
  if s.approximation_ratio_ ≤ 1 / 4 then
    (spec_temp env s * min s.step_bound_ (scaled_step_norm env s / (1 / 10)),
      s.lambda_ / spec_temp env s)
  else if s.lambda_ = 0 ∨ s.approximation_ratio_ ≥ 3 / 4 then
    (scaled_step_norm env s / (1 / 2), s.lambda_ / 2)
  else (s.step_bound_, s.lambda_)

/-- The formula of the specification for `phi_derivative_` with `K` free parameters:
`(s . (Hinv * (D delta))) / ||s||`, the matrix-vector product taken row-major. -/
def spec_phi_derivative (env : Env α) (s : LMFitCPP α) : α :=
  (∑ i in Finset.range s.info_.n_parameters_to_fit_,
      (env.sqrt (s.scaling_vector_ i) * s.delta_ i)
        * ∑ j in Finset.range s.info_.n_parameters_to_fit_,
            s.inverted_hessian_ (i * s.info_.n_parameters_to_fit_ + j)
              * (s.scaling_vector_ j * s.delta_ j))
    / scaled_step_norm env s

/-- The quadratic form `((D delta) . (Hinv * (D delta))) / ||s||` of the inverted
Hessian at the vector `D delta`, the matrix-vector product taken row-major. -/
def scaled_quadratic_form (env : Env α) (s : LMFitCPP α) : α :=
  (∑ i in Finset.range s.info_.n_parameters_to_fit_,
      (s.scaling_vector_ i * s.delta_ i)
        * ∑ j in Finset.range s.info_.n_parameters_to_fit_,
            s.inverted_hessian_ (i * s.info_.n_parameters_to_fit_ + j)
              * (s.scaling_vector_ j * s.delta_ j))
    / scaled_step_norm env s

/-- The norm `||D^(-1/2) g||` of `initialize_lambda_bounds`, over `n_parameters_`
entries. -/
def scaled_gradient_norm (env : Env α) (s : LMFitCPP α) : α :=
  env.sqrt (∑ i in Finset.range s.info_.n_parameters_,
    (s.gradient_ i / env.sqrt (s.scaling_vector_ i))
      * (s.gradient_ i / env.sqrt (s.scaling_vector_ i)))

/-- The formula of the specification for `predicted_reduction_`: with `M` the increasing
list of the free parameters, `(J delta)[i]` is the sum over `a < K` of
`temp_derivatives_[M[a] * n_points + i] * delta_[a]`, `s[a]` is
`sqrt(scaling_vector_[a]) * delta_[a]`, and the squared norms are sums of squares. -/
def spec_predicted_reduction (env : Env α) (s : LMFitCPP α) : α :=
  (∑ i in Finset.range s.info_.n_points_,
      (∑ a in Finset.range s.info_.n_parameters_to_fit_,
          s.temp_derivatives_
              ((free_indices s.parameters_to_fit_ s.info_.n_parameters_).getD a 0
                * s.info_.n_points_ + i)
            * s.delta_ a)
        * (∑ a in Finset.range s.info_.n_parameters_to_fit_,
          s.temp_derivatives_
              ((free_indices s.parameters_to_fit_ s.info_.n_parameters_).getD a 0
                * s.info_.n_points_ + i)
            * s.delta_ a))
      / s.prev_chi_square_
    + 2 * s.lambda_
        * (∑ a in Finset.range s.info_.n_parameters_to_fit_,
            (env.sqrt (s.scaling_vector_ a) * s.delta_ a)
              * (env.sqrt (s.scaling_vector_ a) * s.delta_ a))
        / s.prev_chi_square_

/-- Lines 1207-1219 of `run`: the round up to the first `calc_phi`, with the first LUP
factorisation of the round (line 1214). -/
def first_solve (env : Env α) (iteration : Nat) (s : LMFitCPP α) : LMFitCPP α :=
  let s := modify_step_width s
  let s := if iteration = 0 then initialize_step_bound env s else s
  solve_step env s s.hessian_

/-- The methods between `update_parameters` and `update_step_bound` leave the damping
parameter, the step bound and the scaled step as they are. -/
def SameStep (s t : LMFitCPP α) : Prop :=
  t.lambda_ = s.lambda_ ∧ t.step_bound_ = s.step_bound_ ∧ t.delta_ = s.delta_
    ∧ t.scaling_vector_ = s.scaling_vector_ ∧ t.info_ = s.info_

/-! ## The indices of the vectors of length `K`
The lists below record, in the order of the source's loops, the indices at which a
method reads or writes a vector. -/
/-- The members the constructor allocates with `n_parameters_to_fit_` entries (lines
38-43). -/
inductive KVector
  | gradient_
  | delta_
  | scaling_vector_
  | prev_parameters_
  deriving DecidableEq

/-- The length the constructor gives the member (lines 38-43). -/
def KVector.size (info : Info) (_v : KVector) : Nat := info.n_parameters_to_fit_

/-- The indices at which `update_parameters` (lines 940-950) writes `prev_parameters_`,
in the order of the loop. -/
def update_parameters_writes (s : LMFitCPP α) : List (KVector × Nat) :=
  forRange 0 s.info_.n_parameters_
    (fun parameter_index writes =>
      if s.parameters_to_fit_ parameter_index then
        writes ++ [(KVector.prev_parameters_, parameter_index)]
      else writes)
    []

/-- The indices at which `prepare_next_iteration` (lines 973-991) reads
`prev_parameters_`: none when the step is accepted. -/
def prepare_next_iteration_reads (s : LMFitCPP α) : List (KVector × Nat) :=
  if s.chi_square_ < s.prev_chi_square_ then []
  else
    forRange 0 s.info_.n_parameters_
      (fun parameter_index reads =>
        if s.parameters_to_fit_ parameter_index then
          reads ++ [(KVector.prev_parameters_, parameter_index)]
        else reads)
      []

/-- The indices at which `initialize_step_bound` (lines 1016-1035) reads
`scaling_vector_`; `scaled_parameters` has `n_parameters_` entries. -/
def initialize_step_bound_reads (s : LMFitCPP α) : List (KVector × Nat) :=
  forRange 0 s.info_.n_parameters_
    (fun i reads => reads ++ [(KVector.scaling_vector_, i)])
    []

/-- The indices at which `calc_phi` (lines 1125-1152) reads `scaling_vector_` and
`delta_` in its two loops; `scaled_delta` has `n_parameters_` entries. -/
def calc_phi_reads (s : LMFitCPP α) : List (KVector × Nat) :=
  let reads := forRange 0 s.info_.n_parameters_
    (fun i reads => reads ++ [(KVector.scaling_vector_, i), (KVector.delta_, i)])
    []
  forRange 0 s.info_.n_parameters_
    (fun i reads => reads ++ [(KVector.scaling_vector_, i), (KVector.delta_, i)])
    reads

/-- The indices at which `initialize_lambda_bounds` (lines 1078-1107) reads
`scaling_vector_`, `delta_` and `gradient_` in its two loops. -/
def initialize_lambda_bounds_reads (s : LMFitCPP α) : List (KVector × Nat) :=
  let reads := forRange 0 s.info_.n_parameters_
    (fun i reads => reads ++ [(KVector.scaling_vector_, i), (KVector.delta_, i)])
    []
  forRange 0 s.info_.n_parameters_
    (fun i reads => reads ++ [(KVector.gradient_, i), (KVector.scaling_vector_, i)])
    reads

/-- The indices at which `calc_approximation_quality` (lines 1154-1191) reads `delta_`
and `scaling_vector_` in its loop. -/
def calc_approximation_quality_reads (s : LMFitCPP α) : List (KVector × Nat) :=
  forRange 0 s.info_.n_parameters_
    (fun i reads => reads ++ [(KVector.delta_, i), (KVector.scaling_vector_, i)])
    []

/-- The indices at which `multiply_matrix_vector` (lines 191-207) writes `product`, in
the order of its two loops. -/
def multiply_matrix_vector_writes (matrix_size vector_size : Nat) : List Nat :=
  let n_rows := matrix_size / vector_size
  let n_cols := vector_size
  forRange 0 n_cols
    (fun _col writes => forRange 0 n_rows (fun row writes => writes ++ [row]) writes)
    []

/-- The indices at which the call of `multiply_matrix_vector` in
`calc_approximation_quality` (line 1158) writes `derivatives_delta`, a vector of
`n_points_` entries: the matrix is `temp_derivatives_`, a copy of `derivatives_` with
`n_points_ * n_parameters_` entries, and the vector is `delta_`. -/
def calc_approximation_quality_writes (s : LMFitCPP α) : List Nat :=
  multiply_matrix_vector_writes (s.info_.n_points_ * s.info_.n_parameters_)
    s.info_.n_parameters_to_fit_

/-- The indices at which the call of `multiply_matrix_vector` in `calc_phi` (line 1148)
writes `temp`, a vector of `n_parameters_` entries: the matrix is `inverted_hessian_`
with `K * K` entries and the vector is `scaled_delta` with `n_parameters_` entries. -/
def calc_phi_writes (s : LMFitCPP α) : List Nat :=
  multiply_matrix_vector_writes (s.info_.n_parameters_to_fit_ * s.info_.n_parameters_to_fit_)
    s.info_.n_parameters_

/-- Every access of the list is inside the vector it goes to. -/
def InBounds (info : Info) (accesses : List (KVector × Nat)) : Prop :=
  ∀ a, a ∈ accesses → a.2 < KVector.size info a.1

/-! ## The accesses of a round of `run`
The remaining loops of a round that index the vectors of length `K`, and the condition
under which a round stays inside its vectors. -/
/-- The indices at which `update_step_bound` (lines 1037-1076) reads `delta_` and
`scaling_vector_`; `scaled_delta` has `n_parameters_` entries. -/
def update_step_bound_reads (s : LMFitCPP α) : List (KVector × Nat) :=
  forRange 0 s.info_.n_parameters_
    (fun i reads => reads ++ [(KVector.delta_, i), (KVector.scaling_vector_, i)])
    []

/-- The indices at which lines 1221-1227 of `run` read `scaling_vector_` and `delta_`;
`scaled_delta` has `n_parameters_` entries. -/
def rescale_phi_derivative_reads (s : LMFitCPP α) : List (KVector × Nat) :=
  forRange 0 s.info_.n_parameters_
    (fun i reads => reads ++ [(KVector.scaling_vector_, i), (KVector.delta_, i)])
    []

/-- The indices at which lines 1268-1270 of `run` read `delta_` and `scaling_vector_`. -/
def clamp_step_bound_reads (s : LMFitCPP α) : List (KVector × Nat) :=
  forRange 0 s.info_.n_parameters_
    (fun i reads => reads ++ [(KVector.delta_, i), (KVector.scaling_vector_, i)])
    []

/-- The indices at which `update_parameters` (lines 940-950) reads `delta_`: the running
index `delta_index` of the free parameters; the loop state is `(delta_index, reads)`. -/
def update_parameters_reads (s : LMFitCPP α) : List (KVector × Nat) :=
  (forRange 0 s.info_.n_parameters_
    (fun parameter_index (st : Nat × List (KVector × Nat)) =>
      let delta_index := st.1
      if s.parameters_to_fit_ parameter_index then
        (delta_index + 1, st.2 ++ [(KVector.delta_, delta_index)])
      else st)
    (0, [])).2

/-- A round of `run` stays inside its vectors: the two divisors `vector.size()` of
`multiply_matrix_vector` (line 197, called at lines 1148 and 1158) are not `0`, every
index at which the round reads or writes `scaling_vector_`, `delta_`, `gradient_` or
`prev_parameters_` through a loop over the parameters is below the length
`n_parameters_to_fit_` of the vector, and the two products are written inside their
`n_parameters_` and `n_points_` entries.  The other accesses of a round use the running
index of the free parameters or an index below `n_parameters_to_fit_`, or go to `curve_`,
`derivatives_` and `parameters_`, whose sizes the model of the fit determines; they are
not part of the condition. -/
def RunInBounds (s : LMFitCPP α) : Prop :=
  0 < s.info_.n_parameters_ ∧ 0 < s.info_.n_parameters_to_fit_
    ∧ InBounds s.info_ (initialize_step_bound_reads s)
    ∧ InBounds s.info_ (calc_phi_reads s)
    ∧ InBounds s.info_ (rescale_phi_derivative_reads s)
    ∧ InBounds s.info_ (initialize_lambda_bounds_reads s)
    ∧ InBounds s.info_ (clamp_step_bound_reads s)
    ∧ InBounds s.info_ (update_parameters_reads s)
    ∧ InBounds s.info_ (update_parameters_writes s)
    ∧ InBounds s.info_ (calc_approximation_quality_reads s)
    ∧ InBounds s.info_ (update_step_bound_reads s)
    ∧ (∀ row, row ∈ calc_phi_writes s → row < s.info_.n_parameters_)
    ∧ (∀ row, row ∈ calc_approximation_quality_writes s → row < s.info_.n_points_)

end Vocabulary

/-! ## Concrete inputs -/

/-- The vector with the entries of `l` (and `0` beyond). -/
def vec (l : List ℚ) : Nat → ℚ := fun k => l.getD k 0

/-- The largest `k` up to `bound` with `k * k <= n`. -/
def root_search (n : Nat) : Nat → Nat
  | 0 => 0
  | k + 1 => if (k + 1) * (k + 1) ≤ n then k + 1 else root_search n k

/-- A square root on `ℚ`: exact on the squares of rationals, and the quotient of the
rounded-down roots of numerator and denominator otherwise. -/
def example_sqrt (x : ℚ) : ℚ :=
  (root_search x.num.toNat x.num.toNat : ℚ) / (root_search x.den x.den : ℚ)

/-- A concrete environment: `sqrt` is exact on the squares of rationals; `log` and the
models other than `LINEAR_1D` are stand-ins, what they compute plays no part in the
theorems. -/
def example_env : Env ℚ where
  sqrt := example_sqrt
  log := fun _ => 0
  calc_curve_values := fun _ curve derivatives => (curve, derivatives)

/-- A concrete fit: three points `x = 0, 1, 2` of the line `5 + 3 x`, the offset fixed at `5` and the
slope free, starting from slope `0`. -/
def example_fit : LMFitCPP ℚ where
  fit_index_ := 0
  data_ := vec [5, 8, 11]
  weight_ := none
  initial_parameters_ := vec [5, 0]
  tolerance_ := 1 / 1000000
  converged_ := false
  info_ := ⟨2, 1, 3, 20, ModelID.LINEAR_1D, Estimator.LSE, 0⟩
  parameters_to_fit_ := fun k => k == 1
  curve_ := fun _ => 0
  derivatives_ := fun _ => 0
  temp_derivatives_ := fun _ => 0
  hessian_ := fun _ => 0
  modified_hessian_ := fun _ => 0
  decomposed_hessian_ := fun _ => 0
  inverted_hessian_ := fun _ => 0
  pivot_array_ := fun _ => 0
  gradient_ := fun _ => 0
  delta_ := fun _ => 0
  scaling_vector_ := fun _ => 0
  prev_chi_square_ := 0
  lambda_ := 0
  lambda_lower_bound_ := 0
  lambda_upper_bound_ := 0
  step_bound_ := 0
  actual_reduction_ := 0
  predicted_reduction_ := 0
  directive_derivative_ := 0
  approximation_ratio_ := 0
  phi_ := 0
  phi_derivative_ := 0
  prev_parameters_ := fun _ => 0
  user_info_ := none
  parameters_ := fun _ => 0
  state_ := FitState.CONVERGED
  chi_square_ := 0
  n_iterations_ := 0

/-- The same fit under the maximum-likelihood estimator. -/
def example_fit_MLE : LMFitCPP ℚ :=
  { example_fit with info_ := ⟨2, 1, 3, 20, ModelID.LINEAR_1D, Estimator.MLE, 0⟩ }

/-- A maximum-likelihood fit whose line `-1 + x` is not positive at the first two of the
points `x = 0, 1, 2`; both parameters are free. -/
def negative_fit : LMFitCPP ℚ :=
  { example_fit with
    initial_parameters_ := vec [-1, 1]
    parameters_to_fit_ := fun _ => true
    info_ := ⟨2, 2, 3, 20, ModelID.LINEAR_1D, Estimator.MLE, 0⟩ }

/-- A maximum-likelihood fit of a line to the two points `(0, 3)` and `(1, 1)` from the
constant `3`, with tolerance `0` and a single round allowed; the first step leads to the
line `3 - 6 x`, which is negative at `x = 1`. -/
def overshooting_fit : LMFitCPP ℚ :=
  { example_fit with
    data_ := vec [3, 1]
    initial_parameters_ := vec [3, 0]
    tolerance_ := 0
    parameters_to_fit_ := fun _ => true
    info_ := ⟨2, 2, 2, 1, ModelID.LINEAR_1D, Estimator.MLE, 0⟩ }

/-- The least-squares fit of `example_fit` with tolerance `0` and three rounds allowed. -/
def zero_tolerance_fit : LMFitCPP ℚ :=
  { example_fit with
    tolerance_ := 0
    info_ := ⟨2, 1, 3, 3, ModelID.LINEAR_1D, Estimator.LSE, 0⟩ }

/-- The least-squares fit of the line `5 + 3 x` from the line `4` with both parameters
free, tolerance `0` and two rounds allowed. -/
def free_fit : LMFitCPP ℚ :=
  { example_fit with
    initial_parameters_ := vec [4, 0]
    tolerance_ := 0
    parameters_to_fit_ := fun _ => true
    info_ := ⟨2, 2, 3, 2, ModelID.LINEAR_1D, Estimator.LSE, 0⟩ }

/-- A fit object in the middle of a round: the slope is `1` and the step for it is `2`. -/
def stepped_fit : LMFitCPP ℚ :=
  { example_fit with
    parameters_ := vec [5, 1]
    delta_ := vec [2] }

/-- The fit `example_fit` with `max_n_iterations_ = 0`: no round is the last one
allowed. -/
def uncapped_fit : LMFitCPP ℚ :=
  { example_fit with info_ := ⟨2, 1, 3, 0, ModelID.LINEAR_1D, Estimator.LSE, 0⟩ }

/-- A least-squares line fit with the coordinates `x = 1, -1, 1, -1` given as user info
(16 bytes), the constant data `121/10` and the start `(1/10, 0)`, both parameters free:
the first step, `12`, is longer than the step bound allows. -/
def damped_fit : LMFitCPP ℚ :=
  { example_fit with
    data_ := vec [121 / 10, 121 / 10, 121 / 10, 121 / 10]
    initial_parameters_ := vec [1 / 10, 0]
    parameters_to_fit_ := fun _ => true
    user_info_ := some (vec [1, -1, 1, -1])
    info_ := ⟨2, 2, 4, 20, ModelID.LINEAR_1D, Estimator.LSE, 16⟩ }

/-- A least-squares line fit to the points `(0, 1)` and `(1, 1)` with the weights `1` and
`-1`, from the line `0`, with tolerance `0`: the chi-square is `0` at the start. -/
def cancelling_fit : LMFitCPP ℚ :=
  { example_fit with
    data_ := vec [1, 1]
    weight_ := some (vec [1, -1])
    initial_parameters_ := vec [0, 0]
    tolerance_ := 0
    parameters_to_fit_ := fun _ => true
    info_ := ⟨2, 2, 2, 20, ModelID.LINEAR_1D, Estimator.LSE, 0⟩ }

/-- A least-squares line fit to the points `(0, 1)`, `(1, -1)`, `(2, -1)`, `(3, 1)` from
the line `0`, which is their least-squares line: the first step is `0`. -/
def stationary_fit : LMFitCPP ℚ :=
  { example_fit with
    data_ := vec [1, -1, -1, 1]
    initial_parameters_ := vec [0, 0]
    parameters_to_fit_ := fun _ => true
    info_ := ⟨2, 2, 4, 20, ModelID.LINEAR_1D, Estimator.LSE, 0⟩ }

/-- A fit object before `calc_phi`: both parameters free, `scaling_vector_ = (4, 0)`,
`delta_ = (1, 0)` and the identity as inverted Hessian. -/
def phi_fit : LMFitCPP ℚ :=
  { example_fit with
    parameters_to_fit_ := fun _ => true
    info_ := ⟨2, 2, 3, 20, ModelID.LINEAR_1D, Estimator.LSE, 0⟩
    scaling_vector_ := vec [4, 0]
    delta_ := vec [1, 0]
    inverted_hessian_ := vec [1, 0, 0, 1]
    step_bound_ := 1 }

/-- A fit object before `calc_approximation_quality` with the mask `[false, true]`: four
points, the derivatives `(1, 1, 1, 1)` of the fixed offset and `(0, 1, 2, 3)` of the free
slope, and the step `2` for the slope. -/
def masked_quality_fit : LMFitCPP ℚ :=
  { example_fit with
    info_ := ⟨2, 1, 4, 20, ModelID.LINEAR_1D, Estimator.LSE, 0⟩
    temp_derivatives_ := vec [1, 1, 1, 1, 0, 1, 2, 3]
    delta_ := vec [2]
    scaling_vector_ := vec [1]
    prev_chi_square_ := 1
    chi_square_ := 1 }

/-- A fit object before `initialize_lambda_bounds` with `phi_ / phi_derivative_ = 5` above
`||D^(-1/2) g|| / step_bound_ = 1`. -/
def bracket_fit : LMFitCPP ℚ :=
  { example_fit with
    parameters_to_fit_ := fun _ => true
    info_ := ⟨2, 2, 3, 20, ModelID.LINEAR_1D, Estimator.LSE, 0⟩
    phi_ := 5
    phi_derivative_ := 1
    gradient_ := vec [1, 0]
    scaling_vector_ := vec [1, 1]
    delta_ := vec [1, 0]
    step_bound_ := 1 }

/-- The step of `stepped_fit` with the mask `[true, false]`: the offset `5` is free, with
the step `2`, and the slope `1` is fixed; the free parameter has the index `0`, below
`n_parameters_to_fit_ = 1`. -/
def leading_fit : LMFitCPP ℚ :=
  { stepped_fit with parameters_to_fit_ := fun k => k == 0 }

/-- The maximum-likelihood fit `overshooting_fit` with the offset fixed: the mask is
`[false, true]` and `n_parameters_to_fit_ = 1`. -/
def masked_overshooting_fit : LMFitCPP ℚ :=
  { overshooting_fit with
    parameters_to_fit_ := fun k => k == 1
    info_ := ⟨2, 1, 2, 1, ModelID.LINEAR_1D, Estimator.MLE, 0⟩ }

/-- Newton's iteration `guess := (guess + n / guess) / 2` for the integer square root of
`n`, for at most `fuel` steps, as long as the guess decreases. -/
def newton_root (n : Nat) : Nat → Nat → Nat
  | 0, guess => guess
  | fuel + 1, guess =>
    let next := (guess + n / guess) / 2
    if next < guess then newton_root n fuel next else guess

/-- The integer square root of `n` by Newton's iteration from the guess `n`. -/
def floor_root (n : Nat) : Nat := newton_root n n n

/-- A square root on `ℚ` to six decimal places: the integer square root of
`x * den^2 * 10^12` over `den * 10^6`; exact on the squares of rationals, and `0` on
negative numbers. -/
def precise_sqrt (x : ℚ) : ℚ :=
  (floor_root (x.num.toNat * x.den * 10 ^ 12) : ℚ) / ((x.den * 10 ^ 6 : Nat) : ℚ)

/-- The environment `example_env` with the square root to six decimal places. -/
def precise_env : Env ℚ :=
  { example_env with sqrt := precise_sqrt }

/-- A least-squares line fit to the points `(0, 20)`, `(1, -10)`, `(2, -50)` with the
weights `-1`, `2`, `4`, from the line `0`, both parameters free: the Hessian
`[[5, 10], [10, 18]]` has a positive diagonal and the determinant `-10`. -/
def indefinite_fit : LMFitCPP ℚ :=
  { example_fit with
    data_ := vec [20, -10, -50]
    weight_ := some (vec [-1, 2, 4])
    initial_parameters_ := vec [0, 0]
    parameters_to_fit_ := fun _ => true
    info_ := ⟨2, 2, 3, 20, ModelID.LINEAR_1D, Estimator.LSE, 0⟩ }

/-! ## Loops, indices and counting -/

theorem loop_succ_last {σ : Type} (body : Nat → σ → σ) (n lo : Nat) (s : σ) :
    loop body (n + 1) lo s = body (lo + n) (loop body n lo s) := by
  induction n generalizing lo s with
  | zero => simp [loop]
  | succ n ih =>
    rw [loop, ih (lo + 1) (body lo s)]
    simp only [loop]
    congr 1
    omega

theorem forRange_of_le {σ : Type} (body : Nat → σ → σ) {lo hi : Nat} (h : hi ≤ lo) (s : σ) :
    forRange lo hi body s = s := by
  simp [forRange, Nat.sub_eq_zero_of_le h, loop]

theorem forRange_succ {σ : Type} (body : Nat → σ → σ) {lo hi : Nat} (h : lo ≤ hi) (s : σ) :
    forRange lo (hi + 1) body s = body hi (forRange lo hi body s) := by
  unfold forRange
  rw [Nat.succ_sub h, loop_succ_last]
  congr 1
  omega

/-- Invariant rule for `forRange`. -/
theorem forRange_induction {σ : Type} (body : Nat → σ → σ) (P : Nat → σ → Prop)
    {lo hi : Nat} (hle : lo ≤ hi) (s : σ) (h0 : P lo s)
    (hstep : ∀ i t, lo ≤ i → i < hi → P i t → P (i + 1) (body i t)) :
    P hi (forRange lo hi body s) := by
  induction hi, hle using Nat.le_induction with
  | base => simpa [forRange_of_le body (le_refl lo)] using h0
  | succ n hn ih =>
    rw [forRange_succ body hn]
    exact hstep n _ hn (Nat.lt_succ_self n)
      (ih (fun i t h1 h2 h3 => hstep i t h1 (Nat.lt_succ_of_lt h2) h3))

theorem forDown_induction {σ : Type} (body : Nat → σ → σ) (P : Nat → σ → Prop)
    (n : Nat) (s : σ) (h0 : P n s)
    (hstep : ∀ i t, i < n → P (i + 1) t → P i (body i t)) :
    P 0 (forDown body n s) := by
  induction n generalizing s with
  | zero => simpa [forDown] using h0
  | succ n ih =>
    rw [forDown]
    exact ih _ (hstep n s (Nat.lt_succ_self n) h0)
      (fun i t h1 h2 => hstep i t (Nat.lt_succ_of_lt h1) h2)

theorem fill_apply {β : Type} (n : Nat) (f : Nat → β) (v : Nat → β) (i : Nat) :
    fill n f v i = if i < n then f i else v i := by
  unfold fill
  refine forRange_induction _ (fun k w => w i = if i < k then f i else v i) (Nat.zero_le n) v
    (by simp) ?_
  intro k t _ _ ht
  by_cases hik : i = k
  · subst hik; simp
  · rw [Function.update_noteq hik, ht]
    have : (i < k + 1) ↔ (i < k) := by omega
    simp [this]

theorem idx_inj {N r c r' c' : Nat} (hc : c < N) (hc' : c' < N) :
    r * N + c = r' * N + c' ↔ r = r' ∧ c = c' := by
  constructor
  · intro h
    have h1 : (r * N + c) / N = r := by
      rw [Nat.add_comm, Nat.add_mul_div_right _ _ (by omega : 0 < N), Nat.div_eq_of_lt hc]; simp
    have h2 : (r' * N + c') / N = r' := by
      rw [Nat.add_comm, Nat.add_mul_div_right _ _ (by omega : 0 < N), Nat.div_eq_of_lt hc']; simp
    have hr : r = r' := by rw [← h1, ← h2, h]
    subst hr
    exact ⟨rfl, by omega⟩
  · rintro ⟨rfl, rfl⟩; rfl

theorem swap_entries_apply {β : Type} (v : Nat → β) (a b k : Nat) :
    swap_entries v a b k = if k = b then v a else if k = a then v b else v k := by
  unfold swap_entries
  simp [Function.update_apply]

theorem forRange_rel {σ τ : Type} (f : Nat → σ → σ) (g : Nat → τ → τ)
    (R : Nat → σ → τ → Prop) {lo hi : Nat} (hle : lo ≤ hi) (s : σ) (t : τ) (h0 : R lo s t)
    (hstep : ∀ i s t, lo ≤ i → i < hi → R i s t → R (i + 1) (f i s) (g i t)) :
    R hi (forRange lo hi f s) (forRange lo hi g t) := by
  induction hi, hle using Nat.le_induction with
  | base => simpa [forRange_of_le f (le_refl lo), forRange_of_le g (le_refl lo)] using h0
  | succ n hn ih =>
    rw [forRange_succ f hn, forRange_succ g hn]
    exact hstep n _ _ hn (Nat.lt_succ_self n)
      (ih (fun i s t h1 h2 h3 => hstep i s t h1 (Nat.lt_succ_of_lt h2) h3))

theorem forDown_rel {σ τ : Type} (f : Nat → σ → σ) (g : Nat → τ → τ)
    (R : σ → τ → Prop) (n : Nat) (s : σ) (t : τ) (h0 : R s t)
    (hstep : ∀ i s t, i < n → R s t → R (f i s) (g i t)) :
    R (forDown f n s) (forDown g n t) := by
  induction n generalizing s t with
  | zero => simpa [forDown] using h0
  | succ n ih =>
    rw [forDown, forDown]
    exact ih _ _ (hstep n s t (Nat.lt_succ_self n) h0)
      (fun i s t h1 h2 => hstep i s t (Nat.lt_succ_of_lt h1) h2)

theorem free_count_succ (mask : Nat → Bool) (p : Nat) :
    free_count mask (p + 1) = free_count mask p + (if mask p then 1 else 0) := by
  unfold free_count
  rw [List.range_succ, List.filter_append, List.length_append]
  by_cases h : mask p <;> simp [h]

theorem free_count_mono (mask : Nat → Bool) {p q : Nat} (h : p ≤ q) :
    free_count mask p ≤ free_count mask q := by
  induction q, h using Nat.le_induction with
  | base => exact le_refl _
  | succ n _ ih => rw [free_count_succ]; omega

theorem free_count_lt (mask : Nat → Bool) {p q : Nat} (h : p < q) (hp : mask p = true) :
    free_count mask p < free_count mask q := by
  have h1 := free_count_mono mask (Nat.succ_le_of_lt h)
  rw [free_count_succ, hp] at h1
  simp at h1
  omega

theorem free_count_inj (mask : Nat → Bool) {p q : Nat} (hp : mask p = true)
    (hq : mask q = true) (h : free_count mask p = free_count mask q) : p = q := by
  rcases Nat.lt_trichotomy p q with h1 | h1 | h1
  · have := free_count_lt mask h1 hp; omega
  · exact h1
  · have := free_count_lt mask h1 hq; omega

theorem free_indices_getD (mask : Nat → Bool) (n a : Nat)
    (ha : a < (free_indices mask n).length) :
    mask ((free_indices mask n).getD a 0) = true ∧ (free_indices mask n).getD a 0 < n
      ∧ free_count mask ((free_indices mask n).getD a 0) = a := by
  induction n with
  | zero => simp [free_indices] at ha
  | succ n ih =>
    have hlen : (free_indices mask (n + 1)).length = free_count mask (n + 1) := rfl
    have hlen' : (free_indices mask n).length = free_count mask n := rfl
    have happ : free_indices mask (n + 1)
        = free_indices mask n ++ (if mask n then [n] else []) := by
      unfold free_indices
      rw [List.range_succ, List.filter_append]
      by_cases h : mask n <;> simp [h]
    by_cases hlt : a < (free_indices mask n).length
    · have e : (free_indices mask (n + 1)).getD a 0 = (free_indices mask n).getD a 0 := by
        rw [happ, List.getD_append _ _ _ _ hlt]
      rw [e]
      obtain ⟨h1, h2, h3⟩ := ih hlt
      exact ⟨h1, by omega, h3⟩
    · rw [hlen, free_count_succ] at ha
      rw [hlen'] at hlt
      by_cases hm : mask n = true
      · have ea : a = free_count mask n := by
          rw [hm] at ha
          simp at ha
          omega
        have e : (free_indices mask (n + 1)).getD a 0 = n := by
          rw [happ, hm, List.getD_append_right _ _ _ _ (by rw [hlen']; omega), hlen', ea]
          simp
        rw [e]
        exact ⟨hm, Nat.lt_succ_self n, ea.symm⟩
      · simp [hm] at ha
        omega

theorem free_count_lt_total (mask : Nat → Bool) {p n : Nat} (hp : mask p = true) (hn : p < n) :
    free_count mask p < free_count mask n :=
  free_count_lt mask hn hp

section Proofs

set_option linter.unusedSectionVars false

variable {α : Type} [LinearOrderedField α]

theorem accumulate_eq_sum (lo hi : Nat) (f : Nat → α) :
    accumulate lo hi f = ∑ k in Finset.Ico lo hi, f k := by
  unfold accumulate
  rcases Nat.le_total lo hi with h | h
  · refine forRange_induction _ (fun k (t : α) => t = ∑ j in Finset.Ico lo k, f j) h 0
      (by simp) ?_
    intro k t hk _ ht
    rw [Finset.sum_Ico_succ_top hk, ht]
  · rw [forRange_of_le _ h, Finset.Ico_eq_empty_of_le h, Finset.sum_empty]

theorem accumulate_zero_eq_sum (hi : Nat) (f : Nat → α) :
    accumulate 0 hi f = ∑ k in Finset.range hi, f k := by
  rw [accumulate_eq_sum, Finset.range_eq_Ico]

/-! ## The factorisation: sums, row exchange and elimination -/

theorem swap_rows_apply (m : Nat → α) (N i mi r c : Nat) (hc : c < N) :
    swap_rows m N i mi (r * N + c)
      = if r = mi then m (i * N + c) else if r = i then m (mi * N + c) else m (r * N + c) := by
  unfold swap_rows
  have key : ∀ J, J ≤ N → ∀ r c, c < N →
      forRange 0 J (fun j m => swap_entries m (i * N + j) (mi * N + j)) m (r * N + c)
        = if c < J then
            (if r = mi then m (i * N + c) else if r = i then m (mi * N + c) else m (r * N + c))
          else m (r * N + c) := by
    intro J hJ
    refine forRange_induction _ (fun J (w : Nat → α) => ∀ r c, c < N → w (r * N + c)
        = if c < J then
            (if r = mi then m (i * N + c) else if r = i then m (mi * N + c) else m (r * N + c))
          else m (r * N + c)) (Nat.zero_le J) m (by simp) ?_
    intro j t _ hj ht r c hc
    have hjN : j < N := by omega
    simp only [swap_entries_apply, idx_inj hc hjN, ht _ _ hjN, ht _ _ hc]
    by_cases hcj : c = j
    · subst hcj
      by_cases h1 : r = mi
      · subst h1; simp
      · by_cases h2 : r = i
        · subst h2; simp [h1]
        · simp [h1, h2]
    · have h3 : (c < j + 1) ↔ (c < j) := by omega
      simp [hcj, h3]
  rw [key N (le_refl N) r c hc]
  simp [hc]

theorem eliminate_row_apply (m : Nat → α) (N i j r c : Nat) (hi : i < N) (hij : i < j)
    (hc : c < N) :
    eliminate_row N i j m (r * N + c)
      = if r = j then elimEntry m N i j c else m (r * N + c) := by
  unfold eliminate_row
  have key := forRange_induction
    (fun k (w : Nat → α) =>
        Function.update w (j * N + k) (w (j * N + k) - w (j * N + i) * w (i * N + k)))
    (fun K (w : Nat → α) => ∀ r c, c < N → w (r * N + c)
        = if r = j then
            (if c = i then m (j * N + i) / m (i * N + i)
             else if i < c ∧ c < K then
               m (j * N + c) - m (j * N + i) / m (i * N + i) * m (i * N + c)
             else m (j * N + c))
          else m (r * N + c))
    (Nat.succ_le_of_lt hi)
    (Function.update m (j * N + i) (m (j * N + i) / m (i * N + i)))
    (by
      intro r c hc
      simp only [Function.update_apply, idx_inj hc hi]
      by_cases h1 : r = j
      · subst h1
        by_cases h2 : c = i
        · simp [h2]
        · have : ¬ (i < c ∧ c < i + 1) := by omega
          simp [h2, this]
      · simp [h1])
    (by
      intro k t hk hkN ht r c hc
      have hik : i < k := hk
      have hji : i ≠ j := by omega
      simp only [Function.update_apply, idx_inj hc hkN, ht _ _ hkN, ht _ _ hi]
      by_cases h1 : r = j
      · subst h1
        by_cases h2 : c = k
        · subst h2
          have h3 : c ≠ i := by omega
          have h4 : ¬ (i < c ∧ c < c) := by omega
          have h5 : (i < c ∧ c < c + 1) := by omega
          simp [h3, h4, h5, hji]
        · rw [ht _ _ hc]
          by_cases h3 : c = i
          · simp [h3, h2]
            intro h; omega
          · have h4 : (i < c ∧ c < k + 1) ↔ (i < c ∧ c < k) := by omega
            simp [h2, h3, h4]
      · rw [ht _ _ hc]; simp [h1])
  rw [key r c hc]
  unfold elimEntry
  by_cases h1 : r = j
  · subst h1
    by_cases h2 : c = i
    · simp [h2]
    · by_cases h3 : i < c
      · simp [h2, h3, hc]
      · simp [h2, h3]
  · simp [h1]

theorem eliminate_apply (m : Nat → α) (N i r c : Nat) (hi : i < N) (hc : c < N) :
    eliminate N i m (r * N + c)
      = if i < r ∧ r < N then elimEntry m N i r c else m (r * N + c) := by
  unfold eliminate
  have key := forRange_induction (fun j (w : Nat → α) => eliminate_row N i j w)
    (fun J (w : Nat → α) => ∀ r c, c < N → w (r * N + c)
        = if i < r ∧ r < J then elimEntry m N i r c else m (r * N + c))
    (Nat.succ_le_of_lt hi) m
    (by
      intro r c _
      have : ¬ (i < r ∧ r < i + 1) := by omega
      simp [this])
    (by
      intro j t hj hjN ht r c hc
      have hij : i < j := hj
      beta_reduce
      rw [eliminate_row_apply t N i j r c hi hij hc]
      by_cases h1 : r = j
      · subst h1
        have h2 : (i < r ∧ r < r + 1) := by omega
        have h3 : ¬ (i < r ∧ r < r) := by omega
        have h4 : ¬ (i < i ∧ i < r) := by omega
        have e1 : t (r * N + i) = m (r * N + i) := by rw [ht _ _ hi, if_neg h3]
        have e2 : t (i * N + i) = m (i * N + i) := by rw [ht _ _ hi, if_neg h4]
        have e3 : t (r * N + c) = m (r * N + c) := by rw [ht _ _ hc, if_neg h3]
        have e4 : t (i * N + c) = m (i * N + c) := by rw [ht _ _ hc, if_neg h4]
        rw [if_pos rfl, if_pos h2]
        simp only [elimEntry, e1, e2, e3, e4]
      · rw [ht _ _ hc]
        have h2 : (i < r ∧ r < j + 1) ↔ (i < r ∧ r < j) := by omega
        simp [h1, h2])
  exact key r c hc

/-! ### The pivot search -/

theorem find_pivot_spec (m : Nat → α) (N i : Nat) (hi : i < N) :
    i ≤ (find_pivot m N i).2 ∧ (find_pivot m N i).2 < N
      ∧ (find_pivot m N i).1 = |m ((find_pivot m N i).2 * N + i)|
      ∧ ∀ k, i ≤ k → k < N → |m (k * N + i)| ≤ (find_pivot m N i).1 := by
  unfold find_pivot
  have key := forRange_induction
    (fun k (mv : α × Nat) =>
      let absolute_value := |m (k * N + i)|
      if absolute_value > mv.1 then (absolute_value, k) else mv)
    (fun K (mv : α × Nat) => i ≤ mv.2 ∧ mv.2 < N ∧ 0 ≤ mv.1
      ∧ (mv.1 = |m (mv.2 * N + i)| ∨ (mv.1 = 0 ∧ mv.2 = i ∧ K = i))
      ∧ ∀ k, i ≤ k → k < K → |m (k * N + i)| ≤ mv.1)
    (le_of_lt hi) ((0 : α), i)
    ⟨le_refl i, hi, le_refl 0, Or.inr ⟨rfl, rfl, rfl⟩, fun k h1 h2 => absurd h1 (by omega)⟩
    (by
      rintro k ⟨v, j⟩ hk hkN ⟨h1, h2, h3, h4, h5⟩
      dsimp only at h1 h2 h3 h4 h5 ⊢
      by_cases hgt : |m (k * N + i)| > v
      · rw [if_pos hgt]
        refine ⟨hk, hkN, abs_nonneg _, Or.inl rfl, ?_⟩
        intro k' hk1 hk2
        rcases Nat.lt_succ_iff_lt_or_eq.mp hk2 with h | h
        · exact le_trans (h5 k' hk1 h) (le_of_lt hgt)
        · subst h; exact le_refl _
      · rw [if_neg hgt]
        have hle : |m (k * N + i)| ≤ v := not_lt.mp hgt
        refine ⟨h1, h2, h3, ?_, ?_⟩
        · rcases h4 with h4 | ⟨h4, h6, h7⟩
          · exact Or.inl h4
          · left
            subst h7
            subst h6
            subst h4
            have : |m (j * N + j)| = 0 := le_antisymm hle (abs_nonneg _)
            dsimp only
            rw [this]
        · intro k' hk1 hk2
          rcases Nat.lt_succ_iff_lt_or_eq.mp hk2 with h | h
          · exact h5 k' hk1 h
          · subst h; exact hle)
  obtain ⟨h1, h2, _, h4, h5⟩ := key
  refine ⟨h1, h2, ?_, h5⟩
  rcases h4 with h4 | ⟨_, _, h⟩
  · exact h4
  · omega

theorem find_pivot_nonneg (m : Nat → α) (N i : Nat) : 0 ≤ (find_pivot m N i).1 := by
  unfold find_pivot
  rcases Nat.le_total i N with h | h
  · refine forRange_induction _ (fun _ (mv : α × Nat) => 0 ≤ mv.1) h ((0 : α), i)
      (le_refl 0) ?_
    rintro k ⟨v, j⟩ _ _ hv
    dsimp only at hv ⊢
    by_cases hgt : |m (k * N + i)| > v
    · rw [if_pos hgt]; exact abs_nonneg _
    · rw [if_neg hgt]; exact hv
  · rw [forRange_of_le _ h]

/-! ### The factorisation invariant -/

theorem LUInv_swap (A : Nat → α) (N i mi : Nat) (m m1 : Nat → α) (p p1 : Nat → Nat)
    (h : LUInv A N i m p) (hi : i ≤ mi) (hmi : mi < N)
    (hm : ∀ r c, c < N → m1 (r * N + c) = m (swapIdx i mi r * N + c))
    (hp : ∀ r, p1 r = p (swapIdx i mi r)) :
    LUInv A N i m1 p1 := by
  intro r c hr hc
  have hlt : ∀ k, k < i → swapIdx i mi k = k := by
    intro k hk
    unfold swapIdx
    rw [if_neg (by omega), if_neg (by omega)]
  have hU : ∀ k, k < i → upperEntry m1 N k c = upperEntry m N k c := by
    intro k hk
    unfold upperEntry
    rw [hm k c hc, hlt k hk]
  have hσN : swapIdx i mi r < N := by
    unfold swapIdx; split_ifs <;> omega
  have hmin : min i (swapIdx i mi r) = min i r := by
    unfold swapIdx; split_ifs <;> omega
  rw [hp r, h _ c hσN hc, hmin, hm r c hc]
  congr 1
  apply Finset.sum_congr rfl
  intro k hk
  have hk1 : k < i := by
    have := Finset.mem_range.mp hk
    omega
  have hkN : k < N := by omega
  rw [hU k hk1, hm r k hkN]

theorem LUInv_eliminate (A : Nat → α) (N i : Nat) (m : Nat → α) (p : Nat → Nat)
    (h : LUInv A N i m p) (hi : i < N)
    (hpiv : ∀ r, i < r → r < N → m (i * N + i) = 0 → m (r * N + i) = 0) :
    LUInv A N (i + 1) (eliminate N i m) p := by
  intro r c hr hc
  have hrow : ∀ k, k ≤ i → ∀ c', c' < N → eliminate N i m (k * N + c') = m (k * N + c') := by
    intro k hk c' hc'
    rw [eliminate_apply m N i k c' hi hc', if_neg (by omega)]
  have hU : ∀ k, k ≤ i → upperEntry (eliminate N i m) N k c = upperEntry m N k c := by
    intro k hk
    unfold upperEntry
    rw [hrow k hk c hc]
  rw [h r c hr hc]
  by_cases hri : r ≤ i
  · have e1 : min (i + 1) r = r := by omega
    have e2 : min i r = r := by omega
    rw [e1, e2, hrow r hri c hc]
    congr 1
    apply Finset.sum_congr rfl
    intro k hk
    have hk1 : k < r := Finset.mem_range.mp hk
    rw [hU k (by omega), hrow r hri k (by omega)]
  · have hir : i < r := by omega
    have e1 : min (i + 1) r = i + 1 := by omega
    have e2 : min i r = i := by omega
    rw [e1, e2, Finset.sum_range_succ, hU i (le_refl i)]
    have hsum : ∑ k in Finset.range i, eliminate N i m (r * N + k) * upperEntry (eliminate N i m) N k c
        = ∑ k in Finset.range i, m (r * N + k) * upperEntry m N k c := by
      apply Finset.sum_congr rfl
      intro k hk
      have hk1 : k < i := Finset.mem_range.mp hk
      rw [hU k (by omega), eliminate_apply m N i r k hi (by omega), if_pos ⟨hir, hr⟩]
      unfold elimEntry
      rw [if_neg (by omega), if_neg (by omega)]
    rw [hsum, add_assoc]
    congr 1
    have e3 : eliminate N i m (r * N + i) = m (r * N + i) / m (i * N + i) := by
      rw [eliminate_apply m N i r i hi hi, if_pos (And.intro hir hr)]
      simp [elimEntry]
    have e4 : eliminate N i m (r * N + c) = elimEntry m N i r c := by
      rw [eliminate_apply m N i r c hi hc, if_pos (And.intro hir hr)]
    rw [e3, e4]
    unfold elimEntry upperEntry
    rcases Nat.lt_trichotomy c i with hci | hci | hci
    · have h1 : ¬ i ≤ c := by omega
      have h2 : ¬ i + 1 ≤ c := by omega
      simp [h1, h2]
    · subst hci
      have h2 : ¬ c + 1 ≤ c := by omega
      simp only [le_refl, if_true, h2, if_false, add_zero]
      by_cases hz : m (c * N + c) = 0
      · rw [hpiv r hir hr hz, hz]; simp
      · field_simp
    · have h1 : i ≤ c := by omega
      have h2 : i + 1 ≤ c := by omega
      have h3 : c ≠ i := by omega
      simp only [h1, h2, h3, hci, if_true, if_false]
      ring

theorem LUInv_init (A : Nat → α) (N : Nat) (p : Nat → Nat) (hp : ∀ r, r < N → p r = r) :
    LUInv A N 0 A p := by
  intro r c hr hc
  simp [hp r hr]

/-- One pivot step keeps the invariant. -/
theorem LUInv_step (A : Nat → α) (N i : Nat) (m : Nat → α) (p : Nat → Nat)
    (h : LUInv A N i m p) (hi : i < N) :
    LUInv A N (i + 1)
      (eliminate N i
        (if (find_pivot m N i).2 ≠ i then swap_rows m N i (find_pivot m N i).2 else m))
      (if (find_pivot m N i).2 ≠ i then swap_entries p i (find_pivot m N i).2 else p) := by
  obtain ⟨h1, h2, h3, h4⟩ := find_pivot_spec m N i hi
  generalize (find_pivot m N i).2 = mi at h1 h2 h3 h4
  generalize (find_pivot m N i).1 = mv at h3 h4
  have hm : ∀ r c, c < N →
      (if mi ≠ i then swap_rows m N i mi else m) (r * N + c) = m (swapIdx i mi r * N + c) := by
    intro r c hc
    by_cases hne : mi = i
    · subst hne
      have : swapIdx mi mi r = r := by
        unfold swapIdx
        by_cases e : r = mi
        · rw [if_pos e]; exact e.symm
        · rw [if_neg e, if_neg e]
      simp [this]
    · rw [if_pos hne, swap_rows_apply m N i mi r c hc]
      unfold swapIdx
      split_ifs <;> rfl
  have hp : ∀ r, (if mi ≠ i then swap_entries p i mi else p) r = p (swapIdx i mi r) := by
    intro r
    by_cases hne : mi = i
    · subst hne
      have : swapIdx mi mi r = r := by
        unfold swapIdx
        by_cases e : r = mi
        · rw [if_pos e]; exact e.symm
        · rw [if_neg e, if_neg e]
      simp [this]
    · rw [if_pos hne, swap_entries_apply]
      unfold swapIdx
      split_ifs <;> rfl
  have hinv := LUInv_swap A N i mi m _ p _ h h1 h2 hm hp
  apply LUInv_eliminate A N i _ _ hinv hi
  intro r hir hr hz
  have hii : swapIdx i mi i = mi := by
    unfold swapIdx
    by_cases e : i = mi
    · rw [if_pos e]; exact e
    · rw [if_neg e, if_pos rfl]
  rw [hm i i hi, hii] at hz
  rw [hm r i hi]
  have hσ : i ≤ swapIdx i mi r ∧ swapIdx i mi r < N := by
    unfold swapIdx; split_ifs <;> omega
  have := h4 _ hσ.1 hσ.2
  rw [h3, hz, abs_zero] at this
  exact abs_eq_zero.mp (le_antisymm this (abs_nonneg _))

theorem decompose_steps_LUInv (A : Nat → α) (N : Nat) (Tol : α) (n i : Nat) (m : Nat → α)
    (p : Nat → Nat) (hn : i + n = N) (h : LUInv A N i m p)
    (hret : (decompose_steps N Tol n i m p).ret = 1) :
    LUInv A N N (decompose_steps N Tol n i m p).matrix
      (decompose_steps N Tol n i m p).permutation_vector := by
  induction n generalizing i m p with
  | zero =>
    have : i = N := by omega
    subst this
    simpa [decompose_steps] using h
  | succ n ih =>
    rw [decompose_steps] at hret ⊢
    dsimp only at hret ⊢
    by_cases hT : (find_pivot m N i).1 < Tol
    · rw [if_pos hT] at hret
      simp at hret
    · rw [if_neg hT] at hret ⊢
      exact ih (i + 1) _ _ (by omega) (LUInv_step A N i m p h (by omega)) hret

/-- The rows above the current pivot row are final: the pivot selected in step `i` stays
at the diagonal position `(i, i)`. -/
theorem decompose_steps_rows_kept (N : Nat) (Tol : α) (n i : Nat) (m : Nat → α)
    (p : Nat → Nat) (hn : i + n = N) (r c : Nat) (hr : r < i) (hc : c < N) :
    (decompose_steps N Tol n i m p).matrix (r * N + c) = m (r * N + c) := by
  induction n generalizing i m p with
  | zero => rfl
  | succ n ih =>
    rw [decompose_steps]
    dsimp only
    by_cases hT : (find_pivot m N i).1 < Tol
    · rw [if_pos hT]
    · rw [if_neg hT, ih (i + 1) _ _ (by omega) (by omega),
        eliminate_apply _ N i r c (by omega) hc, if_neg (by omega)]
      by_cases hne : (find_pivot m N i).2 = i
      · rw [if_neg (not_not.mpr hne)]
      · rw [if_pos hne, swap_rows_apply m N i _ r c hc]
        have h1 := (find_pivot_spec m N i (by omega)).1
        rw [if_neg (by omega), if_neg (by omega)]

theorem decompose_steps_ret (N : Nat) (Tol : α) (hT : Tol ≤ 0) (n i : Nat) (m : Nat → α)
    (p : Nat → Nat) : (decompose_steps N Tol n i m p).ret = 1 := by
  induction n generalizing i m p with
  | zero => simp [decompose_steps]
  | succ n ih =>
    rw [decompose_steps]
    dsimp only
    rw [if_neg (not_lt.mpr (le_trans hT (find_pivot_nonneg m N i)))]
    exact ih _ _ _

/-! ### The permutation vector -/

theorem PermInv_swap {N : Nat} {p : Nat → Nat} (h : PermInv N p) {i mi : Nat} (hi : i < N)
    (hmi : mi < N) : PermInv N (swap_entries p i mi) := by
  obtain ⟨σ, h1, h2⟩ := h
  refine ⟨(Equiv.swap i mi).trans σ, ?_, ?_⟩
  · intro k hk
    have : Equiv.swap i mi k = k := Equiv.swap_apply_of_ne_of_ne (by omega) (by omega)
    simp [this, h1 k hk]
  · intro k hk
    rw [swap_entries_apply, Equiv.trans_apply]
    by_cases e1 : k = mi
    · subst e1; rw [if_pos rfl, Equiv.swap_apply_right, h2 i hi]
    · by_cases e2 : k = i
      · subst e2; rw [if_neg e1, if_pos rfl, Equiv.swap_apply_left, h2 mi hmi]
      · rw [if_neg e1, if_neg e2, Equiv.swap_apply_of_ne_of_ne e2 e1, h2 k hk]

theorem PermInv_fill (N : Nat) (p : Nat → Nat) : PermInv N (fill N (fun i => i) p) :=
  ⟨Equiv.refl Nat, fun _ _ => rfl, fun k hk => by simp [fill_apply, hk]⟩

theorem PermInv_surj {N : Nat} {p : Nat → Nat} (h : PermInv N p) (i : Nat) (hi : i < N) :
    ∃ r, r < N ∧ p r = i := by
  obtain ⟨σ, h1, h2⟩ := h
  have hr : σ.symm i < N := by
    by_contra hge
    have := h1 (σ.symm i) (not_lt.mp hge)
    rw [Equiv.apply_symm_apply] at this
    omega
  exact ⟨σ.symm i, hr, by rw [h2 _ hr, Equiv.apply_symm_apply]⟩

theorem PermInv_lt {N : Nat} {p : Nat → Nat} (h : PermInv N p) (k : Nat) (hk : k < N) :
    p k < N := by
  obtain ⟨σ, h1, h2⟩ := h
  rw [h2 k hk]
  by_contra hge
  have := h1 (σ k) (not_lt.mp hge)
  have := σ.injective this
  omega

theorem PermInv_perm {N : Nat} {p : Nat → Nat} (h : PermInv N p) :
    List.Perm ((List.range N).map p) (List.range N) := by
  have hlt := PermInv_lt h
  have hsurj := PermInv_surj h
  obtain ⟨σ, h1, h2⟩ := h
  have hmap : (List.range N).map p = (List.range N).map σ := by
    apply List.map_congr_left
    intro k hk
    exact h2 k (List.mem_range.mp hk)
  have hnd : ((List.range N).map p).Nodup := by
    rw [hmap]
    exact (List.nodup_range N).map σ.injective
  rw [List.perm_ext_iff_of_nodup hnd (List.nodup_range N)]
  intro a
  rw [List.mem_map, List.mem_range]
  constructor
  · rintro ⟨k, hk, rfl⟩
    exact hlt k (List.mem_range.mp hk)
  · intro ha
    obtain ⟨r, hr, hpr⟩ := hsurj a ha
    exact ⟨r, List.mem_range.mpr hr, hpr⟩

theorem decompose_steps_PermInv (N : Nat) (Tol : α) (n i : Nat) (m : Nat → α)
    (p : Nat → Nat) (hn : i + n = N) (h : PermInv N p) :
    PermInv N (decompose_steps N Tol n i m p).permutation_vector := by
  induction n generalizing i m p with
  | zero => simpa [decompose_steps] using h
  | succ n ih =>
    rw [decompose_steps]
    dsimp only
    by_cases hT : (find_pivot m N i).1 < Tol
    · rw [if_pos hT]; exact h
    · rw [if_neg hT]
      apply ih (i + 1) _ _ (by omega)
      by_cases hne : (find_pivot m N i).2 = i
      · rw [if_neg (not_not.mpr hne)]; exact h
      · rw [if_pos hne]
        exact PermInv_swap h (by omega) (find_pivot_spec m N i (by omega)).2.1

/-! ### The factors -/

theorem sum_range_of_zero_above {N a : Nat} (ha : a ≤ N) (f : Nat → α)
    (hf : ∀ k, a ≤ k → k < N → f k = 0) :
    ∑ k in Finset.range N, f k = ∑ k in Finset.range a, f k := by
  symm
  apply Finset.sum_subset (Finset.range_subset.mpr ha)
  intro k hk hk'
  exact hf k (not_lt.mp (fun h => hk' (Finset.mem_range.mpr h))) (Finset.mem_range.mp hk)

theorem LUInv_final {A : Nat → α} {N : Nat} {m : Nat → α} {p : Nat → Nat}
    (h : LUInv A N N m p) (r c : Nat) (hr : r < N) (hc : c < N) :
    ∑ k in Finset.range N, lowerEntry m N r k * upperEntry m N k c = A (p r * N + c) := by
  rw [h r c hr hc, sum_range_of_zero_above (Nat.succ_le_of_lt hr)
    (fun k => lowerEntry m N r k * upperEntry m N k c)
    (fun k hk _ => by
      have h1 : ¬ k < r := by omega
      have h2 : ¬ k = r := by omega
      simp [lowerEntry, h1, h2]),
    Finset.sum_range_succ]
  have e : min N r = r := by omega
  rw [e]
  congr 1
  · apply Finset.sum_congr rfl
    intro k hk
    unfold lowerEntry
    rw [if_pos (Finset.mem_range.mp hk)]
  · unfold lowerEntry upperEntry
    simp

/-! ### Substitution -/

theorem forward_substitution_spec (M : Nat → α) (P : Nat → Nat) (b : Nat → α) (N : Nat)
    (x0 : Nat → α) : IsForward M P b N (forward_substitution M P b N x0) := by
  unfold forward_substitution
  exact forRange_induction _
    (fun I (t : Nat → α) =>
      ∀ i, i < I → t i = b (P i) - ∑ k in Finset.range i, M (i * N + k) * t k)
    (Nat.zero_le N) x0 (fun i hi => absurd hi (Nat.not_lt_zero i))
    (by
      intro i t _ _ ht i' hi'
      have hsum : ∀ j, j ≤ i → ∀ v : α,
          ∑ k in Finset.range j, M (j * N + k) * (Function.update t i v) k
          = ∑ k in Finset.range j, M (j * N + k) * t k := by
        intro j hj v
        apply Finset.sum_congr rfl
        intro k hk
        have : k ≠ i := by have := Finset.mem_range.mp hk; omega
        rw [Function.update_noteq this]
      by_cases e : i' = i
      · subst e
        simp only [Function.update_same, accumulate_zero_eq_sum, Function.update_idem]
        rw [hsum i' (le_refl _), hsum i' (le_refl _)]
      · have hlt : i' < i := by omega
        simp only [Function.update_idem]
        rw [Function.update_noteq e, hsum i' (le_of_lt hlt), ht i' hlt])

theorem back_substitution_spec (M : Nat → α) (N : Nat) (y : Nat → α) :
    IsBackward M N y (back_substitution M N y) := by
  intro i hi
  unfold back_substitution
  have key := forDown_induction
    (fun i (solution : Nat → α) =>
      let sum := accumulate (i + 1) N (fun k => M (i * N + k) * solution k)
      Function.update solution i ((solution i - sum) / M (i * N + i)))
    (fun I (t : Nat → α) => (∀ r, r < I → t r = y r) ∧ ∀ r, I ≤ r → r < N →
      t r = (y r - ∑ k in Finset.Ico (r + 1) N, M (r * N + k) * t k) / M (r * N + r))
    N y ⟨fun _ _ => rfl, fun r h1 h2 => absurd h2 (not_lt.mpr h1)⟩
    (by
      intro i t hi ⟨h1, h2⟩
      have hsum : ∀ j, i ≤ j → ∀ v : α,
          ∑ k in Finset.Ico (j + 1) N, M (j * N + k) * (Function.update t i v) k
          = ∑ k in Finset.Ico (j + 1) N, M (j * N + k) * t k := by
        intro j hj v
        apply Finset.sum_congr rfl
        intro k hk
        have : k ≠ i := by have := (Finset.mem_Ico.mp hk).1; omega
        rw [Function.update_noteq this]
      constructor
      · intro r hr
        dsimp only
        rw [Function.update_noteq (by omega), h1 r (by omega)]
      · intro r hr hrN
        dsimp only
        rw [hsum r hr]
        by_cases e : r = i
        · subst e
          rw [Function.update_same, accumulate_eq_sum, h1 r (Nat.lt_succ_self r)]
        · rw [Function.update_noteq e]
          exact h2 r (by omega) hrN)
  exact key.2 i (Nat.zero_le i) hi

theorem solve_LUP_spec (M : Nat → α) (P : Nat → Nat) (b : Nat → α) (N : Nat) (x0 : Nat → α) :
    ∃ y, IsForward M P b N y ∧ IsBackward M N y (solve_LUP M P b N x0) :=
  ⟨_, forward_substitution_spec M P b N x0, back_substitution_spec M N _⟩

theorem upper_mul_solution {M : Nat → α} {N : Nat} {y x : Nat → α}
    (hb : IsBackward M N y x) (k : Nat) (hk : k < N) (hd : M (k * N + k) ≠ 0) :
    ∑ c in Finset.range N, upperEntry M N k c * x c = y k := by
  have h1 : ∑ c in Finset.range N, upperEntry M N k c * x c
      = ∑ c in Finset.Ico k N, M (k * N + c) * x c := by
    rw [Finset.range_eq_Ico]
    symm
    have hsub : Finset.Ico k N ⊆ Finset.Ico 0 N := by
      intro c hc
      rw [Finset.mem_Ico] at hc ⊢
      omega
    rw [← Finset.sum_subset hsub (f := fun c => upperEntry M N k c * x c)]
    · apply Finset.sum_congr rfl
      intro c hc
      have := (Finset.mem_Ico.mp hc).1
      simp [upperEntry, this]
    · intro c hc hc'
      have h3 : ¬ k ≤ c := by
        intro hkc
        apply hc'
        rw [Finset.mem_Ico] at hc ⊢
        omega
      simp [upperEntry, h3]
  rw [h1, Finset.sum_eq_sum_Ico_succ_bot hk, hb k hk]
  field_simp

theorem lower_mul_forward {M : Nat → α} {P : Nat → Nat} {b : Nat → α} {N : Nat} {y : Nat → α}
    (hf : IsForward M P b N y) (r : Nat) (hr : r < N) :
    ∑ k in Finset.range N, lowerEntry M N r k * y k = b (P r) := by
  rw [sum_range_of_zero_above (Nat.succ_le_of_lt hr) (fun k => lowerEntry M N r k * y k)
    (fun k hk _ => by
      have h1 : ¬ k < r := by omega
      have h2 : ¬ k = r := by omega
      simp [lowerEntry, h1, h2]),
    Finset.sum_range_succ, hf r hr]
  have : ∑ k in Finset.range r, lowerEntry M N r k * y k
      = ∑ k in Finset.range r, M (r * N + k) * y k := by
    apply Finset.sum_congr rfl
    intro k hk
    simp [lowerEntry, Finset.mem_range.mp hk]
  rw [this]
  simp [lowerEntry]

/-- What a factorisation with non-zero diagonal and `solve_LUP` give together: the
solution satisfies every equation of the original system. -/
theorem solve_of_LUInv {A M : Nat → α} {N : Nat} {P : Nat → Nat}
    (hLU : LUInv A N N M P) (hP : PermInv N P) (hd : ∀ k, k < N → M (k * N + k) ≠ 0)
    (b x0 : Nat → α) (i : Nat) (hi : i < N) :
    ∑ j in Finset.range N, A (i * N + j) * solve_LUP M P b N x0 j = b i := by
  obtain ⟨y, hf, hb⟩ := solve_LUP_spec M P b N x0
  obtain ⟨r, hr, hPr⟩ := PermInv_surj hP i hi
  subst hPr
  generalize solve_LUP M P b N x0 = x at hb ⊢
  have h1 : ∑ j in Finset.range N, A (P r * N + j) * x j
      = ∑ j in Finset.range N,
          (∑ k in Finset.range N, lowerEntry M N r k * upperEntry M N k j) * x j := by
    apply Finset.sum_congr rfl
    intro j hj
    rw [LUInv_final hLU r j hr (Finset.mem_range.mp hj)]
  rw [h1]
  simp only [Finset.sum_mul]
  rw [Finset.sum_comm]
  have h2 : ∀ k ∈ Finset.range N,
      ∑ j in Finset.range N, lowerEntry M N r k * upperEntry M N k j * x j
        = lowerEntry M N r k * y k := by
    intro k hk
    rw [← upper_mul_solution hb k (Finset.mem_range.mp hk) (hd k (Finset.mem_range.mp hk)),
      Finset.mul_sum]
    apply Finset.sum_congr rfl
    intro j _
    ring
  rw [Finset.sum_congr rfl h2]
  exact lower_mul_forward hf r hr

/-! ### Non-singular input -/

theorem diag_ne_zero_of_det {A M : Nat → α} {N : Nat} {P : Nat → Nat}
    (hLU : LUInv A N N M P) (hP : PermInv N P) (hdet : (toMatrix N A).det ≠ 0) :
    ∀ d, d < N → M (d * N + d) ≠ 0 := by
  intro d hd hzero
  let U : Matrix (Fin N) (Fin N) α := fun k c => upperEntry M N k.val c.val
  have htri : U.BlockTriangular id := by
    intro i j hij
    have : ¬ i.val ≤ j.val := not_le.mpr hij
    show upperEntry M N i.val j.val = 0
    unfold upperEntry
    rw [if_neg this]
  have hdetU : U.det = 0 := by
    rw [Matrix.det_of_upperTriangular htri]
    apply Finset.prod_eq_zero (Finset.mem_univ (⟨d, hd⟩ : Fin N))
    simp [U, upperEntry, hzero]
  obtain ⟨v, hv0, hv⟩ := Matrix.exists_mulVec_eq_zero_iff.mpr hdetU
  apply hv0
  apply Matrix.eq_zero_of_mulVec_eq_zero hdet
  funext i
  obtain ⟨r, hr, hPr⟩ := PermInv_surj hP i.val i.isLt
  have hUv : ∀ k : Fin N, ∑ c : Fin N, upperEntry M N k.val c.val * v c = 0 := by
    intro k
    have := congrFun hv k
    simpa [Matrix.mulVec, Matrix.dotProduct, U] using this
  show ∑ j : Fin N, A (i.val * N + j.val) * v j = 0
  have h1 : ∀ j : Fin N, A (i.val * N + j.val)
      = ∑ k : Fin N, lowerEntry M N r k.val * upperEntry M N k.val j.val := by
    intro j
    rw [← hPr, ← LUInv_final hLU r j.val hr j.isLt,
      ← Fin.sum_univ_eq_sum_range (fun k => lowerEntry M N r k * upperEntry M N k j.val) N]
  simp only [h1, Finset.sum_mul]
  rw [Finset.sum_comm]
  apply Finset.sum_eq_zero
  intro k _
  have : ∑ j : Fin N, lowerEntry M N r k.val * upperEntry M N k.val j.val * v j
      = lowerEntry M N r k.val * ∑ j : Fin N, upperEntry M N k.val j.val * v j := by
    rw [Finset.mul_sum]
    apply Finset.sum_congr rfl
    intro j _
    ring
  rw [this, hUv k, mul_zero]

theorem decompose_LUP_LUInv (A : Nat → α) (N : Nat) (Tol : α) (p0 : Nat → Nat)
    (hret : (decompose_LUP A N Tol p0).ret = 1) :
    LUInv A N N (decompose_LUP A N Tol p0).matrix (decompose_LUP A N Tol p0).permutation_vector :=
  decompose_steps_LUInv A N Tol N 0 A _ (Nat.zero_add N)
    (LUInv_init A N _ (fun r hr => by simp [fill_apply, hr])) hret

theorem decompose_LUP_PermInv (A : Nat → α) (N : Nat) (Tol : α) (p0 : Nat → Nat) :
    PermInv N (decompose_LUP A N Tol p0).permutation_vector :=
  decompose_steps_PermInv N Tol N 0 A _ (Nat.zero_add N) (PermInv_fill N p0)

theorem decompose_LUP_ret (A : Nat → α) (N : Nat) (p0 : Nat → Nat) :
    (decompose_LUP A N 0 p0).ret = 1 :=
  decompose_steps_ret N 0 (le_refl 0) N 0 A _

/-! ### Inversion, column by column -/

theorem invert_subtract_eq (M : Nat → α) (N i j lo hi : Nat) (w : Nat → α) (hj : j < N)
    (hne : ∀ k, lo ≤ k → k < hi → k ≠ i) :
    invert_subtract M N i j lo hi w
      = Function.update w (i * N + j)
          (w (i * N + j) - ∑ k in Finset.Ico lo hi, M (i * N + k) * w (k * N + j)) := by
  unfold invert_subtract
  rcases Nat.le_total lo hi with h | h
  · refine forRange_induction _
      (fun K (t : Nat → α) => t = Function.update w (i * N + j)
          (w (i * N + j) - ∑ k in Finset.Ico lo K, M (i * N + k) * w (k * N + j)))
      h w (by simp) ?_
    intro k t hk hkhi ht
    have hki : k * N + j ≠ i * N + j := by
      intro e
      exact hne k hk hkhi ((idx_inj hj hj).mp e).1
    subst ht
    simp only [Function.update_same, Function.update_noteq hki, Function.update_idem]
    rw [Finset.sum_Ico_succ_top hk, sub_sub]
  · rw [forRange_of_le _ h, Finset.Ico_eq_empty_of_le h]
    simp

theorem invert_forward_rel (M : Nat → α) (P : Nat → Nat) (N j : Nat) (hj : j < N)
    (w0 x0 : Nat → α) :
    ColRel N j w0 N (invert_forward M P N j w0)
      (forward_substitution M P (unit_vector j) N x0) := by
  unfold invert_forward forward_substitution
  refine forRange_rel _ _ (fun I w t => ColRel N j w0 I w t) (Nat.zero_le N) w0 x0
    ⟨fun i hi => absurd hi (Nat.not_lt_zero i), fun _ _ => rfl⟩ ?_
  rintro i w t _ hiN ⟨h1, h2⟩
  have hw : (if P i = j then Function.update w (i * N + j) (1 : α)
      else Function.update w (i * N + j) 0)
      = Function.update w (i * N + j) (unit_vector j (P i)) := by
    unfold unit_vector
    split_ifs <;> rfl
  have hw' : invert_subtract M N i j 0 i
      (if P i = j then Function.update w (i * N + j) (1 : α)
        else Function.update w (i * N + j) 0)
      = Function.update w (i * N + j)
          (unit_vector j (P i) - ∑ k in Finset.range i, M (i * N + k) * t k) := by
    rw [hw, invert_subtract_eq M N i j 0 i _ hj (fun k _ hk => by omega)]
    simp only [Function.update_same, Function.update_idem, Finset.range_eq_Ico]
    have hs : ∑ k in Finset.Ico 0 i,
        M (i * N + k) * Function.update w (i * N + j) (unit_vector j (P i)) (k * N + j)
        = ∑ k in Finset.Ico 0 i, M (i * N + k) * t k := by
      apply Finset.sum_congr rfl
      intro k hk
      have hki : k < i := (Finset.mem_Ico.mp hk).2
      have : k * N + j ≠ i * N + j := by
        intro e
        have := ((idx_inj hj hj).mp e).1
        omega
      rw [Function.update_noteq this, h1 k hki]
    rw [hs]
  have ht' : (let solution := Function.update t i (unit_vector j (P i))
      let sum := accumulate 0 i (fun k => M (i * N + k) * solution k)
      Function.update solution i (solution i - sum))
      = Function.update t i
          (unit_vector j (P i) - ∑ k in Finset.range i, M (i * N + k) * t k) := by
    simp only [Function.update_same, Function.update_idem, accumulate_zero_eq_sum]
    have hs : ∑ k in Finset.range i,
        M (i * N + k) * Function.update t i (unit_vector j (P i)) k
        = ∑ k in Finset.range i, M (i * N + k) * t k := by
      apply Finset.sum_congr rfl
      intro k hk
      have : k ≠ i := by have := Finset.mem_range.mp hk; omega
      rw [Function.update_noteq this]
    rw [hs]
  rw [hw', ht']
  constructor
  · intro i' hi'
    by_cases e : i' = i
    · subst e; simp
    · have : i' * N + j ≠ i * N + j := by
        intro e'
        exact e ((idx_inj hj hj).mp e').1
      rw [Function.update_noteq this, Function.update_noteq e, h1 i' (by omega)]
  · intro idx hidx
    rw [Function.update_noteq (hidx i hiN), h2 idx hidx]

theorem invert_backward_rel (M : Nat → α) (N j : Nat) (hj : j < N) (w0 w y : Nat → α)
    (h : ColRel N j w0 N w y) :
    ColRel N j w0 N (invert_backward M N j w) (back_substitution M N y) := by
  unfold invert_backward back_substitution
  refine forDown_rel _ _ (fun w t => ColRel N j w0 N w t) N w y h ?_
  rintro i w t hiN ⟨h1, h2⟩
  have hsum : ∑ k in Finset.Ico (i + 1) N, M (i * N + k) * w (k * N + j)
      = ∑ k in Finset.Ico (i + 1) N, M (i * N + k) * t k := by
    apply Finset.sum_congr rfl
    intro k hk
    rw [h1 k (Finset.mem_Ico.mp hk).2]
  dsimp only
  rw [invert_subtract_eq M N i j (i + 1) N w hj (fun k hk _ => by omega)]
  simp only [Function.update_same, Function.update_idem, accumulate_eq_sum]
  rw [hsum, h1 i hiN]
  constructor
  · intro i' hi'
    by_cases e : i' = i
    · subst e; simp
    · have : i' * N + j ≠ i * N + j := by
        intro e'
        exact e ((idx_inj hj hj).mp e').1
      rw [Function.update_noteq this, Function.update_noteq e, h1 i' hi']
  · intro idx hidx
    rw [Function.update_noteq (hidx i hiN), h2 idx hidx]

theorem invert_column_rel (M : Nat → α) (P : Nat → Nat) (N j : Nat) (hj : j < N)
    (w0 x0 : Nat → α) :
    ColRel N j w0 N (invert_backward M N j (invert_forward M P N j w0))
      (solve_LUP M P (unit_vector j) N x0) :=
  invert_backward_rel M N j hj w0 _ _ (invert_forward_rel M P N j hj w0 x0)

theorem invert_LUP_column (M : Nat → α) (P : Nat → Nat) (N : Nat) (inverse x0 : Nat → α)
    (i j : Nat) (hi : i < N) (hj : j < N) :
    invert_LUP M P N inverse (i * N + j) = solve_LUP M P (unit_vector j) N x0 i := by
  unfold invert_LUP
  have key := forRange_induction
    (fun j inverse => invert_backward M N j (invert_forward M P N j inverse))
    (fun J (w : Nat → α) => ∀ j, j < J → ∀ i, i < N →
      w (i * N + j) = solve_LUP M P (unit_vector j) N x0 i)
    (Nat.zero_le N) inverse (fun j hj => absurd hj (Nat.not_lt_zero j))
    (by
      intro J w _ hJN hw j hj i hi
      have hrel := invert_column_rel M P N J hJN w x0
      beta_reduce
      by_cases e : j = J
      · subst e
        exact hrel.1 i hi
      · have hjN : j < N := by omega
        rw [hrel.2 (i * N + j) (fun i' _ e' => e ((idx_inj hjN hJN).mp e').2)]
        exact hw j (by omega) i hi)
  exact key j hj i hi

/-! ## Objective assembly -/

theorem hessian_term_comm (s : LMFitCPP α) (d c : Nat → α) (a b i : Nat) :
    hessian_term s d c a b i = hessian_term s d c b a i := by
  unfold hessian_term
  cases s.info_.estimator_id_ with
  | LSE =>
    cases s.weight_ with
    | none => dsimp only; ring
    | some w => dsimp only; ring
  | MLE => dsimp only; ring

theorem hessian_sum_comm (s : LMFitCPP α) (d c : Nat → α) (p q : Nat) :
    hessian_sum s d c p q = hessian_sum s d c q p := by
  unfold hessian_sum
  congr 1
  funext i
  exact hessian_term_comm s d c _ _ i

theorem calculate_hessian_row_spec (s : LMFitCPP α) (d c : Nat → α) (jp : Nat) (H : Nat → α)
    (hjp : s.parameters_to_fit_ jp = true)
    (hK : free_count s.parameters_to_fit_ (jp + 1) ≤ s.info_.n_parameters_to_fit_) :
    (∀ p, p ≤ jp → s.parameters_to_fit_ p = true →
      calculate_hessian_row s d c jp (free_count s.parameters_to_fit_ jp) H
          (free_count s.parameters_to_fit_ p * s.info_.n_parameters_to_fit_
            + free_count s.parameters_to_fit_ jp) = hessian_sum s d c p jp
        ∧ calculate_hessian_row s d c jp (free_count s.parameters_to_fit_ jp) H
          (free_count s.parameters_to_fit_ jp * s.info_.n_parameters_to_fit_
            + free_count s.parameters_to_fit_ p) = hessian_sum s d c p jp)
    ∧ ∀ idx, (∀ p, p ≤ jp → s.parameters_to_fit_ p = true →
        idx ≠ free_count s.parameters_to_fit_ p * s.info_.n_parameters_to_fit_
            + free_count s.parameters_to_fit_ jp
        ∧ idx ≠ free_count s.parameters_to_fit_ jp * s.info_.n_parameters_to_fit_
            + free_count s.parameters_to_fit_ p) →
      calculate_hessian_row s d c jp (free_count s.parameters_to_fit_ jp) H idx = H idx := by
  generalize hmask : s.parameters_to_fit_ = mask at *
  generalize hKdef : s.info_.n_parameters_to_fit_ = K at *
  have hcnt : ∀ p, p ≤ jp → mask p = true → free_count mask p < K := by
    intro p hp hm
    have := free_count_lt mask (show p < jp + 1 by omega) hm
    omega
  have hjK := hcnt jp (le_refl jp) hjp
  unfold calculate_hessian_row
  rw [hmask, hKdef]
  have key := forRange_induction
    (fun ip (st : Nat × (Nat → α)) =>
      let ihessian := st.1
      let hessian := st.2
      if mask ip then
        let ijhessian := ihessian * K + free_count mask jp
        let jihessian := free_count mask jp * K + ihessian
        let derivatives_index_i := ip * s.info_.n_points_
        let derivatives_index_j := jp * s.info_.n_points_
        let sum := accumulate 0 s.info_.n_points_
          (hessian_term s d c derivatives_index_i derivatives_index_j)
        let hessian := Function.update hessian ijhessian sum
        let hessian :=
          if ijhessian ≠ jihessian then Function.update hessian jihessian (hessian ijhessian)
          else hessian
        (ihessian + 1, hessian)
      else st)
    (fun I (st : Nat × (Nat → α)) => (I ≤ jp + 1 → st.1 = free_count mask I)
      ∧ (∀ p, p < I → p ≤ jp → mask p = true →
          st.2 (free_count mask p * K + free_count mask jp) = hessian_sum s d c p jp
          ∧ st.2 (free_count mask jp * K + free_count mask p) = hessian_sum s d c p jp)
      ∧ ∀ idx, (∀ p, p < I → p ≤ jp → mask p = true →
          idx ≠ free_count mask p * K + free_count mask jp
          ∧ idx ≠ free_count mask jp * K + free_count mask p) → st.2 idx = H idx)
    (Nat.zero_le (jp + 1)) (0, H)
    ⟨fun _ => rfl, fun p hp => absurd hp (Nat.not_lt_zero p), fun _ _ => rfl⟩
    (by
      rintro ip ⟨ih, H'⟩ _ hip ⟨h1, h2, h3⟩
      have hipjp : ip ≤ jp := Nat.le_of_lt_succ hip
      have hih : ih = free_count mask ip := h1 (le_of_lt hip)
      subst hih
      dsimp only at h2 h3 ⊢
      by_cases hm : mask ip = true
      · rw [if_pos hm]
        dsimp only
        have hiK := hcnt ip hipjp hm
        have hH2 : (if free_count mask ip * K + free_count mask jp
              ≠ free_count mask jp * K + free_count mask ip then
            Function.update
              (Function.update H' (free_count mask ip * K + free_count mask jp)
                (hessian_sum s d c ip jp))
              (free_count mask jp * K + free_count mask ip)
              (Function.update H' (free_count mask ip * K + free_count mask jp)
                (hessian_sum s d c ip jp) (free_count mask ip * K + free_count mask jp))
            else Function.update H' (free_count mask ip * K + free_count mask jp)
                (hessian_sum s d c ip jp))
            = fun idx => if idx = free_count mask jp * K + free_count mask ip
                ∨ idx = free_count mask ip * K + free_count mask jp
              then hessian_sum s d c ip jp else H' idx := by
          funext idx
          by_cases e : free_count mask ip * K + free_count mask jp
              = free_count mask jp * K + free_count mask ip
          · rw [if_neg (not_not.mpr e), Function.update_apply]
            by_cases e1 : idx = free_count mask ip * K + free_count mask jp
            · simp [e1]
            · have e2 : idx ≠ free_count mask jp * K + free_count mask ip := by
                rw [← e]; exact e1
              simp [e1, e2]
          · rw [if_pos e]
            simp only [Function.update_apply, if_true]
            by_cases e1 : idx = free_count mask jp * K + free_count mask ip
            · simp [e1]
            · simp [e1]
        refine ⟨fun _ => by rw [free_count_succ, hm]; simp, ?_, ?_⟩
        · intro p hp hpjp hmp
          unfold hessian_sum at hH2
          rw [hH2]
          by_cases e : p = ip
          · subst e
            simp [hessian_sum]
          · have hlt : p < ip := by omega
            have hc1 : free_count mask p < free_count mask ip := free_count_lt mask hlt hmp
            have hc2 : free_count mask p < free_count mask jp :=
              free_count_lt mask (by omega) hmp
            have hpK := hcnt p hpjp hmp
            have n1 : ¬ (free_count mask p * K + free_count mask jp
                = free_count mask jp * K + free_count mask ip) := by
              rw [idx_inj hjK hiK]; omega
            have n2 : ¬ (free_count mask p * K + free_count mask jp
                = free_count mask ip * K + free_count mask jp) := by
              rw [idx_inj hjK hjK]; omega
            have n3 : ¬ (free_count mask jp * K + free_count mask p
                = free_count mask jp * K + free_count mask ip) := by
              rw [idx_inj hpK hiK]; omega
            have n4 : ¬ (free_count mask jp * K + free_count mask p
                = free_count mask ip * K + free_count mask jp) := by
              rw [idx_inj hpK hjK]; omega
            simp only [n1, n2, n3, n4, or_self, if_false]
            exact h2 p hlt hpjp hmp
        · intro idx hidx
          unfold hessian_sum at hH2
          rw [hH2]
          have := hidx ip (Nat.lt_succ_self ip) hipjp hm
          simp only [this.1, this.2, or_self, if_false]
          exact h3 idx (fun p hp hpjp hmp => hidx p (Nat.lt_succ_of_lt hp) hpjp hmp)
      · rw [if_neg hm]
        have hm' : mask ip = false := by simpa using hm
        refine ⟨fun _ => by rw [free_count_succ, hm']; simp, ?_, ?_⟩
        · intro p hp hpjp hmp
          have hlt : p < ip := by
            rcases Nat.lt_succ_iff_lt_or_eq.mp hp with h | h
            · exact h
            · subst h; exact absurd hmp hm
          exact h2 p hlt hpjp hmp
        · intro idx hidx
          apply h3 idx
          intro p hp hpjp hmp
          exact hidx p (Nat.lt_succ_of_lt hp) hpjp hmp)
  obtain ⟨_, k2, k3⟩ := key
  exact ⟨fun p hp hm => k2 p (Nat.lt_succ_of_le hp) hp hm,
    fun idx hidx => k3 idx (fun p _ hp hm => hidx p hp hm)⟩

theorem calculate_hessian_spec (s : LMFitCPP α) (d c : Nat → α)
    (hK : s.info_.n_parameters_to_fit_
      = free_count s.parameters_to_fit_ s.info_.n_parameters_)
    (p q : Nat) (hp : p < s.info_.n_parameters_) (hq : q < s.info_.n_parameters_)
    (hmp : s.parameters_to_fit_ p = true) (hmq : s.parameters_to_fit_ q = true) :
    (calculate_hessian s d c).hessian_
        (free_count s.parameters_to_fit_ p * s.info_.n_parameters_to_fit_
          + free_count s.parameters_to_fit_ q)
      = hessian_sum s d c p q := by
  unfold calculate_hessian
  dsimp only
  have key := forRange_induction
    (fun jp (st : Nat × (Nat → α)) =>
      let jhessian := st.1
      let hessian := st.2
      if s.parameters_to_fit_ jp then
        (jhessian + 1, calculate_hessian_row s d c jp jhessian hessian)
      else st)
    (fun J (st : Nat × (Nat → α)) => st.1 = free_count s.parameters_to_fit_ J
      ∧ ∀ p q, p < J → q < J → s.parameters_to_fit_ p = true → s.parameters_to_fit_ q = true →
        st.2 (free_count s.parameters_to_fit_ p * s.info_.n_parameters_to_fit_
          + free_count s.parameters_to_fit_ q) = hessian_sum s d c p q)
    (Nat.zero_le s.info_.n_parameters_) (0, s.hessian_)
    ⟨rfl, fun p _ hp => absurd hp (Nat.not_lt_zero p)⟩
    (by
      rintro jp ⟨jh, H⟩ _ hjp ⟨h1, h2⟩
      dsimp only at h1 h2 ⊢
      subst h1
      by_cases hm : s.parameters_to_fit_ jp = true
      · rw [if_pos hm]
        dsimp only
        have hle : free_count s.parameters_to_fit_ (jp + 1) ≤ s.info_.n_parameters_to_fit_ := by
          rw [hK]
          exact free_count_mono _ (Nat.succ_le_of_lt hjp)
        obtain ⟨r1, r2⟩ := calculate_hessian_row_spec s d c jp H hm hle
        have hcnt : ∀ p, p ≤ jp → s.parameters_to_fit_ p = true →
            free_count s.parameters_to_fit_ p < s.info_.n_parameters_to_fit_ := by
          intro p hp hmp
          have := free_count_lt s.parameters_to_fit_ (show p < jp + 1 by omega) hmp
          omega
        refine ⟨by rw [free_count_succ, hm]; simp, ?_⟩
        intro p q hp hq hmp hmq
        by_cases eq : q = jp
        · subst eq
          exact (r1 p (Nat.le_of_lt_succ hp) hmp).1
        · by_cases ep : p = jp
          · subst ep
            rw [hessian_sum_comm]
            exact (r1 q (Nat.le_of_lt_succ hq) hmq).2
          · have hpl : p < jp := by omega
            have hql : q < jp := by omega
            rw [r2]
            · exact h2 p q hpl hql hmp hmq
            · intro p' hp' hmp'
              have c1 := free_count_lt s.parameters_to_fit_ hpl hmp
              have c2 := free_count_lt s.parameters_to_fit_ hql hmq
              have k1 := hcnt q (le_of_lt hql) hmq
              have k2 := hcnt jp (le_refl jp) hm
              have k3 := hcnt p' hp' hmp'
              constructor
              · rw [Ne, idx_inj k1 k2]; omega
              · rw [Ne, idx_inj k1 k3]; omega
      · rw [if_neg hm]
        have hm' : s.parameters_to_fit_ jp = false := by simpa using hm
        refine ⟨by rw [free_count_succ, hm']; simp, ?_⟩
        intro p q hp hq hmp hmq
        have hpl : p < jp := by
          rcases Nat.lt_succ_iff_lt_or_eq.mp hp with h | h
          · exact h
          · subst h; exact absurd hmp hm
        have hql : q < jp := by
          rcases Nat.lt_succ_iff_lt_or_eq.mp hq with h | h
          · exact h
          · subst h; exact absurd hmq hm
        exact h2 p q hpl hql hmp hmq)
  exact key.2 p q hp hq hmp hmq

/-- The entry `(a, b)` of the Hessian is the sum for the `a`-th and `b`-th free
parameter. -/
theorem calculate_hessian_entry (s : LMFitCPP α) (d c : Nat → α)
    (hK : s.info_.n_parameters_to_fit_
      = (free_indices s.parameters_to_fit_ s.info_.n_parameters_).length)
    (a b : Nat) (ha : a < s.info_.n_parameters_to_fit_) (hb : b < s.info_.n_parameters_to_fit_) :
    (calculate_hessian s d c).hessian_ (a * s.info_.n_parameters_to_fit_ + b)
      = hessian_sum s d c
          ((free_indices s.parameters_to_fit_ s.info_.n_parameters_).getD a 0)
          ((free_indices s.parameters_to_fit_ s.info_.n_parameters_).getD b 0) := by
  obtain ⟨a1, a2, a3⟩ := free_indices_getD s.parameters_to_fit_ s.info_.n_parameters_ a
    (by rw [← hK]; exact ha)
  obtain ⟨b1, b2, b3⟩ := free_indices_getD s.parameters_to_fit_ s.info_.n_parameters_ b
    (by rw [← hK]; exact hb)
  have := calculate_hessian_spec s d c hK _ _ a2 b2 a1 b1
  rw [a3, b3] at this
  exact this

theorem calc_gradient_spec (s : LMFitCPP α) (d c : Nat → α)
    (p : Nat) (hp : p < s.info_.n_parameters_) (hmp : s.parameters_to_fit_ p = true) :
    (calc_gradient s d c).gradient_ (free_count s.parameters_to_fit_ p)
      = gradient_sum s d c p := by
  unfold calc_gradient
  dsimp only
  have key := forRange_induction
    (fun ip (st : Nat × (Nat → α)) =>
      let gradient_index := st.1
      let gradient := st.2
      if s.parameters_to_fit_ ip then
        let derivatives_index := ip * s.info_.n_points_
        let sum := accumulate 0 s.info_.n_points_
          (gradient_term s d c derivatives_index)
        (gradient_index + 1, Function.update gradient gradient_index sum)
      else st)
    (fun I (st : Nat × (Nat → α)) => st.1 = free_count s.parameters_to_fit_ I
      ∧ ∀ p, p < I → s.parameters_to_fit_ p = true →
        st.2 (free_count s.parameters_to_fit_ p) = gradient_sum s d c p)
    (Nat.zero_le s.info_.n_parameters_) (0, s.gradient_)
    ⟨rfl, fun p hp => absurd hp (Nat.not_lt_zero p)⟩
    (by
      rintro ip ⟨gi, g⟩ _ hip ⟨h1, h2⟩
      dsimp only at h1 h2 ⊢
      subst h1
      by_cases hm : s.parameters_to_fit_ ip = true
      · rw [if_pos hm]
        dsimp only
        refine ⟨by rw [free_count_succ, hm]; simp, ?_⟩
        intro p hp hmp
        by_cases e : p = ip
        · subst e
          simp [gradient_sum]
        · have hlt : p < ip := by omega
          have := free_count_lt s.parameters_to_fit_ hlt hmp
          rw [Function.update_noteq (by omega)]
          exact h2 p hlt hmp
      · rw [if_neg hm]
        have hm' : s.parameters_to_fit_ ip = false := by simpa using hm
        refine ⟨by rw [free_count_succ, hm']; simp, ?_⟩
        intro p hp hmp
        have hpl : p < ip := by
          rcases Nat.lt_succ_iff_lt_or_eq.mp hp with h | h
          · exact h
          · subst h; exact absurd hmp hm
        exact h2 p hpl hmp)
  exact key.2 p hp hmp

/-! ## Chi-square -/

theorem chi_square_sum_LSE (log : α → α) (s : LMFitCPP α) (values : Nat → α)
    (h : s.info_.estimator_id_ = Estimator.LSE) (n i : Nat) (sum : α) :
    ∃ v, chi_square_sum log s values n i sum = some v := by
  induction n generalizing i sum with
  | zero => exact ⟨sum, rfl⟩
  | succ n ih =>
    rw [chi_square_sum]
    simp only [h]
    cases s.weight_ with
    | none => exact ih _ _
    | some w => exact ih _ _

theorem chi_square_sum_MLE_none (log : α → α) (s : LMFitCPP α) (values : Nat → α)
    (h : s.info_.estimator_id_ = Estimator.MLE) (n i : Nat) (sum : α)
    (hex : ∃ k, i ≤ k ∧ k < i + n ∧ values k ≤ 0) :
    chi_square_sum log s values n i sum = none := by
  induction n generalizing i sum with
  | zero =>
    obtain ⟨k, h1, h2, _⟩ := hex
    omega
  | succ n ih =>
    rw [chi_square_sum]
    simp only [h]
    by_cases hv : values i ≤ 0
    · rw [if_pos hv]
    · rw [if_neg hv]
      obtain ⟨k, h1, h2, h3⟩ := hex
      have hk : i + 1 ≤ k := by
        rcases Nat.eq_or_lt_of_le h1 with e | e
        · subst e; exact absurd h3 hv
        · exact e
      split_ifs
      · exact ih _ _ ⟨k, hk, by omega, h3⟩
      · exact ih _ _ ⟨k, hk, by omega, h3⟩

theorem chi_square_sum_MLE_some (log : α → α) (s : LMFitCPP α) (values : Nat → α)
    (h : s.info_.estimator_id_ = Estimator.MLE) (n i : Nat) (sum : α)
    (hpos : ∀ k, i ≤ k → k < i + n → 0 < values k) :
    chi_square_sum log s values n i sum
      = some (sum + ∑ k in Finset.Ico i (i + n), deviance_term log s values k) := by
  induction n generalizing i sum with
  | zero => simp [chi_square_sum]
  | succ n ih =>
    rw [chi_square_sum]
    simp only [h]
    have hv : ¬ values i ≤ 0 := not_le.mpr (hpos i (le_refl i) (by omega))
    rw [if_neg hv]
    have hrest : ∀ k, i + 1 ≤ k → k < i + 1 + n → 0 < values k :=
      fun k h1 h2 => hpos k (by omega) (by omega)
    have hsplit : ∑ k in Finset.Ico i (i + (n + 1)), deviance_term log s values k
        = deviance_term log s values i
          + ∑ k in Finset.Ico (i + 1) (i + 1 + n), deviance_term log s values k := by
      have e : i + (n + 1) = i + 1 + n := by omega
      rw [e, Finset.sum_eq_sum_Ico_succ_bot (by omega)]
    rw [hsplit]
    by_cases hd : s.data_ i ≠ 0
    · rw [if_pos hd, ih _ _ hrest]
      simp only [deviance_term, if_pos hd]
      congr 1
      ring
    · rw [if_neg hd, ih _ _ hrest]
      simp only [deviance_term, if_neg hd]
      congr 1
      ring

/-! ## Fixed parameters -/

theorem SameParameters.refl (s : LMFitCPP α) : SameParameters s s := ⟨rfl, rfl, rfl, rfl⟩

theorem SameParameters.trans {s t u : LMFitCPP α} (h1 : SameParameters s t)
    (h2 : SameParameters t u) : SameParameters s u :=
  ⟨h2.1.trans h1.1, h2.2.1.trans h1.2.1, h2.2.2.1.trans h1.2.2.1, h2.2.2.2.trans h1.2.2.2⟩

theorem modify_step_width_same (s : LMFitCPP α) : SameParameters s (modify_step_width s) :=
  ⟨rfl, rfl, rfl, rfl⟩

theorem initialize_step_bound_same (env : Env α) (s : LMFitCPP α) :
    SameParameters s (initialize_step_bound env s) := ⟨rfl, rfl, rfl, rfl⟩

theorem calc_phi_same (env : Env α) (s : LMFitCPP α) : SameParameters s (calc_phi env s) :=
  ⟨rfl, rfl, rfl, rfl⟩

theorem decompose_hessian_LUP_same (s : LMFitCPP α) (h : Nat → α) :
    SameParameters s (decompose_hessian_LUP s h) := ⟨rfl, rfl, rfl, rfl⟩

theorem solve_step_same (env : Env α) (s : LMFitCPP α) (h : Nat → α) :
    SameParameters s (solve_step env s h) := ⟨rfl, rfl, rfl, rfl⟩

theorem initialize_lambda_bounds_same (env : Env α) (s : LMFitCPP α) :
    SameParameters s (initialize_lambda_bounds env s) := ⟨rfl, rfl, rfl, rfl⟩

theorem update_lambda_same (s : LMFitCPP α) : SameParameters s (update_lambda s) :=
  ⟨rfl, rfl, rfl, rfl⟩

theorem lambda_iterations_same (env : Env α) (n : Nat) (s : LMFitCPP α) :
    SameParameters s (lambda_iterations env n s) := by
  induction n generalizing s with
  | zero => exact SameParameters.refl s
  | succ n ih =>
    rw [lambda_iterations]
    split_ifs
    · exact (((update_lambda_same s).trans (modify_step_width_same _)).trans
        (solve_step_same env _ _)).trans (ih _)
    · exact SameParameters.refl s

theorem ite_same {c : Prop} [Decidable c] {s a b : LMFitCPP α} (ha : SameParameters s a)
    (hb : SameParameters s b) : SameParameters s (if c then a else b) := by
  split_ifs
  · exact ha
  · exact hb

theorem rescale_phi_derivative_same (env : Env α) (s : LMFitCPP α) :
    SameParameters s (rescale_phi_derivative env s) := ⟨rfl, rfl, rfl, rfl⟩

theorem clamp_step_bound_same (env : Env α) (s : LMFitCPP α) :
    SameParameters s (clamp_step_bound env s) := ⟨rfl, rfl, rfl, rfl⟩

theorem lambda_search_same (env : Env α) (s : LMFitCPP α) :
    SameParameters s (lambda_search env s) := by
  unfold lambda_search
  exact ite_same
    ((((initialize_lambda_bounds_same env _).trans (modify_step_width_same _)).trans
      (solve_step_same env _ _)).trans (lambda_iterations_same env 10 _))
    ⟨rfl, rfl, rfl, rfl⟩

theorem iteration_head_same (env : Env α) (iteration : Nat) (s : LMFitCPP α) :
    SameParameters s (iteration_head env iteration s) := by
  unfold iteration_head
  have h1 : SameParameters s
      (if iteration = 0 then initialize_step_bound env (modify_step_width s)
        else modify_step_width s) :=
    ite_same ((modify_step_width_same s).trans (initialize_step_bound_same env _))
      (modify_step_width_same s)
  have key : ∀ t, SameParameters s t → SameParameters s
      (lambda_search env (rescale_phi_derivative env (solve_step env t t.hessian_))) :=
    fun t ht => ((ht.trans (solve_step_same env t t.hessian_)).trans
      (rescale_phi_derivative_same env _)).trans (lambda_search_same env _)
  exact ite_same ((key _ h1).trans (clamp_step_bound_same env _)) (key _ h1)

theorem calc_chi_square_same (log : α → α) (s : LMFitCPP α) (values : Nat → α) (n : Nat) :
    SameParameters s (calc_chi_square log s values n) := by
  unfold calc_chi_square
  cases chi_square_sum log s values n 0 0 with
  | none => exact ⟨rfl, rfl, rfl, rfl⟩
  | some v => exact ⟨rfl, rfl, rfl, rfl⟩

theorem calc_coefficients_same (env : Env α) (s : LMFitCPP α) :
    SameParameters s (calc_coefficients env s) := by
  unfold calc_coefficients
  have h := calc_chi_square_same env.log s s.curve_ s.info_.n_points_
  exact ite_same (h.trans ⟨rfl, rfl, rfl, rfl⟩) h

theorem calc_model_same (env : Env α) (s : LMFitCPP α) :
    SameParameters s (calc_model env s) := ⟨rfl, rfl, rfl, rfl⟩

theorem calc_approximation_quality_same (env : Env α) (s : LMFitCPP α) :
    SameParameters s (calc_approximation_quality env s) := ⟨rfl, rfl, rfl, rfl⟩

theorem update_step_bound_same (env : Env α) (s : LMFitCPP α) :
    SameParameters s (update_step_bound env s) := by
  unfold update_step_bound
  exact ite_same ⟨rfl, rfl, rfl, rfl⟩ (ite_same ⟨rfl, rfl, rfl, rfl⟩ (SameParameters.refl s))

theorem evaluate_iteration_same (s : LMFitCPP α) (iteration : Nat) :
    SameParameters s (evaluate_iteration s iteration) := by
  unfold evaluate_iteration
  exact ite_same (ite_same ⟨rfl, rfl, rfl, rfl⟩ ⟨rfl, rfl, rfl, rfl⟩) (SameParameters.refl s)

theorem SameParameters.fixedKept {s t : LMFitCPP α} (h : SameParameters s t) :
    FixedKept s t :=
  ⟨fun p _ => by rw [h.1], h.2.1, h.2.2.1, h.2.2.2⟩

theorem FixedKept.andThen {s t u : LMFitCPP α} (h1 : FixedKept s t) (h2 : FixedKept t u) :
    FixedKept s u :=
  ⟨fun p hp => by rw [h2.1 p (by rw [h1.2.1]; exact hp), h1.1 p hp],
    h2.2.1.trans h1.2.1, h2.2.2.1.trans h1.2.2.1, h2.2.2.2.trans h1.2.2.2⟩

theorem update_parameters_fixed (s : LMFitCPP α) : FixedKept s (update_parameters s) := by
  refine ⟨?_, rfl, rfl, rfl⟩
  intro p hp
  unfold update_parameters
  dsimp only
  refine forRange_induction _
    (fun _ (st : Nat × (Nat → α) × (Nat → α)) => st.2.2 p = s.parameters_ p)
    (Nat.zero_le _) (0, s.prev_parameters_, s.parameters_) rfl ?_
  rintro i ⟨di, prev, par⟩ _ _ h
  dsimp only at h ⊢
  by_cases hm : s.parameters_to_fit_ i = true
  · rw [if_pos hm]
    dsimp only
    have : p ≠ i := by
      intro e
      subst e
      rw [hp] at hm
      exact Bool.noConfusion hm
    rw [Function.update_noteq this]
    exact h
  · rw [if_neg hm]
    exact h

theorem prepare_next_iteration_fixed (s : LMFitCPP α) :
    FixedKept s (prepare_next_iteration s) := by
  unfold prepare_next_iteration
  split_ifs
  · exact ⟨fun _ _ => rfl, rfl, rfl, rfl⟩
  · refine ⟨?_, rfl, rfl, rfl⟩
    intro p hp
    dsimp only
    refine forRange_induction _ (fun _ (par : Nat → α) => par p = s.parameters_ p)
      (Nat.zero_le _) s.parameters_ rfl ?_
    intro i par _ _ h
    dsimp only
    by_cases hm : s.parameters_to_fit_ i = true
    · rw [if_pos hm]
      have : p ≠ i := by
        intro e
        subst e
        rw [hp] at hm
        exact Bool.noConfusion hm
      rw [Function.update_noteq this]
      exact h
    · rw [if_neg hm]
      exact h

theorem iteration_tail_fixed (env : Env α) (iteration : Nat) (s : LMFitCPP α) :
    FixedKept s (iteration_tail env iteration s) := by
  unfold iteration_tail
  have h : SameParameters s
      (evaluate_iteration
        { update_step_bound env (calc_approximation_quality env
            (calc_coefficients env (calc_model env s))) with
          converged_ := check_for_convergence (update_step_bound env
            (calc_approximation_quality env (calc_coefficients env (calc_model env s)))) }
        iteration) :=
    (((((calc_model_same env s).trans (calc_coefficients_same env _)).trans
      (calc_approximation_quality_same env _)).trans (update_step_bound_same env _)).trans
      ⟨rfl, rfl, rfl, rfl⟩).trans (evaluate_iteration_same _ iteration)
  exact h.fixedKept.andThen (prepare_next_iteration_fixed _)

theorem iteration_body_fixed (env : Env α) (iteration : Nat) (s : LMFitCPP α) :
    FixedKept s (iteration_body env iteration s) :=
  ((iteration_head_same env iteration s).fixedKept.andThen (update_parameters_fixed _)).andThen
    (iteration_tail_fixed env iteration _)

theorem run_loop_fixed (env : Env α) (fuel iteration : Nat) (s t : LMFitCPP α)
    (h : run_loop env fuel iteration s = some t) : FixedKept s t := by
  induction fuel generalizing iteration s with
  | zero => simp [run_loop] at h
  | succ fuel ih =>
    rw [run_loop] at h
    by_cases hs : s.state_ = FitState.CONVERGED
    · rw [if_pos hs] at h
      dsimp only at h
      split_ifs at h
      · rw [← Option.some.inj h]
        exact iteration_body_fixed env iteration s
      · exact (iteration_body_fixed env iteration s).andThen (ih _ _ h)
    · rw [if_neg hs] at h
      rw [← Option.some.inj h]
      exact (SameParameters.refl s).fixedKept

theorem run_init_fixed (env : Env α) (s : LMFitCPP α) :
    (∀ p, p < s.info_.n_parameters_ → (run_init env s).parameters_ p = s.initial_parameters_ p)
      ∧ (run_init env s).parameters_to_fit_ = s.parameters_to_fit_
      ∧ (run_init env s).initial_parameters_ = s.initial_parameters_
      ∧ (run_init env s).info_ = s.info_ := by
  unfold run_init
  have h := calc_coefficients_same env
    { calc_model env { s with
        parameters_ := fill s.info_.n_parameters_ (fun i => s.initial_parameters_ i) s.parameters_,
        state_ := FitState.CONVERGED } with
      temp_derivatives_ := (calc_model env { s with
        parameters_ := fill s.info_.n_parameters_ (fun i => s.initial_parameters_ i) s.parameters_,
        state_ := FitState.CONVERGED }).derivatives_ }
  refine ⟨?_, h.2.1, h.2.2.1, h.2.2.2⟩
  intro p hp
  show (calc_coefficients env _).parameters_ p = _
  rw [h.1]
  show fill s.info_.n_parameters_ (fun i => s.initial_parameters_ i) s.parameters_ p = _
  rw [fill_apply, if_pos hp]

theorem state_before_iteration_fixed (env : Env α) (s : LMFitCPP α) (k : Nat) :
    FixedKept (run_init env s) (state_before_iteration env s k) := by
  induction k with
  | zero => exact (SameParameters.refl _).fixedKept
  | succ k ih => exact ih.andThen (iteration_body_fixed env k _)

/-! ## The loop of `run` ends -/

theorem prepare_next_iteration_state (s : LMFitCPP α) :
    (prepare_next_iteration s).state_ = s.state_
      ∧ (prepare_next_iteration s).converged_ = s.converged_ := by
  unfold prepare_next_iteration
  split_ifs
  · exact ⟨rfl, rfl⟩
  · exact ⟨rfl, rfl⟩

theorem evaluate_iteration_last (s : LMFitCPP α) (iteration : Nat)
    (h : (iteration : Int) = (s.info_.max_n_iterations_ : Int) - 1) :
    (evaluate_iteration s iteration).converged_ = true
      ∨ (evaluate_iteration s iteration).state_ ≠ FitState.CONVERGED := by
  unfold evaluate_iteration
  by_cases hc : s.converged_ = true
  · left
    simp [hc]
  · right
    have hc' : s.converged_ = false := by simpa using hc
    simp [hc', h]

theorem iteration_tail_last (env : Env α) (iteration : Nat) (s : LMFitCPP α)
    (h : (iteration : Int) = (s.info_.max_n_iterations_ : Int) - 1) :
    (iteration_tail env iteration s).converged_ = true
      ∨ (iteration_tail env iteration s).state_ ≠ FitState.CONVERGED := by
  unfold iteration_tail
  dsimp only
  rw [(prepare_next_iteration_state _).1, (prepare_next_iteration_state _).2]
  apply evaluate_iteration_last
  have hs : SameParameters s
      { update_step_bound env (calc_approximation_quality env
            (calc_coefficients env (calc_model env s))) with
          converged_ := check_for_convergence (update_step_bound env
            (calc_approximation_quality env (calc_coefficients env (calc_model env s)))) } :=
    ((((calc_model_same env s).trans (calc_coefficients_same env _)).trans
      (calc_approximation_quality_same env _)).trans (update_step_bound_same env _)).trans
      ⟨rfl, rfl, rfl, rfl⟩
  rw [hs.2.2.2]
  exact h

theorem iteration_body_last (env : Env α) (iteration : Nat) (s : LMFitCPP α)
    (h : (iteration : Int) = (s.info_.max_n_iterations_ : Int) - 1) :
    (iteration_body env iteration s).converged_ = true
      ∨ (iteration_body env iteration s).state_ ≠ FitState.CONVERGED := by
  have hinfo : (update_parameters (iteration_head env iteration s)).info_ = s.info_ :=
    ((iteration_head_same env iteration s).fixedKept.andThen (update_parameters_fixed _)).2.2.2
  unfold iteration_body
  apply iteration_tail_last
  rw [hinfo]
  exact h

/-- With `max_n_iterations_ - iteration` rounds the loop of `run` ends. -/
theorem run_loop_returns (env : Env α) (fuel iteration : Nat) (s : LMFitCPP α)
    (h : iteration + fuel = s.info_.max_n_iterations_) (hf : 1 ≤ fuel) :
    ∃ t, run_loop env fuel iteration s = some t := by
  induction fuel generalizing iteration s with
  | zero => omega
  | succ fuel ih =>
    rw [run_loop]
    by_cases hs : s.state_ = FitState.CONVERGED
    · rw [if_pos hs]
      dsimp only
      by_cases hstop : (iteration_body env iteration s).converged_ = true
          ∨ (iteration_body env iteration s).state_ ≠ FitState.CONVERGED
      · rw [if_pos hstop]
        exact ⟨_, rfl⟩
      · rw [if_neg hstop]
        have hinfo : (iteration_body env iteration s).info_ = s.info_ :=
          (iteration_body_fixed env iteration s).2.2.2
        have hfuel : 1 ≤ fuel := by
          by_contra hlt
          have h0 : fuel = 0 := by omega
          subst h0
          apply hstop
          apply iteration_body_last
          omega
        exact ih (iteration + 1) _ (by rw [hinfo]; omega) hfuel
    · rw [if_neg hs]
      exact ⟨_, rfl⟩

theorem run_returns (env : Env α) (s : LMFitCPP α) (h : 1 ≤ s.info_.max_n_iterations_) :
    ∃ t, run env s.info_.max_n_iterations_ s = some t := by
  unfold run
  apply run_loop_returns
  · rw [(run_init_fixed env s).2.2.2]; omega
  · exact h

/-! ## One round of the loop of `run` -/

theorem iteration_body_eq (env : Env α) (iteration : Nat) (s : LMFitCPP α) :
    iteration_body env iteration s
      = prepare_next_iteration (iteration_evaluated env iteration s) := rfl

theorem SameInputs.same (s : LMFitCPP α) : SameInputs s s :=
  ⟨rfl, rfl, rfl, rfl, rfl, rfl, rfl, rfl⟩

theorem SameInputs.next {s t u : LMFitCPP α} (h1 : SameInputs s t) (h2 : SameInputs t u) :
    SameInputs s u :=
  ⟨h2.1.trans h1.1, h2.2.trans h1.2, h2.3.trans h1.3, h2.4.trans h1.4, h2.5.trans h1.5,
    h2.6.trans h1.6, h2.7.trans h1.7, h2.8.trans h1.8⟩

theorem SameOutputs.keep (s : LMFitCPP α) : SameOutputs s s :=
  ⟨rfl, rfl, rfl, rfl, rfl, rfl, rfl, rfl, rfl⟩

theorem SameOutputs.after {s t u : LMFitCPP α} (h1 : SameOutputs s t) (h2 : SameOutputs t u) :
    SameOutputs s u :=
  ⟨h2.1.trans h1.1, h2.2.trans h1.2, h2.3.trans h1.3, h2.4.trans h1.4, h2.5.trans h1.5,
    h2.6.trans h1.6, h2.7.trans h1.7, h2.8.trans h1.8, h2.9.trans h1.9⟩

theorem ite_inputs {c : Prop} [Decidable c] {s a b : LMFitCPP α} (ha : SameInputs s a)
    (hb : SameInputs s b) : SameInputs s (if c then a else b) := by
  split_ifs
  · exact ha
  · exact hb

theorem ite_outputs {c : Prop} [Decidable c] {s a b : LMFitCPP α} (ha : SameOutputs s a)
    (hb : SameOutputs s b) : SameOutputs s (if c then a else b) := by
  split_ifs
  · exact ha
  · exact hb

/-! ### The damping controller writes neither inputs nor outputs -/

theorem modify_step_width_io (s : LMFitCPP α) :
    SameInputs s (modify_step_width s) ∧ SameOutputs s (modify_step_width s) :=
  ⟨⟨rfl, rfl, rfl, rfl, rfl, rfl, rfl, rfl⟩, ⟨rfl, rfl, rfl, rfl, rfl, rfl, rfl, rfl, rfl⟩⟩

theorem initialize_step_bound_io (env : Env α) (s : LMFitCPP α) :
    SameInputs s (initialize_step_bound env s) ∧ SameOutputs s (initialize_step_bound env s) :=
  ⟨⟨rfl, rfl, rfl, rfl, rfl, rfl, rfl, rfl⟩, ⟨rfl, rfl, rfl, rfl, rfl, rfl, rfl, rfl, rfl⟩⟩

theorem solve_step_io (env : Env α) (s : LMFitCPP α) (h : Nat → α) :
    SameInputs s (solve_step env s h) ∧ SameOutputs s (solve_step env s h) := by
  refine ⟨⟨rfl, rfl, rfl, rfl, rfl, rfl, rfl, rfl⟩, ⟨rfl, rfl, rfl, rfl, ?_, rfl, rfl, rfl, rfl⟩⟩
  show (if (decompose_LUP h s.info_.n_parameters_to_fit_ 0 s.pivot_array_).ret = 0
    then FitState.SINGULAR_HESSIAN else s.state_) = s.state_
  rw [decompose_LUP_ret]
  simp

theorem initialize_lambda_bounds_io (env : Env α) (s : LMFitCPP α) :
    SameInputs s (initialize_lambda_bounds env s)
      ∧ SameOutputs s (initialize_lambda_bounds env s) :=
  ⟨⟨rfl, rfl, rfl, rfl, rfl, rfl, rfl, rfl⟩, ⟨rfl, rfl, rfl, rfl, rfl, rfl, rfl, rfl, rfl⟩⟩

theorem update_lambda_io (s : LMFitCPP α) :
    SameInputs s (update_lambda s) ∧ SameOutputs s (update_lambda s) :=
  ⟨⟨rfl, rfl, rfl, rfl, rfl, rfl, rfl, rfl⟩, ⟨rfl, rfl, rfl, rfl, rfl, rfl, rfl, rfl, rfl⟩⟩

theorem io_next {s t u : LMFitCPP α} (h1 : SameInputs s t ∧ SameOutputs s t)
    (h2 : SameInputs t u ∧ SameOutputs t u) : SameInputs s u ∧ SameOutputs s u :=
  ⟨h1.1.next h2.1, h1.2.after h2.2⟩

theorem io_ite {c : Prop} [Decidable c] {s a b : LMFitCPP α}
    (ha : SameInputs s a ∧ SameOutputs s a) (hb : SameInputs s b ∧ SameOutputs s b) :
    SameInputs s (if c then a else b) ∧ SameOutputs s (if c then a else b) :=
  ⟨ite_inputs ha.1 hb.1, ite_outputs ha.2 hb.2⟩

theorem lambda_iterations_io (env : Env α) (n : Nat) (s : LMFitCPP α) :
    SameInputs s (lambda_iterations env n s) ∧ SameOutputs s (lambda_iterations env n s) := by
  induction n generalizing s with
  | zero => exact ⟨SameInputs.same s, SameOutputs.keep s⟩
  | succ n ih =>
    rw [lambda_iterations]
    exact io_ite
      (io_next (io_next (io_next (update_lambda_io s) (modify_step_width_io _))
        (solve_step_io env _ _)) (ih _))
      ⟨SameInputs.same s, SameOutputs.keep s⟩

theorem lambda_search_io (env : Env α) (s : LMFitCPP α) :
    SameInputs s (lambda_search env s) ∧ SameOutputs s (lambda_search env s) := by
  unfold lambda_search
  exact io_ite
    (io_next (io_next (io_next (initialize_lambda_bounds_io env s) (modify_step_width_io _))
      (solve_step_io env _ _)) (lambda_iterations_io env 10 _))
    ⟨⟨rfl, rfl, rfl, rfl, rfl, rfl, rfl, rfl⟩, ⟨rfl, rfl, rfl, rfl, rfl, rfl, rfl, rfl, rfl⟩⟩

theorem rescale_phi_derivative_io (env : Env α) (s : LMFitCPP α) :
    SameInputs s (rescale_phi_derivative env s)
      ∧ SameOutputs s (rescale_phi_derivative env s) :=
  ⟨⟨rfl, rfl, rfl, rfl, rfl, rfl, rfl, rfl⟩, ⟨rfl, rfl, rfl, rfl, rfl, rfl, rfl, rfl, rfl⟩⟩

theorem clamp_step_bound_io (env : Env α) (s : LMFitCPP α) :
    SameInputs s (clamp_step_bound env s) ∧ SameOutputs s (clamp_step_bound env s) :=
  ⟨⟨rfl, rfl, rfl, rfl, rfl, rfl, rfl, rfl⟩, ⟨rfl, rfl, rfl, rfl, rfl, rfl, rfl, rfl, rfl⟩⟩

theorem iteration_head_io (env : Env α) (iteration : Nat) (s : LMFitCPP α) :
    SameInputs s (iteration_head env iteration s)
      ∧ SameOutputs s (iteration_head env iteration s) := by
  unfold iteration_head
  have h1 : SameInputs s
        (if iteration = 0 then initialize_step_bound env (modify_step_width s)
          else modify_step_width s)
      ∧ SameOutputs s
        (if iteration = 0 then initialize_step_bound env (modify_step_width s)
          else modify_step_width s) :=
    io_ite (io_next (modify_step_width_io s) (initialize_step_bound_io env _))
      (modify_step_width_io s)
  have key : ∀ t, SameInputs s t ∧ SameOutputs s t →
      SameInputs s (lambda_search env (rescale_phi_derivative env (solve_step env t t.hessian_)))
      ∧ SameOutputs s
        (lambda_search env (rescale_phi_derivative env (solve_step env t t.hessian_))) :=
    fun t ht => io_next (io_next (io_next ht (solve_step_io env t t.hessian_))
      (rescale_phi_derivative_io env _)) (lambda_search_io env _)
  exact io_ite (io_next (key _ h1) (clamp_step_bound_io env _)) (key _ h1)

theorem calc_approximation_quality_io (env : Env α) (s : LMFitCPP α) :
    SameInputs s (calc_approximation_quality env s)
      ∧ SameOutputs s (calc_approximation_quality env s) :=
  ⟨⟨rfl, rfl, rfl, rfl, rfl, rfl, rfl, rfl⟩, ⟨rfl, rfl, rfl, rfl, rfl, rfl, rfl, rfl, rfl⟩⟩

theorem update_step_bound_io (env : Env α) (s : LMFitCPP α) :
    SameInputs s (update_step_bound env s) ∧ SameOutputs s (update_step_bound env s) := by
  unfold update_step_bound
  exact io_ite
    ⟨⟨rfl, rfl, rfl, rfl, rfl, rfl, rfl, rfl⟩, ⟨rfl, rfl, rfl, rfl, rfl, rfl, rfl, rfl, rfl⟩⟩
    (io_ite
      ⟨⟨rfl, rfl, rfl, rfl, rfl, rfl, rfl, rfl⟩, ⟨rfl, rfl, rfl, rfl, rfl, rfl, rfl, rfl, rfl⟩⟩
      ⟨SameInputs.same s, SameOutputs.keep s⟩)

/-! ### The methods that write outputs -/

theorem update_parameters_spec (s : LMFitCPP α) :
    SameInputs s (update_parameters s)
      ∧ (∀ i, (update_parameters s).prev_parameters_ i
          = if i < s.info_.n_parameters_ ∧ s.parameters_to_fit_ i = true then s.parameters_ i
            else s.prev_parameters_ i)
      ∧ (∀ i, ¬ (i < s.info_.n_parameters_ ∧ s.parameters_to_fit_ i = true) →
          (update_parameters s).parameters_ i = s.parameters_ i)
      ∧ (update_parameters s).prev_chi_square_ = s.prev_chi_square_
      ∧ (update_parameters s).chi_square_ = s.chi_square_
      ∧ (update_parameters s).state_ = s.state_
      ∧ (update_parameters s).n_iterations_ = s.n_iterations_ := by
  refine ⟨⟨rfl, rfl, rfl, rfl, rfl, rfl, rfl, rfl⟩, ?_, ?_, rfl, rfl, rfl, rfl⟩
  · intro i
    unfold update_parameters
    dsimp only
    have key := forRange_induction
      (fun parameter_index (st : Nat × (Nat → α) × (Nat → α)) =>
        let delta_index := st.1
        let prev_parameters := st.2.1
        let parameters := st.2.2
        if s.parameters_to_fit_ parameter_index then
          let prev_parameters :=
            Function.update prev_parameters parameter_index (parameters parameter_index)
          let parameters :=
            Function.update parameters parameter_index
              (parameters parameter_index + s.delta_ delta_index)
          (delta_index + 1, prev_parameters, parameters)
        else st)
      (fun I (st : Nat × (Nat → α) × (Nat → α)) =>
        (∀ i, st.2.1 i = if i < I ∧ s.parameters_to_fit_ i = true then s.parameters_ i
            else s.prev_parameters_ i)
        ∧ ∀ i, I ≤ i → st.2.2 i = s.parameters_ i)
      (Nat.zero_le s.info_.n_parameters_) (0, s.prev_parameters_, s.parameters_)
      ⟨fun i => by simp, fun _ _ => rfl⟩
      (by
        rintro I ⟨di, prev, par⟩ _ _ ⟨h1, h2⟩
        dsimp only at h1 h2 ⊢
        by_cases hm : s.parameters_to_fit_ I = true
        · rw [if_pos hm]
          dsimp only
          constructor
          · intro i
            by_cases e : i = I
            · subst e
              rw [Function.update_same, h2 i (le_refl i), if_pos ⟨Nat.lt_succ_self i, hm⟩]
            · rw [Function.update_noteq e, h1 i]
              have : (i < I + 1 ∧ s.parameters_to_fit_ i = true)
                  ↔ (i < I ∧ s.parameters_to_fit_ i = true) := by
                constructor
                · rintro ⟨a, b⟩; exact ⟨by omega, b⟩
                · rintro ⟨a, b⟩; exact ⟨by omega, b⟩
              simp only [this]
          · intro i hi
            rw [Function.update_noteq (by omega), h2 i (by omega)]
        · rw [if_neg hm]
          constructor
          · intro i
            show prev i = _
            rw [h1 i]
            have : (i < I + 1 ∧ s.parameters_to_fit_ i = true)
                ↔ (i < I ∧ s.parameters_to_fit_ i = true) := by
              constructor
              · rintro ⟨a, b⟩
                refine ⟨?_, b⟩
                rcases Nat.lt_succ_iff_lt_or_eq.mp a with h | h
                · exact h
                · subst h; exact absurd b hm
              · rintro ⟨a, b⟩; exact ⟨by omega, b⟩
            simp only [this]
          · intro i hi
            exact h2 i (by omega))
    exact key.1 i
  · intro i hi
    unfold update_parameters
    dsimp only
    refine forRange_induction _
      (fun _ (st : Nat × (Nat → α) × (Nat → α)) => st.2.2 i = s.parameters_ i)
      (Nat.zero_le _) (0, s.prev_parameters_, s.parameters_) rfl ?_
    rintro I ⟨di, prev, par⟩ _ hI h
    dsimp only at h ⊢
    by_cases hm : s.parameters_to_fit_ I = true
    · rw [if_pos hm]
      dsimp only
      have : i ≠ I := by
        intro e
        subst e
        exact hi ⟨hI, hm⟩
      rw [Function.update_noteq this]
      exact h
    · rw [if_neg hm]
      exact h

/-- The loop of `prepare_next_iteration` (lines 983-989) writes back the saved values of
the free parameters. -/
theorem restore_parameters_apply (n : Nat) (mask : Nat → Bool) (prev par : Nat → α) (i : Nat) :
    forRange 0 n
        (fun parameter_index parameters =>
          if mask parameter_index then
            Function.update parameters parameter_index (prev parameter_index)
          else parameters)
        par i
      = if i < n ∧ mask i = true then prev i else par i := by
  refine forRange_induction _
    (fun I (v : Nat → α) => v i = if i < I ∧ mask i = true then prev i else par i)
    (Nat.zero_le n) par (by simp) ?_
  intro I v _ _ hv
  dsimp only
  by_cases hm : mask I = true
  · rw [if_pos hm]
    by_cases e : i = I
    · subst e
      rw [Function.update_same, if_pos ⟨Nat.lt_succ_self i, hm⟩]
    · rw [Function.update_noteq e, hv]
      have : (i < I + 1 ∧ mask i = true) ↔ (i < I ∧ mask i = true) := by
        constructor
        · rintro ⟨a, b⟩; exact ⟨by omega, b⟩
        · rintro ⟨a, b⟩; exact ⟨by omega, b⟩
      simp only [this]
  · rw [if_neg hm, hv]
    have : (i < I + 1 ∧ mask i = true) ↔ (i < I ∧ mask i = true) := by
      constructor
      · rintro ⟨a, b⟩
        refine ⟨?_, b⟩
        rcases Nat.lt_succ_iff_lt_or_eq.mp a with h | h
        · exact h
        · subst h; exact absurd b hm
      · rintro ⟨a, b⟩; exact ⟨by omega, b⟩
    simp only [this]

theorem prepare_next_iteration_spec (s : LMFitCPP α) :
    SameInputs s (prepare_next_iteration s)
      ∧ (prepare_next_iteration s).state_ = s.state_
      ∧ (prepare_next_iteration s).converged_ = s.converged_
      ∧ (prepare_next_iteration s).n_iterations_ = s.n_iterations_
      ∧ (prepare_next_iteration s).prev_parameters_ = s.prev_parameters_
      ∧ (prepare_next_iteration s).chi_square_ = (prepare_next_iteration s).prev_chi_square_
      ∧ (prepare_next_iteration s).prev_chi_square_
          = (if s.chi_square_ < s.prev_chi_square_ then s.chi_square_ else s.prev_chi_square_)
      ∧ ∀ i, (prepare_next_iteration s).parameters_ i
          = if s.chi_square_ < s.prev_chi_square_ then s.parameters_ i
            else if i < s.info_.n_parameters_ ∧ s.parameters_to_fit_ i = true
              then s.prev_parameters_ i else s.parameters_ i := by
  by_cases h : s.chi_square_ < s.prev_chi_square_
  · have e : prepare_next_iteration s
        = { s with prev_chi_square_ := s.chi_square_, temp_derivatives_ := s.derivatives_ } := by
      unfold prepare_next_iteration
      rw [if_pos h]
    rw [e]
    refine ⟨⟨rfl, rfl, rfl, rfl, rfl, rfl, rfl, rfl⟩, rfl, rfl, rfl, rfl, rfl, ?_, ?_⟩
    · rw [if_pos h]
    · intro i
      rw [if_pos h]
  · have e : prepare_next_iteration s
        = { s with
            chi_square_ := s.prev_chi_square_
            parameters_ := forRange 0 s.info_.n_parameters_
              (fun parameter_index parameters =>
                if s.parameters_to_fit_ parameter_index then
                  Function.update parameters parameter_index (s.prev_parameters_ parameter_index)
                else parameters)
              s.parameters_ } := by
      unfold prepare_next_iteration
      rw [if_neg h]
    rw [e]
    refine ⟨⟨rfl, rfl, rfl, rfl, rfl, rfl, rfl, rfl⟩, rfl, rfl, rfl, rfl, rfl, ?_, ?_⟩
    · rw [if_neg h]
    · intro i
      rw [if_neg h]
      exact restore_parameters_apply _ _ _ _ i

theorem calc_model_spec (env : Env α) (s : LMFitCPP α) :
    SameInputs s (calc_model env s)
      ∧ (calc_model env s).parameters_ = s.parameters_
      ∧ (calc_model env s).prev_parameters_ = s.prev_parameters_
      ∧ (calc_model env s).prev_chi_square_ = s.prev_chi_square_
      ∧ (calc_model env s).chi_square_ = s.chi_square_
      ∧ (calc_model env s).state_ = s.state_
      ∧ (calc_model env s).n_iterations_ = s.n_iterations_ :=
  ⟨⟨rfl, rfl, rfl, rfl, rfl, rfl, rfl, rfl⟩, rfl, rfl, rfl, rfl, rfl, rfl⟩

theorem calc_chi_square_frame (log : α → α) (s : LMFitCPP α) (values : Nat → α) (n : Nat) :
    SameInputs s (calc_chi_square log s values n)
      ∧ (calc_chi_square log s values n).parameters_ = s.parameters_
      ∧ (calc_chi_square log s values n).prev_parameters_ = s.prev_parameters_
      ∧ (calc_chi_square log s values n).prev_chi_square_ = s.prev_chi_square_
      ∧ (calc_chi_square log s values n).n_iterations_ = s.n_iterations_
      ∧ (calc_chi_square log s values n).curve_ = s.curve_ := by
  unfold calc_chi_square
  cases chi_square_sum log s values n 0 0 with
  | none => exact ⟨⟨rfl, rfl, rfl, rfl, rfl, rfl, rfl, rfl⟩, rfl, rfl, rfl, rfl, rfl⟩
  | some v => exact ⟨⟨rfl, rfl, rfl, rfl, rfl, rfl, rfl, rfl⟩, rfl, rfl, rfl, rfl, rfl⟩

theorem calc_coefficients_spec (env : Env α) (s : LMFitCPP α) :
    SameInputs s (calc_coefficients env s)
      ∧ (calc_coefficients env s).parameters_ = s.parameters_
      ∧ (calc_coefficients env s).prev_parameters_ = s.prev_parameters_
      ∧ (calc_coefficients env s).prev_chi_square_ = s.prev_chi_square_
      ∧ (calc_coefficients env s).n_iterations_ = s.n_iterations_
      ∧ (calc_coefficients env s).curve_ = s.curve_
      ∧ (calc_coefficients env s).chi_square_
          = (calc_chi_square env.log s s.curve_ s.info_.n_points_).chi_square_
      ∧ (calc_coefficients env s).state_
          = (calc_chi_square env.log s s.curve_ s.info_.n_points_).state_ := by
  obtain ⟨h1, h2, h3, h4, h5, h6⟩ := calc_chi_square_frame env.log s s.curve_ s.info_.n_points_
  unfold calc_coefficients
  dsimp only
  split_ifs
  · exact ⟨⟨h1.1, h1.2, h1.3, h1.4, h1.5, h1.6, h1.7, h1.8⟩, h2, h3, h4, h5, h6, rfl, rfl⟩
  · exact ⟨h1, h2, h3, h4, h5, h6, rfl, rfl⟩

theorem evaluate_iteration_spec (s : LMFitCPP α) (iteration : Nat) :
    SameInputs s (evaluate_iteration s iteration)
      ∧ (evaluate_iteration s iteration).parameters_ = s.parameters_
      ∧ (evaluate_iteration s iteration).prev_parameters_ = s.prev_parameters_
      ∧ (evaluate_iteration s iteration).prev_chi_square_ = s.prev_chi_square_
      ∧ (evaluate_iteration s iteration).chi_square_ = s.chi_square_
      ∧ (evaluate_iteration s iteration).converged_ = s.converged_
      ∧ (evaluate_iteration s iteration).state_
          = (if s.converged_ = false ∧ (iteration : Int) = (s.info_.max_n_iterations_ : Int) - 1
              then FitState.MAX_ITERATION else s.state_)
      ∧ (evaluate_iteration s iteration).n_iterations_
          = (if s.converged_ = true ∨ (iteration : Int) = (s.info_.max_n_iterations_ : Int) - 1
              then (iteration : Int) + 1 else s.n_iterations_) := by
  by_cases hc : s.converged_ = true
  · have e : evaluate_iteration s iteration
        = { s with n_iterations_ := (iteration : Int) + 1 } := by
      unfold evaluate_iteration
      simp [hc]
    rw [e]
    refine ⟨⟨rfl, rfl, rfl, rfl, rfl, rfl, rfl, rfl⟩, rfl, rfl, rfl, rfl, rfl, ?_, ?_⟩
    · simp [hc]
    · simp [hc]
  · have hc0 : s.converged_ = false := by simpa using hc
    by_cases hm : (iteration : Int) = (s.info_.max_n_iterations_ : Int) - 1
    · have e : evaluate_iteration s iteration
          = { s with n_iterations_ := (iteration : Int) + 1,
                     state_ := FitState.MAX_ITERATION } := by
        unfold evaluate_iteration
        simp [hc0, hm]
      rw [e]
      refine ⟨⟨rfl, rfl, rfl, rfl, rfl, rfl, rfl, rfl⟩, rfl, rfl, rfl, rfl, rfl, ?_, ?_⟩
      · simp [hc0, hm]
      · simp [hm]
    · have e : evaluate_iteration s iteration = s := by
        unfold evaluate_iteration
        simp [hc0, hm]
      rw [e]
      refine ⟨⟨rfl, rfl, rfl, rfl, rfl, rfl, rfl, rfl⟩, rfl, rfl, rfl, rfl, rfl, ?_, ?_⟩
      · simp [hm]
      · simp [hc0, hm]

/-! ### What one round does to the outputs -/

theorem iteration_updated_spec (env : Env α) (iteration : Nat) (s : LMFitCPP α) :
    SameInputs s (iteration_updated env iteration s)
      ∧ (∀ i, (iteration_updated env iteration s).prev_parameters_ i
          = if i < s.info_.n_parameters_ ∧ s.parameters_to_fit_ i = true then s.parameters_ i
            else s.prev_parameters_ i)
      ∧ (∀ i, ¬ (i < s.info_.n_parameters_ ∧ s.parameters_to_fit_ i = true) →
          (iteration_updated env iteration s).parameters_ i = s.parameters_ i)
      ∧ (iteration_updated env iteration s).prev_chi_square_ = s.prev_chi_square_
      ∧ (iteration_updated env iteration s).chi_square_ = s.chi_square_
      ∧ (iteration_updated env iteration s).state_ = s.state_
      ∧ (iteration_updated env iteration s).n_iterations_ = s.n_iterations_ := by
  obtain ⟨hi, ho⟩ := iteration_head_io env iteration s
  obtain ⟨u1, u2, u3, u4, u5, u6, u7⟩ := update_parameters_spec (iteration_head env iteration s)
  unfold iteration_updated
  refine ⟨hi.next u1, ?_, ?_, u4.trans ho.3, u5.trans ho.4, u6.trans ho.5, u7.trans ho.6⟩
  · intro i
    rw [u2 i, hi.info_, hi.parameters_to_fit_, ho.parameters_, ho.prev_parameters_]
  · intro i hn
    rw [u3 i (by rw [hi.info_, hi.parameters_to_fit_]; exact hn), ho.parameters_]

theorem iteration_candidate_spec (env : Env α) (iteration : Nat) (s : LMFitCPP α) :
    SameInputs s (iteration_candidate env iteration s)
      ∧ (iteration_candidate env iteration s).parameters_
          = (iteration_updated env iteration s).parameters_
      ∧ (iteration_candidate env iteration s).prev_parameters_
          = (iteration_updated env iteration s).prev_parameters_
      ∧ (iteration_candidate env iteration s).prev_chi_square_ = s.prev_chi_square_
      ∧ (iteration_candidate env iteration s).n_iterations_ = s.n_iterations_
      ∧ (iteration_candidate env iteration s).curve_
          = (calc_model env (iteration_updated env iteration s)).curve_
      ∧ (iteration_candidate env iteration s).chi_square_
          = (calc_chi_square env.log (calc_model env (iteration_updated env iteration s))
              (calc_model env (iteration_updated env iteration s)).curve_
              s.info_.n_points_).chi_square_
      ∧ (iteration_candidate env iteration s).state_
          = (calc_chi_square env.log (calc_model env (iteration_updated env iteration s))
              (calc_model env (iteration_updated env iteration s)).curve_
              s.info_.n_points_).state_ := by
  obtain ⟨u1, _, _, u4, _, _, u7⟩ := iteration_updated_spec env iteration s
  obtain ⟨m1, m2, m3, m4, _, _, m7⟩ := calc_model_spec env (iteration_updated env iteration s)
  obtain ⟨c1, c2, c3, c4, c5, c6, c7, c8⟩ :=
    calc_coefficients_spec env (calc_model env (iteration_updated env iteration s))
  have hinfo : (calc_model env (iteration_updated env iteration s)).info_ = s.info_ :=
    m1.info_.trans u1.info_
  unfold iteration_candidate
  refine ⟨(u1.next m1).next c1, c2.trans m2, c3.trans m3, (c4.trans m4).trans u4,
    (c5.trans m7).trans u7, c6, ?_, ?_⟩
  · rw [c7, hinfo]
  · rw [c8, hinfo]

theorem evaluate_candidate_spec (env : Env α) (iteration : Nat) (c : LMFitCPP α) :
    SameInputs c (evaluate_candidate env iteration c)
      ∧ (evaluate_candidate env iteration c).parameters_ = c.parameters_
      ∧ (evaluate_candidate env iteration c).prev_parameters_ = c.prev_parameters_
      ∧ (evaluate_candidate env iteration c).prev_chi_square_ = c.prev_chi_square_
      ∧ (evaluate_candidate env iteration c).chi_square_ = c.chi_square_
      ∧ (evaluate_candidate env iteration c).converged_
          = decide (|c.chi_square_ - c.prev_chi_square_|
              < max c.tolerance_ (c.tolerance_ * |c.chi_square_|))
      ∧ (evaluate_candidate env iteration c).state_
          = (if (evaluate_candidate env iteration c).converged_ = false
                ∧ (iteration : Int) = (c.info_.max_n_iterations_ : Int) - 1
              then FitState.MAX_ITERATION else c.state_)
      ∧ (evaluate_candidate env iteration c).n_iterations_
          = (if (evaluate_candidate env iteration c).converged_ = true
                ∨ (iteration : Int) = (c.info_.max_n_iterations_ : Int) - 1
              then (iteration : Int) + 1 else c.n_iterations_) := by
  obtain ⟨qi, qo⟩ := io_next (calc_approximation_quality_io env c) (update_step_bound_io env _)
  have hconv : check_for_convergence (update_step_bound env (calc_approximation_quality env c))
      = decide (|c.chi_square_ - c.prev_chi_square_|
          < max c.tolerance_ (c.tolerance_ * |c.chi_square_|)) := by
    unfold check_for_convergence
    rw [qo.chi_square_, qo.prev_chi_square_, qi.tolerance_]
  have hv : SameInputs c
        { update_step_bound env (calc_approximation_quality env c) with
          converged_ := check_for_convergence
            (update_step_bound env (calc_approximation_quality env c)) } :=
    qi.next ⟨rfl, rfl, rfl, rfl, rfl, rfl, rfl, rfl⟩
  obtain ⟨e1, e2, e3, e4, e5, e6, e7, e8⟩ := evaluate_iteration_spec
    { update_step_bound env (calc_approximation_quality env c) with
      converged_ := check_for_convergence
        (update_step_bound env (calc_approximation_quality env c)) } iteration
  unfold evaluate_candidate
  refine ⟨hv.next e1, e2.trans qo.parameters_, e3.trans qo.prev_parameters_,
    e4.trans qo.prev_chi_square_, e5.trans qo.chi_square_, e6.trans hconv, ?_, ?_⟩
  · rw [e7, e6]
    show (if _ ∧ _ = ((update_step_bound env
        (calc_approximation_quality env c)).info_.max_n_iterations_ : Int) - 1
      then _ else (update_step_bound env (calc_approximation_quality env c)).state_) = _
    rw [qi.info_, qo.state_]
  · rw [e8, e6]
    show (if _ ∨ _ = ((update_step_bound env
        (calc_approximation_quality env c)).info_.max_n_iterations_ : Int) - 1
      then _ else (update_step_bound env (calc_approximation_quality env c)).n_iterations_) = _
    rw [qi.info_, qo.n_iterations_]

theorem iteration_body_spec (env : Env α) (iteration : Nat) (s : LMFitCPP α) :
    SameInputs s (iteration_body env iteration s)
      ∧ (iteration_body env iteration s).prev_chi_square_
          = (if (iteration_candidate env iteration s).chi_square_ < s.prev_chi_square_
              then (iteration_candidate env iteration s).chi_square_ else s.prev_chi_square_)
      ∧ (iteration_body env iteration s).chi_square_
          = (iteration_body env iteration s).prev_chi_square_
      ∧ (∀ i, (iteration_body env iteration s).parameters_ i
          = if (iteration_candidate env iteration s).chi_square_ < s.prev_chi_square_
              then (iteration_candidate env iteration s).parameters_ i else s.parameters_ i)
      ∧ (iteration_body env iteration s).converged_
          = decide (|(iteration_candidate env iteration s).chi_square_ - s.prev_chi_square_|
              < max s.tolerance_
                  (s.tolerance_ * |(iteration_candidate env iteration s).chi_square_|))
      ∧ (iteration_body env iteration s).state_
          = (if (iteration_body env iteration s).converged_ = false
                ∧ (iteration : Int) = (s.info_.max_n_iterations_ : Int) - 1
              then FitState.MAX_ITERATION else (iteration_candidate env iteration s).state_)
      ∧ (iteration_body env iteration s).n_iterations_
          = (if (iteration_body env iteration s).converged_ = true
                ∨ (iteration : Int) = (s.info_.max_n_iterations_ : Int) - 1
              then (iteration : Int) + 1 else s.n_iterations_) := by
  obtain ⟨u1, u2, u3, _, _, _, _⟩ := iteration_updated_spec env iteration s
  obtain ⟨c1, c2, c3, c4, c5, _, _, _⟩ := iteration_candidate_spec env iteration s
  obtain ⟨e1, e2, e3, e4, e5, e6, e7, e8⟩ :=
    evaluate_candidate_spec env iteration (iteration_candidate env iteration s)
  obtain ⟨p1, p2, p3, p4, _, p6, p7, p8⟩ :=
    prepare_next_iteration_spec (iteration_evaluated env iteration s)
  rw [iteration_body_eq]
  have hin : SameInputs s (iteration_evaluated env iteration s) := c1.next e1
  have hchi : (iteration_evaluated env iteration s).chi_square_
      = (iteration_candidate env iteration s).chi_square_ := e5
  have hprev : (iteration_evaluated env iteration s).prev_chi_square_ = s.prev_chi_square_ :=
    e4.trans c4
  refine ⟨hin.next p1, ?_, p6, ?_, ?_, ?_, ?_⟩
  · rw [p7, hchi, hprev]
  · intro i
    rw [p8 i, hchi, hprev]
    by_cases h : (iteration_candidate env iteration s).chi_square_ < s.prev_chi_square_
    · rw [if_pos h, if_pos h]
      exact congrFun e2 i
    · rw [if_neg h, if_neg h, hin.info_, hin.parameters_to_fit_]
      by_cases hf : i < s.info_.n_parameters_ ∧ s.parameters_to_fit_ i = true
      · rw [if_pos hf]
        have h3 : (iteration_evaluated env iteration s).prev_parameters_ i
            = (iteration_updated env iteration s).prev_parameters_ i :=
          congrFun (e3.trans c3) i
        rw [h3, u2 i, if_pos hf]
      · rw [if_neg hf]
        have h2 : (iteration_evaluated env iteration s).parameters_ i
            = (iteration_updated env iteration s).parameters_ i :=
          congrFun (e2.trans c2) i
        rw [h2, u3 i hf]
  · rw [p3]
    show (evaluate_candidate env iteration (iteration_candidate env iteration s)).converged_ = _
    rw [e6, c4, c1.tolerance_]
  · rw [p2, p3]
    show (evaluate_candidate env iteration (iteration_candidate env iteration s)).state_ = _
    rw [e7, c1.info_]
    rfl
  · rw [p4, p3]
    show (evaluate_candidate env iteration (iteration_candidate env iteration s)).n_iterations_
      = _
    rw [e8, c1.info_, c5]
    rfl

/-! ### The state after `calc_coefficients` -/

theorem calc_chi_square_state_LSE (log : α → α) (s : LMFitCPP α) (values : Nat → α) (n : Nat)
    (h : s.info_.estimator_id_ = Estimator.LSE) :
    (calc_chi_square log s values n).state_ = s.state_ := by
  unfold calc_chi_square
  obtain ⟨v, hv⟩ := chi_square_sum_LSE log s values h n 0 0
  rw [hv]

theorem calc_chi_square_neg (log : α → α) (s : LMFitCPP α) (values : Nat → α) (n : Nat)
    (h : s.info_.estimator_id_ = Estimator.MLE) (hex : ∃ i, i < n ∧ values i ≤ 0) :
    (calc_chi_square log s values n).state_ = FitState.NEG_CURVATURE_MLE
      ∧ (calc_chi_square log s values n).chi_square_ = s.chi_square_ := by
  obtain ⟨i, hi, hv⟩ := hex
  unfold calc_chi_square
  rw [chi_square_sum_MLE_none log s values h n 0 0 ⟨i, Nat.zero_le i, by omega, hv⟩]
  exact ⟨rfl, rfl⟩

theorem calc_chi_square_state_cases (log : α → α) (s : LMFitCPP α) (values : Nat → α)
    (n : Nat) :
    (calc_chi_square log s values n).state_ = s.state_
      ∨ (calc_chi_square log s values n).state_ = FitState.NEG_CURVATURE_MLE := by
  unfold calc_chi_square
  cases chi_square_sum log s values n 0 0 with
  | none => exact Or.inr rfl
  | some v => exact Or.inl rfl

/-- The chi-square `calc_chi_square` writes under LSE. -/
theorem calc_chi_square_LSE_value (log : α → α) (s : LMFitCPP α) (values : Nat → α) (n : Nat)
    (h : s.info_.estimator_id_ = Estimator.LSE) :
    (calc_chi_square log s values n).chi_square_
      = ∑ i in Finset.range n, weight_at s i * ((values i - s.data_ i) * (values i - s.data_ i)) := by
  have key : ∀ m i (sum : α), chi_square_sum log s values m i sum
      = some (sum + ∑ k in Finset.Ico i (i + m),
          weight_at s k * ((values k - s.data_ k) * (values k - s.data_ k))) := by
    intro m
    induction m with
    | zero => intro i sum; simp [chi_square_sum]
    | succ m ih =>
      intro i sum
      rw [chi_square_sum]
      have e : i + (m + 1) = i + 1 + m := by omega
      rw [e, Finset.sum_eq_sum_Ico_succ_bot (by omega)]
      simp only [h]
      unfold weight_at
      cases hw : s.weight_ with
      | none =>
        dsimp only
        rw [ih]
        simp only [weight_at, hw]
        congr 1
        ring
      | some w =>
        dsimp only
        rw [ih]
        simp only [weight_at, hw]
        congr 1
        ring
  unfold calc_chi_square
  rw [key n 0 0]
  show 0 + ∑ k in Finset.Ico 0 (0 + n), _ = _
  rw [zero_add, zero_add, Finset.range_eq_Ico]

/-! ### Before the loop -/

theorem run_init_eq (env : Env α) (s : LMFitCPP α) :
    run_init env s
      = { calc_coefficients env (run_start env s) with
          prev_chi_square_ := (calc_coefficients env (run_start env s)).chi_square_ } := rfl

theorem run_start_spec (env : Env α) (s : LMFitCPP α) :
    SameInputs s (run_start env s)
      ∧ (run_start env s).n_iterations_ = s.n_iterations_
      ∧ (run_start env s).parameters_
          = fill s.info_.n_parameters_ (fun i => s.initial_parameters_ i) s.parameters_
      ∧ (run_start env s).state_ = FitState.CONVERGED
      ∧ (run_start env s).chi_square_ = s.chi_square_ :=
  ⟨⟨rfl, rfl, rfl, rfl, rfl, rfl, rfl, rfl⟩, rfl, rfl, rfl, rfl⟩

theorem run_init_spec (env : Env α) (s : LMFitCPP α) :
    SameInputs s (run_init env s)
      ∧ (run_init env s).prev_chi_square_ = (run_init env s).chi_square_
      ∧ (run_init env s).n_iterations_ = s.n_iterations_
      ∧ (run_init env s).parameters_
          = fill s.info_.n_parameters_ (fun i => s.initial_parameters_ i) s.parameters_
      ∧ ((run_init env s).state_ = FitState.CONVERGED
          ∨ (run_init env s).state_ = FitState.NEG_CURVATURE_MLE)
      ∧ (s.info_.estimator_id_ = Estimator.LSE → (run_init env s).state_ = FitState.CONVERGED)
      ∧ (s.info_.estimator_id_ = Estimator.MLE →
          (∃ i, i < s.info_.n_points_ ∧ initial_curve env s i ≤ 0) →
          (run_init env s).state_ = FitState.NEG_CURVATURE_MLE
            ∧ (run_init env s).chi_square_ = s.chi_square_) := by
  obtain ⟨hmi, hmn, hmp, hms, hmc⟩ := run_start_spec env s
  obtain ⟨c1, c2, _, _, c5, c6, c7, c8⟩ := calc_coefficients_spec env (run_start env s)
  have e_state : (run_init env s).state_ = (calc_coefficients env (run_start env s)).state_ :=
    rfl
  have e_chi : (run_init env s).chi_square_
      = (calc_coefficients env (run_start env s)).chi_square_ := rfl
  have e_curve : initial_curve env s = (calc_coefficients env (run_start env s)).curve_ := rfl
  have e_inputs : SameInputs (calc_coefficients env (run_start env s)) (run_init env s) :=
    ⟨rfl, rfl, rfl, rfl, rfl, rfl, rfl, rfl⟩
  refine ⟨(hmi.next c1).next e_inputs, rfl, ?_, ?_, ?_, ?_, ?_⟩
  · exact c5.trans hmn
  · exact c2.trans hmp
  · rw [e_state, c8]
    rcases calc_chi_square_state_cases env.log (run_start env s) (run_start env s).curve_
      (run_start env s).info_.n_points_ with h | h
    · left; rw [h, hms]
    · right; exact h
  · intro hLSE
    rw [e_state, c8, calc_chi_square_state_LSE env.log _ _ _ (by rw [hmi.info_]; exact hLSE),
      hms]
  · intro hMLE hex
    have hex2 : ∃ i, i < (run_start env s).info_.n_points_ ∧ (run_start env s).curve_ i ≤ 0 := by
      obtain ⟨i, hi, hv⟩ := hex
      refine ⟨i, by rw [hmi.info_]; exact hi, ?_⟩
      rw [e_curve, c6] at hv
      exact hv
    obtain ⟨n1, n2⟩ := calc_chi_square_neg env.log (run_start env s) (run_start env s).curve_
      (run_start env s).info_.n_points_ (by rw [hmi.info_]; exact hMLE) hex2
    rw [e_state, e_chi, c8, c7, n1, n2, hmc]
    exact ⟨rfl, rfl⟩

theorem state_before_iteration_inputs (env : Env α) (s : LMFitCPP α) (k : Nat) :
    SameInputs s (state_before_iteration env s k) := by
  induction k with
  | zero => exact (run_init_spec env s).1
  | succ k ih => exact ih.next (iteration_body_spec env k _).1

/-- At the start of every round `chi_square_` is the chi-square of the last accepted
iterate. -/
theorem state_before_iteration_chi (env : Env α) (s : LMFitCPP α) (k : Nat) :
    (state_before_iteration env s k).chi_square_
      = (state_before_iteration env s k).prev_chi_square_ := by
  cases k with
  | zero => exact (run_init_spec env s).2.1.symm
  | succ k => exact (iteration_body_spec env k _).2.2.1

/-! ### The rounds `run` goes through -/

theorem run_loop_trace (env : Env α) (s : LMFitCPP α) (fuel it : Nat) (t : LMFitCPP α)
    (h : run_loop env fuel it (state_before_iteration env s it) = some t) :
    ∃ k, it ≤ k ∧ k ≤ it + fuel ∧ t = state_before_iteration env s k
      ∧ (∀ j, it ≤ j → j < k → (state_before_iteration env s j).state_ = FitState.CONVERGED)
      ∧ (∀ j, it ≤ j → j + 1 < k → ¬ leaves_after env s j)
      ∧ (k = it → (state_before_iteration env s it).state_ ≠ FitState.CONVERGED)
      ∧ (it < k → leaves_after env s (k - 1)) := by
  induction fuel generalizing it with
  | zero => simp [run_loop] at h
  | succ fuel ih =>
    rw [run_loop] at h
    by_cases hs : (state_before_iteration env s it).state_ = FitState.CONVERGED
    · rw [if_pos hs] at h
      dsimp only at h
      have hnext : iteration_body env it (state_before_iteration env s it)
          = state_before_iteration env s (it + 1) := rfl
      rw [hnext] at h
      by_cases hl : leaves_after env s it
      · rw [if_pos (show (state_before_iteration env s (it + 1)).converged_ = true
          ∨ (state_before_iteration env s (it + 1)).state_ ≠ FitState.CONVERGED from hl)] at h
        refine ⟨it + 1, by omega, by omega, (Option.some.inj h).symm, ?_, ?_, ?_, ?_⟩
        · intro j h1 h2
          have : j = it := by omega
          subst this
          exact hs
        · intro j h1 h2
          omega
        · intro e
          omega
        · intro _
          exact hl
      · rw [if_neg (show ¬ ((state_before_iteration env s (it + 1)).converged_ = true
          ∨ (state_before_iteration env s (it + 1)).state_ ≠ FitState.CONVERGED) from hl)] at h
        obtain ⟨k, k1, k2, k3, k4, k5, k6, k7⟩ := ih (it + 1) h
        refine ⟨k, by omega, by omega, k3, ?_, ?_, ?_, ?_⟩
        · intro j h1 h2
          by_cases e : j = it
          · subst e; exact hs
          · exact k4 j (by omega) h2
        · intro j h1 h2
          by_cases e : j = it
          · subst e; exact hl
          · exact k5 j (by omega) h2
        · intro e
          omega
        · intro _
          by_cases e : k = it + 1
          · subst e
            exact Or.inr (k6 rfl)
          · exact k7 (by omega)
    · rw [if_neg hs] at h
      refine ⟨it, le_refl it, by omega, (Option.some.inj h).symm, ?_, ?_, ?_, ?_⟩
      · intro j h1 h2
        omega
      · intro j h1 h2
        omega
      · intro _
        exact hs
      · intro e
        omega

theorem run_loop_continue (env : Env α) (s : LMFitCPP α) (fuel d it : Nat)
    (h : ∀ j, it ≤ j → j < it + d →
      (state_before_iteration env s j).state_ = FitState.CONVERGED ∧ ¬ leaves_after env s j) :
    run_loop env (fuel + d) it (state_before_iteration env s it)
      = run_loop env fuel (it + d) (state_before_iteration env s (it + d)) := by
  induction d generalizing it with
  | zero => rfl
  | succ d ih =>
    have h0 := h it (le_refl it) (by omega)
    have e : fuel + (d + 1) = (fuel + d) + 1 := by omega
    rw [e, run_loop, if_pos h0.1]
    dsimp only
    have hnext : iteration_body env it (state_before_iteration env s it)
        = state_before_iteration env s (it + 1) := rfl
    rw [hnext, if_neg (show ¬ ((state_before_iteration env s (it + 1)).converged_ = true
      ∨ (state_before_iteration env s (it + 1)).state_ ≠ FitState.CONVERGED) from h0.2),
      ih (it + 1) (fun j h1 h2 => h j (by omega) (by omega))]
    have e2 : it + 1 + d = it + (d + 1) := by omega
    rw [e2]

/-- When the loop leaves after round `k` and not before, `run` returns the fit object
as it is after that round. -/
theorem run_leaves (env : Env α) (s : LMFitCPP α) (k fuel : Nat)
    (h : ∀ j, j < k →
      (state_before_iteration env s j).state_ = FitState.CONVERGED ∧ ¬ leaves_after env s j)
    (hk : (state_before_iteration env s k).state_ = FitState.CONVERGED)
    (hl : leaves_after env s k) :
    run env (fuel + 1 + k) s = some (state_before_iteration env s (k + 1)) := by
  unfold run
  have := run_loop_continue env s (fuel + 1) k 0 (fun j _ h2 => h j (by omega))
  rw [show state_before_iteration env s 0 = run_init env s from rfl] at this
  rw [this, Nat.zero_add, run_loop, if_pos hk]
  dsimp only
  have hnext : iteration_body env k (state_before_iteration env s k)
      = state_before_iteration env s (k + 1) := rfl
  rw [hnext, if_pos (show (state_before_iteration env s (k + 1)).converged_ = true
    ∨ (state_before_iteration env s (k + 1)).state_ ≠ FitState.CONVERGED from hl)]

/-! ### The candidate of a round -/

theorem iteration_candidate_state_cases (env : Env α) (iteration : Nat) (s : LMFitCPP α) :
    (iteration_candidate env iteration s).state_ = s.state_
      ∨ (iteration_candidate env iteration s).state_ = FitState.NEG_CURVATURE_MLE := by
  obtain ⟨_, _, _, _, _, _, _, c8⟩ := iteration_candidate_spec env iteration s
  obtain ⟨_, _, _, _, _, u6, _⟩ := iteration_updated_spec env iteration s
  obtain ⟨_, _, _, _, _, m6, _⟩ := calc_model_spec env (iteration_updated env iteration s)
  rw [c8]
  rcases calc_chi_square_state_cases env.log (calc_model env (iteration_updated env iteration s))
    (calc_model env (iteration_updated env iteration s)).curve_ s.info_.n_points_ with h | h
  · left; rw [h, m6, u6]
  · right; exact h

theorem iteration_candidate_neg (env : Env α) (iteration : Nat) (s : LMFitCPP α)
    (hMLE : s.info_.estimator_id_ = Estimator.MLE)
    (hneg : ∃ i, i < s.info_.n_points_ ∧ (iteration_candidate env iteration s).curve_ i ≤ 0) :
    (iteration_candidate env iteration s).state_ = FitState.NEG_CURVATURE_MLE
      ∧ (iteration_candidate env iteration s).chi_square_ = s.chi_square_ := by
  obtain ⟨_, _, _, _, _, c6, c7, c8⟩ := iteration_candidate_spec env iteration s
  obtain ⟨u1, _, _, _, u5, _, _⟩ := iteration_updated_spec env iteration s
  obtain ⟨m1, _, _, _, m5, _, _⟩ := calc_model_spec env (iteration_updated env iteration s)
  rw [c6] at hneg
  obtain ⟨n1, n2⟩ := calc_chi_square_neg env.log
    (calc_model env (iteration_updated env iteration s))
    (calc_model env (iteration_updated env iteration s)).curve_ s.info_.n_points_
    (by rw [m1.info_, u1.info_]; exact hMLE) hneg
  rw [c7, c8, n1, n2, m5, u5]
  exact ⟨rfl, rfl⟩

theorem iteration_candidate_LSE (env : Env α) (iteration : Nat) (s : LMFitCPP α)
    (hLSE : s.info_.estimator_id_ = Estimator.LSE) :
    (iteration_candidate env iteration s).state_ = s.state_
      ∧ (iteration_candidate env iteration s).chi_square_
        = ∑ i in Finset.range s.info_.n_points_,
            weight_at s i
              * (((iteration_candidate env iteration s).curve_ i - s.data_ i)
                * ((iteration_candidate env iteration s).curve_ i - s.data_ i)) := by
  obtain ⟨_, _, _, _, _, c6, c7, c8⟩ := iteration_candidate_spec env iteration s
  obtain ⟨u1, _, _, _, _, u6, _⟩ := iteration_updated_spec env iteration s
  obtain ⟨m1, _, _, _, _, m6, _⟩ := calc_model_spec env (iteration_updated env iteration s)
  have hm : SameInputs s (calc_model env (iteration_updated env iteration s)) := u1.next m1
  have hL : (calc_model env (iteration_updated env iteration s)).info_.estimator_id_
      = Estimator.LSE := by rw [hm.info_]; exact hLSE
  refine ⟨?_, ?_⟩
  · rw [c8, calc_chi_square_state_LSE env.log _ _ _ hL, m6, u6]
  · rw [c7, calc_chi_square_LSE_value env.log _ _ _ hL, c6]
    apply Finset.sum_congr rfl
    intro i _
    have hw : weight_at (calc_model env (iteration_updated env iteration s)) i
        = weight_at s i := by
      unfold weight_at
      rw [hm.weight_]
    rw [hw, hm.data_]

/-! ### How `run` can end -/

theorem leaves_after_last (env : Env α) (s : LMFitCPP α) (k : Nat)
    (h : k + 1 = s.info_.max_n_iterations_) : leaves_after env s k := by
  unfold leaves_after
  apply iteration_body_last
  rw [(state_before_iteration_inputs env s k).info_, ← h]
  push_cast
  ring

/-- The state at the start of a round that follows another round is `CONVERGED`,
`NEG_CURVATURE_MLE` or `MAX_ITERATION`, and `MAX_ITERATION` only after round
`max_n_iterations_ - 1`. -/
theorem state_after_round (env : Env α) (s : LMFitCPP α) (k : Nat)
    (hk : (state_before_iteration env s k).state_ = FitState.CONVERGED) :
    ((state_before_iteration env s (k + 1)).state_ = FitState.CONVERGED
        ∨ (state_before_iteration env s (k + 1)).state_ = FitState.NEG_CURVATURE_MLE
        ∨ (state_before_iteration env s (k + 1)).state_ = FitState.MAX_ITERATION)
      ∧ ((state_before_iteration env s (k + 1)).state_ = FitState.MAX_ITERATION →
          k + 1 = s.info_.max_n_iterations_
            ∧ (state_before_iteration env s (k + 1)).converged_ = false) := by
  obtain ⟨_, _, _, _, _, b6, _⟩ := iteration_body_spec env k (state_before_iteration env s k)
  have hnext : state_before_iteration env s (k + 1)
      = iteration_body env k (state_before_iteration env s k) := rfl
  have hinfo := (state_before_iteration_inputs env s k).info_
  rw [hnext, b6, hinfo]
  have hc := iteration_candidate_state_cases env k (state_before_iteration env s k)
  rw [hk] at hc
  by_cases hcond : (iteration_body env k (state_before_iteration env s k)).converged_ = false
      ∧ (k : Int) = (s.info_.max_n_iterations_ : Int) - 1
  · rw [if_pos hcond]
    refine ⟨Or.inr (Or.inr rfl), fun _ => ⟨?_, hcond.1⟩⟩
    have := hcond.2
    omega
  · rw [if_neg hcond]
    refine ⟨?_, ?_⟩
    · rcases hc with h | h
      · exact Or.inl h
      · exact Or.inr (Or.inl h)
    · intro h
      rcases hc with h2 | h2
      · rw [h2] at h; exact absurd h (by decide)
      · rw [h2] at h; exact absurd h (by decide)

/-- What `run` returns is the fit object after some number `k` of rounds; the rounds
before did not leave the loop. -/
theorem run_result (env : Env α) (s : LMFitCPP α) (fuel : Nat) (t : LMFitCPP α)
    (h : run env fuel s = some t) :
    ∃ k, k ≤ fuel ∧ t = state_before_iteration env s k
      ∧ (∀ j, j < k → (state_before_iteration env s j).state_ = FitState.CONVERGED)
      ∧ (∀ j, j + 1 < k → ¬ leaves_after env s j)
      ∧ (k = 0 → (run_init env s).state_ ≠ FitState.CONVERGED)
      ∧ (0 < k → leaves_after env s (k - 1)) := by
  obtain ⟨k, _, k2, k3, k4, k5, k6, k7⟩ := run_loop_trace env s fuel 0 t h
  exact ⟨k, by omega, k3, fun j hj => k4 j (Nat.zero_le j) hj,
    fun j hj => k5 j (Nat.zero_le j) hj, k6, k7⟩

/-- The number of rounds is at most `max_n_iterations_` when that is at least 1. -/
theorem run_result_rounds (env : Env α) (s : LMFitCPP α) (k : Nat)
    (hmax : 1 ≤ s.info_.max_n_iterations_)
    (h : ∀ j, j + 1 < k → ¬ leaves_after env s j) : k ≤ s.info_.max_n_iterations_ := by
  by_contra hgt
  have hl := leaves_after_last env s (s.info_.max_n_iterations_ - 1) (by omega)
  exact h (s.info_.max_n_iterations_ - 1) (by omega) hl

theorem run_max_iteration (env : Env α) (s : LMFitCPP α) (fuel : Nat) (t : LMFitCPP α)
    (h : run env fuel s = some t) (hstate : t.state_ = FitState.MAX_ITERATION) :
    t = state_before_iteration env s s.info_.max_n_iterations_
      ∧ 1 ≤ s.info_.max_n_iterations_ := by
  obtain ⟨k, _, k3, k4, _, k6, _⟩ := run_result env s fuel t h
  cases k with
  | zero =>
    exfalso
    have h0 : t.state_ = (run_init env s).state_ := by rw [k3]; rfl
    rcases (run_init_spec env s).2.2.2.2.1 with e | e
    · rw [hstate, e] at h0; exact absurd h0 (by decide)
    · rw [hstate, e] at h0; exact absurd h0 (by decide)
  | succ k =>
    rw [k3] at hstate
    have := ((state_after_round env s k (k4 k (Nat.lt_succ_self k))).2 hstate).1
    rw [k3, this]
    exact ⟨rfl, by omega⟩

/-! ### The accepted chi-square is the smallest one seen -/

theorem prev_chi_square_step (env : Env α) (s : LMFitCPP α) (k : Nat) :
    (state_before_iteration env s (k + 1)).prev_chi_square_
      = (if candidate_chi_square env s k < (state_before_iteration env s k).prev_chi_square_
          then candidate_chi_square env s k
          else (state_before_iteration env s k).prev_chi_square_) :=
  (iteration_body_spec env k (state_before_iteration env s k)).2.1

theorem parameters_step (env : Env α) (s : LMFitCPP α) (k i : Nat) :
    (state_before_iteration env s (k + 1)).parameters_ i
      = (if candidate_chi_square env s k < (state_before_iteration env s k).prev_chi_square_
          then candidate_parameters env s k i
          else (state_before_iteration env s k).parameters_ i) :=
  (iteration_body_spec env k (state_before_iteration env s k)).2.2.2.1 i

theorem prev_chi_square_le_initial (env : Env α) (s : LMFitCPP α) (k : Nat) :
    (state_before_iteration env s k).prev_chi_square_ ≤ (run_init env s).chi_square_ := by
  induction k with
  | zero => exact le_of_eq (run_init_spec env s).2.1
  | succ k ih =>
    rw [prev_chi_square_step]
    by_cases h : candidate_chi_square env s k
        < (state_before_iteration env s k).prev_chi_square_
    · rw [if_pos h]; exact le_trans (le_of_lt h) ih
    · rw [if_neg h]; exact ih

/-- After `k` rounds the accepted chi-square is at most the initial one and at most
that of every candidate so far; it is the initial one, with the initial parameters, or
that of the first candidate that reached it, with the parameters of that candidate. -/
theorem best_so_far (env : Env α) (s : LMFitCPP α) (k : Nat) :
    (∀ j, j < k →
        (state_before_iteration env s k).prev_chi_square_ ≤ candidate_chi_square env s j)
      ∧ (((state_before_iteration env s k).prev_chi_square_ = (run_init env s).chi_square_
            ∧ ∀ i, (state_before_iteration env s k).parameters_ i
                = (run_init env s).parameters_ i)
          ∨ ∃ j, j < k
              ∧ candidate_chi_square env s j
                  = (state_before_iteration env s k).prev_chi_square_
              ∧ (state_before_iteration env s k).prev_chi_square_
                  < (run_init env s).chi_square_
              ∧ (∀ l, l < j →
                  (state_before_iteration env s k).prev_chi_square_
                    < candidate_chi_square env s l)
              ∧ ∀ i, (state_before_iteration env s k).parameters_ i
                  = candidate_parameters env s j i) := by
  induction k with
  | zero =>
    refine ⟨fun j hj => absurd hj (Nat.not_lt_zero j), Or.inl ⟨?_, fun i => rfl⟩⟩
    exact (run_init_spec env s).2.1
  | succ k ih =>
    obtain ⟨ih1, ih2⟩ := ih
    have hp := prev_chi_square_step env s k
    have hq := parameters_step env s k
    have h0 := prev_chi_square_le_initial env s k
    by_cases h : candidate_chi_square env s k
        < (state_before_iteration env s k).prev_chi_square_
    · rw [if_pos h] at hp
      simp only [if_pos h] at hq
      rw [hp]
      refine ⟨?_, Or.inr ⟨k, Nat.lt_succ_self k, rfl, lt_of_lt_of_le h h0, ?_, hq⟩⟩
      · intro j hj
        rcases Nat.lt_succ_iff_lt_or_eq.mp hj with hj | hj
        · exact le_trans (le_of_lt h) (ih1 j hj)
        · rw [hj]
      · intro l hl
        exact lt_of_lt_of_le h (ih1 l hl)
    · rw [if_neg h] at hp
      simp only [if_neg h] at hq
      rw [hp]
      refine ⟨?_, ?_⟩
      · intro j hj
        rcases Nat.lt_succ_iff_lt_or_eq.mp hj with hj | hj
        · exact ih1 j hj
        · rw [hj]; exact not_lt.mp h
      · rcases ih2 with ⟨a, b⟩ | ⟨j, j1, j2, j3, j4, j5⟩
        · exact Or.inl ⟨a, fun i => (hq i).trans (b i)⟩
        · exact Or.inr ⟨j, Nat.lt_succ_of_lt j1, j2, j3, j4, fun i => (hq i).trans (j5 i)⟩

/-! ### Least squares with tolerance 0 -/

theorem converged_of_zero_tolerance (env : Env α) (s : LMFitCPP α) (k : Nat)
    (htol : s.tolerance_ = 0) :
    (state_before_iteration env s (k + 1)).converged_ = false := by
  have h := (iteration_body_spec env k (state_before_iteration env s k)).2.2.2.2.1
  have hnext : state_before_iteration env s (k + 1)
      = iteration_body env k (state_before_iteration env s k) := rfl
  rw [hnext, h, (state_before_iteration_inputs env s k).tolerance_, htol, zero_mul, max_self]
  exact decide_eq_false (not_lt.mpr (abs_nonneg _))

theorem state_step_LSE (env : Env α) (s : LMFitCPP α) (k : Nat)
    (hLSE : s.info_.estimator_id_ = Estimator.LSE)
    (hk : (state_before_iteration env s k).state_ = FitState.CONVERGED) :
    (state_before_iteration env s (k + 1)).state_
      = (if (state_before_iteration env s (k + 1)).converged_ = false
            ∧ k + 1 = s.info_.max_n_iterations_
          then FitState.MAX_ITERATION else FitState.CONVERGED) := by
  have h := (iteration_body_spec env k (state_before_iteration env s k)).2.2.2.2.2.1
  have hnext : state_before_iteration env s (k + 1)
      = iteration_body env k (state_before_iteration env s k) := rfl
  have hinfo := (state_before_iteration_inputs env s k).info_
  have hc := (iteration_candidate_LSE env k (state_before_iteration env s k)
    (by rw [hinfo]; exact hLSE)).1
  rw [hnext, h, hc, hk, hinfo]
  have e : ((k : Int) = (s.info_.max_n_iterations_ : Int) - 1)
      ↔ k + 1 = s.info_.max_n_iterations_ := by omega
  simp only [e]

theorem zero_tolerance_rounds (env : Env α) (s : LMFitCPP α)
    (hLSE : s.info_.estimator_id_ = Estimator.LSE) (htol : s.tolerance_ = 0) (k : Nat)
    (hk : k < s.info_.max_n_iterations_) :
    (state_before_iteration env s k).state_ = FitState.CONVERGED
      ∧ (k + 1 < s.info_.max_n_iterations_ → ¬ leaves_after env s k) := by
  induction k with
  | zero =>
    have h0 : (state_before_iteration env s 0).state_ = FitState.CONVERGED :=
      (run_init_spec env s).2.2.2.2.2.1 hLSE
    refine ⟨h0, fun h1 hl => ?_⟩
    have hs := state_step_LSE env s 0 hLSE h0
    rw [if_neg (fun h => by omega)] at hs
    rcases hl with hl | hl
    · rw [converged_of_zero_tolerance env s 0 htol] at hl; exact absurd hl (by decide)
    · exact hl hs
  | succ k ih =>
    obtain ⟨ih1, _⟩ := ih (by omega)
    have hs := state_step_LSE env s k hLSE ih1
    rw [if_neg (fun h => by omega)] at hs
    refine ⟨hs, fun h1 hl => ?_⟩
    have hs2 := state_step_LSE env s (k + 1) hLSE hs
    rw [if_neg (fun h => by omega)] at hs2
    rcases hl with hl | hl
    · rw [converged_of_zero_tolerance env s (k + 1) htol] at hl; exact absurd hl (by decide)
    · exact hl hs2

theorem n_iterations_step (env : Env α) (s : LMFitCPP α) (k : Nat) :
    (state_before_iteration env s (k + 1)).n_iterations_
      = (if (state_before_iteration env s (k + 1)).converged_ = true
            ∨ k + 1 = s.info_.max_n_iterations_
          then ((k + 1 : Nat) : Int) else (state_before_iteration env s k).n_iterations_) := by
  have h := (iteration_body_spec env k (state_before_iteration env s k)).2.2.2.2.2.2
  have hnext : state_before_iteration env s (k + 1)
      = iteration_body env k (state_before_iteration env s k) := rfl
  rw [hnext, h, (state_before_iteration_inputs env s k).info_]
  have e : ((k : Int) = (s.info_.max_n_iterations_ : Int) - 1)
      ↔ k + 1 = s.info_.max_n_iterations_ := by omega
  simp only [e]
  push_cast
  rfl

/-! ### The search for `lambda_` -/

theorem lambda_while_spec (env : Env α) (m : Nat) :
    ∀ (fuel iter_lambda : Nat) (s : LMFitCPP α), iter_lambda + m = 10 → m < fuel →
      ∃ n, iter_lambda ≤ n ∧ n ≤ 10
        ∧ lambda_while env fuel iter_lambda s = some (lambda_iterations env m s, n) := by
  induction m with
  | zero =>
    intro fuel iter_lambda s h1 h2
    obtain ⟨fuel, rfl⟩ : ∃ f, fuel = f + 1 := ⟨fuel - 1, by omega⟩
    refine ⟨iter_lambda, le_refl _, by omega, ?_⟩
    rw [lambda_while, if_neg (fun h => by omega)]
    rfl
  | succ m ih =>
    intro fuel iter_lambda s h1 h2
    obtain ⟨fuel, rfl⟩ : ∃ f, fuel = f + 1 := ⟨fuel - 1, by omega⟩
    by_cases hphi : |s.phi_| > 1 / 10 * s.step_bound_
    · obtain ⟨n, n1, n2, n3⟩ := ih fuel (iter_lambda + 1)
        (solve_step env (modify_step_width (update_lambda s))
          (modify_step_width (update_lambda s)).modified_hessian_) (by omega) (by omega)
      refine ⟨n, by omega, n2, ?_⟩
      rw [lambda_while, if_pos (And.intro hphi (by omega)), lambda_iterations, if_pos hphi]
      exact n3
    · refine ⟨iter_lambda, le_refl _, by omega, ?_⟩
      rw [lambda_while, if_neg (fun h => hphi h.1), lambda_iterations, if_neg hphi]

/-! ### Facts about whole runs -/

theorem run_init_LSE_chi (env : Env α) (s : LMFitCPP α)
    (hLSE : s.info_.estimator_id_ = Estimator.LSE) :
    (run_init env s).chi_square_
      = ∑ i in Finset.range s.info_.n_points_,
          weight_at s i
            * ((initial_curve env s i - s.data_ i) * (initial_curve env s i - s.data_ i)) := by
  obtain ⟨hmi, _, _, _, _⟩ := run_start_spec env s
  obtain ⟨_, _, _, _, _, c6, c7, _⟩ := calc_coefficients_spec env (run_start env s)
  have e_chi : (run_init env s).chi_square_
      = (calc_coefficients env (run_start env s)).chi_square_ := rfl
  have e_curve : initial_curve env s = (calc_coefficients env (run_start env s)).curve_ := rfl
  rw [e_chi, c7, calc_chi_square_LSE_value env.log _ _ _ (by rw [hmi.info_]; exact hLSE),
    e_curve, c6, hmi.info_]
  apply Finset.sum_congr rfl
  intro i _
  have hw : weight_at (run_start env s) i = weight_at s i := by
    unfold weight_at
    rw [hmi.weight_]
  rw [hw, hmi.data_]

theorem run_init_parameters (env : Env α) (s : LMFitCPP α) (i : Nat)
    (hi : i < s.info_.n_parameters_) :
    (run_init env s).parameters_ i = s.initial_parameters_ i := by
  rw [(run_init_spec env s).2.2.2.1, fill_apply, if_pos hi]

theorem run_without_round (env : Env α) (s : LMFitCPP α) (fuel : Nat)
    (h : (run_init env s).state_ ≠ FitState.CONVERGED) :
    run env (fuel + 1) s = some (run_init env s) := by
  unfold run
  rw [run_loop, if_neg h]

/-- With at least one round allowed `run` returns the fit object after some number
`k ≤ max_n_iterations_` of rounds, whatever the fuel from `max_n_iterations_` on. -/
theorem run_exact (env : Env α) (s : LMFitCPP α) (hmax : 1 ≤ s.info_.max_n_iterations_) :
    ∃ k, k ≤ s.info_.max_n_iterations_
      ∧ (k = 0 → (run_init env s).state_ ≠ FitState.CONVERGED)
      ∧ (0 < k → leaves_after env s (k - 1))
      ∧ ∀ fuel, s.info_.max_n_iterations_ ≤ fuel →
          run env fuel s = some (state_before_iteration env s k) := by
  obtain ⟨t, ht⟩ := run_returns env s hmax
  obtain ⟨k, _, _, k4, k5, k6, k7⟩ := run_result env s _ t ht
  have hk := run_result_rounds env s k hmax k5
  refine ⟨k, hk, k6, k7, ?_⟩
  intro fuel hfuel
  cases k with
  | zero =>
    obtain ⟨f, rfl⟩ : ∃ f, fuel = f + 1 := ⟨fuel - 1, by omega⟩
    exact run_without_round env s f (k6 rfl)
  | succ k =>
    obtain ⟨f, rfl⟩ : ∃ f, fuel = f + 1 + k := ⟨fuel - 1 - k, by omega⟩
    exact run_leaves env s k f
      (fun j hj => ⟨k4 j (by omega), k5 j (by omega)⟩) (k4 k (Nat.lt_succ_self k))
      (k7 (Nat.succ_pos k))

/-- What a round does whose candidate has a curve value `<= 0` under MLE: the candidate
is not accepted, and the state is `NEG_CURVATURE_MLE` unless the round is the last one
allowed and the tolerance is not positive, when it is `MAX_ITERATION`. -/
theorem neg_curvature_round (env : Env α) (s : LMFitCPP α) (k : Nat)
    (hMLE : s.info_.estimator_id_ = Estimator.MLE)
    (hneg : ∃ i, i < s.info_.n_points_ ∧ candidate_curve env s k i ≤ 0) :
    (iteration_candidate env k (state_before_iteration env s k)).state_
        = FitState.NEG_CURVATURE_MLE
      ∧ candidate_chi_square env s k = (state_before_iteration env s k).prev_chi_square_
      ∧ (state_before_iteration env s (k + 1)).converged_ = decide (0 < s.tolerance_)
      ∧ (state_before_iteration env s (k + 1)).state_
          = (if s.tolerance_ ≤ 0 ∧ k + 1 = s.info_.max_n_iterations_
              then FitState.MAX_ITERATION else FitState.NEG_CURVATURE_MLE) := by
  have hin := state_before_iteration_inputs env s k
  obtain ⟨n1, n2⟩ := iteration_candidate_neg env k (state_before_iteration env s k)
    (by rw [hin.info_]; exact hMLE) (by rw [hin.info_]; exact hneg)
  have hchi : candidate_chi_square env s k = (state_before_iteration env s k).prev_chi_square_ :=
    n2.trans (state_before_iteration_chi env s k)
  obtain ⟨_, _, _, _, b5, b6, _⟩ := iteration_body_spec env k (state_before_iteration env s k)
  have hnext : state_before_iteration env s (k + 1)
      = iteration_body env k (state_before_iteration env s k) := rfl
  have hconv : (state_before_iteration env s (k + 1)).converged_ = decide (0 < s.tolerance_) := by
    rw [hnext, b5]
    have e : (iteration_candidate env k (state_before_iteration env s k)).chi_square_
        = (state_before_iteration env s k).prev_chi_square_ := hchi
    rw [e, sub_self, abs_zero, hin.tolerance_]
    by_cases ht : 0 < s.tolerance_
    · rw [decide_eq_true ht]
      exact decide_eq_true (lt_of_lt_of_le ht (le_max_left _ _))
    · rw [decide_eq_false ht]
      apply decide_eq_false
      rw [not_lt]
      exact max_le (not_lt.mp ht)
        (mul_nonpos_of_nonpos_of_nonneg (not_lt.mp ht) (abs_nonneg _))
  refine ⟨n1, hchi, hconv, ?_⟩
  have hst := b6
  rw [← hnext, hconv, n1, hin.info_] at hst
  rw [hst]
  have e : ((k : Int) = (s.info_.max_n_iterations_ : Int) - 1)
      ↔ k + 1 = s.info_.max_n_iterations_ := by omega
  by_cases ht : 0 < s.tolerance_
  · rw [if_neg (fun h => absurd h.1 (by rw [decide_eq_true ht]; decide)),
      if_neg (fun h => absurd ht (not_lt.mpr h.1))]
  · by_cases hl : k + 1 = s.info_.max_n_iterations_
    · rw [if_pos (And.intro (decide_eq_false ht) (e.mpr hl)),
        if_pos (And.intro (not_lt.mp ht) hl)]
    · rw [if_neg (fun h => hl (e.mp h.2)), if_neg (fun h => hl h.2)]

/-! ### Norms and products -/

theorem calc_euclidian_norm_eq (sqrt : α → α) (v : Nat → α) (n : Nat) :
    calc_euclidian_norm sqrt v n 0 = sqrt (∑ i in Finset.range n, v i * v i) := by
  unfold calc_euclidian_norm
  rw [if_neg (fun h => h rfl)]
  exact congrArg sqrt (accumulate_zero_eq_sum n (fun i => v i * v i))

theorem calc_scalar_product_eq (v1 v2 : Nat → α) (n : Nat) :
    calc_scalar_product v1 n v2 = ∑ i in Finset.range n, v1 i * v2 i :=
  accumulate_zero_eq_sum n (fun i => v1 i * v2 i)

theorem multiply_matrix_vector_apply (product matrix : Nat → α) (matrix_size : Nat)
    (vector : Nat → α) (vector_size : Nat) (row : Nat) :
    multiply_matrix_vector product matrix matrix_size vector vector_size row
      = if row < matrix_size / vector_size then
          product row
            + ∑ col in Finset.range vector_size,
                matrix (col * (matrix_size / vector_size) + row) * vector col
        else product row := by
  unfold multiply_matrix_vector
  refine forRange_induction _
    (fun c (p : Nat → α) => p row
      = if row < matrix_size / vector_size then
          product row
            + ∑ col in Finset.range c,
                matrix (col * (matrix_size / vector_size) + row) * vector col
        else product row)
    (Nat.zero_le vector_size) product (by simp) ?_
  intro c p _ _ hp
  beta_reduce
  have inner : ∀ r, (forRange 0 r
      (fun row (product : Nat → α) =>
        Function.update product row
          (product row + matrix (c * (matrix_size / vector_size) + row) * vector c)) p) row
      = if row < r then p row + matrix (c * (matrix_size / vector_size) + row) * vector c
        else p row := by
    intro r
    refine forRange_induction _
      (fun r (q : Nat → α) => q row
        = if row < r then p row + matrix (c * (matrix_size / vector_size) + row) * vector c
          else p row)
      (Nat.zero_le r) p (by simp) ?_
    intro k q _ _ hq
    beta_reduce
    by_cases hk : row = k
    · subst hk
      rw [Function.update_same, if_pos (Nat.lt_succ_self _)]
      rw [if_neg (Nat.lt_irrefl _)] at hq
      rw [hq]
    · rw [Function.update_noteq hk, hq]
      by_cases h1 : row < k
      · rw [if_pos h1, if_pos (Nat.lt_succ_of_lt h1)]
      · rw [if_neg h1, if_neg (by omega)]
  rw [inner, hp]
  by_cases h : row < matrix_size / vector_size
  · rw [if_pos h, if_pos h, if_pos h, Finset.sum_range_succ, add_assoc]
  · rw [if_neg h, if_neg h, if_neg h]

/-! ### `modify_step_width` -/

theorem modify_step_width_spec (s : LMFitCPP α) :
    (∀ i, (modify_step_width s).scaling_vector_ i
        = if i < s.info_.n_parameters_to_fit_ then
            max (s.scaling_vector_ i)
              (s.hessian_ (i * s.info_.n_parameters_to_fit_ + i))
          else s.scaling_vector_ i)
      ∧ (∀ i j, i < s.info_.n_parameters_to_fit_ → j < s.info_.n_parameters_to_fit_ →
          (modify_step_width s).modified_hessian_ (i * s.info_.n_parameters_to_fit_ + j)
            = s.hessian_ (i * s.info_.n_parameters_to_fit_ + j)
              + if i = j then (modify_step_width s).scaling_vector_ i * s.lambda_ else 0)
      ∧ (modify_step_width s).hessian_ = s.hessian_
      ∧ (modify_step_width s).lambda_ = s.lambda_ := by
  have hK : Nat.sqrt (s.info_.n_parameters_to_fit_ * s.info_.n_parameters_to_fit_)
      = s.info_.n_parameters_to_fit_ := Nat.sqrt_eq _
  have key := forRange_induction
    (fun parameter_index (st : (Nat → α) × (Nat → α)) =>
      let scaling_vector := st.1
      let modified_hessian := st.2
      let diagonal_index := parameter_index * s.info_.n_parameters_to_fit_ + parameter_index
      let scaling_vector :=
        Function.update scaling_vector parameter_index
          (max (scaling_vector parameter_index) (modified_hessian diagonal_index))
      let modified_hessian :=
        Function.update modified_hessian diagonal_index
          (modified_hessian diagonal_index + scaling_vector parameter_index * s.lambda_)
      (scaling_vector, modified_hessian))
    (fun k (st : (Nat → α) × (Nat → α)) =>
      (∀ i, st.1 i
          = if i < k then
              max (s.scaling_vector_ i) (s.hessian_ (i * s.info_.n_parameters_to_fit_ + i))
            else s.scaling_vector_ i)
        ∧ ∀ i j, i < s.info_.n_parameters_to_fit_ → j < s.info_.n_parameters_to_fit_ →
            st.2 (i * s.info_.n_parameters_to_fit_ + j)
              = s.hessian_ (i * s.info_.n_parameters_to_fit_ + j)
                + if i = j ∧ i < k then st.1 i * s.lambda_ else 0)
    (Nat.zero_le s.info_.n_parameters_to_fit_) (s.scaling_vector_, s.hessian_)
    ⟨by simp, by simp⟩ ?_
  · have e1 : (modify_step_width s).scaling_vector_
        = (forRange 0 s.info_.n_parameters_to_fit_
            (fun parameter_index (st : (Nat → α) × (Nat → α)) =>
              let scaling_vector := st.1
              let modified_hessian := st.2
              let diagonal_index :=
                parameter_index * s.info_.n_parameters_to_fit_ + parameter_index
              let scaling_vector :=
                Function.update scaling_vector parameter_index
                  (max (scaling_vector parameter_index) (modified_hessian diagonal_index))
              let modified_hessian :=
                Function.update modified_hessian diagonal_index
                  (modified_hessian diagonal_index
                    + scaling_vector parameter_index * s.lambda_)
              (scaling_vector, modified_hessian))
            (s.scaling_vector_, s.hessian_)).1 := by
      unfold modify_step_width
      simp only [hK]
    have e2 : (modify_step_width s).modified_hessian_
        = (forRange 0 s.info_.n_parameters_to_fit_
            (fun parameter_index (st : (Nat → α) × (Nat → α)) =>
              let scaling_vector := st.1
              let modified_hessian := st.2
              let diagonal_index :=
                parameter_index * s.info_.n_parameters_to_fit_ + parameter_index
              let scaling_vector :=
                Function.update scaling_vector parameter_index
                  (max (scaling_vector parameter_index) (modified_hessian diagonal_index))
              let modified_hessian :=
                Function.update modified_hessian diagonal_index
                  (modified_hessian diagonal_index
                    + scaling_vector parameter_index * s.lambda_)
              (scaling_vector, modified_hessian))
            (s.scaling_vector_, s.hessian_)).2 := by
      unfold modify_step_width
      simp only [hK]
    refine ⟨?_, ?_, rfl, rfl⟩
    · intro i
      rw [e1]
      exact key.1 i
    · intro i j hi hj
      rw [e2, e1, key.2 i j hi hj]
      by_cases hij : i = j
      · rw [if_pos hij, if_pos (And.intro hij hi)]
      · rw [if_neg hij, if_neg (fun h => hij h.1)]
  · intro k st _ hk ⟨h1, h2⟩
    dsimp only
    have hdiag : st.2 (k * s.info_.n_parameters_to_fit_ + k)
        = s.hessian_ (k * s.info_.n_parameters_to_fit_ + k) := by
      rw [h2 k k hk hk, if_neg (fun h => Nat.lt_irrefl k h.2), add_zero]
    refine ⟨?_, ?_⟩
    · intro i
      by_cases hik : i = k
      · subst hik
        rw [Function.update_same, if_pos (Nat.lt_succ_self _), hdiag, h1 i,
          if_neg (Nat.lt_irrefl _)]
      · rw [Function.update_noteq hik, h1 i]
        by_cases h : i < k
        · rw [if_pos h, if_pos (Nat.lt_succ_of_lt h)]
        · rw [if_neg h, if_neg (by omega)]
    · intro i j hi hj
      by_cases hd : i * s.info_.n_parameters_to_fit_ + j = k * s.info_.n_parameters_to_fit_ + k
      · obtain ⟨rfl, rfl⟩ := (idx_inj hj hk).mp hd
        rw [Function.update_same, Function.update_same, hdiag,
          if_pos (And.intro rfl (Nat.lt_succ_self _))]
      · rw [Function.update_noteq hd, h2 i j hi hj]
        by_cases hij : i = j
        · subst hij
          have hik : i ≠ k := fun h => hd (by rw [h])
          rw [Function.update_noteq hik]
          by_cases h : i < k
          · rw [if_pos (And.intro rfl h), if_pos (And.intro rfl (Nat.lt_succ_of_lt h))]
          · rw [if_neg (fun hh => h hh.2), if_neg (fun hh => by omega)]
        · rw [if_neg (fun hh => hij hh.1), if_neg (fun hh => hij hh.1)]

/-! ### Who writes `scaling_vector_` -/

theorem ScalingGrows.of_eq {s t : LMFitCPP α} (h : t.scaling_vector_ = s.scaling_vector_) :
    ScalingGrows s t := fun i => le_of_eq (congrFun h i).symm

theorem ScalingGrows.step {s t u : LMFitCPP α} (h1 : ScalingGrows s t)
    (h2 : ScalingGrows t u) : ScalingGrows s u := fun i => le_trans (h1 i) (h2 i)

theorem ScalingGrows.ite {c : Prop} [Decidable c] {s a b : LMFitCPP α}
    (ha : ScalingGrows s a) (hb : ScalingGrows s b) : ScalingGrows s (if c then a else b) := by
  split_ifs
  · exact ha
  · exact hb

theorem modify_step_width_grows (s : LMFitCPP α) : ScalingGrows s (modify_step_width s) := by
  intro i
  rw [(modify_step_width_spec s).1 i]
  split_ifs
  · exact le_max_left _ _
  · exact le_refl _

theorem solve_step_scaling (env : Env α) (s : LMFitCPP α) (h : Nat → α) :
    (solve_step env s h).scaling_vector_ = s.scaling_vector_ := rfl

theorem update_lambda_scaling (s : LMFitCPP α) :
    (update_lambda s).scaling_vector_ = s.scaling_vector_ := rfl

theorem lambda_iterations_grows (env : Env α) (n : Nat) (s : LMFitCPP α) :
    ScalingGrows s (lambda_iterations env n s) := by
  induction n generalizing s with
  | zero => exact ScalingGrows.of_eq rfl
  | succ n ih =>
    rw [lambda_iterations]
    refine ScalingGrows.ite ?_ (ScalingGrows.of_eq rfl)
    have h1 : ScalingGrows s (update_lambda s) := ScalingGrows.of_eq rfl
    have h2 := modify_step_width_grows (update_lambda s)
    have h3 : ScalingGrows (modify_step_width (update_lambda s))
        (solve_step env (modify_step_width (update_lambda s))
          (modify_step_width (update_lambda s)).modified_hessian_) :=
      ScalingGrows.of_eq rfl
    exact ((h1.step h2).step h3).step (ih _)

theorem lambda_search_grows (env : Env α) (s : LMFitCPP α) :
    ScalingGrows s (lambda_search env s) := by
  unfold lambda_search
  refine ScalingGrows.ite ?_ (ScalingGrows.of_eq rfl)
  have h1 : ScalingGrows s (initialize_lambda_bounds env s) := ScalingGrows.of_eq rfl
  have h2 := modify_step_width_grows (initialize_lambda_bounds env s)
  have h3 : ScalingGrows (modify_step_width (initialize_lambda_bounds env s))
      (solve_step env (modify_step_width (initialize_lambda_bounds env s))
        (modify_step_width (initialize_lambda_bounds env s)).modified_hessian_) :=
    ScalingGrows.of_eq rfl
  exact ((h1.step h2).step h3).step (lambda_iterations_grows env 10 _)

theorem iteration_head_grows (env : Env α) (iteration : Nat) (s : LMFitCPP α) :
    ScalingGrows s (iteration_head env iteration s) := by
  unfold iteration_head
  have h1 : ScalingGrows s
      (if iteration = 0 then initialize_step_bound env (modify_step_width s)
        else modify_step_width s) :=
    ScalingGrows.ite ((modify_step_width_grows s).step (ScalingGrows.of_eq rfl))
      (modify_step_width_grows s)
  have key : ∀ t, ScalingGrows s t →
      ScalingGrows s
        (lambda_search env (rescale_phi_derivative env (solve_step env t t.hessian_))) :=
    fun t ht =>
      have h3 : ScalingGrows t (rescale_phi_derivative env (solve_step env t t.hessian_)) :=
        ScalingGrows.of_eq rfl
      (ht.step h3).step (lambda_search_grows env _)
  exact ScalingGrows.ite ((key _ h1).step (ScalingGrows.of_eq rfl)) (key _ h1)

theorem update_parameters_scaling (s : LMFitCPP α) :
    (update_parameters s).scaling_vector_ = s.scaling_vector_ := rfl

theorem calc_model_scaling (env : Env α) (s : LMFitCPP α) :
    (calc_model env s).scaling_vector_ = s.scaling_vector_ := rfl

theorem calc_chi_square_scaling (log : α → α) (s : LMFitCPP α) (values : Nat → α) (n : Nat) :
    (calc_chi_square log s values n).scaling_vector_ = s.scaling_vector_ := by
  unfold calc_chi_square
  cases chi_square_sum log s values n 0 0 <;> rfl

theorem calc_coefficients_scaling (env : Env α) (s : LMFitCPP α) :
    (calc_coefficients env s).scaling_vector_ = s.scaling_vector_ := by
  unfold calc_coefficients
  dsimp only
  split_ifs
  · exact calc_chi_square_scaling env.log s s.curve_ s.info_.n_points_
  · exact calc_chi_square_scaling env.log s s.curve_ s.info_.n_points_

theorem update_step_bound_scaling (env : Env α) (s : LMFitCPP α) :
    (update_step_bound env s).scaling_vector_ = s.scaling_vector_ := by
  unfold update_step_bound
  dsimp only
  split_ifs <;> rfl

theorem evaluate_iteration_scaling (s : LMFitCPP α) (iteration : Nat) :
    (evaluate_iteration s iteration).scaling_vector_ = s.scaling_vector_ := by
  unfold evaluate_iteration
  dsimp only
  split_ifs <;> rfl

theorem prepare_next_iteration_scaling (s : LMFitCPP α) :
    (prepare_next_iteration s).scaling_vector_ = s.scaling_vector_ := by
  unfold prepare_next_iteration
  split_ifs <;> rfl

theorem iteration_tail_scaling (env : Env α) (iteration : Nat) (s : LMFitCPP α) :
    (iteration_tail env iteration s).scaling_vector_ = s.scaling_vector_ := by
  unfold iteration_tail
  dsimp only
  rw [prepare_next_iteration_scaling, evaluate_iteration_scaling]
  show (update_step_bound env _).scaling_vector_ = _
  rw [update_step_bound_scaling]
  show (calc_coefficients env _).scaling_vector_ = _
  rw [calc_coefficients_scaling]
  rfl

theorem iteration_body_grows (env : Env α) (iteration : Nat) (s : LMFitCPP α) :
    ScalingGrows s (iteration_body env iteration s) := by
  unfold iteration_body
  exact (iteration_head_grows env iteration s).step
    (ScalingGrows.of_eq ((iteration_tail_scaling env iteration _).trans
      (update_parameters_scaling _)))

theorem run_init_scaling (env : Env α) (s : LMFitCPP α) :
    (run_init env s).scaling_vector_ = s.scaling_vector_ := by
  rw [run_init_eq]
  show (calc_coefficients env (run_start env s)).scaling_vector_ = _
  rw [calc_coefficients_scaling]
  rfl

theorem state_before_iteration_grows (env : Env α) (s : LMFitCPP α) (k d : Nat) :
    ScalingGrows (state_before_iteration env s k) (state_before_iteration env s (k + d)) := by
  induction d with
  | zero => exact ScalingGrows.of_eq rfl
  | succ d ih => exact ih.step (iteration_body_grows env (k + d) _)

/-! ### The model `LINEAR_1D` -/

theorem linear1d_x_none (s : LMFitCPP α) (h : s.user_info_ = none) (i : Nat) :
    linear1d_x s (i + 1) = (i : α) := by
  rw [linear1d_x]
  unfold point_coordinate
  rw [h]

theorem linear1d_x_exact (s : LMFitCPP α) (u : Nat → α) (h : s.user_info_ = some u)
    (hsize : s.info_.user_info_size_ / 4 = s.info_.n_points_) (i : Nat) :
    linear1d_x s (i + 1) = u i := by
  rw [linear1d_x]
  unfold point_coordinate
  rw [h]
  dsimp only
  rw [if_pos hsize]

theorem linear1d_x_batch (s : LMFitCPP α) (u : Nat → α) (h : s.user_info_ = some u)
    (hsize : s.info_.user_info_size_ / 4 > s.info_.n_points_) (i : Nat) :
    linear1d_x s (i + 1) = u (s.fit_index_ * s.info_.n_points_ + i) := by
  rw [linear1d_x]
  unfold point_coordinate
  rw [h]
  dsimp only
  rw [if_neg (by omega), if_pos hsize]

theorem calc_values_linear1d_apply (s : LMFitCPP α) (line : Nat → α) (i : Nat) :
    calc_values_linear1d s line i
      = if i < s.info_.n_points_ then s.parameters_ 0 + s.parameters_ 1 * linear1d_x s (i + 1)
        else line i := by
  unfold calc_values_linear1d
  have key := forRange_induction
    (fun point_index (st : α × (Nat → α)) =>
      let x := point_coordinate s st.1 point_index
      (x, Function.update st.2 point_index (s.parameters_ 0 + s.parameters_ 1 * x)))
    (fun k (st : α × (Nat → α)) =>
      st.1 = linear1d_x s k
        ∧ st.2 i = if i < k then s.parameters_ 0 + s.parameters_ 1 * linear1d_x s (i + 1)
            else line i)
    (Nat.zero_le s.info_.n_points_) (0, line) ⟨rfl, by simp⟩ ?_
  · exact key.2
  · intro k st _ _ ⟨h1, h2⟩
    dsimp only
    refine ⟨by rw [h1, linear1d_x], ?_⟩
    by_cases hik : i = k
    · subst hik
      rw [Function.update_same, if_pos (Nat.lt_succ_self _), h1, linear1d_x]
    · rw [Function.update_noteq hik, h2]
      by_cases h : i < k
      · rw [if_pos h, if_pos (Nat.lt_succ_of_lt h)]
      · rw [if_neg h, if_neg (by omega)]

theorem calc_derivatives_linear1d_apply (s : LMFitCPP α) (derivatives : Nat → α) (j : Nat) :
    calc_derivatives_linear1d s derivatives j
      = if j < s.info_.n_points_ then 1
        else if j < s.info_.n_points_ + s.info_.n_points_ then
          linear1d_x s (j - s.info_.n_points_ + 1)
        else derivatives j := by
  unfold calc_derivatives_linear1d
  have key := forRange_induction
    (fun point_index (st : α × (Nat → α)) =>
      let x := point_coordinate s st.1 point_index
      let derivatives := Function.update st.2 (0 * s.info_.n_points_ + point_index) 1
      let derivatives := Function.update derivatives (1 * s.info_.n_points_ + point_index) x
      (x, derivatives))
    (fun k (st : α × (Nat → α)) =>
      st.1 = linear1d_x s k
        ∧ st.2 j = if j < k then 1
            else if s.info_.n_points_ ≤ j ∧ j < s.info_.n_points_ + k then
              linear1d_x s (j - s.info_.n_points_ + 1)
            else derivatives j)
    (Nat.zero_le s.info_.n_points_) (0, derivatives) ⟨rfl, ?_⟩ ?_
  · rw [key.2]
    by_cases h1 : j < s.info_.n_points_
    · rw [if_pos h1, if_pos h1]
    · rw [if_neg h1, if_neg h1]
      by_cases h2 : j < s.info_.n_points_ + s.info_.n_points_
      · rw [if_pos h2, if_pos (And.intro (by omega) h2)]
      · rw [if_neg h2, if_neg (fun h => h2 h.2)]
  · rw [if_neg (Nat.not_lt_zero j), if_neg (fun h => by omega)]
  · intro k st _ hk ⟨h1, h2⟩
    dsimp only
    refine ⟨by rw [h1, linear1d_x], ?_⟩
    rw [Nat.zero_mul, Nat.zero_add, Nat.one_mul]
    by_cases hj1 : j = s.info_.n_points_ + k
    · subst hj1
      rw [Function.update_same, if_neg (by omega), if_pos (And.intro (by omega) (by omega)), h1,
        linear1d_x, Nat.add_sub_cancel_left]
    · rw [Function.update_noteq hj1]
      by_cases hj0 : j = k
      · subst hj0
        rw [Function.update_same, if_pos (Nat.lt_succ_self _)]
      · rw [Function.update_noteq hj0, h2]
        by_cases h : j < k
        · rw [if_pos h, if_pos (Nat.lt_succ_of_lt h)]
        · rw [if_neg h, if_neg (show ¬ j < k + 1 by omega)]
          by_cases h3 : s.info_.n_points_ ≤ j ∧ j < s.info_.n_points_ + k
          · rw [if_pos h3, if_pos (And.intro h3.1 (by omega))]
          · rw [if_neg h3, if_neg (fun hh => h3 ⟨hh.1, by omega⟩)]

/-! ### Uniqueness of solutions -/

theorem solution_unique (A : Nat → α) (N : Nat) (hdet : (toMatrix N A).det ≠ 0)
    (x y : Nat → α)
    (h : ∀ i, i < N → ∑ j in Finset.range N, A (i * N + j) * x j
      = ∑ j in Finset.range N, A (i * N + j) * y j) :
    ∀ j, j < N → x j = y j := by
  have hv : (toMatrix N A).mulVec (fun j : Fin N => x j.val - y j.val) = 0 := by
    funext i
    have hi := h i.val i.isLt
    rw [← Fin.sum_univ_eq_sum_range (fun j => A (i.val * N + j) * x j) N,
      ← Fin.sum_univ_eq_sum_range (fun j => A (i.val * N + j) * y j) N] at hi
    simp only [Matrix.mulVec, Matrix.dotProduct, toMatrix, Pi.zero_apply, mul_sub,
      Finset.sum_sub_distrib]
    rw [hi, sub_self]
  have hz := Matrix.eq_zero_of_mulVec_eq_zero hdet hv
  intro j hj
  have := congrFun hz ⟨j, hj⟩
  exact sub_eq_zero.mp this

theorem det_ne_zero_of_kernel (A : Nat → α) (N : Nat)
    (h : ∀ v : Nat → α, (∀ i, i < N → ∑ j in Finset.range N, A (i * N + j) * v j = 0) →
      ∀ j, j < N → v j = 0) :
    (toMatrix N A).det ≠ 0 := by
  intro hdet
  obtain ⟨v, hv0, hv⟩ := Matrix.exists_mulVec_eq_zero_iff.mpr hdet
  apply hv0
  have hw := h (fun k => if hk : k < N then v ⟨k, hk⟩ else 0) (by
    intro i hi
    have hi0 := congrFun hv ⟨i, hi⟩
    simp only [Matrix.mulVec, Matrix.dotProduct, toMatrix, Pi.zero_apply] at hi0
    rw [← Fin.sum_univ_eq_sum_range
      (fun j => A (i * N + j) * (if hk : j < N then v ⟨j, hk⟩ else 0)) N]
    rw [← hi0]
    apply Finset.sum_congr rfl
    intro j _
    rw [dif_pos j.isLt])
  funext j
  have := hw j.val j.isLt
  beta_reduce at this
  rw [dif_pos j.isLt] at this
  exact this

/-! ### All parameters free -/

theorem free_count_all (mask : Nat → Bool) (p : Nat) (h : ∀ i, i < p → mask i = true) :
    free_count mask p = p := by
  induction p with
  | zero => rfl
  | succ p ih =>
    rw [free_count_succ, ih (fun i hi => h i (Nat.lt_succ_of_lt hi)),
      h p (Nat.lt_succ_self p), if_pos rfl]

theorem update_parameters_apply (s : LMFitCPP α) (i : Nat) :
    (update_parameters s).parameters_ i
      = if i < s.info_.n_parameters_ ∧ s.parameters_to_fit_ i = true then
          s.parameters_ i + s.delta_ (free_count s.parameters_to_fit_ i)
        else s.parameters_ i := by
  unfold update_parameters
  dsimp only
  have key := forRange_induction
    (fun parameter_index (st : Nat × (Nat → α) × (Nat → α)) =>
      let delta_index := st.1
      let prev_parameters := st.2.1
      let parameters := st.2.2
      if s.parameters_to_fit_ parameter_index then
        let prev_parameters :=
          Function.update prev_parameters parameter_index (parameters parameter_index)
        let parameters :=
          Function.update parameters parameter_index
            (parameters parameter_index + s.delta_ delta_index)
        (delta_index + 1, prev_parameters, parameters)
      else st)
    (fun k (st : Nat × (Nat → α) × (Nat → α)) =>
      st.1 = free_count s.parameters_to_fit_ k
        ∧ st.2.2 i = if i < k ∧ s.parameters_to_fit_ i = true then
            s.parameters_ i + s.delta_ (free_count s.parameters_to_fit_ i)
          else s.parameters_ i)
    (Nat.zero_le s.info_.n_parameters_) (0, s.prev_parameters_, s.parameters_)
    ⟨rfl, by simp⟩ ?_
  · exact key.2
  · intro k st _ _ ⟨h1, h2⟩
    beta_reduce
    by_cases hm : s.parameters_to_fit_ k = true
    · rw [if_pos hm]
      dsimp only
      refine ⟨by rw [h1, free_count_succ, if_pos hm], ?_⟩
      by_cases hik : i = k
      · subst hik
        rw [Function.update_same, if_pos (And.intro (Nat.lt_succ_self _) hm), h2,
          if_neg (fun h => Nat.lt_irrefl _ h.1), h1]
      · rw [Function.update_noteq hik, h2]
        by_cases h : i < k ∧ s.parameters_to_fit_ i = true
        · rw [if_pos h, if_pos (And.intro (Nat.lt_succ_of_lt h.1) h.2)]
        · rw [if_neg h, if_neg (fun hh => h ⟨by omega, hh.2⟩)]
    · rw [if_neg hm]
      refine ⟨by rw [h1, free_count_succ, if_neg hm, Nat.add_zero], ?_⟩
      rw [h2]
      by_cases h : i < k ∧ s.parameters_to_fit_ i = true
      · rw [if_pos h, if_pos (And.intro (Nat.lt_succ_of_lt h.1) h.2)]
      · rw [if_neg h]
        by_cases hik : i = k
        · subst hik
          rw [if_neg (fun hh => hm hh.2)]
        · rw [if_neg (fun hh => h ⟨by omega, hh.2⟩)]

/-! ### The normal equations of a line -/

theorem calc_model_linear1d (env : Env α) (s : LMFitCPP α)
    (hmodel : s.info_.model_id_ = ModelID.LINEAR_1D) :
    (calc_model env s).curve_ = calc_values_linear1d s s.curve_
      ∧ (calc_model env s).derivatives_ = calc_derivatives_linear1d s s.derivatives_ := by
  unfold calc_model calc_curve_values
  rw [hmodel]
  exact ⟨rfl, rfl⟩

theorem linear1d_x_congr {s t : LMFitCPP α} (h : SameInputs s t) (k : Nat) :
    linear1d_x t k = linear1d_x s k := by
  induction k with
  | zero => rfl
  | succ k ih =>
    rw [linear1d_x, linear1d_x, ih]
    unfold point_coordinate
    rw [h.user_info_, h.info_, h.fit_index_]

theorem hessian_sum_LSE_none (s : LMFitCPP α) (d c : Nat → α) (p q : Nat)
    (hLSE : s.info_.estimator_id_ = Estimator.LSE) (hw : s.weight_ = none) :
    hessian_sum s d c p q
      = ∑ i in Finset.range s.info_.n_points_,
          d (p * s.info_.n_points_ + i) * d (q * s.info_.n_points_ + i) := by
  unfold hessian_sum
  rw [accumulate_zero_eq_sum]
  apply Finset.sum_congr rfl
  intro i _
  unfold hessian_term
  rw [hLSE, hw]

theorem gradient_sum_LSE_none (s : LMFitCPP α) (d c : Nat → α) (p : Nat)
    (hLSE : s.info_.estimator_id_ = Estimator.LSE) (hw : s.weight_ = none) :
    gradient_sum s d c p
      = ∑ i in Finset.range s.info_.n_points_,
          (s.data_ i - c i) * d (p * s.info_.n_points_ + i) := by
  unfold gradient_sum
  rw [accumulate_zero_eq_sum]
  apply Finset.sum_congr rfl
  intro i _
  unfold gradient_term
  rw [hLSE, hw]

theorem line_normal_kernel (n : Nat) (x : Nat → α)
    (hx : ∃ i j, i < n ∧ j < n ∧ x i ≠ x j) (A : Nat → α)
    (h00 : A (0 * 2 + 0) = ∑ _i in Finset.range n, (1 : α) * 1)
    (h01 : A (0 * 2 + 1) = ∑ i in Finset.range n, 1 * x i)
    (h10 : A (1 * 2 + 0) = ∑ i in Finset.range n, x i * 1)
    (h11 : A (1 * 2 + 1) = ∑ i in Finset.range n, x i * x i) (v : Nat → α)
    (hv : ∀ p, p < 2 → ∑ q in Finset.range 2, A (p * 2 + q) * v q = 0) :
    ∀ q, q < 2 → v q = 0 := by
  have e0 := hv 0 (by omega)
  have e1 := hv 1 (by omega)
  rw [Finset.sum_range_succ, Finset.sum_range_one] at e0 e1
  have hsq : ∑ i in Finset.range n, (v 0 + v 1 * x i) * (v 0 + v 1 * x i) = 0 := by
    have : ∑ i in Finset.range n, (v 0 + v 1 * x i) * (v 0 + v 1 * x i)
        = v 0 * (A (0 * 2 + 0) * v 0 + A (0 * 2 + 1) * v 1)
          + v 1 * (A (1 * 2 + 0) * v 0 + A (1 * 2 + 1) * v 1) := by
      rw [h00, h01, h10, h11]
      simp only [Finset.mul_sum, Finset.sum_mul, ← Finset.sum_add_distrib]
      apply Finset.sum_congr rfl
      intro i _
      ring
    rw [this, e0, e1, mul_zero, mul_zero, add_zero]
  have hall := (Finset.sum_eq_zero_iff_of_nonneg
    (fun i _ => mul_self_nonneg (v 0 + v 1 * x i))).mp hsq
  obtain ⟨i, j, hi, hj, hij⟩ := hx
  have hi0 := mul_self_eq_zero.mp (hall i (Finset.mem_range.mpr hi))
  have hj0 := mul_self_eq_zero.mp (hall j (Finset.mem_range.mpr hj))
  have h1 : v 1 * (x i - x j) = 0 := by linear_combination hi0 - hj0
  have hv1 : v 1 = 0 := by
    rcases mul_eq_zero.mp h1 with h | h
    · exact h
    · exact absurd (sub_eq_zero.mp h) hij
  have hv0 : v 0 = 0 := by
    rw [hv1, zero_mul, add_zero] at hi0
    exact hi0
  intro q hq
  rcases Nat.lt_succ_iff_lt_or_eq.mp hq with h | h
  · obtain rfl : q = 0 := by omega
    exact hv0
  · rw [h]; exact hv1

theorem line_normal_rhs (n : Nat) (x : Nat → α) (A g : Nat → α) (t0 t1 : α)
    (h00 : A (0 * 2 + 0) = ∑ _i in Finset.range n, (1 : α) * 1)
    (h01 : A (0 * 2 + 1) = ∑ i in Finset.range n, 1 * x i)
    (h10 : A (1 * 2 + 0) = ∑ i in Finset.range n, x i * 1)
    (h11 : A (1 * 2 + 1) = ∑ i in Finset.range n, x i * x i)
    (g0 : g 0 = ∑ i in Finset.range n, (t0 + t1 * x i) * 1)
    (g1 : g 1 = ∑ i in Finset.range n, (t0 + t1 * x i) * x i) (t : Nat → α)
    (ht0 : t 0 = t0) (ht1 : t 1 = t1) :
    ∀ p, p < 2 → ∑ q in Finset.range 2, A (p * 2 + q) * t q = g p := by
  intro p hp
  rw [Finset.sum_range_succ, Finset.sum_range_one, ht0, ht1]
  rcases Nat.lt_succ_iff_lt_or_eq.mp hp with h | h
  · obtain rfl : p = 0 := by omega
    rw [h00, h01, g0]
    simp only [Finset.sum_mul, ← Finset.sum_add_distrib]
    apply Finset.sum_congr rfl
    intro i _
    ring
  · subst h
    rw [h10, h11, g1]
    simp only [Finset.sum_mul, ← Finset.sum_add_distrib]
    apply Finset.sum_congr rfl
    intro i _
    ring

/-! ### The undamped step of a line fit -/

theorem solve_step_delta (env : Env α) (s : LMFitCPP α) (hessian : Nat → α) :
    (solve_step env s hessian).delta_
      = solve_LUP (decompose_LUP hessian s.info_.n_parameters_to_fit_ 0 s.pivot_array_).matrix
          (decompose_LUP hessian s.info_.n_parameters_to_fit_ 0
            s.pivot_array_).permutation_vector
          s.gradient_ s.info_.n_parameters_to_fit_ s.delta_ := rfl

theorem solve_step_decomposed (env : Env α) (s : LMFitCPP α) (hessian : Nat → α) :
    (solve_step env s hessian).decomposed_hessian_
      = (decompose_LUP hessian s.info_.n_parameters_to_fit_ 0 s.pivot_array_).matrix := rfl

theorem solve_step_keeps (env : Env α) (s : LMFitCPP α) (hessian : Nat → α) :
    (solve_step env s hessian).hessian_ = s.hessian_
      ∧ (solve_step env s hessian).gradient_ = s.gradient_
      ∧ (solve_step env s hessian).modified_hessian_ = s.modified_hessian_
      ∧ (solve_step env s hessian).lambda_ = s.lambda_
      ∧ (solve_step env s hessian).step_bound_ = s.step_bound_ :=
  ⟨rfl, rfl, rfl, rfl, rfl⟩

/-- The step `solve_step` writes solves the system of the matrix it is given, when that
matrix is non-singular. -/
theorem solve_step_solves (env : Env α) (s : LMFitCPP α) (hessian : Nat → α)
    (hdet : (toMatrix s.info_.n_parameters_to_fit_ hessian).det ≠ 0) (i : Nat)
    (hi : i < s.info_.n_parameters_to_fit_) :
    ∑ j in Finset.range s.info_.n_parameters_to_fit_,
        hessian (i * s.info_.n_parameters_to_fit_ + j) * (solve_step env s hessian).delta_ j
      = s.gradient_ i := by
  rw [solve_step_delta]
  have hret := decompose_LUP_ret hessian s.info_.n_parameters_to_fit_ s.pivot_array_
  have hLU := decompose_LUP_LUInv hessian s.info_.n_parameters_to_fit_ 0 s.pivot_array_ hret
  have hP := decompose_LUP_PermInv hessian s.info_.n_parameters_to_fit_ (0 : α) s.pivot_array_
  exact solve_of_LUInv hLU hP (diag_ne_zero_of_det hLU hP hdet) s.gradient_ s.delta_ i hi

theorem normal_step (env : Env α) (m : LMFitCPP α) (x : Nat → α) (t0 t1 : α)
    (hLSE : m.info_.estimator_id_ = Estimator.LSE) (hw : m.weight_ = none)
    (hn : m.info_.n_parameters_ = 2) (hK : m.info_.n_parameters_to_fit_ = 2)
    (hfree : ∀ p, p < 2 → m.parameters_to_fit_ p = true)
    (hx : ∃ i j, i < m.info_.n_points_ ∧ j < m.info_.n_points_ ∧ x i ≠ x j)
    (hd0 : ∀ i, i < m.info_.n_points_ → m.derivatives_ (0 * m.info_.n_points_ + i) = 1)
    (hd1 : ∀ i, i < m.info_.n_points_ → m.derivatives_ (1 * m.info_.n_points_ + i) = x i)
    (hres : ∀ i, i < m.info_.n_points_ → m.data_ i - m.curve_ i = t0 + t1 * x i) :
    (toMatrix 2 (calculate_hessian m m.derivatives_ m.curve_).hessian_).det ≠ 0
      ∧ (solve_step env
          (calc_gradient (calculate_hessian m m.derivatives_ m.curve_) m.derivatives_
            m.curve_)
          (calculate_hessian m m.derivatives_ m.curve_).hessian_).delta_ 0 = t0
      ∧ (solve_step env
          (calc_gradient (calculate_hessian m m.derivatives_ m.curve_) m.derivatives_
            m.curve_)
          (calculate_hessian m m.derivatives_ m.curve_).hessian_).delta_ 1 = t1 := by
  have hmask : ∀ p, p < 2 → free_count m.parameters_to_fit_ p = p :=
    fun p hp => free_count_all _ p (fun i hi => hfree i (by omega))
  have hKc : m.info_.n_parameters_to_fit_
      = free_count m.parameters_to_fit_ m.info_.n_parameters_ := by
    rw [hn, hK, free_count_all _ 2 hfree]
  have hH : ∀ p q, p < 2 → q < 2 →
      (calculate_hessian m m.derivatives_ m.curve_).hessian_ (p * 2 + q)
        = ∑ i in Finset.range m.info_.n_points_,
            m.derivatives_ (p * m.info_.n_points_ + i)
              * m.derivatives_ (q * m.info_.n_points_ + i) := by
    intro p q hp hq
    have h := calculate_hessian_spec m m.derivatives_ m.curve_ hKc p q (by omega) (by omega)
      (hfree p hp) (hfree q hq)
    rw [hmask p hp, hmask q hq, hK, hessian_sum_LSE_none m _ _ _ _ hLSE hw] at h
    exact h
  generalize hh1 : calculate_hessian m m.derivatives_ m.curve_ = h1 at hH ⊢
  have i1 : h1.info_ = m.info_ := by rw [← hh1]; rfl
  have i2 : h1.parameters_to_fit_ = m.parameters_to_fit_ := by rw [← hh1]; rfl
  have i3 : h1.weight_ = m.weight_ := by rw [← hh1]; rfl
  have i4 : h1.data_ = m.data_ := by rw [← hh1]; rfl
  have hG : ∀ p, p < 2 →
      (calc_gradient h1 m.derivatives_ m.curve_).gradient_ p
        = ∑ i in Finset.range m.info_.n_points_,
            (m.data_ i - m.curve_ i) * m.derivatives_ (p * m.info_.n_points_ + i) := by
    intro p hp
    have h := calc_gradient_spec h1 m.derivatives_ m.curve_ p (by rw [i1]; omega)
      (by rw [i2]; exact hfree p hp)
    rw [i2, hmask p hp, gradient_sum_LSE_none h1 _ _ _ (by rw [i1]; exact hLSE)
      (by rw [i3]; exact hw), i1, i4] at h
    exact h
  generalize hh : calc_gradient h1 m.derivatives_ m.curve_ = h at hG ⊢
  have j1 : h.info_ = h1.info_ := by rw [← hh]; rfl
  have hKh : h.info_.n_parameters_to_fit_ = 2 := by rw [j1, i1, hK]
  have h00 : h1.hessian_ (0 * 2 + 0) = ∑ _i in Finset.range m.info_.n_points_, (1 : α) * 1 := by
    rw [hH 0 0 (by omega) (by omega)]
    exact Finset.sum_congr rfl (fun i hi => by rw [hd0 i (Finset.mem_range.mp hi)])
  have h01 : h1.hessian_ (0 * 2 + 1) = ∑ i in Finset.range m.info_.n_points_, 1 * x i := by
    rw [hH 0 1 (by omega) (by omega)]
    exact Finset.sum_congr rfl (fun i hi => by
      rw [hd0 i (Finset.mem_range.mp hi), hd1 i (Finset.mem_range.mp hi)])
  have h10 : h1.hessian_ (1 * 2 + 0) = ∑ i in Finset.range m.info_.n_points_, x i * 1 := by
    rw [hH 1 0 (by omega) (by omega)]
    exact Finset.sum_congr rfl (fun i hi => by
      rw [hd0 i (Finset.mem_range.mp hi), hd1 i (Finset.mem_range.mp hi)])
  have h11 : h1.hessian_ (1 * 2 + 1) = ∑ i in Finset.range m.info_.n_points_, x i * x i := by
    rw [hH 1 1 (by omega) (by omega)]
    exact Finset.sum_congr rfl (fun i hi => by rw [hd1 i (Finset.mem_range.mp hi)])
  have hg0 : h.gradient_ 0
      = ∑ i in Finset.range m.info_.n_points_, (t0 + t1 * x i) * 1 := by
    rw [hG 0 (by omega)]
    exact Finset.sum_congr rfl (fun i hi => by
      rw [hd0 i (Finset.mem_range.mp hi), hres i (Finset.mem_range.mp hi)])
  have hg1 : h.gradient_ 1
      = ∑ i in Finset.range m.info_.n_points_, (t0 + t1 * x i) * x i := by
    rw [hG 1 (by omega)]
    exact Finset.sum_congr rfl (fun i hi => by
      rw [hd1 i (Finset.mem_range.mp hi), hres i (Finset.mem_range.mp hi)])
  have hdet : (toMatrix 2 h1.hessian_).det ≠ 0 :=
    det_ne_zero_of_kernel _ 2 (line_normal_kernel m.info_.n_points_ x hx _ h00 h01 h10 h11)
  have hrhs := line_normal_rhs m.info_.n_points_ x h1.hessian_ h.gradient_ t0 t1
    h00 h01 h10 h11 hg0 hg1 (fun k => if k = 0 then t0 else t1) rfl rfl
  have hsol : ∀ p, p < 2 →
      ∑ q in Finset.range 2, h1.hessian_ (p * 2 + q) * (solve_step env h h1.hessian_).delta_ q
        = h.gradient_ p := by
    intro p hp
    have := solve_step_solves env h h1.hessian_ (by rw [hKh]; exact hdet) p
      (by rw [hKh]; exact hp)
    rw [hKh] at this
    exact this
  have huniq := solution_unique h1.hessian_ 2 hdet (solve_step env h h1.hessian_).delta_
    (fun k => if k = 0 then t0 else t1) (fun p hp => by rw [hrhs p hp, hsol p hp])
  refine ⟨hdet, ?_, ?_⟩
  · exact huniq 0 (by omega)
  · exact huniq 1 (by omega)

theorem calculate_hessian_inputs (s : LMFitCPP α) (d c : Nat → α) :
    SameInputs s (calculate_hessian s d c)
      ∧ (calculate_hessian s d c).parameters_ = s.parameters_ :=
  ⟨⟨rfl, rfl, rfl, rfl, rfl, rfl, rfl, rfl⟩, rfl⟩

theorem calc_gradient_inputs (s : LMFitCPP α) (d c : Nat → α) :
    SameInputs s (calc_gradient s d c)
      ∧ (calc_gradient s d c).parameters_ = s.parameters_
      ∧ (calc_gradient s d c).hessian_ = s.hessian_ :=
  ⟨⟨rfl, rfl, rfl, rfl, rfl, rfl, rfl, rfl⟩, rfl, rfl⟩

theorem undamped_step_eq (env : Env α) (s : LMFitCPP α) :
    undamped_step env s
      = solve_step env
          (calc_gradient
            (calculate_hessian (calc_model env s) (calc_model env s).derivatives_
              (calc_model env s).curve_)
            (calc_model env s).derivatives_ (calc_model env s).curve_)
          (calculate_hessian (calc_model env s) (calc_model env s).derivatives_
            (calc_model env s).curve_).hessian_ := rfl

theorem undamped_step_inputs (env : Env α) (s : LMFitCPP α) :
    SameInputs s (undamped_step env s) ∧ (undamped_step env s).parameters_ = s.parameters_ := by
  rw [undamped_step_eq]
  obtain ⟨m1, m2, _⟩ := calc_model_spec env s
  obtain ⟨a1, a2⟩ := calculate_hessian_inputs (calc_model env s) (calc_model env s).derivatives_
    (calc_model env s).curve_
  obtain ⟨b1, b2, _⟩ := calc_gradient_inputs
    (calculate_hessian (calc_model env s) (calc_model env s).derivatives_
      (calc_model env s).curve_) (calc_model env s).derivatives_ (calc_model env s).curve_
  obtain ⟨c1, c2⟩ := solve_step_io env
    (calc_gradient
      (calculate_hessian (calc_model env s) (calc_model env s).derivatives_
        (calc_model env s).curve_)
      (calc_model env s).derivatives_ (calc_model env s).curve_)
    (calculate_hessian (calc_model env s) (calc_model env s).derivatives_
      (calc_model env s).curve_).hessian_
  exact ⟨((m1.next a1).next b1).next c1, c2.parameters_.trans (b2.trans (a2.trans m2))⟩

/-- The undamped step of a line fit leads to the line the data lie on. -/
theorem undamped_step_linear1d (env : Env α) (s : LMFitCPP α) (a b : α)
    (hmodel : s.info_.model_id_ = ModelID.LINEAR_1D)
    (hLSE : s.info_.estimator_id_ = Estimator.LSE) (hw : s.weight_ = none)
    (hn : s.info_.n_parameters_ = 2) (hK : s.info_.n_parameters_to_fit_ = 2)
    (hfree : ∀ p, p < 2 → s.parameters_to_fit_ p = true)
    (hx : ∃ i j, i < s.info_.n_points_ ∧ j < s.info_.n_points_
      ∧ linear1d_x s (i + 1) ≠ linear1d_x s (j + 1))
    (hdata : ∀ i, i < s.info_.n_points_ → s.data_ i = a + b * linear1d_x s (i + 1)) :
    (toMatrix 2 (undamped_step env s).hessian_).det ≠ 0
      ∧ (undamped_step env s).delta_ 0 = a - s.parameters_ 0
      ∧ (undamped_step env s).delta_ 1 = b - s.parameters_ 1 := by
  obtain ⟨hc, hd⟩ := calc_model_linear1d env s hmodel
  have e : (calc_model env s).info_ = s.info_ := rfl
  have e2 : (calc_model env s).data_ = s.data_ := rfl
  have key := normal_step env (calc_model env s) (fun i => linear1d_x s (i + 1))
    (a - s.parameters_ 0) (b - s.parameters_ 1) hLSE hw hn hK hfree hx
    (fun i hi => by
      rw [e] at hi ⊢
      rw [hd, calc_derivatives_linear1d_apply, Nat.zero_mul, Nat.zero_add]
      exact if_pos hi)
    (fun i hi => by
      rw [e] at hi ⊢
      rw [hd, calc_derivatives_linear1d_apply, Nat.one_mul,
        if_neg (show ¬ s.info_.n_points_ + i < s.info_.n_points_ by omega),
        if_pos (show s.info_.n_points_ + i < s.info_.n_points_ + s.info_.n_points_ by omega),
        Nat.add_sub_cancel_left])
    (fun i hi => by
      rw [e] at hi
      rw [e2, hc, calc_values_linear1d_apply, if_pos hi, hdata i hi]
      ring)
  rw [undamped_step_eq]
  exact key

theorem stepped_line_curve (env : Env α) (s : LMFitCPP α) (a b : α)
    (hmodel : s.info_.model_id_ = ModelID.LINEAR_1D)
    (hn : s.info_.n_parameters_ = 2)
    (hfree : ∀ p, p < 2 → s.parameters_to_fit_ p = true)
    (h0 : s.parameters_ 0 + s.delta_ 0 = a) (h1 : s.parameters_ 1 + s.delta_ 1 = b)
    (i : Nat) (hi : i < s.info_.n_points_) :
    (calc_model env (update_parameters s)).curve_ i = a + b * linear1d_x s (i + 1) := by
  obtain ⟨u1, _⟩ := update_parameters_spec s
  have hc := (calc_model_linear1d env (update_parameters s)
    (by rw [u1.info_]; exact hmodel)).1
  rw [hc, calc_values_linear1d_apply, u1.info_, if_pos hi, linear1d_x_congr u1,
    update_parameters_apply, update_parameters_apply, hn,
    if_pos (And.intro (by omega) (hfree 0 (by omega))),
    if_pos (And.intro (by omega) (hfree 1 (by omega))),
    free_count_all _ 0 (fun i hi => absurd hi (Nat.not_lt_zero i)),
    free_count_all _ 1 (fun i hi => hfree i (by omega)), h0, h1]

/-! ### The damping controller in the words of the specification -/

theorem norm_fill (sqrt : α → α) (n : Nat) (f v : Nat → α) :
    calc_euclidian_norm sqrt (fill n f v) n 0 = sqrt (∑ i in Finset.range n, f i * f i) := by
  rw [calc_euclidian_norm_eq]
  congr 1
  apply Finset.sum_congr rfl
  intro i hi
  rw [fill_apply, if_pos (Finset.mem_range.mp hi)]

theorem scaled_delta_norm_eq (env : Env α) (s : LMFitCPP α) :
    scaled_delta_norm env s = scaled_step_norm env s := by
  unfold scaled_delta_norm scaled_step_norm
  exact norm_fill env.sqrt _ _ _

theorem norm_fill_comm (env : Env α) (s : LMFitCPP α) (v : Nat → α) :
    calc_euclidian_norm env.sqrt
        (fill s.info_.n_parameters_ (fun i => s.delta_ i * env.sqrt (s.scaling_vector_ i)) v)
        s.info_.n_parameters_ 0
      = scaled_step_norm env s := by
  rw [norm_fill]
  unfold scaled_step_norm
  congr 1
  apply Finset.sum_congr rfl
  intro i _
  ring

theorem update_step_bound_spec (env : Env α) (s : LMFitCPP α) :
    ((update_step_bound env s).step_bound_, (update_step_bound env s).lambda_)
      = spec_update_step_bound env s := by
  unfold update_step_bound spec_update_step_bound
  dsimp only
  rw [norm_fill_comm]
  by_cases h1 : s.approximation_ratio_ ≤ 1 / 4
  · rw [if_pos h1, if_pos h1]
    have ht : (if 1 / 10 * env.sqrt s.chi_square_ ≥ env.sqrt s.prev_chi_square_
          ∨ (if s.actual_reduction_ ≥ 0 then (1 / 2 : α)
              else 1 / 2 * s.directive_derivative_
                / (s.directive_derivative_ + 1 / 2 * s.actual_reduction_)) < 1 / 10
        then (1 / 10 : α)
        else (if s.actual_reduction_ ≥ 0 then (1 / 2 : α)
              else 1 / 2 * s.directive_derivative_
                / (s.directive_derivative_ + 1 / 2 * s.actual_reduction_)))
        = spec_temp env s := by
      unfold spec_temp
      dsimp only
      exact if_congr or_comm rfl rfl
    rw [ht]
  · rw [if_neg h1, if_neg h1]
    by_cases h2 : s.lambda_ = 0 ∨ s.approximation_ratio_ ≥ 3 / 4
    · rw [if_pos h2, if_pos h2]
      show (_, 1 / 2 * s.lambda_) = _
      rw [show 1 / 2 * s.lambda_ = s.lambda_ / 2 by ring]
    · rw [if_neg h2, if_neg h2]

theorem calc_phi_spec (env : Env α) (s : LMFitCPP α)
    (hfree : s.info_.n_parameters_to_fit_ = s.info_.n_parameters_) :
    (calc_phi env s).phi_ = scaled_step_norm env s - s.step_bound_
      ∧ (calc_phi env s).phi_derivative_ = scaled_quadratic_form env s := by
  have hrows : s.info_.n_parameters_ * s.info_.n_parameters_
      / s.info_.n_parameters_ = s.info_.n_parameters_ := by
    rcases Nat.eq_zero_or_pos s.info_.n_parameters_ with h | h
    · rw [h]
    · exact Nat.mul_div_cancel _ h
  constructor
  · show calc_euclidian_norm env.sqrt _ s.info_.n_parameters_ 0 - s.step_bound_ = _
    rw [norm_fill]
    rfl
  · show calc_scalar_product _ s.info_.n_parameters_ _
      / calc_euclidian_norm env.sqrt _ s.info_.n_parameters_ 0 = _
    rw [norm_fill, calc_scalar_product_eq]
    unfold scaled_quadratic_form scaled_step_norm
    rw [hfree]
    congr 1
    have e1 : ∀ i, i < s.info_.n_parameters_ →
        fill s.info_.n_parameters_ (fun i => s.scaling_vector_ i * s.delta_ i)
            (fill s.info_.n_parameters_
              (fun i => env.sqrt (s.scaling_vector_ i) * s.delta_ i) (fun _ => 0)) i
          = s.scaling_vector_ i * s.delta_ i := by
      intro i hi
      rw [fill_apply, if_pos hi]
    have e2 : ∀ i, i < s.info_.n_parameters_ →
        multiply_matrix_vector (fun _ => (0 : α)) s.inverted_hessian_
            (s.info_.n_parameters_ * s.info_.n_parameters_)
            (fill s.info_.n_parameters_ (fun i => s.scaling_vector_ i * s.delta_ i)
              (fill s.info_.n_parameters_
                (fun i => env.sqrt (s.scaling_vector_ i) * s.delta_ i) (fun _ => 0)))
            s.info_.n_parameters_ i
          = ∑ j in Finset.range s.info_.n_parameters_,
              s.inverted_hessian_ (j * s.info_.n_parameters_ + i)
                * (s.scaling_vector_ j * s.delta_ j) := by
      intro i hi
      rw [multiply_matrix_vector_apply, hrows, if_pos hi, zero_add]
      apply Finset.sum_congr rfl
      intro j hj
      rw [e1 j (Finset.mem_range.mp hj)]
    have e3 : ∑ i in Finset.range s.info_.n_parameters_,
        multiply_matrix_vector (fun _ => (0 : α)) s.inverted_hessian_
            (s.info_.n_parameters_ * s.info_.n_parameters_)
            (fill s.info_.n_parameters_ (fun i => s.scaling_vector_ i * s.delta_ i)
              (fill s.info_.n_parameters_
                (fun i => env.sqrt (s.scaling_vector_ i) * s.delta_ i) (fun _ => 0)))
            s.info_.n_parameters_ i
          * fill s.info_.n_parameters_ (fun i => s.scaling_vector_ i * s.delta_ i)
              (fill s.info_.n_parameters_
                (fun i => env.sqrt (s.scaling_vector_ i) * s.delta_ i) (fun _ => 0)) i
        = ∑ i in Finset.range s.info_.n_parameters_,
            ∑ j in Finset.range s.info_.n_parameters_,
              s.inverted_hessian_ (j * s.info_.n_parameters_ + i)
                * (s.scaling_vector_ j * s.delta_ j) * (s.scaling_vector_ i * s.delta_ i) := by
      apply Finset.sum_congr rfl
      intro i hi
      rw [e1 i (Finset.mem_range.mp hi), e2 i (Finset.mem_range.mp hi), Finset.sum_mul]
    rw [e3, Finset.sum_comm]
    apply Finset.sum_congr rfl
    intro i _
    rw [Finset.mul_sum]
    apply Finset.sum_congr rfl
    intro j _
    ring

theorem initialize_lambda_bounds_spec (env : Env α) (s : LMFitCPP α) :
    (initialize_lambda_bounds env s).lambda_lower_bound_ = s.phi_ / s.phi_derivative_
      ∧ (initialize_lambda_bounds env s).lambda_upper_bound_
          = scaled_gradient_norm env s / s.step_bound_
      ∧ (initialize_lambda_bounds env s).lambda_
          = (if min (max s.lambda_ (s.phi_ / s.phi_derivative_))
                (scaled_gradient_norm env s / s.step_bound_) = 0
              then scaled_gradient_norm env s / scaled_step_norm env s
              else min (max s.lambda_ (s.phi_ / s.phi_derivative_))
                (scaled_gradient_norm env s / s.step_bound_))
      ∧ (initialize_lambda_bounds env s).step_bound_ = s.step_bound_ := by
  have hg : calc_euclidian_norm env.sqrt
      (fill s.info_.n_parameters_ (fun i => s.gradient_ i / env.sqrt (s.scaling_vector_ i))
        (fun _ => 0)) s.info_.n_parameters_ 0 = scaled_gradient_norm env s :=
    norm_fill env.sqrt _ _ _
  have hs : calc_euclidian_norm env.sqrt
      (fill s.info_.n_parameters_ (fun i => env.sqrt (s.scaling_vector_ i) * s.delta_ i)
        (fun _ => 0)) s.info_.n_parameters_ 0 = scaled_step_norm env s :=
    norm_fill env.sqrt _ _ _
  refine ⟨rfl, ?_, ?_, rfl⟩
  · show calc_euclidian_norm env.sqrt _ s.info_.n_parameters_ 0 / s.step_bound_ = _
    rw [hg]
  · show (if min (max s.lambda_ (s.phi_ / s.phi_derivative_))
          (calc_euclidian_norm env.sqrt _ s.info_.n_parameters_ 0 / s.step_bound_) = 0
        then calc_euclidian_norm env.sqrt _ s.info_.n_parameters_ 0
          / calc_euclidian_norm env.sqrt _ s.info_.n_parameters_ 0
        else min (max s.lambda_ (s.phi_ / s.phi_derivative_))
          (calc_euclidian_norm env.sqrt _ s.info_.n_parameters_ 0 / s.step_bound_)) = _
    rw [hg, hs]

/-! ### The first factorisation of a round -/

theorem iteration_head_eq (env : Env α) (iteration : Nat) (s : LMFitCPP α) :
    iteration_head env iteration s
      = (if iteration = 0 then
          clamp_step_bound env
            (lambda_search env (rescale_phi_derivative env (first_solve env iteration s)))
        else lambda_search env (rescale_phi_derivative env (first_solve env iteration s))) :=
  rfl

theorem first_solve_spec (env : Env α) (iteration : Nat) (s : LMFitCPP α) :
    (first_solve env iteration s).decomposed_hessian_
        = (decompose_LUP s.hessian_ s.info_.n_parameters_to_fit_ 0 s.pivot_array_).matrix
      ∧ (first_solve env iteration s).delta_
        = solve_LUP
            (decompose_LUP s.hessian_ s.info_.n_parameters_to_fit_ 0 s.pivot_array_).matrix
            (decompose_LUP s.hessian_ s.info_.n_parameters_to_fit_ 0
              s.pivot_array_).permutation_vector
            s.gradient_ s.info_.n_parameters_to_fit_ s.delta_
      ∧ (first_solve env iteration s).modified_hessian_ = (modify_step_width s).modified_hessian_
      ∧ (first_solve env iteration s).scaling_vector_ = (modify_step_width s).scaling_vector_
      ∧ (first_solve env iteration s).hessian_ = s.hessian_
      ∧ (first_solve env iteration s).lambda_ = s.lambda_ := by
  have key : ∀ t : LMFitCPP α, t.hessian_ = s.hessian_ → t.info_ = s.info_ →
      t.pivot_array_ = s.pivot_array_ → t.gradient_ = s.gradient_ → t.delta_ = s.delta_ →
      t.modified_hessian_ = (modify_step_width s).modified_hessian_ →
      t.scaling_vector_ = (modify_step_width s).scaling_vector_ → t.lambda_ = s.lambda_ →
      (solve_step env t t.hessian_).decomposed_hessian_
          = (decompose_LUP s.hessian_ s.info_.n_parameters_to_fit_ 0 s.pivot_array_).matrix
        ∧ (solve_step env t t.hessian_).delta_
          = solve_LUP
              (decompose_LUP s.hessian_ s.info_.n_parameters_to_fit_ 0 s.pivot_array_).matrix
              (decompose_LUP s.hessian_ s.info_.n_parameters_to_fit_ 0
                s.pivot_array_).permutation_vector
              s.gradient_ s.info_.n_parameters_to_fit_ s.delta_
        ∧ (solve_step env t t.hessian_).modified_hessian_
          = (modify_step_width s).modified_hessian_
        ∧ (solve_step env t t.hessian_).scaling_vector_ = (modify_step_width s).scaling_vector_
        ∧ (solve_step env t t.hessian_).hessian_ = s.hessian_
        ∧ (solve_step env t t.hessian_).lambda_ = s.lambda_ := by
    intro t h1 h2 h3 h4 h5 h6 h7 h8
    obtain ⟨k1, _, k3, k4, _⟩ := solve_step_keeps env t t.hessian_
    rw [solve_step_decomposed, solve_step_delta, solve_step_scaling, k1, k3, k4, h1, h2, h3,
      h4, h5, h6, h7, h8]
    exact ⟨rfl, rfl, rfl, rfl, rfl, rfl⟩
  have hm := (modify_step_width_spec s).2.2
  unfold first_solve
  by_cases h : iteration = 0
  · simp only [if_pos h]
    exact key (initialize_step_bound env (modify_step_width s)) hm.1 rfl rfl rfl rfl rfl rfl
      hm.2
  · simp only [if_neg h]
    exact key (modify_step_width s) hm.1 rfl rfl rfl rfl rfl rfl hm.2

/-! ### When `calc_coefficients` keeps the Hessian and the gradient -/

theorem calc_chi_square_keeps (log : α → α) (s : LMFitCPP α) (values : Nat → α) (n : Nat) :
    (calc_chi_square log s values n).hessian_ = s.hessian_
      ∧ (calc_chi_square log s values n).gradient_ = s.gradient_
      ∧ (calc_chi_square log s values n).prev_chi_square_ = s.prev_chi_square_ := by
  unfold calc_chi_square
  cases chi_square_sum log s values n 0 0 with
  | none => exact ⟨rfl, rfl, rfl⟩
  | some v => exact ⟨rfl, rfl, rfl⟩

theorem calc_coefficients_keeps (env : Env α) (s : LMFitCPP α)
    (hworse : ¬ (calc_coefficients env s).chi_square_ < s.prev_chi_square_)
    (hprev : s.prev_chi_square_ ≠ 0) :
    (calc_coefficients env s).hessian_ = s.hessian_
      ∧ (calc_coefficients env s).gradient_ = s.gradient_ := by
  obtain ⟨k1, k2, k3⟩ := calc_chi_square_keeps env.log s s.curve_ s.info_.n_points_
  have hchi := (calc_coefficients_spec env s).2.2.2.2.2.2.1
  rw [hchi] at hworse
  have hcond : ¬ ((calc_chi_square env.log s s.curve_ s.info_.n_points_).chi_square_
      < (calc_chi_square env.log s s.curve_ s.info_.n_points_).prev_chi_square_
    ∨ (calc_chi_square env.log s s.curve_ s.info_.n_points_).prev_chi_square_ = 0) := by
    rw [k3]
    exact fun h => h.elim hworse hprev
  have e : calc_coefficients env s = calc_chi_square env.log s s.curve_ s.info_.n_points_ := by
    unfold calc_coefficients
    exact if_neg hcond
  rw [e]
  exact ⟨k1, k2⟩

/-- With `prev_chi_square_ = 0` the Hessian and the gradient are computed anew. -/
theorem calc_coefficients_anew (env : Env α) (s : LMFitCPP α)
    (hprev : s.prev_chi_square_ = 0) :
    calc_coefficients env s
      = calc_gradient
          (calculate_hessian (calc_chi_square env.log s s.curve_ s.info_.n_points_)
            (calc_chi_square env.log s s.curve_ s.info_.n_points_).derivatives_
            (calc_chi_square env.log s s.curve_ s.info_.n_points_).curve_)
          (calc_chi_square env.log s s.curve_ s.info_.n_points_).derivatives_
          (calc_chi_square env.log s s.curve_ s.info_.n_points_).curve_ := by
  obtain ⟨_, _, k3⟩ := calc_chi_square_keeps env.log s s.curve_ s.info_.n_points_
  unfold calc_coefficients
  exact if_pos (Or.inr (k3.trans hprev))

/-! ### The sign of `step_bound_` and `lambda_` -/

theorem SameStep.chain {s t u : LMFitCPP α} (h1 : SameStep s t) (h2 : SameStep t u) :
    SameStep s u :=
  ⟨h2.1.trans h1.1, h2.2.1.trans h1.2.1, h2.2.2.1.trans h1.2.2.1,
    h2.2.2.2.1.trans h1.2.2.2.1, h2.2.2.2.2.trans h1.2.2.2.2⟩

theorem SameStep.norm {s t : LMFitCPP α} (h : SameStep s t) (env : Env α) :
    scaled_step_norm env t = scaled_step_norm env s := by
  unfold scaled_step_norm
  rw [h.2.2.1, h.2.2.2.1, h.2.2.2.2]

theorem calc_chi_square_step (log : α → α) (s : LMFitCPP α) (values : Nat → α) (n : Nat) :
    SameStep s (calc_chi_square log s values n) := by
  unfold calc_chi_square
  cases chi_square_sum log s values n 0 0 with
  | none => exact ⟨rfl, rfl, rfl, rfl, rfl⟩
  | some v => exact ⟨rfl, rfl, rfl, rfl, rfl⟩

theorem calc_coefficients_step (env : Env α) (s : LMFitCPP α) :
    SameStep s (calc_coefficients env s) := by
  have h := calc_chi_square_step env.log s s.curve_ s.info_.n_points_
  unfold calc_coefficients
  dsimp only
  split_ifs
  · exact h.chain ⟨rfl, rfl, rfl, rfl, rfl⟩
  · exact h

theorem candidate_step (env : Env α) (s : LMFitCPP α) :
    SameStep s
      (calc_approximation_quality env (calc_coefficients env (calc_model env
        (update_parameters s)))) := by
  have h1 : SameStep s (update_parameters s) := ⟨rfl, rfl, rfl, rfl, rfl⟩
  have h2 : SameStep (update_parameters s) (calc_model env (update_parameters s)) :=
    ⟨rfl, rfl, rfl, rfl, rfl⟩
  have h3 := calc_coefficients_step env (calc_model env (update_parameters s))
  have h4 : SameStep (calc_coefficients env (calc_model env (update_parameters s)))
      (calc_approximation_quality env (calc_coefficients env (calc_model env
        (update_parameters s)))) := ⟨rfl, rfl, rfl, rfl, rfl⟩
  exact ((h1.chain h2).chain h3).chain h4

theorem evaluate_iteration_step (s : LMFitCPP α) (iteration : Nat) :
    SameStep s (evaluate_iteration s iteration) := by
  unfold evaluate_iteration
  dsimp only
  split_ifs <;> exact ⟨rfl, rfl, rfl, rfl, rfl⟩

theorem prepare_next_iteration_step (s : LMFitCPP α) :
    SameStep s (prepare_next_iteration s) := by
  unfold prepare_next_iteration
  split_ifs <;> exact ⟨rfl, rfl, rfl, rfl, rfl⟩

/-- After a round, `step_bound_` and `lambda_` are those `update_step_bound` computes from
the fit object `iteration_head` leaves. -/
theorem iteration_body_step (env : Env α) (iteration : Nat) (s : LMFitCPP α) :
    ∃ c, SameStep (iteration_head env iteration s) c
      ∧ (iteration_body env iteration s).step_bound_ = (update_step_bound env c).step_bound_
      ∧ (iteration_body env iteration s).lambda_ = (update_step_bound env c).lambda_ := by
  refine ⟨_, candidate_step env (iteration_head env iteration s), ?_, ?_⟩
  · unfold iteration_body iteration_tail
    dsimp only
    rw [(prepare_next_iteration_step _).2.1, (evaluate_iteration_step _ _).2.1]
  · unfold iteration_body iteration_tail
    dsimp only
    rw [(prepare_next_iteration_step _).1, (evaluate_iteration_step _ _).1]

theorem spec_temp_ge (env : Env α) (s : LMFitCPP α) : 1 / 10 ≤ spec_temp env s := by
  unfold spec_temp
  dsimp only
  split_ifs with h1 h2 h3
  · exact le_refl _
  · exact not_lt.mp (fun h => h2 (Or.inl h))
  · exact le_refl _
  · exact not_lt.mp (fun h => h3 (Or.inl h))

theorem scaled_step_norm_nonneg (env : Env α) (hsqrt : ∀ x, 0 ≤ env.sqrt x) (s : LMFitCPP α) :
    0 ≤ scaled_step_norm env s := hsqrt _

theorem update_step_bound_nonneg (env : Env α) (hsqrt : ∀ x, 0 ≤ env.sqrt x) (s : LMFitCPP α)
    (hb : 0 ≤ s.step_bound_) (hl : 0 ≤ s.lambda_) :
    0 ≤ (update_step_bound env s).step_bound_ ∧ 0 ≤ (update_step_bound env s).lambda_
      ∧ (0 < s.step_bound_ → 0 < scaled_step_norm env s →
          0 < (update_step_bound env s).step_bound_) := by
  have hspec := update_step_bound_spec env s
  have h1 : (update_step_bound env s).step_bound_ = (spec_update_step_bound env s).1 := by
    rw [← hspec]
  have h2 : (update_step_bound env s).lambda_ = (spec_update_step_bound env s).2 := by
    rw [← hspec]
  have ht := spec_temp_ge env s
  have ht0 : 0 < spec_temp env s := lt_of_lt_of_le (by norm_num) ht
  have hn := scaled_step_norm_nonneg env hsqrt s
  rw [h1, h2]
  unfold spec_update_step_bound
  split_ifs
  · refine ⟨mul_nonneg (le_of_lt ht0) (le_min hb (div_nonneg hn (by norm_num))),
      div_nonneg hl (le_of_lt ht0), fun hb0 hn0 => ?_⟩
    exact mul_pos ht0 (lt_min hb0 (div_pos hn0 (by norm_num)))
  · exact ⟨div_nonneg hn (by norm_num), div_nonneg hl (by norm_num),
      fun _ hn0 => div_pos hn0 (by norm_num)⟩
  · exact ⟨hb, hl, fun hb0 _ => hb0⟩

theorem initialize_step_bound_pos (env : Env α) (hsqrt : ∀ x, 0 ≤ env.sqrt x)
    (s : LMFitCPP α) :
    0 < (initialize_step_bound env s).step_bound_
      ∧ (initialize_step_bound env s).lambda_ = s.lambda_ := by
  refine ⟨?_, rfl⟩
  unfold initialize_step_bound
  dsimp only
  split_ifs with h
  · norm_num
  · exact lt_of_le_of_ne (mul_nonneg (by norm_num) (by
      unfold calc_euclidian_norm
      exact hsqrt _)) (Ne.symm h)

theorem update_lambda_nonneg (s : LMFitCPP α) (hlo : 0 ≤ s.lambda_lower_bound_) :
    0 ≤ (update_lambda s).lambda_lower_bound_ ∧ 0 ≤ (update_lambda s).lambda_
      ∧ (update_lambda s).step_bound_ = s.step_bound_ := by
  have h1 : 0 ≤ (update_lambda s).lambda_lower_bound_ := by
    show 0 ≤ (if s.phi_ > 0 then max s.lambda_lower_bound_ s.lambda_
      else s.lambda_lower_bound_)
    split_ifs
    · exact le_trans hlo (le_max_left _ _)
    · exact hlo
  refine ⟨h1, ?_, rfl⟩
  exact le_trans h1 (le_max_left _ _)

theorem lambda_iterations_nonneg (env : Env α) (n : Nat) (s : LMFitCPP α)
    (hlo : 0 ≤ s.lambda_lower_bound_) (hl : 0 ≤ s.lambda_) :
    0 ≤ (lambda_iterations env n s).lambda_
      ∧ (lambda_iterations env n s).step_bound_ = s.step_bound_ := by
  induction n generalizing s with
  | zero => exact ⟨hl, rfl⟩
  | succ n ih =>
    rw [lambda_iterations]
    split_ifs
    · obtain ⟨u1, u2, u3⟩ := update_lambda_nonneg s hlo
      have key := ih
        (solve_step env (modify_step_width (update_lambda s))
          (modify_step_width (update_lambda s)).modified_hessian_) u1
        (by
          rw [(solve_step_keeps env _ _).2.2.2.1, (modify_step_width_spec _).2.2.2]
          exact u2)
      refine ⟨key.1, ?_⟩
      rw [key.2, (solve_step_keeps env _ _).2.2.2.2]
      exact u3
    · exact ⟨hl, rfl⟩

theorem lambda_search_nonneg (env : Env α) (hsqrt : ∀ x, 0 ≤ env.sqrt x) (s : LMFitCPP α)
    (hb : 0 ≤ s.step_bound_) (hl : 0 ≤ s.lambda_) (hd : 0 ≤ s.phi_derivative_) :
    0 ≤ (lambda_search env s).lambda_
      ∧ (lambda_search env s).step_bound_ = s.step_bound_
      ∧ (lambda_search env s).info_ = s.info_ := by
  have hinfo := (lambda_search_io env s).1.info_
  unfold lambda_search at hinfo ⊢
  split_ifs with hphi
  · rw [if_pos hphi] at hinfo
    obtain ⟨i1, i2, i3, i4⟩ := initialize_lambda_bounds_spec env s
    have hphi0 : 0 ≤ s.phi_ :=
      le_of_lt (lt_of_le_of_lt (mul_nonneg (by norm_num) hb) hphi)
    have hlo : 0 ≤ (initialize_lambda_bounds env s).lambda_lower_bound_ := by
      rw [i1]; exact div_nonneg hphi0 hd
    have hg : 0 ≤ scaled_gradient_norm env s := hsqrt _
    have hn : 0 ≤ scaled_step_norm env s := hsqrt _
    have hlam : 0 ≤ (initialize_lambda_bounds env s).lambda_ := by
      rw [i3]
      split_ifs
      · exact div_nonneg hg hn
      · exact le_min (le_trans hl (le_max_left _ _)) (div_nonneg hg hb)
    have key := lambda_iterations_nonneg env 10
      (solve_step env (modify_step_width (initialize_lambda_bounds env s))
        (modify_step_width (initialize_lambda_bounds env s)).modified_hessian_) hlo
      (by
        rw [(solve_step_keeps env _ _).2.2.2.1, (modify_step_width_spec _).2.2.2]
        exact hlam)
    refine ⟨key.1, ?_, hinfo⟩
    rw [key.2, (solve_step_keeps env _ _).2.2.2.2]
    exact i4
  · exact ⟨le_refl _, rfl, rfl⟩

theorem first_solve_step_bound (env : Env α) (iteration : Nat) (s : LMFitCPP α) :
    (first_solve env iteration s).step_bound_
        = (if iteration = 0 then (initialize_step_bound env (modify_step_width s)).step_bound_
          else s.step_bound_)
      ∧ (first_solve env iteration s).info_ = s.info_ := by
  unfold first_solve
  by_cases h : iteration = 0
  · simp only [if_pos h]
    exact ⟨(solve_step_keeps env _ _).2.2.2.2, (solve_step_io env _ _).1.info_⟩
  · simp only [if_neg h]
    exact ⟨(solve_step_keeps env _ _).2.2.2.2, (solve_step_io env _ _).1.info_⟩

theorem clamp_step_bound_spec (env : Env α) (s : LMFitCPP α) :
    (clamp_step_bound env s).step_bound_ = min s.step_bound_ (scaled_step_norm env s)
      ∧ (clamp_step_bound env s).lambda_ = s.lambda_
      ∧ scaled_step_norm env (clamp_step_bound env s) = scaled_step_norm env s := by
  refine ⟨?_, rfl, rfl⟩
  show min s.step_bound_ (calc_euclidian_norm env.sqrt _ s.info_.n_parameters_ 0) = _
  rw [norm_fill_comm]

/-- The signs of `step_bound_` and `lambda_` when the step of a round has been
determined. -/
theorem iteration_head_nonneg (env : Env α) (hsqrt : ∀ x, 0 ≤ env.sqrt x) (iteration : Nat)
    (s : LMFitCPP α) (hb : iteration ≠ 0 → 0 ≤ s.step_bound_) (hl : 0 ≤ s.lambda_)
    (hd : 0 ≤ (first_solve env iteration s).phi_derivative_) :
    0 ≤ (iteration_head env iteration s).step_bound_
      ∧ 0 ≤ (iteration_head env iteration s).lambda_
      ∧ ((iteration ≠ 0 → 0 < s.step_bound_) →
          0 < scaled_step_norm env (iteration_head env iteration s) →
          0 < (iteration_head env iteration s).step_bound_) := by
  obtain ⟨f1, _⟩ := first_solve_step_bound env iteration s
  have f2 := (first_solve_spec env iteration s).2.2.2.2.2
  have hfb : 0 ≤ (first_solve env iteration s).step_bound_
      ∧ ((iteration ≠ 0 → 0 < s.step_bound_) → 0 < (first_solve env iteration s).step_bound_) := by
    rw [f1]
    by_cases h : iteration = 0
    · rw [if_pos h]
      exact ⟨le_of_lt (initialize_step_bound_pos env hsqrt _).1,
        fun _ => (initialize_step_bound_pos env hsqrt _).1⟩
    · rw [if_neg h]
      exact ⟨hb h, fun hp => hp h⟩
  have hr : 0 ≤ (rescale_phi_derivative env (first_solve env iteration s)).phi_derivative_ := by
    show 0 ≤ (first_solve env iteration s).phi_derivative_
      * ((first_solve env iteration s).step_bound_
        / scaled_delta_norm env (first_solve env iteration s))
    rw [scaled_delta_norm_eq]
    exact mul_nonneg hd (div_nonneg hfb.1 (hsqrt _))
  obtain ⟨l1, l2, _⟩ := lambda_search_nonneg env hsqrt
    (rescale_phi_derivative env (first_solve env iteration s)) hfb.1 (by rw [← f2] at hl; exact hl)
    hr
  have l3 : (lambda_search env (rescale_phi_derivative env (first_solve env iteration s))).step_bound_
      = (first_solve env iteration s).step_bound_ := l2
  rw [iteration_head_eq]
  by_cases h : iteration = 0
  · rw [if_pos h]
    obtain ⟨c1, c2, c3⟩ := clamp_step_bound_spec env
      (lambda_search env (rescale_phi_derivative env (first_solve env iteration s)))
    rw [c1, c2, c3, l3]
    exact ⟨le_min hfb.1 (hsqrt _), l1, fun hp hn => lt_min (hfb.2 hp) hn⟩
  · rw [if_neg h, l3]
    exact ⟨hfb.1, l1, fun hp _ => hfb.2 hp⟩

theorem run_init_step (env : Env α) (s : LMFitCPP α) : SameStep s (run_init env s) := by
  rw [run_init_eq]
  have h1 : SameStep s (run_start env s) := ⟨rfl, rfl, rfl, rfl, rfl⟩
  have h2 := calc_coefficients_step env (run_start env s)
  have h3 : SameStep (calc_coefficients env (run_start env s))
      { calc_coefficients env (run_start env s) with
        prev_chi_square_ := (calc_coefficients env (run_start env s)).chi_square_ } :=
    ⟨rfl, rfl, rfl, rfl, rfl⟩
  exact (h1.chain h2).chain h3

/-- The signs of `step_bound_` and `lambda_` after one round. -/
theorem iteration_body_nonneg (env : Env α) (hsqrt : ∀ x, 0 ≤ env.sqrt x) (iteration : Nat)
    (s : LMFitCPP α) (hb : iteration ≠ 0 → 0 ≤ s.step_bound_) (hl : 0 ≤ s.lambda_)
    (hd : 0 ≤ (first_solve env iteration s).phi_derivative_) :
    0 ≤ (iteration_body env iteration s).step_bound_
      ∧ 0 ≤ (iteration_body env iteration s).lambda_
      ∧ ((iteration ≠ 0 → 0 < s.step_bound_) →
          0 < scaled_step_norm env (iteration_head env iteration s) →
          0 < (iteration_body env iteration s).step_bound_) := by
  obtain ⟨h1, h2, h3⟩ := iteration_head_nonneg env hsqrt iteration s hb hl hd
  obtain ⟨c, hc, e1, e2⟩ := iteration_body_step env iteration s
  obtain ⟨u1, u2, u3⟩ := update_step_bound_nonneg env hsqrt c (by rw [hc.2.1]; exact h1)
    (by rw [hc.1]; exact h2)
  rw [e1, e2]
  refine ⟨u1, u2, fun hp hn => u3 ?_ ?_⟩
  · rw [hc.2.1]; exact h3 hp hn
  · rw [hc.norm env]; exact hn

/-- The signs of `step_bound_` and `lambda_` after round `k` of a run. -/
theorem controller_signs (env : Env α) (hsqrt : ∀ x, 0 ≤ env.sqrt x) (s : LMFitCPP α)
    (hl : 0 ≤ s.lambda_) (k : Nat)
    (hd : ∀ j, j ≤ k →
      0 ≤ (first_solve env j (state_before_iteration env s j)).phi_derivative_) :
    0 ≤ (state_before_iteration env s (k + 1)).step_bound_
      ∧ 0 ≤ (state_before_iteration env s (k + 1)).lambda_
      ∧ ((∀ j, j ≤ k →
            0 < scaled_step_norm env (iteration_head env j (state_before_iteration env s j))) →
          0 < (state_before_iteration env s (k + 1)).step_bound_) := by
  induction k with
  | zero =>
    have h0 : 0 ≤ (state_before_iteration env s 0).lambda_ := by
      show 0 ≤ (run_init env s).lambda_
      rw [(run_init_step env s).1]; exact hl
    obtain ⟨b1, b2, b3⟩ := iteration_body_nonneg env hsqrt 0 (state_before_iteration env s 0)
      (fun h => absurd rfl h) h0 (hd 0 (le_refl 0))
    exact ⟨b1, b2, fun hn => b3 (fun h => absurd rfl h) (hn 0 (le_refl 0))⟩
  | succ k ih =>
    obtain ⟨i1, i2, i3⟩ := ih (fun j hj => hd j (Nat.le_succ_of_le hj))
    obtain ⟨b1, b2, b3⟩ := iteration_body_nonneg env hsqrt (k + 1)
      (state_before_iteration env s (k + 1)) (fun _ => i1) i2 (hd (k + 1) (le_refl _))
    exact ⟨b1, b2, fun hn =>
      b3 (fun _ => i3 (fun j hj => hn j (Nat.le_succ_of_le hj))) (hn (k + 1) (le_refl _))⟩

/-! ### `calc_approximation_quality` with all parameters free -/

theorem free_indices_all (mask : Nat → Bool) (n a : Nat) (h : ∀ i, i < n → mask i = true)
    (ha : a < n) : (free_indices mask n).getD a 0 = a := by
  have hlen : (free_indices mask n).length = n := free_count_all mask n h
  obtain ⟨_, g2, g3⟩ := free_indices_getD mask n a (by rw [hlen]; exact ha)
  rw [free_count_all mask _ (fun i hi => h i (by omega))] at g3
  exact g3

/-- With all parameters free and a square root that squares back, `predicted_reduction_`
is what the specification says. -/
theorem predicted_reduction_free (env : Env α) (s : LMFitCPP α)
    (hfree : s.info_.n_parameters_to_fit_ = s.info_.n_parameters_)
    (hmask : ∀ i, i < s.info_.n_parameters_ → s.parameters_to_fit_ i = true)
    (hsq : ∀ x, 0 ≤ x → env.sqrt x * env.sqrt x = x) :
    (calc_approximation_quality env s).predicted_reduction_ = spec_predicted_reduction env s := by
  have hdd : ∀ i, i < s.info_.n_points_ →
      multiply_matrix_vector (fun _ => (0 : α)) s.temp_derivatives_
          (s.info_.n_points_ * s.info_.n_parameters_) s.delta_ s.info_.n_parameters_to_fit_ i
        = ∑ a in Finset.range s.info_.n_parameters_to_fit_,
            s.temp_derivatives_
                ((free_indices s.parameters_to_fit_ s.info_.n_parameters_).getD a 0
                  * s.info_.n_points_ + i)
              * s.delta_ a := by
    intro i hi
    rw [multiply_matrix_vector_apply]
    rcases Nat.eq_zero_or_pos s.info_.n_parameters_ with h0 | hpos
    · rw [hfree, h0, Finset.range_zero, Finset.sum_empty, Finset.sum_empty, add_zero]
      split_ifs <;> rfl
    · have hrows : s.info_.n_points_ * s.info_.n_parameters_ / s.info_.n_parameters_to_fit_
          = s.info_.n_points_ := by
        rw [hfree]; exact Nat.mul_div_cancel _ hpos
      rw [hrows, if_pos hi, zero_add]
      apply Finset.sum_congr rfl
      intro a ha
      rw [free_indices_all _ _ a hmask (by rw [← hfree]; exact Finset.mem_range.mp ha)]
  show calc_euclidian_norm env.sqrt _ s.info_.n_points_ 0
        * calc_euclidian_norm env.sqrt _ s.info_.n_points_ 0 / s.prev_chi_square_
      + 2 * s.lambda_ * calc_euclidian_norm env.sqrt _ s.info_.n_parameters_ 0
        * calc_euclidian_norm env.sqrt _ s.info_.n_parameters_ 0 / s.prev_chi_square_ = _
  rw [norm_fill_comm, calc_euclidian_norm_eq]
  unfold scaled_step_norm spec_predicted_reduction
  rw [hsq _ (Finset.sum_nonneg (fun i _ => mul_self_nonneg _)), mul_assoc (2 * s.lambda_),
    hsq _ (Finset.sum_nonneg (fun i _ => mul_self_nonneg _))]
  have hS : ∑ i in Finset.range s.info_.n_points_,
      multiply_matrix_vector (fun _ => (0 : α)) s.temp_derivatives_
          (s.info_.n_points_ * s.info_.n_parameters_) s.delta_ s.info_.n_parameters_to_fit_ i
        * multiply_matrix_vector (fun _ => (0 : α)) s.temp_derivatives_
          (s.info_.n_points_ * s.info_.n_parameters_) s.delta_ s.info_.n_parameters_to_fit_ i
      = ∑ i in Finset.range s.info_.n_points_,
          (∑ a in Finset.range s.info_.n_parameters_to_fit_,
              s.temp_derivatives_
                  ((free_indices s.parameters_to_fit_ s.info_.n_parameters_).getD a 0
                    * s.info_.n_points_ + i)
                * s.delta_ a)
            * (∑ a in Finset.range s.info_.n_parameters_to_fit_,
              s.temp_derivatives_
                  ((free_indices s.parameters_to_fit_ s.info_.n_parameters_).getD a 0
                    * s.info_.n_points_ + i)
                * s.delta_ a) :=
    Finset.sum_congr rfl (fun i hi => by rw [hdd i (Finset.mem_range.mp hi)])
  rw [hS, ← hfree]

/-! ## Index bounds -/

theorem forRange_append_mem {β : Type} (n : Nat) (f : Nat → List β) (l0 : List β) (b : β) :
    b ∈ forRange 0 n (fun i l => l ++ f i) l0 ↔ b ∈ l0 ∨ ∃ i, i < n ∧ b ∈ f i := by
  refine forRange_induction _
    (fun k (l : List β) => b ∈ l ↔ b ∈ l0 ∨ ∃ i, i < k ∧ b ∈ f i)
    (Nat.zero_le n) l0 ?_ ?_
  · constructor
    · exact fun h => Or.inl h
    · rintro (h | ⟨i, hi, _⟩)
      · exact h
      · exact absurd hi (Nat.not_lt_zero i)
  · intro k l _ _ hl
    beta_reduce
    rw [List.mem_append, hl]
    constructor
    · rintro ((h | ⟨i, hi, hb⟩) | h)
      · exact Or.inl h
      · exact Or.inr ⟨i, Nat.lt_succ_of_lt hi, hb⟩
      · exact Or.inr ⟨k, Nat.lt_succ_self k, h⟩
    · rintro (h | ⟨i, hi, hb⟩)
      · exact Or.inl (Or.inl h)
      · rcases Nat.lt_succ_iff_lt_or_eq.mp hi with h | h
        · exact Or.inl (Or.inr ⟨i, h, hb⟩)
        · subst h; exact Or.inr hb

theorem update_parameters_writes_mem (s : LMFitCPP α) (a : KVector × Nat) :
    a ∈ update_parameters_writes s
      ↔ a.1 = KVector.prev_parameters_ ∧ a.2 < s.info_.n_parameters_
        ∧ s.parameters_to_fit_ a.2 = true := by
  have e : update_parameters_writes s
      = forRange 0 s.info_.n_parameters_
          (fun i l => l ++ (if s.parameters_to_fit_ i then [(KVector.prev_parameters_, i)]
            else [])) [] := by
    unfold update_parameters_writes
    congr 1
    funext i l
    split_ifs
    · rfl
    · rw [List.append_nil]
  rw [e, forRange_append_mem]
  constructor
  · rintro (h | ⟨i, hi, hb⟩)
    · exact absurd h (List.not_mem_nil a)
    · by_cases hm : s.parameters_to_fit_ i = true
      · rw [if_pos hm, List.mem_singleton] at hb
        subst hb
        exact ⟨rfl, hi, hm⟩
      · rw [if_neg hm] at hb
        exact absurd hb (List.not_mem_nil a)
  · rintro ⟨h1, h2, h3⟩
    refine Or.inr ⟨a.2, h2, ?_⟩
    rw [if_pos h3, List.mem_singleton]
    exact Prod.ext h1 rfl

theorem prepare_next_iteration_reads_mem (s : LMFitCPP α) (a : KVector × Nat) :
    a ∈ prepare_next_iteration_reads s
      ↔ ¬ s.chi_square_ < s.prev_chi_square_ ∧ a ∈ update_parameters_writes s := by
  unfold prepare_next_iteration_reads
  by_cases h : s.chi_square_ < s.prev_chi_square_
  · rw [if_pos h]
    exact ⟨fun hh => absurd hh (List.not_mem_nil a), fun hh => absurd h hh.1⟩
  · rw [if_neg h]
    exact ⟨fun hh => ⟨h, hh⟩, fun hh => hh.2⟩

/-- The accesses of `update_parameters` and `prepare_next_iteration` to
`prev_parameters_` are inside the vector exactly when every free parameter has an index
below `n_parameters_to_fit_`. -/
theorem update_parameters_in_bounds_iff (s : LMFitCPP α) :
    InBounds s.info_ (update_parameters_writes s)
      ↔ ∀ p, p < s.info_.n_parameters_ → s.parameters_to_fit_ p = true →
          p < s.info_.n_parameters_to_fit_ := by
  constructor
  · intro h p hp hm
    exact h (KVector.prev_parameters_, p)
      ((update_parameters_writes_mem s _).mpr ⟨rfl, hp, hm⟩)
  · intro h a ha
    obtain ⟨_, h2, h3⟩ := (update_parameters_writes_mem s a).mp ha
    exact h a.2 h2 h3

theorem initialize_step_bound_reads_mem (s : LMFitCPP α) (a : KVector × Nat) :
    a ∈ initialize_step_bound_reads s
      ↔ a.1 = KVector.scaling_vector_ ∧ a.2 < s.info_.n_parameters_ := by
  unfold initialize_step_bound_reads
  rw [forRange_append_mem]
  constructor
  · rintro (h | ⟨i, hi, hb⟩)
    · exact absurd h (List.not_mem_nil a)
    · rw [List.mem_singleton] at hb
      subst hb
      exact ⟨rfl, hi⟩
  · rintro ⟨h1, h2⟩
    exact Or.inr ⟨a.2, h2, List.mem_singleton.mpr (Prod.ext h1 rfl)⟩

/-- The reads of `initialize_step_bound` are inside `scaling_vector_` exactly when
`n_parameters_ <= n_parameters_to_fit_`: with `K <= n_parameters_`, when no parameter is
fixed. -/
theorem initialize_step_bound_in_bounds_iff (s : LMFitCPP α) :
    InBounds s.info_ (initialize_step_bound_reads s)
      ↔ s.info_.n_parameters_ ≤ s.info_.n_parameters_to_fit_ := by
  constructor
  · intro h
    by_contra hlt
    have := h (KVector.scaling_vector_, s.info_.n_parameters_to_fit_)
      ((initialize_step_bound_reads_mem s _).mpr ⟨rfl, by omega⟩)
    exact Nat.lt_irrefl _ this
  · intro h a ha
    have := ((initialize_step_bound_reads_mem s a).mp ha).2
    show a.2 < s.info_.n_parameters_to_fit_
    omega

theorem multiply_matrix_vector_writes_mem (matrix_size vector_size row : Nat) :
    row ∈ multiply_matrix_vector_writes matrix_size vector_size
      ↔ row < matrix_size / vector_size ∧ 0 < vector_size := by
  unfold multiply_matrix_vector_writes
  dsimp only
  have inner : ∀ (w : List Nat) (r : Nat),
      row ∈ forRange 0 r (fun row writes => writes ++ [row]) w ↔ row ∈ w ∨ row < r := by
    intro w r
    rw [forRange_append_mem r (fun k => [k]) w row]
    constructor
    · rintro (h | ⟨i, hi, hb⟩)
      · exact Or.inl h
      · rw [List.mem_singleton] at hb
        subst hb
        exact Or.inr hi
    · rintro (h | h)
      · exact Or.inl h
      · exact Or.inr ⟨row, h, List.mem_singleton.mpr rfl⟩
  have outer := forRange_induction
    (fun _col (writes : List Nat) =>
      forRange 0 (matrix_size / vector_size) (fun row writes => writes ++ [row]) writes)
    (fun c (w : List Nat) => row ∈ w ↔ row < matrix_size / vector_size ∧ 0 < c)
    (Nat.zero_le vector_size) []
    ⟨fun h => absurd h (List.not_mem_nil row), fun h => absurd h.2 (Nat.lt_irrefl 0)⟩
    (by
      intro c w _ _ hw
      beta_reduce
      rw [inner, hw]
      constructor
      · rintro (h | h)
        · exact ⟨h.1, Nat.succ_pos c⟩
        · exact ⟨h, Nat.succ_pos c⟩
      · intro h
        exact Or.inr h.1)
  exact outer

theorem forRange_append_in_bounds (info : Info) (n : Nat) (f : Nat → List (KVector × Nat))
    (l0 : List (KVector × Nat)) (hf : ∀ i a, a ∈ f i → a.2 = i) (hne : ∀ i, ∃ a, a ∈ f i) :
    InBounds info (forRange 0 n (fun i l => l ++ f i) l0)
      ↔ InBounds info l0 ∧ n ≤ info.n_parameters_to_fit_ := by
  constructor
  · intro h
    refine ⟨fun a ha => h a ((forRange_append_mem n f l0 a).mpr (Or.inl ha)), ?_⟩
    by_contra hlt
    obtain ⟨a, ha⟩ := hne info.n_parameters_to_fit_
    have hin := h a ((forRange_append_mem n f l0 a).mpr
      (Or.inr ⟨info.n_parameters_to_fit_, by omega, ha⟩))
    have h2 := hf _ a ha
    have h3 : a.2 < info.n_parameters_to_fit_ := hin
    omega
  · rintro ⟨h0, hn⟩ a ha
    rcases (forRange_append_mem n f l0 a).mp ha with h | ⟨i, hi, hb⟩
    · exact h0 a h
    · have h2 := hf i a hb
      show a.2 < info.n_parameters_to_fit_
      omega

theorem InBounds.nil (info : Info) : InBounds info [] :=
  fun a ha => absurd ha (List.not_mem_nil a)

/-- The reads of `scaling_vector_`, `delta_` and `gradient_` in the four methods are
inside the vectors exactly when `n_parameters_ <= n_parameters_to_fit_`: with
`K <= n_parameters_`, when no parameter is fixed. -/
theorem reads_in_bounds_iff (s : LMFitCPP α) :
    (InBounds s.info_ (initialize_step_bound_reads s)
        ↔ s.info_.n_parameters_ ≤ s.info_.n_parameters_to_fit_)
      ∧ (InBounds s.info_ (calc_phi_reads s)
        ↔ s.info_.n_parameters_ ≤ s.info_.n_parameters_to_fit_)
      ∧ (InBounds s.info_ (initialize_lambda_bounds_reads s)
        ↔ s.info_.n_parameters_ ≤ s.info_.n_parameters_to_fit_)
      ∧ (InBounds s.info_ (calc_approximation_quality_reads s)
        ↔ s.info_.n_parameters_ ≤ s.info_.n_parameters_to_fit_) := by
  have two : ∀ (v w : KVector) (l0 : List (KVector × Nat)),
      InBounds s.info_ (forRange 0 s.info_.n_parameters_
          (fun i reads => reads ++ [(v, i), (w, i)]) l0)
        ↔ InBounds s.info_ l0 ∧ s.info_.n_parameters_ ≤ s.info_.n_parameters_to_fit_ := by
    intro v w l0
    refine forRange_append_in_bounds s.info_ s.info_.n_parameters_
      (fun i => [(v, i), (w, i)]) l0 ?_ ?_
    · intro i a ha
      rcases List.mem_cons.mp ha with h | h
      · rw [h]
      · rw [List.mem_singleton.mp h]
    · exact fun i => ⟨(v, i), List.mem_cons_self _ _⟩
  refine ⟨initialize_step_bound_in_bounds_iff s, ?_, ?_, ?_⟩
  · unfold calc_phi_reads
    dsimp only
    rw [two, two]
    exact ⟨fun h => h.2, fun h => ⟨⟨InBounds.nil _, h⟩, h⟩⟩
  · unfold initialize_lambda_bounds_reads
    dsimp only
    rw [two, two]
    exact ⟨fun h => h.2, fun h => ⟨⟨InBounds.nil _, h⟩, h⟩⟩
  · unfold calc_approximation_quality_reads
    rw [two]
    exact ⟨fun h => h.2, fun h => ⟨InBounds.nil _, h⟩⟩

/-- The call of `multiply_matrix_vector` in `calc_phi` stays inside `temp` when
`K <= n_parameters_`. -/
theorem calc_phi_writes_in_bounds (s : LMFitCPP α)
    (hK : s.info_.n_parameters_to_fit_ ≤ s.info_.n_parameters_) (row : Nat)
    (h : row ∈ calc_phi_writes s) : row < s.info_.n_parameters_ := by
  obtain ⟨h1, h2⟩ := (multiply_matrix_vector_writes_mem _ _ row).mp h
  have h3 : s.info_.n_parameters_to_fit_ * s.info_.n_parameters_to_fit_
      ≤ s.info_.n_parameters_ * s.info_.n_parameters_ := Nat.mul_le_mul hK hK
  have h4 := Nat.div_le_div_right (c := s.info_.n_parameters_) h3
  rw [Nat.mul_div_cancel _ h2] at h4
  omega

/-- The call of `multiply_matrix_vector` in `calc_approximation_quality` stays inside
`derivatives_delta` exactly when `n_points_ * n_parameters_ / K <= n_points_` or
`K = 0`. -/
theorem calc_approximation_quality_writes_in_bounds_iff (s : LMFitCPP α) :
    (∀ row, row ∈ calc_approximation_quality_writes s → row < s.info_.n_points_)
      ↔ s.info_.n_parameters_to_fit_ = 0
        ∨ s.info_.n_points_ * s.info_.n_parameters_ / s.info_.n_parameters_to_fit_
            ≤ s.info_.n_points_ := by
  unfold calc_approximation_quality_writes
  constructor
  · intro h
    by_contra hc
    push_neg at hc
    have := h s.info_.n_points_ ((multiply_matrix_vector_writes_mem _ _ _).mpr
      ⟨hc.2, Nat.pos_of_ne_zero hc.1⟩)
    exact Nat.lt_irrefl _ this
  · rintro (h | h) row hrow
    · have := ((multiply_matrix_vector_writes_mem _ _ _).mp hrow).2
      omega
    · have := ((multiply_matrix_vector_writes_mem _ _ _).mp hrow).1
      omega

/-- With no fixed parameter (`K = n_parameters_`) every access is inside its vector. -/
theorem all_free_in_bounds (s : LMFitCPP α)
    (hK : s.info_.n_parameters_to_fit_ = s.info_.n_parameters_) :
    InBounds s.info_ (update_parameters_writes s)
      ∧ InBounds s.info_ (prepare_next_iteration_reads s)
      ∧ InBounds s.info_ (initialize_step_bound_reads s)
      ∧ InBounds s.info_ (calc_phi_reads s)
      ∧ InBounds s.info_ (initialize_lambda_bounds_reads s)
      ∧ InBounds s.info_ (calc_approximation_quality_reads s)
      ∧ (∀ row, row ∈ calc_phi_writes s → row < s.info_.n_parameters_)
      ∧ (∀ row, row ∈ calc_approximation_quality_writes s → row < s.info_.n_points_) := by
  obtain ⟨r1, r2, r3, r4⟩ := reads_in_bounds_iff s
  have hw : InBounds s.info_ (update_parameters_writes s) :=
    (update_parameters_in_bounds_iff s).mpr (fun p hp _ => by omega)
  refine ⟨hw, ?_, r1.mpr (by omega), r2.mpr (by omega), r3.mpr (by omega),
    r4.mpr (by omega), fun row h => calc_phi_writes_in_bounds s (by omega) row h, ?_⟩
  · intro a ha
    exact hw a ((prepare_next_iteration_reads_mem s a).mp ha).2
  · refine (calc_approximation_quality_writes_in_bounds_iff s).mpr ?_
    by_cases h0 : s.info_.n_parameters_to_fit_ = 0
    · exact Or.inl h0
    · right
      rw [hK, Nat.mul_div_cancel _ (by omega)]

/-! ## When a round stays inside its vectors -/

theorem pair_reads_in_bounds_iff (info : Info) (n : Nat) (v w : KVector) :
    InBounds info (forRange 0 n (fun i reads => reads ++ [(v, i), (w, i)]) [])
      ↔ n ≤ info.n_parameters_to_fit_ := by
  have h := forRange_append_in_bounds info n (fun i => [(v, i), (w, i)]) []
    (fun i a ha => by
      rcases List.mem_cons.mp ha with h | h
      · rw [h]
      · rw [List.mem_singleton.mp h])
    (fun i => ⟨(v, i), List.mem_cons_self _ _⟩)
  exact h.trans ⟨fun h => h.2, fun h => ⟨InBounds.nil _, h⟩⟩

theorem free_count_le (mask : Nat → Bool) (n : Nat) : free_count mask n ≤ n := by
  unfold free_count
  exact (List.length_filter_le _ _).trans (le_of_eq (List.length_range n))

theorem update_parameters_reads_mem (s : LMFitCPP α) (a : KVector × Nat) :
    a ∈ update_parameters_reads s
      ↔ a.1 = KVector.delta_
        ∧ a.2 < free_count s.parameters_to_fit_ s.info_.n_parameters_ := by
  unfold update_parameters_reads
  have h := forRange_induction
    (fun parameter_index (st : Nat × List (KVector × Nat)) =>
      if s.parameters_to_fit_ parameter_index then
        (st.1 + 1, st.2 ++ [(KVector.delta_, st.1)])
      else st)
    (fun k (st : Nat × List (KVector × Nat)) =>
      st.1 = free_count s.parameters_to_fit_ k
        ∧ (a ∈ st.2 ↔ a.1 = KVector.delta_ ∧ a.2 < free_count s.parameters_to_fit_ k))
    (Nat.zero_le s.info_.n_parameters_) (0, [])
    ⟨rfl, fun h => absurd h (List.not_mem_nil a),
      fun h => absurd h.2 (Nat.not_lt_zero _)⟩
    (by
      intro k st _ _ hst
      obtain ⟨h1, h2⟩ := hst
      beta_reduce
      rw [free_count_succ]
      by_cases hm : s.parameters_to_fit_ k = true
      · rw [if_pos hm, if_pos hm]
        refine ⟨by rw [h1], ?_⟩
        show a ∈ st.2 ++ [(KVector.delta_, st.1)] ↔ _
        rw [List.mem_append, h2, List.mem_singleton, h1]
        constructor
        · rintro (h | h)
          · exact ⟨h.1, by omega⟩
          · rw [h]; exact ⟨rfl, by show free_count _ k < _; omega⟩
        · rintro ⟨h3, h4⟩
          by_cases h5 : a.2 < free_count s.parameters_to_fit_ k
          · exact Or.inl ⟨h3, h5⟩
          · exact Or.inr (Prod.ext h3 (by show a.2 = free_count _ k; omega))
      · rw [if_neg hm, if_neg hm, Nat.add_zero]
        exact ⟨h1, h2⟩)
  exact h.2

/-- The reads of `delta_` in `update_parameters` are inside the vector exactly when the
mask has at most `n_parameters_to_fit_` true entries. -/
theorem update_parameters_reads_in_bounds_iff (s : LMFitCPP α) :
    InBounds s.info_ (update_parameters_reads s)
      ↔ free_count s.parameters_to_fit_ s.info_.n_parameters_
          ≤ s.info_.n_parameters_to_fit_ := by
  constructor
  · intro h
    by_contra hlt
    have := h (KVector.delta_, s.info_.n_parameters_to_fit_)
      ((update_parameters_reads_mem s _).mpr ⟨rfl, by show _ < _; omega⟩)
    exact Nat.lt_irrefl _ this
  · intro h a ha
    have := ((update_parameters_reads_mem s a).mp ha).2
    show a.2 < s.info_.n_parameters_to_fit_
    omega

/-- A round of `run` stays inside its vectors exactly when there is at least one
parameter and the vectors of length `K` have `n_parameters_` entries: with `K` the
number of free parameters, when no parameter is fixed. -/
theorem run_in_bounds_iff (s : LMFitCPP α) :
    RunInBounds s
      ↔ 0 < s.info_.n_parameters_ ∧ s.info_.n_parameters_to_fit_ = s.info_.n_parameters_ := by
  constructor
  · rintro ⟨hn, _, h1, _, _, _, _, _, _, _, _, hw, _⟩
    refine ⟨hn, ?_⟩
    have hle := (initialize_step_bound_in_bounds_iff s).mp h1
    by_contra hne
    have hlt : s.info_.n_parameters_ + 1 ≤ s.info_.n_parameters_to_fit_ := by omega
    have hmul := Nat.mul_le_mul hlt hlt
    have hrow : s.info_.n_parameters_
        < s.info_.n_parameters_to_fit_ * s.info_.n_parameters_to_fit_ / s.info_.n_parameters_ := by
      refine (Nat.le_div_iff_mul_le hn).mpr ?_
      have : (s.info_.n_parameters_ + 1) * s.info_.n_parameters_
          ≤ (s.info_.n_parameters_ + 1) * (s.info_.n_parameters_ + 1) :=
        Nat.mul_le_mul_left _ (Nat.le_succ _)
      exact this.trans hmul
    have := hw s.info_.n_parameters_
      ((multiply_matrix_vector_writes_mem _ _ _).mpr ⟨hrow, hn⟩)
    exact Nat.lt_irrefl _ this
  · rintro ⟨hn, hK⟩
    obtain ⟨a1, a2, a3, a4, a5, a6, a7, a8⟩ := all_free_in_bounds s hK
    have hp : ∀ v w : KVector,
        InBounds s.info_ (forRange 0 s.info_.n_parameters_
          (fun i reads => reads ++ [(v, i), (w, i)]) []) :=
      fun v w => (pair_reads_in_bounds_iff s.info_ _ v w).mpr (le_of_eq hK.symm)
    refine ⟨hn, by omega, a3, a4, hp _ _, a5, hp _ _, ?_, a1, a6, hp _ _, a7, a8⟩
    refine (update_parameters_reads_in_bounds_iff s).mpr ?_
    rw [hK]
    exact free_count_le _ _

/-- With a fixed parameter, `K < n_parameters_`, no round of `run` stays inside its
vectors. -/
theorem fixed_parameter_out_of_bounds (s : LMFitCPP α)
    (hK : s.info_.n_parameters_to_fit_ < s.info_.n_parameters_) : ¬ RunInBounds s := by
  intro h
  have := ((run_in_bounds_iff s).mp h).2
  omega

/-! ## The sign of the step bound -/

theorem lambda_iterations_step_bound (env : Env α) (n : Nat) (s : LMFitCPP α) :
    (lambda_iterations env n s).step_bound_ = s.step_bound_ := by
  induction n generalizing s with
  | zero => rfl
  | succ n ih =>
    rw [lambda_iterations]
    split_ifs
    · have key := ih
        (solve_step env (modify_step_width (update_lambda s))
          (modify_step_width (update_lambda s)).modified_hessian_)
      rw [(solve_step_keeps env _ _).2.2.2.2] at key
      exact key
    · rfl

theorem lambda_search_step_bound (env : Env α) (s : LMFitCPP α) :
    (lambda_search env s).step_bound_ = s.step_bound_ := by
  unfold lambda_search
  split_ifs
  · have key := lambda_iterations_step_bound env 10
      (solve_step env (modify_step_width (initialize_lambda_bounds env s))
        (modify_step_width (initialize_lambda_bounds env s)).modified_hessian_)
    rw [(solve_step_keeps env _ _).2.2.2.2] at key
    exact key.trans (initialize_lambda_bounds_spec env s).2.2.2
  · rfl

/-- The sign of `step_bound_` when the step of a round has been determined, whatever
the damping parameter is. -/
theorem iteration_head_step_bound (env : Env α) (hsqrt : ∀ x, 0 ≤ env.sqrt x)
    (iteration : Nat) (s : LMFitCPP α) (hb : iteration ≠ 0 → 0 ≤ s.step_bound_) :
    0 ≤ (iteration_head env iteration s).step_bound_
      ∧ ((iteration ≠ 0 → 0 < s.step_bound_) →
          0 < scaled_step_norm env (iteration_head env iteration s) →
          0 < (iteration_head env iteration s).step_bound_) := by
  obtain ⟨f1, _⟩ := first_solve_step_bound env iteration s
  have hfb : 0 ≤ (first_solve env iteration s).step_bound_
      ∧ ((iteration ≠ 0 → 0 < s.step_bound_) → 0 < (first_solve env iteration s).step_bound_) := by
    rw [f1]
    by_cases h : iteration = 0
    · rw [if_pos h]
      exact ⟨le_of_lt (initialize_step_bound_pos env hsqrt _).1,
        fun _ => (initialize_step_bound_pos env hsqrt _).1⟩
    · rw [if_neg h]
      exact ⟨hb h, fun hp => hp h⟩
  have l3 : (lambda_search env (rescale_phi_derivative env (first_solve env iteration s))).step_bound_
      = (first_solve env iteration s).step_bound_ :=
    lambda_search_step_bound env _
  rw [iteration_head_eq]
  by_cases h : iteration = 0
  · rw [if_pos h]
    obtain ⟨c1, _, c3⟩ := clamp_step_bound_spec env
      (lambda_search env (rescale_phi_derivative env (first_solve env iteration s)))
    rw [c1, c3, l3]
    exact ⟨le_min hfb.1 (hsqrt _), fun hp hn => lt_min (hfb.2 hp) hn⟩
  · rw [if_neg h, l3]
    exact ⟨hfb.1, fun hp _ => hfb.2 hp⟩

theorem update_step_bound_sign (env : Env α) (hsqrt : ∀ x, 0 ≤ env.sqrt x) (s : LMFitCPP α)
    (hb : 0 ≤ s.step_bound_) :
    0 ≤ (update_step_bound env s).step_bound_
      ∧ (0 < s.step_bound_ → 0 < scaled_step_norm env s →
          0 < (update_step_bound env s).step_bound_) := by
  have hspec := update_step_bound_spec env s
  have h1 : (update_step_bound env s).step_bound_ = (spec_update_step_bound env s).1 := by
    rw [← hspec]
  have ht := spec_temp_ge env s
  have ht0 : 0 < spec_temp env s := lt_of_lt_of_le (by norm_num) ht
  have hn := scaled_step_norm_nonneg env hsqrt s
  rw [h1]
  unfold spec_update_step_bound
  split_ifs
  · refine ⟨mul_nonneg (le_of_lt ht0) (le_min hb (div_nonneg hn (by norm_num))),
      fun hb0 hn0 => ?_⟩
    exact mul_pos ht0 (lt_min hb0 (div_pos hn0 (by norm_num)))
  · exact ⟨div_nonneg hn (by norm_num), fun _ hn0 => div_pos hn0 (by norm_num)⟩
  · exact ⟨hb, fun hb0 _ => hb0⟩

/-- The sign of `step_bound_` after one round, whatever the damping parameter is. -/
theorem iteration_body_step_bound (env : Env α) (hsqrt : ∀ x, 0 ≤ env.sqrt x)
    (iteration : Nat) (s : LMFitCPP α) (hb : iteration ≠ 0 → 0 ≤ s.step_bound_) :
    0 ≤ (iteration_body env iteration s).step_bound_
      ∧ ((iteration ≠ 0 → 0 < s.step_bound_) →
          0 < scaled_step_norm env (iteration_head env iteration s) →
          0 < (iteration_body env iteration s).step_bound_) := by
  obtain ⟨h1, h3⟩ := iteration_head_step_bound env hsqrt iteration s hb
  obtain ⟨c, hc, e1, _⟩ := iteration_body_step env iteration s
  obtain ⟨u1, u3⟩ := update_step_bound_sign env hsqrt c (by rw [hc.2.1]; exact h1)
  rw [e1]
  refine ⟨u1, fun hp hn => u3 ?_ ?_⟩
  · rw [hc.2.1]; exact h3 hp hn
  · rw [hc.norm env]; exact hn

/-- The sign of `step_bound_` after round `k` of a run: never negative, and positive as
long as the scaled step had a norm `> 0` in the rounds so far. -/
theorem step_bound_signs (env : Env α) (hsqrt : ∀ x, 0 ≤ env.sqrt x) (s : LMFitCPP α)
    (k : Nat) :
    0 ≤ (state_before_iteration env s (k + 1)).step_bound_
      ∧ ((∀ j, j ≤ k →
            0 < scaled_step_norm env (iteration_head env j (state_before_iteration env s j))) →
          0 < (state_before_iteration env s (k + 1)).step_bound_) := by
  induction k with
  | zero =>
    obtain ⟨b1, b3⟩ := iteration_body_step_bound env hsqrt 0 (state_before_iteration env s 0)
      (fun h => absurd rfl h)
    exact ⟨b1, fun hn => b3 (fun h => absurd rfl h) (hn 0 (le_refl 0))⟩
  | succ k ih =>
    obtain ⟨i1, i3⟩ := ih
    obtain ⟨b1, b3⟩ := iteration_body_step_bound env hsqrt (k + 1)
      (state_before_iteration env s (k + 1)) (fun _ => i1)
    exact ⟨b1, fun hn =>
      b3 (fun _ => i3 (fun j hj => hn j (Nat.le_succ_of_le hj))) (hn (k + 1) (le_refl _))⟩

/-! ## The claims -/

/-- C1: for a non-singular `N × N` matrix `A` (non-zero determinant) and every right-hand
side `b`, `decompose_LUP` with `Tol = 0` returns `1`, every diagonal entry of the
factorised matrix (every divisor of the factorisation and of `solve_LUP`) is non-zero,
and the vector `solve_LUP` produces from the factorised matrix, the permutation vector
and `b` solves `A * x = b` for the original `A`; whatever the permutation vector and
the solution vector held before. -/
theorem decompose_solve_LUP_correct (N : Nat) (A b : Nat → α) (p0 : Nat → Nat) (x0 : Nat → α)
    (hA : (toMatrix N A).det ≠ 0) :
    (decompose_LUP A N 0 p0).ret = 1
      ∧ (∀ k, k < N → (decompose_LUP A N 0 p0).matrix (k * N + k) ≠ 0)
      ∧ ∀ i, i < N →
        ∑ j in Finset.range N,
          A (i * N + j)
            * solve_LUP (decompose_LUP A N 0 p0).matrix
                (decompose_LUP A N 0 p0).permutation_vector b N x0 j
          = b i := by
  have hret := decompose_LUP_ret A N p0
  have hLU := decompose_LUP_LUInv A N 0 p0 hret
  have hP := decompose_LUP_PermInv A N 0 p0
  have hd := diag_ne_zero_of_det hLU hP hA
  exact ⟨hret, hd, fun i hi => solve_of_LUInv hLU hP hd b x0 i hi⟩

/-- Witness of C1: the matrix `[[2, 1], [1, 3]]` has determinant `5`. -/
theorem decompose_solve_LUP_correct_witness :
    (toMatrix 2 (vec [2, 1, 1, 3])).det ≠ 0
      ∧ ((decompose_LUP (vec [2, 1, 1, 3]) 2 0 (fun _ => 0)).ret = 1
        ∧ (∀ k, k < 2 →
            (decompose_LUP (vec [2, 1, 1, 3]) 2 0 (fun _ => 0)).matrix (k * 2 + k) ≠ 0)
        ∧ ∀ i, i < 2 →
          ∑ j in Finset.range 2,
            vec [2, 1, 1, 3] (i * 2 + j)
              * solve_LUP (decompose_LUP (vec [2, 1, 1, 3]) 2 0 (fun _ => 0)).matrix
                  (decompose_LUP (vec [2, 1, 1, 3]) 2 0 (fun _ => 0)).permutation_vector
                  (vec [1, 2]) 2 (fun _ => 0) j
            = vec [1, 2] i) :=
  ⟨by simp [Matrix.det_fin_two, toMatrix, vec]; norm_num,
    decompose_solve_LUP_correct 2 (vec [2, 1, 1, 3]) (vec [1, 2]) (fun _ => 0) (fun _ => 0)
      (by simp [Matrix.det_fin_two, toMatrix, vec]; norm_num)⟩

/-- C2: when `decompose_LUP` returns `1` and every pivot it selected (the diagonal of
the overwritten matrix, where the pivot of step `i` stays) is non-zero, the strict lower
triangle of the overwritten matrix, completed by ones on the diagonal, times its upper
triangle is the input with its rows permuted: row `r` of the product is row
`permutation_vector[r]` of `A`. -/
theorem decompose_LUP_factorization (N : Nat) (A : Nat → α) (Tol : α) (p0 : Nat → Nat)
    (hret : (decompose_LUP A N Tol p0).ret = 1)
    (_hpiv : ∀ k, k < N → (decompose_LUP A N Tol p0).matrix (k * N + k) ≠ 0)
    (r c : Nat) (hr : r < N) (hc : c < N) :
    ∑ k in Finset.range N,
      lowerEntry (decompose_LUP A N Tol p0).matrix N r k
        * upperEntry (decompose_LUP A N Tol p0).matrix N k c
      = A ((decompose_LUP A N Tol p0).permutation_vector r * N + c) :=
  LUInv_final (decompose_LUP_LUInv A N Tol p0 hret) r c hr hc

/-- Witness of C2: the matrix `[[1, 2], [3, 4]]`, whose rows are exchanged. -/
theorem decompose_LUP_factorization_witness :
    (decompose_LUP (vec [1, 2, 3, 4]) 2 0 (fun _ => 0)).ret = 1
      ∧ (∀ k, k < 2 →
          (decompose_LUP (vec [1, 2, 3, 4]) 2 0 (fun _ => 0)).matrix (k * 2 + k) ≠ 0)
      ∧ ∑ k in Finset.range 2,
          lowerEntry (decompose_LUP (vec [1, 2, 3, 4]) 2 0 (fun _ => 0)).matrix 2 1 k
            * upperEntry (decompose_LUP (vec [1, 2, 3, 4]) 2 0 (fun _ => 0)).matrix 2 k 0
          = vec [1, 2, 3, 4]
              ((decompose_LUP (vec [1, 2, 3, 4]) 2 0 (fun _ => 0)).permutation_vector 1 * 2
                + 0) :=
  have hdet : (toMatrix 2 (vec [1, 2, 3, 4])).det ≠ 0 := by
    simp [Matrix.det_fin_two, toMatrix, vec]; norm_num
  have hret := decompose_LUP_ret (vec [1, 2, 3, 4]) 2 (fun _ => 0)
  have hpiv := diag_ne_zero_of_det (decompose_LUP_LUInv (vec [1, 2, 3, 4]) 2 0 (fun _ => 0) hret)
    (decompose_LUP_PermInv (vec [1, 2, 3, 4]) 2 0 (fun _ => 0)) hdet
  ⟨hret, hpiv,
    decompose_LUP_factorization 2 (vec [1, 2, 3, 4]) 0 (fun _ => 0) hret hpiv 1 0
      (by decide) (by decide)⟩

/-- C3: the entry `(i, j)` that `invert_LUP` writes is the `i`-th entry of what
`solve_LUP` returns for the `j`-th unit vector as right-hand side, for every matrix and
permutation vector; and when these are the factorisation of a non-singular `A`, column
`j` of `A * inverse` is column `j` of the identity. -/
theorem invert_LUP_columns (N : Nat) (M : Nat → α) (P : Nat → Nat) (inverse x0 : Nat → α)
    (i j : Nat) (hi : i < N) (hj : j < N) :
    invert_LUP M P N inverse (i * N + j) = solve_LUP M P (unit_vector j) N x0 i
      ∧ ∀ (A : Nat → α) (p0 : Nat → Nat), (toMatrix N A).det ≠ 0 →
          M = (decompose_LUP A N 0 p0).matrix →
          P = (decompose_LUP A N 0 p0).permutation_vector →
          ∑ k in Finset.range N, A (i * N + k) * invert_LUP M P N inverse (k * N + j)
            = if i = j then 1 else 0 := by
  refine ⟨invert_LUP_column M P N inverse x0 i j hi hj, ?_⟩
  intro A p0 hA hM hP
  subst hM hP
  have hret := decompose_LUP_ret A N p0
  have hLU := decompose_LUP_LUInv A N 0 p0 hret
  have hPerm := decompose_LUP_PermInv A N 0 p0
  have hd := diag_ne_zero_of_det hLU hPerm hA
  have hcol : ∀ k ∈ Finset.range N,
      A (i * N + k) * invert_LUP (decompose_LUP A N 0 p0).matrix
          (decompose_LUP A N 0 p0).permutation_vector N inverse (k * N + j)
        = A (i * N + k) * solve_LUP (decompose_LUP A N 0 p0).matrix
          (decompose_LUP A N 0 p0).permutation_vector (unit_vector j) N x0 k := by
    intro k hk
    rw [invert_LUP_column _ _ N inverse x0 k j (Finset.mem_range.mp hk) hj]
  rw [Finset.sum_congr rfl hcol, solve_of_LUInv hLU hPerm hd (unit_vector j) x0 i hi]
  rfl

/-- Witness of C3: entry `(0, 1)` of the inverse of `[[1, 2], [3, 4]]`. -/
theorem invert_LUP_columns_witness :
    invert_LUP (decompose_LUP (vec [1, 2, 3, 4]) 2 0 (fun _ => 0)).matrix
        (decompose_LUP (vec [1, 2, 3, 4]) 2 0 (fun _ => 0)).permutation_vector 2
        (fun _ => 0) (0 * 2 + 1)
      = solve_LUP (decompose_LUP (vec [1, 2, 3, 4]) 2 0 (fun _ => 0)).matrix
          (decompose_LUP (vec [1, 2, 3, 4]) 2 0 (fun _ => 0)).permutation_vector
          (unit_vector 1) 2 (fun _ => 0) 0
      ∧ ∑ k in Finset.range 2,
          vec [1, 2, 3, 4] (0 * 2 + k)
            * invert_LUP (decompose_LUP (vec [1, 2, 3, 4]) 2 0 (fun _ => 0)).matrix
                (decompose_LUP (vec [1, 2, 3, 4]) 2 0 (fun _ => 0)).permutation_vector 2
                (fun _ => 0) (k * 2 + 1)
          = if 0 = 1 then 1 else 0 :=
  have h := invert_LUP_columns 2 (decompose_LUP (vec [1, 2, 3, 4]) 2 0 (fun _ => 0)).matrix
    (decompose_LUP (vec [1, 2, 3, 4]) 2 0 (fun _ => 0)).permutation_vector
    (fun _ => 0) (fun _ => 0) 0 1 (by decide) (by decide)
  ⟨h.1, h.2 (vec [1, 2, 3, 4]) (fun _ => 0)
    (by simp [Matrix.det_fin_two, toMatrix, vec]; norm_num) rfl rfl⟩

/-- C4: whatever `decompose_LUP` returns and whatever the permutation vector held
before, its first `N` entries afterwards are a permutation of `0, ..., N - 1`. -/
theorem decompose_LUP_permutation (N : Nat) (A : Nat → α) (Tol : α) (p0 : Nat → Nat) :
    List.Perm ((List.range N).map (decompose_LUP A N Tol p0).permutation_vector)
      (List.range N) :=
  PermInv_perm (decompose_LUP_PermInv A N Tol p0)

/-- C5 fails on the code: with `Tol = 0` the test `max_value < Tol` of `decompose_LUP`
never holds, so `decompose_hessian_LUP` leaves the state as it is for every matrix, the
zero matrix included. -/
theorem decompose_hessian_LUP_keeps_state (s : LMFitCPP α) (hessian : Nat → α) :
    (decompose_hessian_LUP s hessian).state_ = s.state_ := by
  unfold decompose_hessian_LUP
  dsimp only
  rw [decompose_LUP_ret]
  simp

/-- C6: under LSE, when `n_parameters_to_fit_` is the number of free parameters, entry
`(a, b)` of the Hessian `calculate_hessian` writes is the sum over the points of
`w_i * d(M[a], i) * d(M[b], i)`, with `M` the increasing list of the free parameters
and `w_i` the weight of point `i` (`1` without weights), for all `a, b` below
`n_parameters_to_fit_`. -/
theorem calculate_hessian_LSE (s : LMFitCPP α) (derivatives curve : Nat → α)
    (hLSE : s.info_.estimator_id_ = Estimator.LSE)
    (hK : s.info_.n_parameters_to_fit_
      = (free_indices s.parameters_to_fit_ s.info_.n_parameters_).length)
    (a b : Nat) (ha : a < s.info_.n_parameters_to_fit_) (hb : b < s.info_.n_parameters_to_fit_) :
    (calculate_hessian s derivatives curve).hessian_ (a * s.info_.n_parameters_to_fit_ + b)
      = ∑ i in Finset.range s.info_.n_points_,
          weight_at s i
            * derivatives
                ((free_indices s.parameters_to_fit_ s.info_.n_parameters_).getD a 0
                  * s.info_.n_points_ + i)
            * derivatives
                ((free_indices s.parameters_to_fit_ s.info_.n_parameters_).getD b 0
                  * s.info_.n_points_ + i) := by
  rw [calculate_hessian_entry s derivatives curve hK a b ha hb]
  unfold hessian_sum
  rw [accumulate_zero_eq_sum]
  apply Finset.sum_congr rfl
  intro i _
  unfold hessian_term weight_at
  rw [hLSE]
  cases s.weight_ with
  | none => dsimp only; ring
  | some w => dsimp only; ring

/-- Witness of C6: the fit with the mask `[false, true]`, one free parameter. -/
theorem calculate_hessian_LSE_witness :
    (calculate_hessian example_fit (vec [1, 1, 1, 0, 1, 2]) (vec [5, 5, 5])).hessian_
        (0 * example_fit.info_.n_parameters_to_fit_ + 0)
      = ∑ i in Finset.range example_fit.info_.n_points_,
          weight_at example_fit i
            * vec [1, 1, 1, 0, 1, 2]
                ((free_indices example_fit.parameters_to_fit_
                    example_fit.info_.n_parameters_).getD 0 0
                  * example_fit.info_.n_points_ + i)
            * vec [1, 1, 1, 0, 1, 2]
                ((free_indices example_fit.parameters_to_fit_
                    example_fit.info_.n_parameters_).getD 0 0
                  * example_fit.info_.n_points_ + i) :=
  calculate_hessian_LSE example_fit (vec [1, 1, 1, 0, 1, 2]) (vec [5, 5, 5]) rfl (by decide) 0 0
    (by decide) (by decide)

/-- C7: under either estimator, when `n_parameters_to_fit_` is the number of free
parameters, the Hessian `calculate_hessian` writes is symmetric: entries `(a, b)` and
`(b, a)` are equal. -/
theorem calculate_hessian_symmetric (s : LMFitCPP α) (derivatives curve : Nat → α)
    (hK : s.info_.n_parameters_to_fit_
      = (free_indices s.parameters_to_fit_ s.info_.n_parameters_).length)
    (a b : Nat) (ha : a < s.info_.n_parameters_to_fit_) (hb : b < s.info_.n_parameters_to_fit_) :
    (calculate_hessian s derivatives curve).hessian_ (a * s.info_.n_parameters_to_fit_ + b)
      = (calculate_hessian s derivatives curve).hessian_
          (b * s.info_.n_parameters_to_fit_ + a) := by
  rw [calculate_hessian_entry s derivatives curve hK a b ha hb,
    calculate_hessian_entry s derivatives curve hK b a hb ha, hessian_sum_comm]

/-- Witness of C7: the off-diagonal pair `(0, 1)`, `(1, 0)` of the `2 × 2` Hessian of two
fits with both parameters free, `free_fit` under LSE, where both entries are `3`, and
`negative_fit` under MLE, where both are `6/5`. -/
theorem calculate_hessian_symmetric_witness :
    ((calculate_hessian free_fit (vec [1, 1, 1, 0, 1, 2]) (vec [5, 5, 5])).hessian_
          (0 * free_fit.info_.n_parameters_to_fit_ + 1)
        = (calculate_hessian free_fit (vec [1, 1, 1, 0, 1, 2]) (vec [5, 5, 5])).hessian_
            (1 * free_fit.info_.n_parameters_to_fit_ + 0))
      ∧ (calculate_hessian free_fit (vec [1, 1, 1, 0, 1, 2]) (vec [5, 5, 5])).hessian_
          (0 * free_fit.info_.n_parameters_to_fit_ + 1) = 3
      ∧ ((calculate_hessian negative_fit (vec [1, 1, 1, 0, 1, 2]) (vec [5, 5, 5])).hessian_
          (0 * negative_fit.info_.n_parameters_to_fit_ + 1)
        = (calculate_hessian negative_fit (vec [1, 1, 1, 0, 1, 2]) (vec [5, 5, 5])).hessian_
            (1 * negative_fit.info_.n_parameters_to_fit_ + 0))
      ∧ (calculate_hessian negative_fit (vec [1, 1, 1, 0, 1, 2]) (vec [5, 5, 5])).hessian_
          (0 * negative_fit.info_.n_parameters_to_fit_ + 1) = 6 / 5 :=
  ⟨calculate_hessian_symmetric free_fit (vec [1, 1, 1, 0, 1, 2]) (vec [5, 5, 5])
      (by decide) 0 1 (by decide) (by decide),
    by decide!,
    calculate_hessian_symmetric negative_fit (vec [1, 1, 1, 0, 1, 2]) (vec [5, 5, 5])
      (by decide) 0 1 (by decide) (by decide),
    by decide!⟩

/-- C8: under LSE, when `n_parameters_to_fit_` is the number of free parameters, entry
`a` of the gradient `calc_gradient` writes is the sum over the points of
`w_i * (data[i] - curve[i]) * d(M[a], i)`, for every `a` below
`n_parameters_to_fit_`. -/
theorem calc_gradient_LSE (s : LMFitCPP α) (derivatives curve : Nat → α)
    (hLSE : s.info_.estimator_id_ = Estimator.LSE)
    (hK : s.info_.n_parameters_to_fit_
      = (free_indices s.parameters_to_fit_ s.info_.n_parameters_).length)
    (a : Nat) (ha : a < s.info_.n_parameters_to_fit_) :
    (calc_gradient s derivatives curve).gradient_ a
      = ∑ i in Finset.range s.info_.n_points_,
          weight_at s i * (s.data_ i - curve i)
            * derivatives
                ((free_indices s.parameters_to_fit_ s.info_.n_parameters_).getD a 0
                  * s.info_.n_points_ + i) := by
  obtain ⟨a1, a2, a3⟩ := free_indices_getD s.parameters_to_fit_ s.info_.n_parameters_ a
    (by rw [← hK]; exact ha)
  have h := calc_gradient_spec s derivatives curve _ a2 a1
  rw [a3] at h
  rw [h]
  unfold gradient_sum
  rw [accumulate_zero_eq_sum]
  apply Finset.sum_congr rfl
  intro i _
  unfold gradient_term weight_at
  rw [hLSE]
  cases s.weight_ with
  | none => dsimp only; ring
  | some w => dsimp only; ring

/-- Witness of C8: the fit with the mask `[false, true]`. -/
theorem calc_gradient_LSE_witness :
    (calc_gradient example_fit (vec [1, 1, 1, 0, 1, 2]) (vec [5, 5, 5])).gradient_ 0
      = ∑ i in Finset.range example_fit.info_.n_points_,
          weight_at example_fit i * (example_fit.data_ i - vec [5, 5, 5] i)
            * vec [1, 1, 1, 0, 1, 2]
                ((free_indices example_fit.parameters_to_fit_
                    example_fit.info_.n_parameters_).getD 0 0
                  * example_fit.info_.n_points_ + i) :=
  calc_gradient_LSE example_fit (vec [1, 1, 1, 0, 1, 2]) (vec [5, 5, 5]) rfl (by decide) 0
    (by decide)

/-- C9: under MLE, if some value is `<= 0` then `calc_chi_square` sets the state to
`NEG_CURVATURE_MLE` and leaves `chi_square_` as it was, and if every value is `> 0` it
leaves the state as it was and writes the Poisson deviance; under LSE it leaves the
state as it was. -/
theorem calc_chi_square_state (log : α → α) (s : LMFitCPP α) (values : Nat → α) (n : Nat) :
    (s.info_.estimator_id_ = Estimator.MLE →
      ((∃ i, i < n ∧ values i ≤ 0) →
        (calc_chi_square log s values n).state_ = FitState.NEG_CURVATURE_MLE
          ∧ (calc_chi_square log s values n).chi_square_ = s.chi_square_)
      ∧ ((∀ i, i < n → 0 < values i) →
        (calc_chi_square log s values n).state_ = s.state_
          ∧ (calc_chi_square log s values n).chi_square_
            = ∑ i in Finset.range n, deviance_term log s values i))
    ∧ (s.info_.estimator_id_ = Estimator.LSE →
      (calc_chi_square log s values n).state_ = s.state_) := by
  refine ⟨fun hMLE => ⟨?_, ?_⟩, ?_⟩
  · rintro ⟨i, hi, hv⟩
    unfold calc_chi_square
    rw [chi_square_sum_MLE_none log s values hMLE n 0 0 ⟨i, Nat.zero_le i, by omega, hv⟩]
    exact ⟨rfl, rfl⟩
  · intro hpos
    unfold calc_chi_square
    rw [chi_square_sum_MLE_some log s values hMLE n 0 0 (fun k _ hk => hpos k (by omega))]
    refine ⟨rfl, ?_⟩
    show 0 + ∑ k in Finset.Ico 0 (0 + n), deviance_term log s values k = _
    rw [zero_add, zero_add, Finset.range_eq_Ico]
  · intro hLSE
    unfold calc_chi_square
    obtain ⟨v, hv⟩ := chi_square_sum_LSE log s values hLSE n 0 0
    rw [hv]

/-- Witness of C9: a curve with the value `0` at the first point, under MLE. -/
theorem calc_chi_square_state_witness :
    (calc_chi_square example_env.log example_fit_MLE (vec [0, 1, 2]) 3).state_
        = FitState.NEG_CURVATURE_MLE
      ∧ (calc_chi_square example_env.log example_fit_MLE (vec [0, 1, 2]) 3).chi_square_
        = example_fit_MLE.chi_square_ :=
  ((calc_chi_square_state example_env.log example_fit_MLE (vec [0, 1, 2]) 3).1 rfl).1
    ⟨0, by decide, by simp [vec]⟩

/-- Where a round of `run` leaves its vectors: the fits `example_fit` (least squares),
`zero_tolerance_fit` (least squares, tolerance `0`) and `masked_overshooting_fit`
(maximum likelihood) have the mask `[false, true]` and `n_parameters_to_fit_ = 1`. Each
starts round 0 in state `CONVERGED`, and the first loop of that round,
`initialize_step_bound` on the fit object `modify_step_width` returns, reads index `1`
of `scaling_vector_`, which has one entry; later in the round `update_parameters` writes
index `1` of `prev_parameters_`. On `masked_overshooting_fit` the candidate of round 0 has
the curve value `-3` at the second point. -/
theorem masked_rounds_out_of_bounds :
    (state_before_iteration example_env example_fit 0).state_ = FitState.CONVERGED
      ∧ initialize_step_bound_reads
          (modify_step_width (state_before_iteration example_env example_fit 0))
        = [(KVector.scaling_vector_, 0), (KVector.scaling_vector_, 1)]
      ∧ update_parameters_writes
          (iteration_head example_env 0 (state_before_iteration example_env example_fit 0))
        = [(KVector.prev_parameters_, 1)]
      ∧ (∀ v, KVector.size example_fit.info_ v = 1)
      ∧ ¬ RunInBounds example_fit
      ∧ (state_before_iteration example_env zero_tolerance_fit 0).state_ = FitState.CONVERGED
      ∧ ¬ RunInBounds zero_tolerance_fit
      ∧ (state_before_iteration example_env masked_overshooting_fit 0).state_
          = FitState.CONVERGED
      ∧ candidate_curve example_env masked_overshooting_fit 0 1 = -3
      ∧ ¬ RunInBounds masked_overshooting_fit := by
  refine ⟨by decide!, by decide!, by decide!, fun _ => rfl,
    fixed_parameter_out_of_bounds _ (by decide), by decide!,
    fixed_parameter_out_of_bounds _ (by decide), by decide!, by decide!,
    fixed_parameter_out_of_bounds _ (by decide)⟩

/-- C10, for the calls that stay inside their vectors: when the mask has
`n_parameters_to_fit_` true entries and `update_parameters` writes `prev_parameters_`
inside its `n_parameters_to_fit_` entries, a parameter `p` that is not free has the value
`initial_parameters_[p]` after the initial copy of `run`, keeps its value in
`update_parameters` and in `prepare_next_iteration`, and has the value
`initial_parameters_[p]` in the fit `run` returns when the loop of `run` executes no
round. A round of `run` on a fit with a fixed parameter leaves the vectors
(`fixed_parameter_out_of_bounds`). -/
theorem fixed_parameters_kept (env : Env α) (s : LMFitCPP α) (p : Nat)
    (hp : p < s.info_.n_parameters_) (hm : s.parameters_to_fit_ p = false)
    (_hK : s.info_.n_parameters_to_fit_
      = free_count s.parameters_to_fit_ s.info_.n_parameters_)
    (_hb : InBounds s.info_ (update_parameters_writes s)) :
    (run_init env s).parameters_ p = s.initial_parameters_ p
      ∧ (update_parameters s).parameters_ p = s.parameters_ p
      ∧ (prepare_next_iteration s).parameters_ p = s.parameters_ p
      ∧ ((run_init env s).state_ ≠ FitState.CONVERGED →
          ∀ fuel, ∃ t, run env (fuel + 1) s = some t
            ∧ t.parameters_ p = s.initial_parameters_ p) := by
  have hi := (run_init_fixed env s).1 p hp
  refine ⟨hi, (update_parameters_fixed s).1 p hm, (prepare_next_iteration_fixed s).1 p hm,
    fun h fuel => ⟨run_init env s, run_without_round env s fuel h, hi⟩⟩

/-- Witness of C10: `leading_fit`, with the mask `[true, false]`; the fixed parameter
is the slope, index `1`, and the only write to `prev_parameters_` is at index `0`. -/
theorem fixed_parameters_kept_witness :
    update_parameters_writes leading_fit = [(KVector.prev_parameters_, 0)]
      ∧ (run_init example_env leading_fit).parameters_ 1 = leading_fit.initial_parameters_ 1
      ∧ (update_parameters leading_fit).parameters_ 1 = leading_fit.parameters_ 1
      ∧ (prepare_next_iteration leading_fit).parameters_ 1 = leading_fit.parameters_ 1
      ∧ ((run_init example_env leading_fit).state_ ≠ FitState.CONVERGED →
          ∀ fuel, ∃ t, run example_env (fuel + 1) leading_fit = some t
            ∧ t.parameters_ 1 = leading_fit.initial_parameters_ 1) :=
  ⟨by decide!,
    fixed_parameters_kept example_env leading_fit 1 (by decide) (by decide) (by decide)
      ((update_parameters_in_bounds_iff leading_fit).mpr (by decide))⟩

/-- C11, for the calls that stay inside their vectors: a rejected step is undone. When
the mask has `n_parameters_to_fit_` true entries, `update_parameters` writes
`prev_parameters_` inside its `n_parameters_to_fit_` entries, and
`prepare_next_iteration` runs on a fit object `t` that holds the parameters and the saved
parameters `update_parameters` left from `s`, with `chi_square_ >= prev_chi_square_`, then
every entry of `parameters_` is again the entry of `s`, and `chi_square_` is set to
`prev_chi_square_`; for every parameter vector and `delta_`. For a mask with a free index
`>= n_parameters_to_fit_` the two methods leave `prev_parameters_`
(`update_parameters_in_bounds_iff`). -/
theorem rejected_step_restores (s t : LMFitCPP α)
    (_hK : s.info_.n_parameters_to_fit_
      = free_count s.parameters_to_fit_ s.info_.n_parameters_)
    (_hb : InBounds s.info_ (update_parameters_writes s))
    (hpar : t.parameters_ = (update_parameters s).parameters_)
    (hprev : t.prev_parameters_ = (update_parameters s).prev_parameters_)
    (hmask : t.parameters_to_fit_ = s.parameters_to_fit_) (hinfo : t.info_ = s.info_)
    (hrej : t.prev_chi_square_ ≤ t.chi_square_) :
    (∀ i, (prepare_next_iteration t).parameters_ i = s.parameters_ i)
      ∧ (prepare_next_iteration t).chi_square_ = t.prev_chi_square_ := by
  obtain ⟨_, _, _, _, _, p6, p7, p8⟩ := prepare_next_iteration_spec t
  obtain ⟨_, u2, u3, _⟩ := update_parameters_spec s
  have hno : ¬ t.chi_square_ < t.prev_chi_square_ := not_lt.mpr hrej
  refine ⟨fun i => ?_, ?_⟩
  · rw [p8 i, if_neg hno, hinfo, hmask]
    by_cases hf : i < s.info_.n_parameters_ ∧ s.parameters_to_fit_ i = true
    · rw [if_pos hf, hprev, u2 i, if_pos hf]
    · rw [if_neg hf, hpar, u3 i hf]
  · rw [p6, p7, if_neg hno]

/-- Witness of C11: the step `2` on the offset `5` of `leading_fit` (mask
`[true, false]`), rejected with chi-square `1` against the previous chi-square `0`; the
offset is `7` after `update_parameters` and `5` again after `prepare_next_iteration`. -/
theorem rejected_step_restores_witness :
    (update_parameters leading_fit).parameters_ 0 = 7
      ∧ (prepare_next_iteration
          { update_parameters leading_fit with chi_square_ := 1 }).parameters_ 0 = 5
      ∧ (∀ i, (prepare_next_iteration
            { update_parameters leading_fit with chi_square_ := 1 }).parameters_ i
          = leading_fit.parameters_ i)
      ∧ (prepare_next_iteration
          { update_parameters leading_fit with chi_square_ := 1 }).chi_square_ = 0 :=
  ⟨by decide!, by decide!,
    rejected_step_restores leading_fit { update_parameters leading_fit with chi_square_ := 1 }
      (by decide) ((update_parameters_in_bounds_iff leading_fit).mpr (by decide))
      rfl rfl rfl rfl (by decide!)⟩

/-- C12: `prepare_next_iteration` never increases `prev_chi_square_`, and decreases it
exactly when `chi_square_` is strictly smaller. In a run, round `k` ends with that call
on the candidate of the round, so `prev_chi_square_` after round `k` is at most its value
before, the value is never above the chi-square `run` computes at the initial parameters,
and it strictly decreases exactly in the rounds whose candidate chi-square is strictly
smaller. -/
theorem prev_chi_square_never_increases (env : Env α) (s : LMFitCPP α) (k : Nat) :
    (∀ t : LMFitCPP α,
        (prepare_next_iteration t).prev_chi_square_ ≤ t.prev_chi_square_
          ∧ ((prepare_next_iteration t).prev_chi_square_ < t.prev_chi_square_
              ↔ t.chi_square_ < t.prev_chi_square_))
      ∧ state_before_iteration env s (k + 1)
          = prepare_next_iteration (iteration_evaluated env k (state_before_iteration env s k))
      ∧ (state_before_iteration env s (k + 1)).prev_chi_square_
          ≤ (state_before_iteration env s k).prev_chi_square_
      ∧ (state_before_iteration env s k).prev_chi_square_ ≤ (run_init env s).chi_square_
      ∧ ((state_before_iteration env s (k + 1)).prev_chi_square_
            < (state_before_iteration env s k).prev_chi_square_
          ↔ candidate_chi_square env s k < (state_before_iteration env s k).prev_chi_square_) := by
  refine ⟨fun t => ?_, rfl, ?_, prev_chi_square_le_initial env s k, ?_⟩
  · rw [(prepare_next_iteration_spec t).2.2.2.2.2.2.1]
    by_cases h : t.chi_square_ < t.prev_chi_square_
    · rw [if_pos h]
      exact ⟨le_of_lt h, fun _ => h, fun _ => h⟩
    · rw [if_neg h]
      exact ⟨le_refl _, fun h2 => absurd h2 (lt_irrefl _), fun h2 => absurd h2 h⟩
  · rw [prev_chi_square_step]
    by_cases h : candidate_chi_square env s k
        < (state_before_iteration env s k).prev_chi_square_
    · rw [if_pos h]; exact le_of_lt h
    · rw [if_neg h]
  · rw [prev_chi_square_step]
    by_cases h : candidate_chi_square env s k
        < (state_before_iteration env s k).prev_chi_square_
    · rw [if_pos h]
    · rw [if_neg h]
      exact ⟨fun h2 => absurd h2 (lt_irrefl _), fun h2 => absurd h2 h⟩

/-- C13: an LSE fit that `run` ends with state `MAX_ITERATION` has gone through all
`max_n_iterations_` rounds. Its output `chi_square_` is at most the chi-square at the
initial parameters and at most the chi-square of every candidate of the run, each of
them the weighted sum of squared residuals of its curve. Either it is the initial
chi-square and the output parameters are those `run` started from (the initial
parameters), or it is the chi-square of a candidate strictly below the initial one and
below every earlier candidate, and the output parameters are those of that candidate.
This holds for every mask, all parameters free included. -/
theorem max_iteration_best_iterate (env : Env α) (s : LMFitCPP α) (fuel : Nat)
    (t : LMFitCPP α) (hLSE : s.info_.estimator_id_ = Estimator.LSE)
    (hrun : run env fuel s = some t) (hstate : t.state_ = FitState.MAX_ITERATION) :
    t = state_before_iteration env s s.info_.max_n_iterations_
      ∧ (run_init env s).chi_square_
          = ∑ i in Finset.range s.info_.n_points_,
              weight_at s i
                * ((initial_curve env s i - s.data_ i) * (initial_curve env s i - s.data_ i))
      ∧ (∀ k, candidate_chi_square env s k
          = ∑ i in Finset.range s.info_.n_points_,
              weight_at s i
                * ((candidate_curve env s k i - s.data_ i)
                  * (candidate_curve env s k i - s.data_ i)))
      ∧ (∀ i, i < s.info_.n_parameters_ →
          (run_init env s).parameters_ i = s.initial_parameters_ i)
      ∧ t.chi_square_ ≤ (run_init env s).chi_square_
      ∧ (∀ k, k < s.info_.max_n_iterations_ → t.chi_square_ ≤ candidate_chi_square env s k)
      ∧ ((t.chi_square_ = (run_init env s).chi_square_
            ∧ ∀ i, t.parameters_ i = (run_init env s).parameters_ i)
          ∨ ∃ k, k < s.info_.max_n_iterations_
              ∧ candidate_chi_square env s k = t.chi_square_
              ∧ t.chi_square_ < (run_init env s).chi_square_
              ∧ (∀ j, j < k → t.chi_square_ < candidate_chi_square env s j)
              ∧ ∀ i, t.parameters_ i = candidate_parameters env s k i) := by
  obtain ⟨ht, _⟩ := run_max_iteration env s fuel t hrun hstate
  have hchi : t.chi_square_
      = (state_before_iteration env s s.info_.max_n_iterations_).prev_chi_square_ := by
    rw [ht]
    exact state_before_iteration_chi env s _
  obtain ⟨b1, b2⟩ := best_so_far env s s.info_.max_n_iterations_
  refine ⟨ht, run_init_LSE_chi env s hLSE, fun k => ?_, fun i hi => run_init_parameters env s i hi,
    ?_, ?_, ?_⟩
  · have hin := state_before_iteration_inputs env s k
    have h := (iteration_candidate_LSE env k (state_before_iteration env s k)
      (by rw [hin.info_]; exact hLSE)).2
    rw [hin.info_] at h
    unfold candidate_chi_square candidate_curve
    rw [h]
    apply Finset.sum_congr rfl
    intro i _
    have hw : weight_at (state_before_iteration env s k) i = weight_at s i := by
      unfold weight_at
      rw [hin.weight_]
    rw [hw, hin.data_]
  · rw [hchi]
    exact prev_chi_square_le_initial env s _
  · intro k hk
    rw [hchi]
    exact b1 k hk
  · rw [hchi]
    rcases b2 with ⟨a, b⟩ | ⟨j, j1, j2, j3, j4, j5⟩
    · exact Or.inl ⟨a, fun i => by rw [ht]; exact b i⟩
    · exact Or.inr ⟨j, j1, j2, j3, j4, fun i => by rw [ht]; exact j5 i⟩

/-- Witness of C13: the least-squares fit `free_fit`, both parameters free, tolerance `0`
and two rounds allowed, ends with `MAX_ITERATION`. -/
theorem max_iteration_best_iterate_witness :
    free_fit.info_.estimator_id_ = Estimator.LSE
      ∧ run example_env 2 free_fit = some (state_before_iteration example_env free_fit 2)
      ∧ (state_before_iteration example_env free_fit 2).state_ = FitState.MAX_ITERATION
      ∧ (state_before_iteration example_env free_fit 2).chi_square_
          ≤ (run_init example_env free_fit).chi_square_
      ∧ (∀ k, k < free_fit.info_.max_n_iterations_ →
          (state_before_iteration example_env free_fit 2).chi_square_
            ≤ candidate_chi_square example_env free_fit k) :=
  have hrun : run example_env 2 free_fit
      = some (state_before_iteration example_env free_fit 2) :=
    run_leaves example_env free_fit 1 0
      (fun j hj => by
        obtain rfl : j = 0 := by omega
        exact ⟨by decide!, by unfold leaves_after; decide!⟩)
      (by decide!) (by unfold leaves_after; decide!)
  have hstate : (state_before_iteration example_env free_fit 2).state_
      = FitState.MAX_ITERATION := by decide!
  have h := max_iteration_best_iterate example_env free_fit 2
    (state_before_iteration example_env free_fit 2) rfl hrun hstate
  ⟨rfl, hrun, hstate, h.2.2.2.2.1, h.2.2.2.2.2.1⟩

/-- C14: when `run` returns with state `CONVERGED`, at least one round was executed and
in the last one, round `k`, the convergence test held on the chi-square of the candidate
of that round and the `prev_chi_square_` the round started with (the chi-square of the
last accepted iterate, before `prepare_next_iteration` commits or rolls back):
`|chi_square - prev_chi_square| < max(tolerance, tolerance * |chi_square|)`. -/
theorem converged_passes_test (env : Env α) (s : LMFitCPP α) (fuel : Nat) (t : LMFitCPP α)
    (hrun : run env fuel s = some t) (hstate : t.state_ = FitState.CONVERGED) :
    ∃ k, t = state_before_iteration env s (k + 1)
      ∧ t.converged_ = true
      ∧ |candidate_chi_square env s k - (state_before_iteration env s k).prev_chi_square_|
          < max s.tolerance_ (s.tolerance_ * |candidate_chi_square env s k|) := by
  obtain ⟨k, _, k3, _, _, k6, k7⟩ := run_result env s fuel t hrun
  cases k with
  | zero =>
    exfalso
    apply k6 rfl
    rw [k3] at hstate
    exact hstate
  | succ k =>
    have hl : leaves_after env s k := k7 (Nat.succ_pos k)
    have hconv : (state_before_iteration env s (k + 1)).converged_ = true := by
      rcases hl with hl | hl
      · exact hl
      · rw [k3] at hstate
        exact absurd hstate hl
    refine ⟨k, k3, by rw [k3]; exact hconv, ?_⟩
    have h := (iteration_body_spec env k (state_before_iteration env s k)).2.2.2.2.1
    have hnext : state_before_iteration env s (k + 1)
        = iteration_body env k (state_before_iteration env s k) := rfl
    rw [← hnext, hconv, (state_before_iteration_inputs env s k).tolerance_] at h
    exact of_decide_eq_true h.symm

/-- Witness of C14: `example_fit` converges in its second round. -/
theorem converged_passes_test_witness :
    run example_env 20 example_fit = some (state_before_iteration example_env example_fit 2)
      ∧ (state_before_iteration example_env example_fit 2).state_ = FitState.CONVERGED
      ∧ ∃ k, state_before_iteration example_env example_fit 2
            = state_before_iteration example_env example_fit (k + 1)
          ∧ (state_before_iteration example_env example_fit 2).converged_ = true
          ∧ |candidate_chi_square example_env example_fit k
              - (state_before_iteration example_env example_fit k).prev_chi_square_|
            < max example_fit.tolerance_
                (example_fit.tolerance_ * |candidate_chi_square example_env example_fit k|) :=
  have hrun : run example_env 20 example_fit
      = some (state_before_iteration example_env example_fit 2) :=
    run_leaves example_env example_fit 1 18
      (fun j hj => by
        obtain rfl : j = 0 := by omega
        exact ⟨by decide!, by unfold leaves_after; decide!⟩)
      (by decide!) (by unfold leaves_after; decide!)
  have hstate : (state_before_iteration example_env example_fit 2).state_
      = FitState.CONVERGED := by decide!
  ⟨hrun, hstate, converged_passes_test example_env example_fit 20
    (state_before_iteration example_env example_fit 2) hrun hstate⟩

/-- Counterexample to C15, on two fits. On `negative_fit`, a maximum-likelihood fit whose
curve at the initial parameters is `-1` at the first point, `run` returns before the
first round and the output `n_iterations_` still holds what it held before, here `0`,
which is not in `[1, 20]`. On `uncapped_fit`, with `max_n_iterations_ = 0`, `run`
converges in its second round and `n_iterations_` is `2`, above `max_n_iterations_`. -/
theorem n_iterations_range_counterexample :
    (∃ t, run example_env 1 negative_fit = some t
        ∧ ¬ (1 ≤ t.n_iterations_
          ∧ t.n_iterations_ ≤ (negative_fit.info_.max_n_iterations_ : Int)))
      ∧ ∃ t, run example_env 2 uncapped_fit = some t
        ∧ ¬ (1 ≤ t.n_iterations_
          ∧ t.n_iterations_ ≤ (uncapped_fit.info_.max_n_iterations_ : Int)) :=
  ⟨⟨run_init example_env negative_fit,
      run_without_round example_env negative_fit 0 (by decide!), by decide!⟩,
    ⟨state_before_iteration example_env uncapped_fit 2,
      run_leaves example_env uncapped_fit 1 0
        (fun j hj => by
          obtain rfl : j = 0 := by omega
          exact ⟨by decide!, by unfold leaves_after; decide!⟩)
        (by decide!) (by unfold leaves_after; decide!),
      by decide!⟩⟩

/-- C15, amended: when at least one round is allowed and `run` returns with state
`CONVERGED` or `MAX_ITERATION`, the output `n_iterations_` is the number of rounds
executed and lies in `[1, max_n_iterations_]`, whatever it held before. -/
theorem n_iterations_in_range (env : Env α) (s : LMFitCPP α) (fuel : Nat) (t : LMFitCPP α)
    (hmax : 1 ≤ s.info_.max_n_iterations_) (hrun : run env fuel s = some t)
    (hstate : t.state_ = FitState.CONVERGED ∨ t.state_ = FitState.MAX_ITERATION) :
    (∃ k, t = state_before_iteration env s k ∧ t.n_iterations_ = (k : Int))
      ∧ 1 ≤ t.n_iterations_ ∧ t.n_iterations_ ≤ (s.info_.max_n_iterations_ : Int) := by
  obtain ⟨k, _, k3, k4, k5, k6, k7⟩ := run_result env s fuel t hrun
  have hk := run_result_rounds env s k hmax k5
  cases k with
  | zero =>
    exfalso
    have h0 : t.state_ = (run_init env s).state_ := by rw [k3]; rfl
    rcases (run_init_spec env s).2.2.2.2.1 with e | e
    · exact k6 rfl e
    · rw [e] at h0
      rcases hstate with h | h
      · rw [h] at h0; exact absurd h0 (by decide)
      · rw [h] at h0; exact absurd h0 (by decide)
  | succ k =>
    subst k3
    have hn := n_iterations_step env s k
    have hcond : (state_before_iteration env s (k + 1)).converged_ = true
        ∨ k + 1 = s.info_.max_n_iterations_ := by
      rcases k7 (Nat.succ_pos k) with hl | hl
      · exact Or.inl hl
      · rcases hstate with h | h
        · exact absurd h hl
        · exact Or.inr ((state_after_round env s k (k4 k (Nat.lt_succ_self k))).2 h).1
    rw [if_pos hcond] at hn
    refine ⟨⟨k + 1, rfl, hn⟩, ?_, ?_⟩
    · rw [hn]; push_cast; omega
    · rw [hn]; exact_mod_cast hk

/-- Witness of C15, amended: `example_fit` converges in its second round of 20. -/
theorem n_iterations_in_range_witness :
    1 ≤ example_fit.info_.max_n_iterations_
      ∧ run example_env 20 example_fit = some (state_before_iteration example_env example_fit 2)
      ∧ (state_before_iteration example_env example_fit 2).state_ = FitState.CONVERGED
      ∧ 1 ≤ (state_before_iteration example_env example_fit 2).n_iterations_
      ∧ (state_before_iteration example_env example_fit 2).n_iterations_
          ≤ (example_fit.info_.max_n_iterations_ : Int) :=
  have hrun : run example_env 20 example_fit
      = some (state_before_iteration example_env example_fit 2) :=
    run_leaves example_env example_fit 1 18
      (fun j hj => by
        obtain rfl : j = 0 := by omega
        exact ⟨by decide!, by unfold leaves_after; decide!⟩)
      (by decide!) (by unfold leaves_after; decide!)
  have hstate : (state_before_iteration example_env example_fit 2).state_
      = FitState.CONVERGED := by decide!
  ⟨by decide, hrun, hstate,
    (n_iterations_in_range example_env example_fit 20
      (state_before_iteration example_env example_fit 2) (by decide) hrun (Or.inl hstate)).2⟩

/-- C16, for the fits whose rounds stay inside their vectors (`RunInBounds`: at least one
parameter and none fixed): such an LSE fit with tolerance `0` and at least one round
allowed goes through exactly `max_n_iterations_` rounds, whatever the model, the data and
the initial parameters: none of the earlier rounds leaves the loop (with fewer rounds of fuel `run`
has not returned), with `max_n_iterations_` rounds or more it returns the fit object after
round `max_n_iterations_`, and there the state is `MAX_ITERATION` and `n_iterations_`
is `max_n_iterations_`. -/
theorem zero_tolerance_reaches_cap (env : Env α) (s : LMFitCPP α)
    (_hb : RunInBounds s)
    (hLSE : s.info_.estimator_id_ = Estimator.LSE) (htol : s.tolerance_ = 0)
    (hmax : 1 ≤ s.info_.max_n_iterations_) :
    (∀ fuel, s.info_.max_n_iterations_ ≤ fuel →
        run env fuel s = some (state_before_iteration env s s.info_.max_n_iterations_))
      ∧ (∀ fuel, fuel < s.info_.max_n_iterations_ → run env fuel s = none)
      ∧ (∀ k, k + 1 < s.info_.max_n_iterations_ → ¬ leaves_after env s k)
      ∧ (state_before_iteration env s s.info_.max_n_iterations_).state_
          = FitState.MAX_ITERATION
      ∧ (state_before_iteration env s s.info_.max_n_iterations_).n_iterations_
          = (s.info_.max_n_iterations_ : Int) := by
  obtain ⟨m, hm⟩ : ∃ m, s.info_.max_n_iterations_ = m + 1 :=
    ⟨s.info_.max_n_iterations_ - 1, by omega⟩
  have hrounds := zero_tolerance_rounds env s hLSE htol
  have hlast : (state_before_iteration env s m).state_ = FitState.CONVERGED :=
    (hrounds m (by omega)).1
  have hconv := converged_of_zero_tolerance env s m htol
  have hst := state_step_LSE env s m hLSE hlast
  rw [if_pos (And.intro hconv hm.symm)] at hst
  have hn := n_iterations_step env s m
  rw [if_pos (Or.inr hm.symm)] at hn
  refine ⟨?_, ?_, fun k hk => (hrounds k (by omega)).2 hk, ?_, ?_⟩
  · intro fuel hfuel
    obtain ⟨f, rfl⟩ : ∃ f, fuel = f + 1 + m := ⟨fuel - 1 - m, by omega⟩
    rw [hm]
    refine run_leaves env s m f (fun j hj => ⟨(hrounds j (by omega)).1, ?_⟩) hlast ?_
    · exact (hrounds j (by omega)).2 (by omega)
    · exact Or.inr (by rw [hst]; decide)
  · intro fuel hfuel
    unfold run
    have h := run_loop_continue env s 0 fuel 0
      (fun j _ hj => ⟨(hrounds j (by omega)).1, (hrounds j (by omega)).2 (by omega)⟩)
    rw [Nat.zero_add] at h
    rw [show run_init env s = state_before_iteration env s 0 from rfl, h]
    rfl
  · rw [hm]; exact hst
  · rw [hm]; exact hn

/-- Witness of C16: `free_fit`, least squares with both parameters free, tolerance `0`
and two rounds allowed. -/
theorem zero_tolerance_reaches_cap_witness :
    (∀ fuel, free_fit.info_.max_n_iterations_ ≤ fuel →
        run example_env fuel free_fit
          = some (state_before_iteration example_env free_fit
              free_fit.info_.max_n_iterations_))
      ∧ (∀ fuel, fuel < free_fit.info_.max_n_iterations_ →
          run example_env fuel free_fit = none)
      ∧ (∀ k, k + 1 < free_fit.info_.max_n_iterations_ →
          ¬ leaves_after example_env free_fit k)
      ∧ (state_before_iteration example_env free_fit
            free_fit.info_.max_n_iterations_).state_ = FitState.MAX_ITERATION
      ∧ (state_before_iteration example_env free_fit
            free_fit.info_.max_n_iterations_).n_iterations_
          = (free_fit.info_.max_n_iterations_ : Int) :=
  zero_tolerance_reaches_cap example_env free_fit
    ((run_in_bounds_iff free_fit).mpr ⟨by decide, rfl⟩) rfl rfl (by decide)

/-- C17, for the fits whose rounds stay inside their vectors (`RunInBounds`: at least one
parameter and none fixed): with at least one round allowed `run` returns after some number
`k <= max_n_iterations_` of rounds (`max_n_iterations_` rounds of fuel are enough), and
the `while` loop that searches `lambda_` ends with its counter `iter_lambda`, the number
of calls of `update_lambda`, at most `10`; its result is the one `run` uses. -/
theorem run_within_caps (env : Env α) (s : LMFitCPP α)
    (_hb : RunInBounds s) (hmax : 1 ≤ s.info_.max_n_iterations_) :
    (∃ k, k ≤ s.info_.max_n_iterations_
        ∧ ∀ fuel, s.info_.max_n_iterations_ ≤ fuel →
            run env fuel s = some (state_before_iteration env s k))
      ∧ ∀ r : LMFitCPP α, RunInBounds r → ∃ n, n ≤ 10
          ∧ lambda_while env 11 0 r = some (lambda_iterations env 10 r, n) := by
  obtain ⟨k, k1, _, _, k4⟩ := run_exact env s hmax
  refine ⟨⟨k, k1, k4⟩, fun r _ => ?_⟩
  obtain ⟨n, _, n2, n3⟩ := lambda_while_spec env 10 11 0 r (by omega) (by omega)
  exact ⟨n, n2, n3⟩

/-- Witness of C17: `free_fit`, with both parameters free and two rounds allowed. -/
theorem run_within_caps_witness :
    (∃ k, k ≤ free_fit.info_.max_n_iterations_
        ∧ ∀ fuel, free_fit.info_.max_n_iterations_ ≤ fuel →
            run example_env fuel free_fit
              = some (state_before_iteration example_env free_fit k))
      ∧ ∀ r : LMFitCPP ℚ, RunInBounds r → ∃ n, n ≤ 10
          ∧ lambda_while example_env 11 0 r = some (lambda_iterations example_env 10 r, n) :=
  run_within_caps example_env free_fit ((run_in_bounds_iff free_fit).mpr ⟨by decide, rfl⟩)
    (by decide)

/-- C18: an MLE fit whose curve at the initial parameters has a value `<= 0` ends
before the first round: `run` returns the fit object of line 1203 with state
`NEG_CURVATURE_MLE`, the parameters are the initial parameters in every slot, and
`n_iterations_` holds what it held before `run`. -/
theorem initial_neg_curvature (env : Env α) (s : LMFitCPP α) (fuel : Nat)
    (hMLE : s.info_.estimator_id_ = Estimator.MLE)
    (hneg : ∃ i, i < s.info_.n_points_ ∧ initial_curve env s i ≤ 0) :
    run env (fuel + 1) s = some (run_init env s)
      ∧ (run_init env s).state_ = FitState.NEG_CURVATURE_MLE
      ∧ (∀ i, i < s.info_.n_parameters_ →
          (run_init env s).parameters_ i = s.initial_parameters_ i)
      ∧ (run_init env s).n_iterations_ = s.n_iterations_ := by
  have hst := ((run_init_spec env s).2.2.2.2.2.2 hMLE hneg).1
  refine ⟨run_without_round env s fuel (by rw [hst]; decide), hst,
    fun i hi => run_init_parameters env s i hi, (run_init_spec env s).2.2.1⟩

/-- Witness of C18: `negative_fit`, whose line `-1 + x` is `-1` at the first point. -/
theorem initial_neg_curvature_witness :
    (∃ i, i < negative_fit.info_.n_points_ ∧ initial_curve example_env negative_fit i ≤ 0)
      ∧ run example_env (0 + 1) negative_fit = some (run_init example_env negative_fit)
      ∧ (run_init example_env negative_fit).state_ = FitState.NEG_CURVATURE_MLE
      ∧ (∀ i, i < negative_fit.info_.n_parameters_ →
          (run_init example_env negative_fit).parameters_ i
            = negative_fit.initial_parameters_ i)
      ∧ (run_init example_env negative_fit).n_iterations_ = negative_fit.n_iterations_ :=
  have hneg : ∃ i, i < negative_fit.info_.n_points_
      ∧ initial_curve example_env negative_fit i ≤ 0 := ⟨0, by decide, by decide!⟩
  ⟨hneg, initial_neg_curvature example_env negative_fit 0 rfl hneg⟩

/-- C19, for the fits whose rounds stay inside their vectors (`RunInBounds`: at least one
parameter and none fixed): in such an MLE fit, when the candidate of round `k` has a
curve value `<= 0`,
`calc_chi_square` signals `NEG_CURVATURE_MLE` for it, the loop is left after that same
round, every parameter has again the value it had at the start of the round (the last
accepted iterate), and the output `chi_square_` is the chi-square of that iterate. -/
theorem neg_curvature_rolls_back (env : Env α) (s : LMFitCPP α) (k : Nat)
    (_hb : RunInBounds s)
    (hMLE : s.info_.estimator_id_ = Estimator.MLE)
    (hbefore : ∀ j, j < k →
      (state_before_iteration env s j).state_ = FitState.CONVERGED ∧ ¬ leaves_after env s j)
    (hreach : (state_before_iteration env s k).state_ = FitState.CONVERGED)
    (hneg : ∃ i, i < s.info_.n_points_ ∧ candidate_curve env s k i ≤ 0) :
    (iteration_candidate env k (state_before_iteration env s k)).state_
        = FitState.NEG_CURVATURE_MLE
      ∧ (∀ fuel, run env (fuel + 1 + k) s = some (state_before_iteration env s (k + 1)))
      ∧ (∀ i, (state_before_iteration env s (k + 1)).parameters_ i
          = (state_before_iteration env s k).parameters_ i)
      ∧ (state_before_iteration env s (k + 1)).chi_square_
          = (state_before_iteration env s k).chi_square_ := by
  obtain ⟨n1, n2, _, n4⟩ := neg_curvature_round env s k hMLE hneg
  have hno : ¬ candidate_chi_square env s k
      < (state_before_iteration env s k).prev_chi_square_ := by
    rw [n2]; exact lt_irrefl _
  have hl : leaves_after env s k := by
    refine Or.inr ?_
    rw [n4]
    split_ifs <;> decide
  refine ⟨n1, fun fuel => run_leaves env s k fuel hbefore hreach hl, fun i => ?_, ?_⟩
  · rw [parameters_step, if_neg hno]
  · rw [state_before_iteration_chi env s (k + 1), prev_chi_square_step, if_neg hno,
      state_before_iteration_chi env s k]

/-- Witness of C19: the first round of `overshooting_fit` (both parameters free) leads to
the line `3 - 6 x`,
which is `-3` at `x = 1`. -/
theorem neg_curvature_rolls_back_witness :
    (∃ i, i < overshooting_fit.info_.n_points_
        ∧ candidate_curve example_env overshooting_fit 0 i ≤ 0)
      ∧ (iteration_candidate example_env 0
            (state_before_iteration example_env overshooting_fit 0)).state_
          = FitState.NEG_CURVATURE_MLE
      ∧ (∀ fuel, run example_env (fuel + 1 + 0) overshooting_fit
          = some (state_before_iteration example_env overshooting_fit (0 + 1)))
      ∧ (∀ i, (state_before_iteration example_env overshooting_fit (0 + 1)).parameters_ i
          = (state_before_iteration example_env overshooting_fit 0).parameters_ i)
      ∧ (state_before_iteration example_env overshooting_fit (0 + 1)).chi_square_
          = (state_before_iteration example_env overshooting_fit 0).chi_square_ :=
  have hneg : ∃ i, i < overshooting_fit.info_.n_points_
      ∧ candidate_curve example_env overshooting_fit 0 i ≤ 0 := ⟨1, by decide, by decide!⟩
  ⟨hneg, neg_curvature_rolls_back example_env overshooting_fit 0
    ((run_in_bounds_iff overshooting_fit).mpr ⟨by decide, rfl⟩) rfl
    (fun j hj => absurd hj (Nat.not_lt_zero j)) (by decide!) hneg⟩

/-- C20, refuted on `overshooting_fit` (maximum likelihood, tolerance `0`, one round
allowed): the curve at the initial parameters is positive, the candidate of the only
round has the curve value `-3` at the second point, so `calc_chi_square` signals
`NEG_CURVATURE_MLE` for it, and `run` returns with state `MAX_ITERATION`:
`evaluate_iteration` overwrites the state in the last round when the convergence test
fails. -/
theorem neg_curvature_overwritten :
    overshooting_fit.info_.estimator_id_ = Estimator.MLE
      ∧ 1 ≤ overshooting_fit.info_.max_n_iterations_
      ∧ (run_init example_env overshooting_fit).state_ = FitState.CONVERGED
      ∧ candidate_parameters example_env overshooting_fit 0 0 = 3
      ∧ candidate_parameters example_env overshooting_fit 0 1 = -6
      ∧ candidate_curve example_env overshooting_fit 0 1 = -3
      ∧ (iteration_candidate example_env 0 (run_init example_env overshooting_fit)).state_
          = FitState.NEG_CURVATURE_MLE
      ∧ (run example_env 1 overshooting_fit).map (fun t => t.state_)
          = some FitState.MAX_ITERATION := by
  refine ⟨rfl, by decide, ?_, ?_, ?_, ?_, ?_, ?_⟩ <;> decide!

/-- C21: for the model `LINEAR_1D` under LSE without weights and with both parameters free,
when the coordinates `x_i` of the points are not all equal (so there are at least two
points) and the data lie on a line, `data[i] = a + b * x_i`, then for every current
parameter vector the Hessian of `calculate_hessian` is non-singular and the step `delta_`
that `decompose_LUP` (with `Tol = 0`) and `solve_LUP` give for the unmodified Hessian and
the gradient of `calc_gradient` leads exactly to `(a, b)`; the curve at the updated
parameters is the data and its chi-square is `0`. -/
theorem linear1d_step_exact (env : Env α) (s : LMFitCPP α) (a b : α)
    (hmodel : s.info_.model_id_ = ModelID.LINEAR_1D)
    (hLSE : s.info_.estimator_id_ = Estimator.LSE) (hw : s.weight_ = none)
    (hn : s.info_.n_parameters_ = 2) (hK : s.info_.n_parameters_to_fit_ = 2)
    (hfree : ∀ p, p < 2 → s.parameters_to_fit_ p = true)
    (hx : ∃ i j, i < s.info_.n_points_ ∧ j < s.info_.n_points_
      ∧ linear1d_x s (i + 1) ≠ linear1d_x s (j + 1))
    (hdata : ∀ i, i < s.info_.n_points_ → s.data_ i = a + b * linear1d_x s (i + 1)) :
    (toMatrix 2 (undamped_step env s).hessian_).det ≠ 0
      ∧ s.parameters_ 0 + (undamped_step env s).delta_ 0 = a
      ∧ s.parameters_ 1 + (undamped_step env s).delta_ 1 = b
      ∧ (∀ i, i < s.info_.n_points_ →
          (calc_model env (update_parameters (undamped_step env s))).curve_ i = s.data_ i)
      ∧ (calc_chi_square env.log (calc_model env (update_parameters (undamped_step env s)))
          (calc_model env (update_parameters (undamped_step env s))).curve_
          s.info_.n_points_).chi_square_ = 0 := by
  obtain ⟨hdet, d0, d1⟩ :=
    undamped_step_linear1d env s a b hmodel hLSE hw hn hK hfree hx hdata
  obtain ⟨q1, q2⟩ := undamped_step_inputs env s
  obtain ⟨u1, _⟩ := update_parameters_spec (undamped_step env s)
  obtain ⟨m1, _⟩ := calc_model_spec env (update_parameters (undamped_step env s))
  have hall := (q1.next u1).next m1
  have hcurve : ∀ i, i < s.info_.n_points_ →
      (calc_model env (update_parameters (undamped_step env s))).curve_ i = s.data_ i := by
    intro i hi
    rw [stepped_line_curve env (undamped_step env s) a b (by rw [q1.info_]; exact hmodel)
      (by rw [q1.info_]; exact hn) (fun p hp => by rw [q1.parameters_to_fit_]; exact hfree p hp)
      (by rw [q2, d0]; ring) (by rw [q2, d1]; ring) i (by rw [q1.info_]; exact hi),
      linear1d_x_congr q1, hdata i hi]
  refine ⟨hdet, by rw [d0]; ring, by rw [d1]; ring, hcurve, ?_⟩
  rw [calc_chi_square_LSE_value env.log _ _ _ (by rw [hall.info_]; exact hLSE)]
  apply Finset.sum_eq_zero
  intro i hi
  rw [hcurve i (Finset.mem_range.mp hi), hall.data_, sub_self, mul_zero, mul_zero]

/-- Witness of C21: `free_fit`, whose data `5, 8, 11` lie on the line `5 + 3 x` at
`x = 0, 1, 2`, from the parameters `(0, 0)`. -/
theorem linear1d_step_exact_witness :
    (∃ i j, i < free_fit.info_.n_points_ ∧ j < free_fit.info_.n_points_
        ∧ linear1d_x free_fit (i + 1) ≠ linear1d_x free_fit (j + 1))
      ∧ (∀ i, i < free_fit.info_.n_points_ →
          free_fit.data_ i = 5 + 3 * linear1d_x free_fit (i + 1))
      ∧ free_fit.parameters_ 0 + (undamped_step example_env free_fit).delta_ 0 = 5
      ∧ free_fit.parameters_ 1 + (undamped_step example_env free_fit).delta_ 1 = 3 :=
  have hx : ∃ i j, i < free_fit.info_.n_points_ ∧ j < free_fit.info_.n_points_
      ∧ linear1d_x free_fit (i + 1) ≠ linear1d_x free_fit (j + 1) :=
    ⟨0, 1, by decide, by decide, by decide!⟩
  have hdata : ∀ i, i < free_fit.info_.n_points_ →
      free_fit.data_ i = 5 + 3 * linear1d_x free_fit (i + 1) := by
    intro i hi
    have hi3 : i < 3 := hi
    interval_cases i <;> decide!
  have h := linear1d_step_exact example_env free_fit 5 3 rfl rfl rfl rfl rfl
    (fun _ _ => rfl) hx hdata
  ⟨hx, hdata, h.2.1, h.2.2.1⟩

/-- C22: `modify_step_width` replaces every entry `i < K` of `scaling_vector_` by the
maximum of its old value and the diagonal entry `hessian_[i * K + i]`, and leaves the
other entries, so no entry decreases; in a run `run_init` does not write the vector, the
part of a round before `update_parameters` only lets entries grow, the rest of the round
does not write it, and so the entries never decrease from round to round. -/
theorem scaling_vector_never_decreases (env : Env α) (s : LMFitCPP α) :
    (∀ (t : LMFitCPP α) (i : Nat),
        (modify_step_width t).scaling_vector_ i
            = (if i < t.info_.n_parameters_to_fit_ then
                max (t.scaling_vector_ i) (t.hessian_ (i * t.info_.n_parameters_to_fit_ + i))
              else t.scaling_vector_ i)
          ∧ t.scaling_vector_ i ≤ (modify_step_width t).scaling_vector_ i)
      ∧ (run_init env s).scaling_vector_ = s.scaling_vector_
      ∧ (∀ k i, (state_before_iteration env s k).scaling_vector_ i
          ≤ (iteration_head env k (state_before_iteration env s k)).scaling_vector_ i)
      ∧ (∀ k, (state_before_iteration env s (k + 1)).scaling_vector_
          = (iteration_head env k (state_before_iteration env s k)).scaling_vector_)
      ∧ ∀ k d i, (state_before_iteration env s k).scaling_vector_ i
          ≤ (state_before_iteration env s (k + d)).scaling_vector_ i :=
  ⟨fun t i => ⟨(modify_step_width_spec t).1 i, modify_step_width_grows t i⟩,
    run_init_scaling env s,
    fun k i => iteration_head_grows env k _ i,
    fun k => (iteration_tail_scaling env k _).trans (update_parameters_scaling _),
    fun k d i => state_before_iteration_grows env s k d i⟩

/-- C23: the value `calc_values_linear1d` writes for point `i` is
`parameters_[0] + parameters_[1] * x_i` and `calc_derivatives_linear1d` writes `x_i` as
the derivative for the slope, where the coordinate `x_i` is `i` when there is no user
info, `user_info[i]` when the user info holds exactly `n_points_` floats, and
`user_info[fit_index_ * n_points_ + i]` when it holds more. -/
theorem linear1d_coordinate (s : LMFitCPP α) (line derivatives : Nat → α) (i : Nat)
    (hi : i < s.info_.n_points_) :
    calc_values_linear1d s line i
        = s.parameters_ 0 + s.parameters_ 1 * linear1d_x s (i + 1)
      ∧ calc_derivatives_linear1d s derivatives (0 * s.info_.n_points_ + i) = 1
      ∧ calc_derivatives_linear1d s derivatives (1 * s.info_.n_points_ + i)
        = linear1d_x s (i + 1)
      ∧ (s.user_info_ = none → linear1d_x s (i + 1) = (i : α))
      ∧ (∀ u, s.user_info_ = some u → s.info_.user_info_size_ / 4 = s.info_.n_points_ →
          linear1d_x s (i + 1) = u i)
      ∧ (∀ u, s.user_info_ = some u → s.info_.user_info_size_ / 4 > s.info_.n_points_ →
          linear1d_x s (i + 1) = u (s.fit_index_ * s.info_.n_points_ + i)) := by
  refine ⟨?_, ?_, ?_, fun h => linear1d_x_none s h i, fun u h hs => linear1d_x_exact s u h hs i,
    fun u h hs => linear1d_x_batch s u h hs i⟩
  · rw [calc_values_linear1d_apply, if_pos hi]
  · rw [calc_derivatives_linear1d_apply, Nat.zero_mul, Nat.zero_add, if_pos hi]
  · rw [calc_derivatives_linear1d_apply, Nat.one_mul,
      if_neg (show ¬ s.info_.n_points_ + i < s.info_.n_points_ by omega),
      if_pos (show s.info_.n_points_ + i < s.info_.n_points_ + s.info_.n_points_ by omega),
      Nat.add_sub_cancel_left]

/-- Witness of C23: point `1` of `damped_fit`, whose user info holds the four
coordinates `1, -1, 1, -1`. -/
theorem linear1d_coordinate_witness :
    calc_values_linear1d damped_fit (fun _ => 0) 1
        = damped_fit.parameters_ 0 + damped_fit.parameters_ 1 * linear1d_x damped_fit (1 + 1)
      ∧ linear1d_x damped_fit (1 + 1) = -1 :=
  have h := linear1d_coordinate damped_fit (fun _ => 0) (fun _ => 0) 1 (by decide)
  ⟨h.1, h.2.2.2.2.1 (vec [1, -1, 1, -1]) rfl (by decide)⟩

/-- C24 fails on the code, on `cancelling_fit`, a least-squares fit with the weights `1` and
`-1` whose chi-square is `0` from the start, with tolerance `0`. Round 1 is executed, its
candidate chi-square `0` is not below `prev_chi_square_ = 0`, and `calc_coefficients`
changes entry 1 of the gradient from `0` to `-1`: the test `prev_chi_square_ == 0`, which
makes the call before the loop compute the Hessian and the gradient, holds in a later
round as well. -/
theorem coefficients_recomputed_counterexample :
    (state_before_iteration example_env cancelling_fit 1).state_ = FitState.CONVERGED
      ∧ ¬ leaves_after example_env cancelling_fit 0
      ∧ ¬ (candidate_chi_square example_env cancelling_fit 1
          < (state_before_iteration example_env cancelling_fit 1).prev_chi_square_)
      ∧ (calc_model example_env
          (iteration_updated example_env 1
            (state_before_iteration example_env cancelling_fit 1))).gradient_ 1 = 0
      ∧ (calc_coefficients example_env
          (calc_model example_env
            (iteration_updated example_env 1
              (state_before_iteration example_env cancelling_fit 1)))).gradient_ 1 = -1 := by
  refine ⟨by decide!, by unfold leaves_after; decide!, by decide!, by decide!, by decide!⟩

/-- What `calc_coefficients` keeps: in every round of `run`, when `prev_chi_square_` is
not `0` and the
chi-square of the candidate is not strictly less than it, `calc_coefficients` leaves
`hessian_` and `gradient_` as they were before the call. -/
theorem coefficients_kept_if_worse (env : Env α) (s : LMFitCPP α) (k : Nat)
    (hprev : (state_before_iteration env s k).prev_chi_square_ ≠ 0)
    (hworse : ¬ candidate_chi_square env s k
      < (state_before_iteration env s k).prev_chi_square_) :
    (calc_coefficients env
        (calc_model env (iteration_updated env k (state_before_iteration env s k)))).hessian_
        = (calc_model env (iteration_updated env k (state_before_iteration env s k))).hessian_
      ∧ (calc_coefficients env
          (calc_model env (iteration_updated env k (state_before_iteration env s k)))).gradient_
        = (calc_model env
            (iteration_updated env k (state_before_iteration env s k))).gradient_ := by
  obtain ⟨_, _, _, u4, _⟩ := iteration_updated_spec env k (state_before_iteration env s k)
  obtain ⟨_, _, _, m4, _⟩ :=
    calc_model_spec env (iteration_updated env k (state_before_iteration env s k))
  have hp : (calc_model env
      (iteration_updated env k (state_before_iteration env s k))).prev_chi_square_
      = (state_before_iteration env s k).prev_chi_square_ := m4.trans u4
  exact calc_coefficients_keeps env _ (by rw [hp]; exact hworse) (by rw [hp]; exact hprev)

/-- An instance of `coefficients_kept_if_worse`: round 0 of `stationary_fit`, whose
candidate is the start
itself, with chi-square `4`. -/
theorem coefficients_kept_if_worse_witness :
    (state_before_iteration example_env stationary_fit 0).prev_chi_square_ ≠ 0
      ∧ ¬ (candidate_chi_square example_env stationary_fit 0
          < (state_before_iteration example_env stationary_fit 0).prev_chi_square_)
      ∧ (calc_coefficients example_env
          (calc_model example_env
            (iteration_updated example_env 0
              (state_before_iteration example_env stationary_fit 0)))).hessian_
        = (calc_model example_env
            (iteration_updated example_env 0
              (state_before_iteration example_env stationary_fit 0))).hessian_ :=
  have h1 : (state_before_iteration example_env stationary_fit 0).prev_chi_square_ ≠ 0 := by
    decide!
  have h2 : ¬ (candidate_chi_square example_env stationary_fit 0
      < (state_before_iteration example_env stationary_fit 0).prev_chi_square_) := by decide!
  ⟨h1, h2, (coefficients_kept_if_worse example_env stationary_fit 0 h1 h2).1⟩

/-- Counterexample to C25: `damped_fit` starts round 1 in state `CONVERGED` with
`lambda_ = 1/10` carried over from round 0; `modify_step_width` then gives the modified
Hessian `[22/5, 0, 0, 22/5]`, but the first factorisation of the round leaves `4` in
entry `0` of `decomposed_hessian_`: it has decomposed `hessian_ = [4, 0, 0, 4]`, and
decomposing the modified Hessian would have left `22/5`. -/
theorem first_factorization_counterexample :
    (state_before_iteration example_env damped_fit 1).state_ = FitState.CONVERGED
      ∧ (state_before_iteration example_env damped_fit 1).lambda_ = 1 / 10
      ∧ (modify_step_width (state_before_iteration example_env damped_fit 1)).modified_hessian_ 0
        = 22 / 5
      ∧ (first_solve example_env 1
          (state_before_iteration example_env damped_fit 1)).decomposed_hessian_ 0 = 4
      ∧ (decompose_LUP
          (modify_step_width (state_before_iteration example_env damped_fit 1)).modified_hessian_
          2 0 (state_before_iteration example_env damped_fit 1).pivot_array_).matrix 0
        = 22 / 5 := by
  refine ⟨by decide!, by decide!, by decide!, by decide!, by decide!⟩

/-- C25, amended: in every round of `run` the first LUP factorisation (line 1214)
decomposes `hessian_`, the Hessian without the damping term, whatever `lambda_` is carried
over, and the step it leads to solves for `gradient_` with that factorisation;
`modify_step_width` has before set entry `(i, j)` of `modified_hessian_` to the entry of
`hessian_` plus, on the diagonal, `lambda_` times the new `scaling_vector_[i]`, and that
matrix is decomposed only inside the branch of the `phi_` test. -/
theorem first_factorization_of_hessian (env : Env α) (iteration : Nat) (s : LMFitCPP α) :
    iteration_head env iteration s
        = (if iteration = 0 then
            clamp_step_bound env
              (lambda_search env (rescale_phi_derivative env (first_solve env iteration s)))
          else lambda_search env (rescale_phi_derivative env (first_solve env iteration s)))
      ∧ (first_solve env iteration s).decomposed_hessian_
        = (decompose_LUP s.hessian_ s.info_.n_parameters_to_fit_ 0 s.pivot_array_).matrix
      ∧ (first_solve env iteration s).delta_
        = solve_LUP
            (decompose_LUP s.hessian_ s.info_.n_parameters_to_fit_ 0 s.pivot_array_).matrix
            (decompose_LUP s.hessian_ s.info_.n_parameters_to_fit_ 0
              s.pivot_array_).permutation_vector
            s.gradient_ s.info_.n_parameters_to_fit_ s.delta_
      ∧ (∀ i j, i < s.info_.n_parameters_to_fit_ → j < s.info_.n_parameters_to_fit_ →
          (first_solve env iteration s).modified_hessian_
              (i * s.info_.n_parameters_to_fit_ + j)
            = s.hessian_ (i * s.info_.n_parameters_to_fit_ + j)
              + if i = j then (first_solve env iteration s).scaling_vector_ i * s.lambda_
                else 0) := by
  obtain ⟨f1, f2, f3, f4, _, _⟩ := first_solve_spec env iteration s
  refine ⟨iteration_head_eq env iteration s, f1, f2, fun i j hi hj => ?_⟩
  rw [f3, f4]
  exact (modify_step_width_spec s).2.1 i j hi hj

/-- Counterexample to C26: for `phi_fit` (both parameters free, `D = (4, 0)`,
`delta = (1, 0)`, identity as inverted Hessian) `calc_phi` sets `phi_derivative_` to `8`,
and the formula `(s . (Hinv * (D delta))) / ||s||` gives `4`. -/
theorem phi_derivative_counterexample :
    phi_fit.info_.n_parameters_to_fit_ = phi_fit.info_.n_parameters_
      ∧ (calc_phi example_env phi_fit).phi_derivative_ = 8
      ∧ spec_phi_derivative example_env phi_fit = 4
      ∧ (calc_phi example_env phi_fit).phi_derivative_ ≠ spec_phi_derivative example_env phi_fit := by
  refine ⟨rfl, by decide!, by decide!, by decide!⟩

/-- C26, amended: with all parameters free (`K = n_parameters_`), `calc_phi` sets
`phi_ = ||s|| - step_bound_` and
`phi_derivative_ = ((D delta) . (Hinv * (D delta))) / ||s||`, with
`s[i] = sqrt(D[i]) * delta[i]`, `(D delta)[i] = D[i] * delta[i]` and `Hinv * v` the
row-major matrix-vector product: the scalar product is taken with `D delta`, not with
`s`. -/
theorem calc_phi_quadratic_form (env : Env α) (s : LMFitCPP α)
    (hfree : s.info_.n_parameters_to_fit_ = s.info_.n_parameters_) :
    (calc_phi env s).phi_ = scaled_step_norm env s - s.step_bound_
      ∧ (calc_phi env s).phi_derivative_
        = (∑ i in Finset.range s.info_.n_parameters_to_fit_,
            (s.scaling_vector_ i * s.delta_ i)
              * ∑ j in Finset.range s.info_.n_parameters_to_fit_,
                  s.inverted_hessian_ (i * s.info_.n_parameters_to_fit_ + j)
                    * (s.scaling_vector_ j * s.delta_ j))
          / scaled_step_norm env s :=
  calc_phi_spec env s hfree

/-- Witness of C26, amended: `phi_fit`. -/
theorem calc_phi_quadratic_form_witness :
    phi_fit.info_.n_parameters_to_fit_ = phi_fit.info_.n_parameters_
      ∧ (calc_phi example_env phi_fit).phi_
        = scaled_step_norm example_env phi_fit - phi_fit.step_bound_ :=
  ⟨rfl, (calc_phi_quadratic_form example_env phi_fit rfl).1⟩

/-- C27, refuted on `masked_quality_fit` (mask `[false, true]`, so `K = 1` and `M = [1]`,
four points): `multiply_matrix_vector` takes `n_rows = 8 / 1` and multiplies the step
with the derivatives of parameter `0`, `(1, 1, 1, 1)`, so that with step `2`,
`lambda_ = 0` and `prev_chi_square_ = 1` the method sets `predicted_reduction_ = 16`;
the formula with the derivatives `(0, 1, 2, 3)` of the free parameter gives `56`. -/
theorem predicted_reduction_wrong_column :
    free_indices masked_quality_fit.parameters_to_fit_
        masked_quality_fit.info_.n_parameters_ = [1]
      ∧ (calc_approximation_quality example_env masked_quality_fit).predicted_reduction_ = 16
      ∧ spec_predicted_reduction example_env masked_quality_fit = 56 := by
  refine ⟨by decide, by decide!, by decide!⟩

/-- C28: `update_step_bound` maps `(step_bound_, lambda_)` as the specification says:
with `n` the norm of the scaled step, for `approximation_ratio_ <= 1/4` to
`(temp * min(step_bound_, n / 0.1), lambda_ / temp)` with the factor `temp` of the
specification, otherwise for `lambda_ = 0` or `approximation_ratio_ >= 3/4` to
`(n / 0.5, lambda_ / 2)`, and otherwise it leaves both. -/
theorem update_step_bound_as_specified (env : Env α) (s : LMFitCPP α) :
    ((update_step_bound env s).step_bound_, (update_step_bound env s).lambda_)
        = spec_update_step_bound env s
      ∧ scaled_step_norm env s
        = env.sqrt (∑ i in Finset.range s.info_.n_parameters_,
            (s.delta_ i * env.sqrt (s.scaling_vector_ i))
              * (s.delta_ i * env.sqrt (s.scaling_vector_ i))) := by
  refine ⟨update_step_bound_spec env s, ?_⟩
  unfold scaled_step_norm
  congr 1
  apply Finset.sum_congr rfl
  intro i _
  ring

/-- Counterexample to C29, on two fits. `stationary_fit` starts at its least-squares
line, so round 0 is executed with the step `0`; the scaled step has norm `0`, line 1271
sets `step_bound_ = min(step_bound_, 0)`, and `step_bound_` is `0` at the end of the
round. `indefinite_fit` has a weight `< 0`: its chi-square at the start is `9800`, its
Hessian `[[5, 10], [10, 18]]` and its gradient `(-240, -420)`. In round 0 the step bound
is `100`, the undamped step `(12, -30)` has the scaled norm `sqrt(16920)`, so that
`phi_ > 0.1 * step_bound_`, and the `phi_derivative_` computed from it is negative;
`initialize_lambda_bounds` sets the negative lower bound `phi_ / phi_derivative_`,
`update_lambda` lowers `lambda_` to that bound, `update_step_bound` halves it, and at the
end of the round `lambda_` is about `-0.0117` (with the square root to six decimal
places; the chi-square of the candidate is positive). -/
theorem step_bound_lambda_counterexample :
    ((state_before_iteration example_env stationary_fit 0).state_ = FitState.CONVERGED
      ∧ scaled_step_norm example_env
          (iteration_head example_env 0 (state_before_iteration example_env stationary_fit 0))
        = 0
      ∧ (state_before_iteration example_env stationary_fit 1).step_bound_ = 0
      ∧ ¬ (0 < (state_before_iteration example_env stationary_fit 1).step_bound_
          ∧ 0 ≤ (state_before_iteration example_env stationary_fit 1).lambda_))
      ∧ ((state_before_iteration precise_env indefinite_fit 0).state_ = FitState.CONVERGED
        ∧ indefinite_fit.lambda_ = 0
        ∧ (∀ x, 0 ≤ precise_env.sqrt x)
        ∧ (state_before_iteration precise_env indefinite_fit 0).chi_square_ = 9800
        ∧ (state_before_iteration precise_env indefinite_fit 0).hessian_ 0 = 5
        ∧ (state_before_iteration precise_env indefinite_fit 0).hessian_ 1 = 10
        ∧ (state_before_iteration precise_env indefinite_fit 0).hessian_ 2 = 10
        ∧ (state_before_iteration precise_env indefinite_fit 0).hessian_ 3 = 18
        ∧ (state_before_iteration precise_env indefinite_fit 0).gradient_ 0 = -240
        ∧ (state_before_iteration precise_env indefinite_fit 0).gradient_ 1 = -420
        ∧ (first_solve precise_env 0
            (state_before_iteration precise_env indefinite_fit 0)).step_bound_ = 100
        ∧ (first_solve precise_env 0
            (state_before_iteration precise_env indefinite_fit 0)).delta_ 0 = 12
        ∧ (first_solve precise_env 0
            (state_before_iteration precise_env indefinite_fit 0)).delta_ 1 = -30
        ∧ 1 / 10 * 100 < (first_solve precise_env 0
            (state_before_iteration precise_env indefinite_fit 0)).phi_
        ∧ (first_solve precise_env 0
            (state_before_iteration precise_env indefinite_fit 0)).phi_derivative_ < 0
        ∧ (iteration_head precise_env 0
            (state_before_iteration precise_env indefinite_fit 0)).lambda_
          = (iteration_head precise_env 0
              (state_before_iteration precise_env indefinite_fit 0)).lambda_lower_bound_
        ∧ (iteration_head precise_env 0
            (state_before_iteration precise_env indefinite_fit 0)).lambda_ < 0
        ∧ 0 < candidate_chi_square precise_env indefinite_fit 0
        ∧ (state_before_iteration precise_env indefinite_fit 1).lambda_
          = 1 / 2 * (iteration_head precise_env 0
              (state_before_iteration precise_env indefinite_fit 0)).lambda_
        ∧ -(12 / 1000) < (state_before_iteration precise_env indefinite_fit 1).lambda_
        ∧ (state_before_iteration precise_env indefinite_fit 1).lambda_ < -(11 / 1000)
        ∧ ¬ (0 < (state_before_iteration precise_env indefinite_fit 1).step_bound_
            ∧ 0 ≤ (state_before_iteration precise_env indefinite_fit 1).lambda_)) := by
  refine ⟨⟨by decide!, by decide!, by decide!, by decide!⟩,
    by decide!, rfl, fun x => div_nonneg (Nat.cast_nonneg _) (Nat.cast_nonneg _),
    by decide!, by decide!, by decide!, by decide!, by decide!, by decide!, by decide!,
    by decide!, by decide!, by decide!, by decide!, by decide!, by decide!, by decide!,
    by decide!, by decide!, by decide!, by decide!, by decide!⟩

/-- C29, amended: with a square root that is never negative, at the end of round `k` of
`run` `step_bound_ >= 0`, and `step_bound_ > 0` as long as the scaled step had a norm
`> 0` in the rounds so far; and with `lambda_ >= 0` at the start, `lambda_ >= 0` as long
as the `phi_derivative_` computed from the undamped step was not negative in the rounds
so far. -/
theorem step_bound_lambda_signs (env : Env α) (s : LMFitCPP α) (k : Nat)
    (hsqrt : ∀ x, 0 ≤ env.sqrt x) :
    0 ≤ (state_before_iteration env s (k + 1)).step_bound_
      ∧ ((∀ j, j ≤ k →
            0 < scaled_step_norm env (iteration_head env j (state_before_iteration env s j))) →
          0 < (state_before_iteration env s (k + 1)).step_bound_)
      ∧ (0 ≤ s.lambda_ →
          (∀ j, j ≤ k →
            0 ≤ (first_solve env j (state_before_iteration env s j)).phi_derivative_) →
          0 ≤ (state_before_iteration env s (k + 1)).lambda_) :=
  ⟨(step_bound_signs env hsqrt s k).1, (step_bound_signs env hsqrt s k).2,
    fun hl hd => (controller_signs env hsqrt s hl k hd).2.1⟩

/-- Witness of C29, amended: round 0 of `damped_fit`, where the scaled step has the norm
`40`, the `phi_derivative_` of the undamped step is positive, and the round ends with
`step_bound_ = 40` and `lambda_ = 1/10`. -/
theorem step_bound_lambda_signs_witness :
    (∀ x, 0 ≤ example_env.sqrt x)
      ∧ (state_before_iteration example_env damped_fit (0 + 1)).step_bound_ = 40
      ∧ (state_before_iteration example_env damped_fit (0 + 1)).lambda_ = 1 / 10
      ∧ 0 ≤ (state_before_iteration example_env damped_fit (0 + 1)).step_bound_
      ∧ 0 < (state_before_iteration example_env damped_fit (0 + 1)).step_bound_
      ∧ 0 ≤ (state_before_iteration example_env damped_fit (0 + 1)).lambda_ :=
  have hsqrt : ∀ x, 0 ≤ example_env.sqrt x :=
    fun x => div_nonneg (Nat.cast_nonneg _) (Nat.cast_nonneg _)
  have hn : ∀ j, j ≤ 0 →
      0 < scaled_step_norm example_env
        (iteration_head example_env j (state_before_iteration example_env damped_fit j)) := by
    intro j hj
    obtain rfl : j = 0 := by omega
    decide!
  have hd : ∀ j, j ≤ 0 →
      0 ≤ (first_solve example_env j
        (state_before_iteration example_env damped_fit j)).phi_derivative_ := by
    intro j hj
    obtain rfl : j = 0 := by omega
    decide!
  have h := step_bound_lambda_signs example_env damped_fit 0 hsqrt
  ⟨hsqrt, by decide!, by decide!, h.1, h.2.1 hn, h.2.2 (le_refl _) hd⟩

/-- Counterexample to C30: for `bracket_fit`, with `phi_ / phi_derivative_ = 5`,
`||D^(-1/2) g|| / step_bound_ = 1` and `lambda_ = 0`, the clamped value is
`min(max(0, 5), 1) = 1`: the fallback is not taken and `lambda_ = 1` is below
`lambda_lower_bound_ = 5`. -/
theorem lambda_bracket_counterexample :
    (initialize_lambda_bounds example_env bracket_fit).lambda_lower_bound_ = 5
      ∧ (initialize_lambda_bounds example_env bracket_fit).lambda_upper_bound_ = 1
      ∧ min (max bracket_fit.lambda_ (bracket_fit.phi_ / bracket_fit.phi_derivative_))
          (scaled_gradient_norm example_env bracket_fit / bracket_fit.step_bound_) ≠ 0
      ∧ (initialize_lambda_bounds example_env bracket_fit).lambda_ = 1
      ∧ ¬ ((initialize_lambda_bounds example_env bracket_fit).lambda_lower_bound_
          ≤ (initialize_lambda_bounds example_env bracket_fit).lambda_) := by
  refine ⟨by decide!, by decide!, by decide!, by decide!, by decide!⟩

/-- C30, amended: `initialize_lambda_bounds` sets `lambda_lower_bound_ = phi_ / phi_derivative_`
and `lambda_upper_bound_ = ||D^(-1/2) g|| / step_bound_`, and clamps `lambda_` first from
below and then from above. Either the clamped value is `0` and `lambda_` is set to
`||D^(-1/2) g|| / ||s||`, or `lambda_` is the clamped value: it is at most
`lambda_upper_bound_`, it is at least `lambda_lower_bound_` when the bounds are in order,
and it is `lambda_upper_bound_` when they are not. -/
theorem lambda_bounds_clamp (env : Env α) (s : LMFitCPP α) :
    (initialize_lambda_bounds env s).lambda_lower_bound_ = s.phi_ / s.phi_derivative_
      ∧ (initialize_lambda_bounds env s).lambda_upper_bound_
        = scaled_gradient_norm env s / s.step_bound_
      ∧ ((min (max s.lambda_ (s.phi_ / s.phi_derivative_))
              (scaled_gradient_norm env s / s.step_bound_) = 0
            ∧ (initialize_lambda_bounds env s).lambda_
              = scaled_gradient_norm env s / scaled_step_norm env s)
          ∨ (min (max s.lambda_ (s.phi_ / s.phi_derivative_))
                (scaled_gradient_norm env s / s.step_bound_) ≠ 0
            ∧ (initialize_lambda_bounds env s).lambda_
              = min (max s.lambda_ (s.phi_ / s.phi_derivative_))
                  (scaled_gradient_norm env s / s.step_bound_)
            ∧ (initialize_lambda_bounds env s).lambda_
              ≤ (initialize_lambda_bounds env s).lambda_upper_bound_
            ∧ ((initialize_lambda_bounds env s).lambda_lower_bound_
                  ≤ (initialize_lambda_bounds env s).lambda_upper_bound_ →
                (initialize_lambda_bounds env s).lambda_lower_bound_
                  ≤ (initialize_lambda_bounds env s).lambda_)
            ∧ ((initialize_lambda_bounds env s).lambda_upper_bound_
                  < (initialize_lambda_bounds env s).lambda_lower_bound_ →
                (initialize_lambda_bounds env s).lambda_
                  = (initialize_lambda_bounds env s).lambda_upper_bound_))) := by
  obtain ⟨i1, i2, i3, _⟩ := initialize_lambda_bounds_spec env s
  refine ⟨i1, i2, ?_⟩
  rw [i1, i2, i3]
  by_cases h : min (max s.lambda_ (s.phi_ / s.phi_derivative_))
      (scaled_gradient_norm env s / s.step_bound_) = 0
  · rw [if_pos h]
    exact Or.inl ⟨h, rfl⟩
  · rw [if_neg h]
    refine Or.inr ⟨h, rfl, min_le_right _ _, fun hle => le_min (le_max_right _ _) hle,
      fun hlt => min_eq_right (le_trans (le_of_lt hlt) (le_max_right _ _))⟩

/-- C31: the accesses to `prev_parameters_` are not all below its length. The fit
`stepped_fit` has `n_parameters_ = 2` and the mask `[false, true]`, with
`n_parameters_to_fit_ = 1` true entry, so the constructor gives `prev_parameters_` one
entry. `update_parameters` writes `prev_parameters_[1]`, and `prepare_next_iteration`
reads `prev_parameters_[1]` when the step is then rejected (chi-square `1` against the
previous chi-square `0`): index `1` is not below the length `1`. -/
theorem prev_parameters_out_of_bounds :
    stepped_fit.info_.n_parameters_ = 2
      ∧ free_indices stepped_fit.parameters_to_fit_ stepped_fit.info_.n_parameters_ = [1]
      ∧ free_count stepped_fit.parameters_to_fit_ stepped_fit.info_.n_parameters_
          = stepped_fit.info_.n_parameters_to_fit_
      ∧ KVector.size stepped_fit.info_ KVector.prev_parameters_ = 1
      ∧ update_parameters_writes stepped_fit = [(KVector.prev_parameters_, 1)]
      ∧ prepare_next_iteration_reads { update_parameters stepped_fit with chi_square_ := 1 }
          = [(KVector.prev_parameters_, 1)]
      ∧ ¬ InBounds stepped_fit.info_ (update_parameters_writes stepped_fit)
      ∧ ¬ InBounds stepped_fit.info_
          (prepare_next_iteration_reads
            { update_parameters stepped_fit with chi_square_ := 1 }) := by
  have hw : update_parameters_writes stepped_fit = [(KVector.prev_parameters_, 1)] := by
    decide!
  have hr : prepare_next_iteration_reads
      { update_parameters stepped_fit with chi_square_ := 1 }
        = [(KVector.prev_parameters_, 1)] := by
    decide!
  refine ⟨rfl, by decide!, by decide!, rfl, hw, hr, ?_, ?_⟩
  · intro h
    have h1 := h (KVector.prev_parameters_, 1) (by rw [hw]; exact List.mem_singleton.mpr rfl)
    exact absurd h1 (by decide)
  · intro h
    have h1 := h (KVector.prev_parameters_, 1) (by rw [hr]; exact List.mem_singleton.mpr rfl)
    exact absurd h1 (by decide)

/-- C32: the reads of `scaling_vector_`, `delta_` and `gradient_` and the writes of
`multiply_matrix_vector` are not all below the lengths. The fit `masked_quality_fit` has
`n_parameters_ = 2`, `n_parameters_to_fit_ = 1 <= 2` and `n_points_ = 4`, so the three
vectors have one entry. `initialize_step_bound`, `calc_phi`, `initialize_lambda_bounds`
and `calc_approximation_quality` each read index `1` of them, and the call of
`multiply_matrix_vector` in `calc_approximation_quality` takes
`n_rows = 4 * 2 / 1 = 8` and writes the indices `4` to `7` of the product
`derivatives_delta`, which has `4` entries. The call in `calc_phi` writes nothing here. -/
theorem reads_and_products_out_of_bounds :
    masked_quality_fit.info_.n_parameters_to_fit_ ≤ masked_quality_fit.info_.n_parameters_
      ∧ (∀ v, KVector.size masked_quality_fit.info_ v = 1)
      ∧ initialize_step_bound_reads masked_quality_fit
          = [(KVector.scaling_vector_, 0), (KVector.scaling_vector_, 1)]
      ∧ calc_phi_reads masked_quality_fit
          = [(KVector.scaling_vector_, 0), (KVector.delta_, 0),
             (KVector.scaling_vector_, 1), (KVector.delta_, 1),
             (KVector.scaling_vector_, 0), (KVector.delta_, 0),
             (KVector.scaling_vector_, 1), (KVector.delta_, 1)]
      ∧ initialize_lambda_bounds_reads masked_quality_fit
          = [(KVector.scaling_vector_, 0), (KVector.delta_, 0),
             (KVector.scaling_vector_, 1), (KVector.delta_, 1),
             (KVector.gradient_, 0), (KVector.scaling_vector_, 0),
             (KVector.gradient_, 1), (KVector.scaling_vector_, 1)]
      ∧ calc_approximation_quality_reads masked_quality_fit
          = [(KVector.delta_, 0), (KVector.scaling_vector_, 0),
             (KVector.delta_, 1), (KVector.scaling_vector_, 1)]
      ∧ ¬ InBounds masked_quality_fit.info_ (initialize_step_bound_reads masked_quality_fit)
      ∧ ¬ InBounds masked_quality_fit.info_ (calc_phi_reads masked_quality_fit)
      ∧ ¬ InBounds masked_quality_fit.info_ (initialize_lambda_bounds_reads masked_quality_fit)
      ∧ ¬ InBounds masked_quality_fit.info_
          (calc_approximation_quality_reads masked_quality_fit)
      ∧ masked_quality_fit.info_.n_points_ = 4
      ∧ calc_approximation_quality_writes masked_quality_fit = [0, 1, 2, 3, 4, 5, 6, 7]
      ∧ ¬ (∀ row, row ∈ calc_approximation_quality_writes masked_quality_fit →
            row < masked_quality_fit.info_.n_points_)
      ∧ calc_phi_writes masked_quality_fit = [] := by
  obtain ⟨r1, r2, r3, r4⟩ := reads_in_bounds_iff masked_quality_fit
  have hn : ¬ masked_quality_fit.info_.n_parameters_
      ≤ masked_quality_fit.info_.n_parameters_to_fit_ := by decide
  have hq : calc_approximation_quality_writes masked_quality_fit
      = [0, 1, 2, 3, 4, 5, 6, 7] := by decide!
  refine ⟨by decide, fun v => rfl, by decide!, by decide!, by decide!, by decide!,
    fun h => hn (r1.mp h), fun h => hn (r2.mp h), fun h => hn (r3.mp h),
    fun h => hn (r4.mp h), rfl, hq, ?_, by decide!⟩
  intro h
  have h1 := h 4 (by rw [hq]; decide)
  exact absurd h1 (by decide)

end Proofs

end Cpufit
